import Mathlib

/-!
# HSD library: a shallow embedding of the signal-processing externals

Samples (`t_float`) are modelled by an arbitrary linearly ordered field `α` with a floor
function (`ℚ` for evaluation, `ℝ` for the exact-arithmetic reading of the specification);
indices (`t_int`) by `Int` (every index computed stays within the length of a delay line, far
from the range of `t_int`).  An array access outside the allocated cells, a division by zero
and a loop that never terminates make an operation return `none`.  The functions of the C
mathematics library (`sin`, `tanf`) are parameters of the operations that call them.
-/

namespace HSD

/-! ## C primitives -/

section Primitives

variable {α : Type} [LinearOrderedField α] [FloorRing α]

/-- Conversion of a floating value to an integer type, and `trunc`: rounding toward zero. -/
def truncToInt (x : α) : Int :=
  if 0 ≤ x then ⌊x⌋ else ⌈x⌉

/-- Array read `buf[i]`; `none` outside the allocated cells. -/
def load (buf : List α) (i : Int) : Option α :=
  if 0 ≤ i then buf.get? i.toNat else none

/-- Array write `buf[i] = v`; `none` outside the allocated cells. -/
def store (buf : List α) (i : Int) (v : α) : Option (List α) :=
  if 0 ≤ i ∧ i < (buf.length : Int) then some (buf.set i.toNat v) else none

/-- The remainder `a % b` of C on `t_int` (truncated division); undefined for `b = 0`. -/
def cRem (a b : Int) : Option Int :=
  if b = 0 then none else some (a.tmod b)

/-- The loop `while (r < 0) r += len;` over `t_int`, run for at most `fuel` iterations. -/
def wrapLoop (len : Int) : Nat → Int → Option Int
  | 0, r => if r < 0 then none else some r
  | fuel + 1, r => if r < 0 then wrapLoop len fuel (r + len) else some r

/-- The loop `while (r < 0) r += len;`.  Every terminating run takes at most `|r|` iterations
(each one adds at least 1), so the result is `none` exactly when the loop does not terminate
(`wrapLoop_of_pos`, `wrapLoop_diverges`). -/
def wrapIndex (len : Int) (r : Int) : Option Int :=
  wrapLoop len r.natAbs r

/-- The loop `for (i = 0; i < n; i++) buf[i] = 0.0;` with `k` iterations left, at index `i`. -/
def zeroLoop : Nat → Int → List α → Option (List α)
  | 0, _, buf => some buf
  | k + 1, i, buf => (store buf i 0).bind (zeroLoop k (i + 1))

/-- The loop `for (i = 0; i < len; i++) buf[i] = 0.0;` for a floating bound `len`: it runs for
the indices `0 ≤ i < len`, that is `⌈len⌉` times. -/
def zeroFill (len : α) (buf : List α) : Option (List α) :=
  zeroLoop (Int.toNat ⌈len⌉) 0 buf

/-- The DSP loop `while (n--) { ... }` of a perform routine: the loop body `tick` is run on
the successive samples of the input vector and yields the samples of the output vector. -/
def dspLoop {σ ι o : Type} (tick : σ → ι → Option (σ × o)) : σ → List ι → Option (σ × List o)
  | s, [] => some (s, [])
  | s, x :: rest =>
    (tick s x).bind fun r => (dspLoop tick r.1 rest).map fun t => (t.1, r.2 :: t.2)

/-- The DSP loop `while (n--) { ... }` of a perform routine whose loop body cannot fail. -/
def dspLoopT {σ ι o : Type} (tick : σ → ι → σ × o) : σ → List ι → σ × List o
  | s, [] => (s, [])
  | s, x :: rest =>
    let r := tick s x
    let t := dspLoopT tick r.1 rest
    (t.1, r.2 :: t.2)

/-- Successive calls of a perform routine on the blocks of a signal: the final state and the
concatenated output. -/
def performBlocks {σ ι o : Type} (perform : σ → List ι → Option (σ × List o)) :
    σ → List (List ι) → Option (σ × List o)
  | x, [] => some (x, [])
  | x, block :: rest =>
    (perform x block).bind fun r =>
      (performBlocks perform r.1 rest).map fun s => (s.1, r.2 ++ s.2)

/-- The loop `while (r < 0) r += len;` for a `t_int` index `r` and a floating `len` (the sum
is converted back to `t_int`), run for at most `fuel` iterations. -/
def wrapLoopF (len : α) : Nat → Int → Option Int
  | 0, r => if r < 0 then none else some r
  | fuel + 1, r => if r < 0 then wrapLoopF len fuel (truncToInt ((r : α) + len)) else some r

/-- The loop `while (r < 0) r += len;` with a floating `len`; as for `wrapIndex`, a terminating
run takes at most `|r|` iterations (`wrapLoopF_of_pos`, `wrapLoopF_diverges`). -/
def wrapIndexF (len : α) (r : Int) : Option Int :=
  wrapLoopF len r.natAbs r

/-- Size of a `t_float` in bytes. -/
def sizeof_t_float : Int := 4

end Primitives

/-! ## hsd_delay~ -/

section Delay

variable {α : Type} [LinearOrderedField α] [FloorRing α]

/-- The constant `DELMAX` of `hsd_delay~.c`, in milliseconds. -/
def DELMAX : α := 100

/-- The constant `DEFAULT_TIME` of `hsd_delay~.c`, in milliseconds. -/
def DEFAULT_TIME : α := 10

/-- The data struct `t_hsd_delay`.  `delay_line` holds the allocated cells; the null pointer is
the line without cells. -/
structure hsd_delay (α : Type) where
  sr : α
  delay_line_length : α
  delay_bytes : α
  delay_line : List α
  delay_time_ms : α
  delay_length : α
  write_index : Int
  read_index : Int
  deriving DecidableEq

/-- The routine `hsd_delay_delaytime`. -/
def hsd_delay_delaytime (x : hsd_delay α) (f : α) : hsd_delay α :=
  let delay_time_ms : α := if f > DELMAX ∨ f ≤ 0 then 10 else f
  { x with delay_length := x.sr * delay_time_ms / 1000, delay_time_ms := delay_time_ms }

/-- The routine `hsd_delay_bang`. -/
def hsd_delay_bang (x : hsd_delay α) : Option (hsd_delay α) :=
  (zeroFill x.delay_line_length x.delay_line).map fun line =>
    { x with delay_line := line, write_index := 0 }

/-- The routine `hsd_delay_dsp` for a signal of sample rate `s_sr`; `alloc_ok` tells whether
`resizebytes` succeeds.  Every cell of the resized line is overwritten with `0.0`. -/
def hsd_delay_dsp (x : hsd_delay α) (s_sr : α) (alloc_ok : Bool) : Option (hsd_delay α) :=
  if x.sr ≠ s_sr then
    let sr := s_sr
    let delay_line_length : Int := truncToInt (sr * DELMAX / 1000 + 1)
    let delay_bytes : α := ((delay_line_length * sizeof_t_float : Int) : α)
    if alloc_ok then
      (zeroLoop delay_line_length.toNat 0 (List.replicate delay_line_length.toNat (0 : α))).map
        fun line =>
          { x with
            sr := sr
            delay_bytes := delay_bytes
            delay_line := line
            delay_line_length := (delay_line_length : α)
            write_index := 0
            delay_length := sr * x.delay_time_ms / 1000 + 1 }
    else
      some { x with sr := sr, delay_bytes := delay_bytes, delay_line := [] }
  else
    some x

/-- One iteration of the DSP loop of `hsd_delay_perform`, with the locals `delay_length`
(a `t_int`) and `delay_line_length`, on the line and the write index; returns them and the
output sample. -/
def hsd_delay_tick (delay_length delay_line_length : Int) (s : List α × Int) (input : α) :
    Option ((List α × Int) × α) := do
  let delay_line := s.1
  let write_index := s.2
  let idelay : Int := truncToInt (delay_length : α)
  let fraction : α := (delay_length : α) - (idelay : α)
  let read_index ← wrapIndex delay_line_length (write_index - idelay)
  let read_index2 ← wrapIndex delay_line_length (write_index - idelay - 1)
  let samp1 ← load delay_line read_index
  let samp2 ← load delay_line read_index2
  let out_sample := samp1 * fraction + samp2 * (1 - fraction)
  let delay_line ← store delay_line write_index input
  let write_index := write_index + 1
  let write_index := if write_index ≥ delay_line_length then write_index - delay_line_length
    else write_index
  pure ((delay_line, write_index), out_sample)

/-- The routine `hsd_delay_perform` on one block: the new state and the output vector. -/
def hsd_delay_perform (x : hsd_delay α) (input : List α) : Option (hsd_delay α × List α) :=
  let delay_length : Int := truncToInt x.delay_length
  let delay_line_length : Int := truncToInt x.delay_line_length
  (dspLoop (hsd_delay_tick delay_length delay_line_length) (x.delay_line, x.write_index)
      input).map
    fun r => ({ x with delay_line := r.1.1, write_index := r.1.2 }, r.2)

/-- The routine `hsd_delay_new` with creation argument `f`, the host sample rate `sys_getsr() = sr`;
`none` when `getbytes` fails.  The object memory is zero-filled by `pd_new`. -/
def hsd_delay_new (sr : α) (f : α) (alloc_ok : Bool) : Option (hsd_delay α) :=
  let delay_time_ms : α := if f ≠ 0 then f else DEFAULT_TIME
  let delay_time_ms : α := if delay_time_ms > DELMAX ∨ delay_time_ms ≤ 0 then 10 else delay_time_ms
  let delay_line_length : Int := truncToInt (sr * DELMAX / 1000 + 1)
  if alloc_ok then
    (zeroLoop delay_line_length.toNat 0 (List.replicate delay_line_length.toNat (0 : α))).map
      fun line =>
        { sr := sr
          delay_time_ms := delay_time_ms
          delay_length := sr * delay_time_ms / 1000 + 1
          delay_bytes := ((delay_line_length * sizeof_t_float : Int) : α)
          delay_line := line
          delay_line_length := (delay_line_length : α)
          write_index := 0
          read_index := 0 }
  else none

end Delay

/-! ## hsd_comb~ -/

section Comb

variable {α : Type} [LinearOrderedField α] [FloorRing α]

/-- The data struct `t_hsd_comb`. -/
structure hsd_comb (α : Type) where
  sr : α
  delay_line_length : α
  delay_bytes : Int
  delay_line : List α
  delay_time_ms : α
  delay_length : α
  write_index : Int
  read_index : Int
  feedback : α
  deriving DecidableEq

/-- One iteration of the DSP loop of `hsd_comb_perform`, with the locals `delay_length` and
`feedback_float`, on the line and the write index; `read_index_next` stands for the index
expression `(read_index + 1) % idelay`. -/
def hsd_comb_tick (delay_length feedback_float : α) (s : List α × Int) (input : α) :
    Option ((List α × Int) × α) := do
  let delay_line := s.1
  let write_index := s.2
  let idelay : Int := truncToInt delay_length
  let fraction : α := delay_length - (idelay : α)
  let read_index ← wrapIndexF delay_length (write_index - idelay)
  let samp1 ← load delay_line read_index
  let read_index_next ← cRem (read_index + 1) idelay
  let samp2 ← load delay_line read_index_next
  let out_sample := samp1 + fraction * (samp2 - samp1)
  let delay_line ← store delay_line write_index (input + out_sample * feedback_float)
  let write_index := write_index + 1
  let write_index := if (write_index : α) ≥ delay_length then
    truncToInt ((write_index : α) - delay_length) else write_index
  pure ((delay_line, write_index), out_sample)

/-- The routine `hsd_comb_perform` on one block: the new state and the output vector. -/
def hsd_comb_perform (x : hsd_comb α) (input : List α) : Option (hsd_comb α × List α) :=
  (dspLoop (hsd_comb_tick x.delay_length x.feedback) (x.delay_line, x.write_index) input).map
    fun r => ({ x with delay_line := r.1.1, write_index := r.1.2 }, r.2)

end Comb

/-! ## hsd_allpass~ -/

section Allpass

variable {α : Type} [LinearOrderedField α] [FloorRing α]

/-- The data struct `t_hsd_allpass`. -/
structure hsd_allpass (α : Type) where
  sr : α
  delay_line_length : α
  delay_bytes : Int
  delay_line : List α
  delay_time_ms : α
  delay_length : α
  write_index : Int
  read_index : Int
  g : α
  deriving DecidableEq

/-- One iteration of the DSP loop of `hsd_allpass_perform`, with the locals `delay_length` and
`g`, on the line and the write index; `read_index_next` stands for the index expression
`(read_index + 1) % idelay`. -/
def hsd_allpass_tick (delay_length g : α) (s : List α × Int) (input : α) :
    Option ((List α × Int) × α) := do
  let delay_line := s.1
  let write_index := s.2
  let idelay : Int := truncToInt delay_length
  let fraction : α := delay_length - (idelay : α)
  let read_index ← wrapIndexF delay_length (write_index - idelay)
  let samp1 ← load delay_line read_index
  let read_index_next ← cRem (read_index + 1) idelay
  let samp2 ← load delay_line read_index_next
  let out_sample := samp1 + fraction * (samp2 - samp1)
  let xDL := input + out_sample * g
  let delay_line ← store delay_line write_index xDL
  let write_index := write_index + 1
  let output := out_sample + -g * xDL
  let write_index := if (write_index : α) ≥ delay_length then
    truncToInt ((write_index : α) - delay_length) else write_index
  pure ((delay_line, write_index), output)

/-- The routine `hsd_allpass_perform` on one block: the new state and the output vector. -/
def hsd_allpass_perform (x : hsd_allpass α) (input : List α) :
    Option (hsd_allpass α × List α) :=
  (dspLoop (hsd_allpass_tick x.delay_length x.g) (x.delay_line, x.write_index) input).map
    fun r => ({ x with delay_line := r.1.1, write_index := r.1.2 }, r.2)

end Allpass

/-! ## hsd_vibrato~ and hsd_chorus~ -/

section Modulated

variable {α : Type} [LinearOrderedField α] [FloorRing α]

/-- The constant `PI` of `hsd_vibrato~.c` and `hsd_chorus~.c`. -/
def PI : α := 31415926536 / 10000000000

/-- The data struct `t_hsd_vibrato`. -/
structure hsd_vibrato (α : Type) where
  sr : α
  delay_line_length : α
  delay_bytes : Int
  delay_line : List α
  write_index : Int
  read_index : Int
  depth : α
  depth_ms : α
  frequency : α
  cycle_length : α
  phase : α
  z_alp : α
  feedback : α
  deriving DecidableEq

/-- The delay-line read of `hsd_vibrato_perform`, `hsd_chorus_perform` (each channel): the two
taps and their interpolation, for the local `delay_length` of the iteration. -/
def interpolated_read (delay_line : List α) (delay_line_length write_index : Int)
    (delay_length : α) : Option α := do
  let idelay : Int := truncToInt delay_length
  let fraction : α := delay_length - (idelay : α)
  let read_index ← wrapIndex delay_line_length (write_index - idelay)
  let read_index2 ← wrapIndex delay_line_length (write_index - idelay - 1)
  let samp1 ← load delay_line read_index
  let samp2 ← load delay_line read_index2
  pure (samp1 * fraction + samp2 * (1 - fraction))

/-- One iteration of the DSP loop of `hsd_vibrato_perform`, with the locals
`delay_line_length`, `depth`, `cycle_length` and `feedback`, on the line, the write index and
the phase. -/
def hsd_vibrato_tick (sin : α → α) (delay_line_length : Int) (depth cycle_length feedback : α)
    (s : List α × Int × α) (input : α) : Option ((List α × Int × α) × α) := do
  let delay_line := s.1
  let write_index := s.2.1
  let phase := s.2.2
  let theta := phase / cycle_length
  let lfo := sin (2 * PI * theta)
  let lfo := (lfo + 1) / 2
  let phase := phase + 1
  let phase := if phase > cycle_length then 0 else phase
  let delay_length := depth * lfo + 2
  let out_sample ← interpolated_read delay_line delay_line_length write_index delay_length
  let delay_line ← store delay_line write_index (input + out_sample * feedback)
  let write_index := write_index + 1
  let write_index := if write_index ≥ delay_line_length then write_index - delay_line_length
    else write_index
  pure ((delay_line, write_index, phase), out_sample)

/-- The routine `hsd_vibrato_perform` on one block: the new state and the output vector. -/
def hsd_vibrato_perform (sin : α → α) (x : hsd_vibrato α) (input : List α) :
    Option (hsd_vibrato α × List α) :=
  let delay_line_length : Int := truncToInt x.delay_line_length
  (dspLoop (hsd_vibrato_tick sin delay_line_length x.depth x.cycle_length x.feedback)
      (x.delay_line, x.write_index, x.phase) input).map
    fun r => ({ x with delay_line := r.1.1, write_index := r.1.2.1, phase := r.1.2.2 }, r.2)

/-- The data struct `t_hsd_chorus`. -/
structure hsd_chorus (α : Type) where
  sr : α
  delay_line_length : α
  delay_bytes : Int
  delay_line_l : List α
  delay_line_r : List α
  write_index_l : Int
  write_index_r : Int
  read_index_l : Int
  read_index_r : Int
  depth_l : α
  depth_ms_l : α
  depth_r : α
  depth_ms_r : α
  frequency : α
  cycle_length : α
  phase : α
  dry : α
  wet : α
  deriving DecidableEq

/-- The locals of the DSP loop of `hsd_chorus_perform` that change from sample to sample. -/
structure chorus_locals (α : Type) where
  delay_line_l : List α
  delay_line_r : List α
  write_index_l : Int
  write_index_r : Int
  phase : α

/-- One iteration of the DSP loop of `hsd_chorus_perform` on a pair of input samples (left,
right), with the locals `delay_line_length`, `depth_l`, `depth_r`, `cycle_length`, `dry` and
`wet`. -/
def hsd_chorus_tick (sin : α → α) (delay_line_length : Int)
    (depth_l depth_r cycle_length dry wet : α) (s : chorus_locals α) (input : α × α) :
    Option (chorus_locals α × (α × α)) := do
  let theta := s.phase / cycle_length
  let lfo_l := sin (2 * PI * theta)
  let lfo_r := sin (2 * PI * theta + (1 / 2) * PI)
  let lfo_l := (lfo_l + 1) / 2
  let lfo_r := (lfo_r + 1) / 2
  let phase := s.phase + 1
  let phase := if phase > cycle_length then 0 else phase
  let delay_length_l := depth_l * lfo_l + 2
  let delay_length_r := depth_r * lfo_r + 2
  let out_sample_l ←
    interpolated_read s.delay_line_l delay_line_length s.write_index_l delay_length_l
  let out_sample_r ←
    interpolated_read s.delay_line_r delay_line_length s.write_index_r delay_length_r
  let input_left := input.1
  let input_right := input.2
  let delay_line_l ← store s.delay_line_l s.write_index_l input_left
  let delay_line_r ← store s.delay_line_r s.write_index_r input_right
  let write_index_l := s.write_index_l + 1
  let write_index_r := s.write_index_r + 1
  let output_l := wet * out_sample_l + dry * input_left
  let output_r := wet * out_sample_r + dry * input_right
  let write_index_l := if write_index_l ≥ delay_line_length then
    write_index_l - delay_line_length else write_index_l
  let write_index_r := if write_index_r ≥ delay_line_length then
    write_index_r - delay_line_length else write_index_r
  pure (⟨delay_line_l, delay_line_r, write_index_l, write_index_r, phase⟩,
    (output_l, output_r))

/-- The routine `hsd_chorus_perform` on one block of (left, right) sample pairs. -/
def hsd_chorus_perform (sin : α → α) (x : hsd_chorus α) (input : List (α × α)) :
    Option (hsd_chorus α × List (α × α)) :=
  let delay_line_length : Int := truncToInt x.delay_line_length
  (dspLoop
      (hsd_chorus_tick sin delay_line_length x.depth_l x.depth_r x.cycle_length x.dry x.wet)
      ⟨x.delay_line_l, x.delay_line_r, x.write_index_l, x.write_index_r, x.phase⟩ input).map
    fun r =>
      ({ x with
          delay_line_l := r.1.delay_line_l
          delay_line_r := r.1.delay_line_r
          write_index_l := r.1.write_index_l
          write_index_r := r.1.write_index_r
          phase := r.1.phase }, r.2)

end Modulated

/-! ## hsd_biquad~, hsd_biquad_engine~ and hsd_biquad_coefficients -/

section Biquad

variable {α : Type} [LinearOrderedField α] [FloorRing α]

/-- The array `t_float coeffs[5]` (0 = b0, 1 = b1, 2 = b2, 3 = a1, 4 = a2), also the five
outlet values of `hsd_biquad_coefficients`. -/
structure Coeffs (α : Type) where
  b0 : α
  b1 : α
  b2 : α
  a1 : α
  a2 : α
  deriving DecidableEq

/-- The data struct `t_hsd_biquad`; the symbol `type` is its name. -/
structure hsd_biquad (α : Type) where
  sr : α
  z1 : α
  z2 : α
  type : String
  typenumber : α
  frequency : α
  resonance : α
  coeffs : Coeffs α
  oldcoeffs : Coeffs α
  calculating_flag : Int
  deriving DecidableEq

/-- The `switch (typenumber)` of `hsd_biquad_calculate_coeffs` and of
`hsd_biquad_coefficients_calculate_coeffs` (the same statements in both), for the locals `K`,
`Q` and `omega`. -/
def biquad_switch (typenumber : Int) (K Q omega : α) : Coeffs α :=
  if typenumber = 0 then
    let c0 := K * K * Q * omega
    let c1 := 2 * c0
    let c2 := c0
    let c3 := c1 - 2 * Q * omega
    let c4 := c0 + (Q - K) * omega
    ⟨c0, c1, c2, c3, c4⟩
  else if typenumber = 1 then
    let c0 := Q * omega
    let c1 := -2 * c0
    let c2 := c0
    let c3 := 2 * (K * K - 1) * c0
    let c4 := (K * K * Q - K + Q) * omega
    ⟨c0, c1, c2, c3, c4⟩
  else if typenumber = 2 then
    let c0 := K * omega
    let c1 := 0
    let c2 := -c1
    let c3 := 2 * Q * (K * K - 1) * omega
    let c4 := (K * K * Q - K + Q) * omega
    ⟨c0, c1, c2, c3, c4⟩
  else if typenumber = 3 then
    let c0 := Q * (1 + K * K) * omega
    let c1 := 2 * Q * (K * K - 1) * omega
    let c2 := c0
    let c3 := c1
    let c4 := (K * K * Q - K + Q) * omega
    ⟨c0, c1, c2, c3, c4⟩
  else if typenumber = 4 then
    let c0 := (K * K * Q - K + Q) * omega
    let c1 := 2 * Q * (K * K - 1) * omega
    let c2 := 1
    let c3 := c1
    let c4 := c0
    ⟨c0, c1, c2, c3, c4⟩
  else
    ⟨0, 0, 0, 0, 0⟩

/-- The routine `hsd_biquad_calculate_coeffs`, given `tanf` and `M_PI` of the C library. -/
def hsd_biquad_calculate_coeffs (tanf : α → α) (M_PI : α) (x : hsd_biquad α) : hsd_biquad α :=
  let x : hsd_biquad α := { x with oldcoeffs := x.coeffs }
  let x : hsd_biquad α := { x with calculating_flag := 1 }
  let sr := x.sr
  let K := tanf (M_PI * x.frequency / sr)
  let Q := x.resonance
  let omega := 1 / (K * K * Q + K + Q)
  let typenumber : Int := truncToInt x.typenumber
  let x : hsd_biquad α := { x with coeffs := biquad_switch typenumber K Q omega }
  { x with calculating_flag := 0 }

/-- The routine `hsd_biquad_frequency`. -/
def hsd_biquad_frequency (tanf : α → α) (M_PI : α) (x : hsd_biquad α) (f : α) : hsd_biquad α :=
  let freq := if f < 20 then 20 else f
  let freq := if freq > 20000 then 20000 else freq
  hsd_biquad_calculate_coeffs tanf M_PI { x with frequency := freq }

/-- The routine `hsd_biquad_resonance`. -/
def hsd_biquad_resonance (tanf : α → α) (M_PI : α) (x : hsd_biquad α) (f : α) : hsd_biquad α :=
  let res := if f < 1 / 10 then 1 / 10 else f
  let res := if res > 20 then 20 else res
  hsd_biquad_calculate_coeffs tanf M_PI { x with resonance := res }

/-- The routine `hsd_biquad_symbol`. -/
def hsd_biquad_symbol (tanf : α → α) (M_PI : α) (x : hsd_biquad α) (s : String) :
    hsd_biquad α :=
  let x : hsd_biquad α :=
    if s = "lowpass" then { x with type := "lowpass", typenumber := 0 }
    else if s = "highpass" then { x with type := "highpass", typenumber := 1 }
    else if s = "bandpass" then { x with type := "bandpass", typenumber := 2 }
    else if s = "bandreject" then { x with type := "bandreject", typenumber := 3 }
    else if s = "allpass" then { x with type := "allpass", typenumber := 4 }
    else { x with type := "lowass", typenumber := 0 }
  hsd_biquad_calculate_coeffs tanf M_PI x

/-- One iteration of the DSP loop of `hsd_biquad_perform` on the locals `z1`, `z2`. -/
def hsd_biquad_tick (calculating_flag : Int) (coeffs oldcoeffs : Coeffs α) (z : α × α)
    (input : α) : (α × α) × α :=
  let z1 := z.1
  let z2 := z.2
  if calculating_flag ≠ 0 then
    let u := input - oldcoeffs.a1 * z1 - oldcoeffs.a2 * z2
    let out := oldcoeffs.b0 * u + oldcoeffs.b1 * z1 + oldcoeffs.b2 * z2
    ((u, z1), out)
  else
    let u := input - coeffs.a1 * z1 - coeffs.a2 * z2
    let out := coeffs.b0 * u + coeffs.b1 * z1 + coeffs.b2 * z2
    ((u, z1), out)

/-- The routine `hsd_biquad_perform` on one block: the new state and the output vector. -/
def hsd_biquad_perform (x : hsd_biquad α) (input : List α) : hsd_biquad α × List α :=
  let r := dspLoopT (hsd_biquad_tick x.calculating_flag x.coeffs x.oldcoeffs) (x.z1, x.z2) input
  ({ x with z1 := r.1.1, z2 := r.1.2 }, r.2)

/-- The data struct `t_hsd_biquad_engine`. -/
structure hsd_biquad_engine (α : Type) where
  z1 : α
  z2 : α
  b0 : α
  b1 : α
  b2 : α
  a1 : α
  a2 : α
  deriving DecidableEq

/-- One iteration of the DSP loop of `hsd_biquad_engine_perform` on the locals `z1`, `z2`. -/
def hsd_biquad_engine_tick (x : hsd_biquad_engine α) (z : α × α) (input : α) : (α × α) × α :=
  let z1 := z.1
  let z2 := z.2
  let u := input - x.a1 * z1 - x.a2 * z2
  let out := x.b0 * u + x.b1 * z1 + x.b2 * z2
  ((u, z1), out)

/-- The routine `hsd_biquad_engine_perform` on one block: the new state and the output vector. -/
def hsd_biquad_engine_perform (x : hsd_biquad_engine α) (input : List α) :
    hsd_biquad_engine α × List α :=
  let r := dspLoopT (hsd_biquad_engine_tick x) (x.z1, x.z2) input
  ({ x with z1 := r.1.1, z2 := r.1.2 }, r.2)

/-- The data struct `t_hsd_biquad_coefficients` (without its outlets). -/
structure hsd_biquad_coefficients (α : Type) where
  sr : α
  type : String
  typenumber : α
  frequency : α
  resonance : α
  deriving DecidableEq

/-- The routine `hsd_biquad_coefficients_calculate_coeffs`: the values sent to the five outlets. -/
def hsd_biquad_coefficients_calculate_coeffs (tanf : α → α) (M_PI : α)
    (x : hsd_biquad_coefficients α) : Coeffs α :=
  let sr := x.sr
  let K := tanf (M_PI * x.frequency / sr)
  let Q := x.resonance
  let omega := 1 / (K * K * Q + K + Q)
  let typenumber : Int := truncToInt x.typenumber
  biquad_switch typenumber K Q omega

end Biquad

/-! ## hsd_svf~ -/

section Svf

variable {α : Type} [LinearOrderedField α] [FloorRing α]

/-- The constant `PI` of `hsd_svf~.c`. -/
def svf_PI : α := 314159265358979323846 / 100000000000000000000

/-- The data struct `t_hsd_svf`. -/
structure hsd_svf (α : Type) where
  sr : α
  z_yLP : α
  z_yBP : α
  fc : α
  F1 : α
  Q1 : α
  deriving DecidableEq

/-- The routine `hsd_svf_frequency`, given `sin` of the C library. -/
def hsd_svf_frequency (sin : α → α) (x : hsd_svf α) (f : α) : hsd_svf α :=
  let freq := if f < 20 then 20 else f
  let freq := if freq > 20000 then 20000 else freq
  let f1 := 2 * sin (svf_PI * freq / x.sr)
  if f1 < 2 - x.Q1 then { x with F1 := f1, fc := freq } else x

/-- The routine `hsd_svf_resonance`. -/
def hsd_svf_resonance (x : hsd_svf α) (f : α) : hsd_svf α :=
  let res := if f < 1 / 2 then 1 / 2 else f
  let res := if res > 50 then 50 else res
  let q1 := 1 / res
  if x.F1 < 2 - q1 then { x with Q1 := q1 } else x

end Svf



/-! ## Reachable states of hsd_delay~ -/

section DelayStates

variable {α : Type} [LinearOrderedField α] [FloorRing α]

/-- The states of an `hsd_delay~` object that the host can bring about: creation by
`hsd_delay_new` (the allocation succeeding), then any sequence of `hsd_delay_delaytime`,
`hsd_delay_bang`, `hsd_delay_dsp` and `hsd_delay_perform`.  The host reports sample rates
`≥ 0`. -/
inductive hsd_delay_reachable : hsd_delay α → Prop
  | new (sr f : α) (x : hsd_delay α) :
      0 ≤ sr → hsd_delay_new sr f true = some x → hsd_delay_reachable x
  | delaytime (x : hsd_delay α) (f : α) :
      hsd_delay_reachable x → hsd_delay_reachable (hsd_delay_delaytime x f)
  | bang (x y : hsd_delay α) :
      hsd_delay_reachable x → hsd_delay_bang x = some y → hsd_delay_reachable y
  | dsp (x y : hsd_delay α) (s_sr : α) (alloc_ok : Bool) :
      hsd_delay_reachable x → 0 ≤ s_sr → hsd_delay_dsp x s_sr alloc_ok = some y →
        hsd_delay_reachable y
  | perform (x y : hsd_delay α) (input out : List α) :
      hsd_delay_reachable x → hsd_delay_perform x input = some (y, out) →
        hsd_delay_reachable y

/-- The invariant of `hsd_delay~`: `delay_line_length` is an integer `len`, the write index
lies in `[0, len)`, the line has `len` cells unless a reallocation failed (null line), and the
sample rate, the delay time and the delay length are not negative. -/
def hsd_delay_inv (x : hsd_delay α) : Prop :=
  ∃ len : Int, x.delay_line_length = (len : α) ∧ 0 ≤ x.write_index ∧ x.write_index < len ∧
    ((x.delay_line.length : Int) = len ∨ x.delay_line = []) ∧
    0 ≤ x.sr ∧ 0 < x.delay_time_ms ∧ 0 ≤ x.delay_length

end DelayStates

/-! ## The tap sequence of a recirculating delay line -/

section Ring

variable {α : Type} [LinearOrderedField α]

/-- The sample at the tap of a delay line of `D` cells that starts zeroed and into which, at
every sample `n`, `W (x n) tap` is written for the input `x n` and the current tap value: the
tap is `0` for the first `D` samples and afterwards what was written `D` samples earlier. -/
def ringTap (D : Nat) (W : α → α → α) (x : Nat → α) (n : Nat) : α :=
  if _h : n < D ∨ D = 0 then 0 else W (x (n - D)) (ringTap D W x (n - D))
termination_by n
decreasing_by omega

/-- The unit impulse as a signal: `x(0) = 1`, `x(n) = 0` for `n > 0`. -/
def impulse (n : Nat) : α := if n = 0 then 1 else 0

end Ring

/-! ## Creation arguments -/

section Atoms

variable {α : Type} [LinearOrderedField α] [FloorRing α]

/-- An atom of a Pd message (`t_atom` of `m_pd.h`): a float or a symbol. -/
inductive t_atom (α : Type) where
  | A_FLOAT (f : α)
  | A_SYMBOL (s : String)

/-- The Pd function `atom_getfloatarg(which, argc, argv)`: the float at position `which` of
the `argc` atoms `argv`, and `0` when there is no such atom or it is not a float. -/
def atom_getfloatarg (which : Nat) (argv : List (t_atom α)) : α :=
  match argv.get? which with
  | some (t_atom.A_FLOAT f) => f
  | _ => 0

end Atoms

/-! ## hsd_svf~: constructor, reset, DSP routines -/

section SvfStates

variable {α : Type} [LinearOrderedField α] [FloorRing α]

/-- The constant `DEFAULT_FREQUENCY` of `hsd_svf~.c`. -/
def svf_DEFAULT_FREQUENCY : α := 300

/-- The constant `DEFAULT_RES` of `hsd_svf~.c`. -/
def svf_DEFAULT_RES : α := 707 / 1000

/-- The routine `hsd_svf_new` with the creation arguments `argv` (`argc` is their number) and
the host sample rate `sys_getsr() = sr`.  The object memory comes zero-filled from `pd_new`;
the locals `f` and `r` hold the defaults until a creation argument overwrites them, and the
setters are called only for the arguments given. -/
def hsd_svf_new (sin : α → α) (sr : α) (argv : List (t_atom α)) : hsd_svf α :=
  let x : hsd_svf α := ⟨0, 0, 0, 0, 0, 0⟩
  let x : hsd_svf α := { x with sr := sr }
  let x : hsd_svf α := { x with z_yLP := 0 }
  let x : hsd_svf α := { x with z_yBP := 0 }
  let _f : α := svf_DEFAULT_FREQUENCY
  let _r : α := svf_DEFAULT_RES
  let x : hsd_svf α :=
    if argv.length ≥ 2 then
      let r := atom_getfloatarg 1 argv
      hsd_svf_resonance x r
    else x
  let x : hsd_svf α :=
    if argv.length ≥ 1 then
      let f := atom_getfloatarg 0 argv
      hsd_svf_frequency sin x f
    else x
  x

/-- The routine `hsd_svf_bang`. -/
def hsd_svf_bang (x : hsd_svf α) : hsd_svf α :=
  let x : hsd_svf α := { x with z_yBP := 0 }
  { x with z_yLP := 0 }

/-- The routine `hsd_svf_dsp` for a signal of sample rate `s_sr`. -/
def hsd_svf_dsp (sin : α → α) (x : hsd_svf α) (s_sr : α) : hsd_svf α :=
  if x.sr ≠ s_sr then
    let x : hsd_svf α := { x with sr := s_sr }
    hsd_svf_frequency sin x x.fc
  else x

/-- One iteration of the DSP loop of `hsd_svf_perform`, with the locals `F` and `Q`, on the
locals `z_yLP`, `z_yBP`; the output samples are (highpass, bandpass, lowpass). -/
def hsd_svf_tick (F Q : α) (z : α × α) (input : α) : (α × α) × (α × α × α) :=
  let z_yLP := z.1
  let z_yBP := z.2
  let yHP := input - z_yLP - Q * z_yBP
  let yBP := F * yHP + z_yBP
  let yLP := F * yBP + z_yLP
  ((yLP, yBP), (yHP, yBP, yLP))

/-- The routine `hsd_svf_perform` on one block: the new state and the three output vectors,
sample by sample. -/
def hsd_svf_perform (x : hsd_svf α) (input : List α) : hsd_svf α × List (α × α × α) :=
  let r := dspLoopT (hsd_svf_tick x.F1 x.Q1) (x.z_yLP, x.z_yBP) input
  ({ x with z_yLP := r.1.1, z_yBP := r.1.2 }, r.2)

/-- The states of an `hsd_svf~` object that the host can bring about: creation by
`hsd_svf_new` with any creation arguments at any sample rate, then any sequence of
`hsd_svf_frequency`, `hsd_svf_resonance`, `hsd_svf_bang`, `hsd_svf_dsp` and
`hsd_svf_perform`. -/
inductive hsd_svf_reachable (sin : α → α) : hsd_svf α → Prop
  | new (sr : α) (argv : List (t_atom α)) : hsd_svf_reachable sin (hsd_svf_new sin sr argv)
  | frequency (x : hsd_svf α) (f : α) :
      hsd_svf_reachable sin x → hsd_svf_reachable sin (hsd_svf_frequency sin x f)
  | resonance (x : hsd_svf α) (f : α) :
      hsd_svf_reachable sin x → hsd_svf_reachable sin (hsd_svf_resonance x f)
  | bang (x : hsd_svf α) : hsd_svf_reachable sin x → hsd_svf_reachable sin (hsd_svf_bang x)
  | dsp (x : hsd_svf α) (s_sr : α) :
      hsd_svf_reachable sin x → hsd_svf_reachable sin (hsd_svf_dsp sin x s_sr)
  | perform (x : hsd_svf α) (input : List α) :
      hsd_svf_reachable sin x → hsd_svf_reachable sin (hsd_svf_perform x input).1

end SvfStates

/-! ## hsd_comblp~ -/

section Comblp

variable {α : Type} [LinearOrderedField α] [FloorRing α]

/-- The data struct `t_hsd_comblp`. -/
structure hsd_comblp (α : Type) where
  sr : α
  delay_line_length : α
  delay_bytes : α
  delay_line : List α
  delay_time_ms : α
  delay_length : α
  write_index : Int
  read_index : Int
  feedback : α
  g2 : α
  z1 : α
  deriving DecidableEq

/-- The routine `hsd_comblp_feedback`. -/
def hsd_comblp_feedback (x : hsd_comblp α) (f : α) : hsd_comblp α :=
  let feedback : α := f
  let feedback : α := if feedback > 1 ∨ feedback < 0 then 0 else feedback
  let g1g2 : α := x.g2 + feedback
  let feedback : α := if g1g2 > 999 / 1000 then 999 / 1000 - x.g2 else feedback
  { x with feedback := feedback }

/-- The routine `hsd_comblp_g2`. -/
def hsd_comblp_g2 (x : hsd_comblp α) (f : α) : hsd_comblp α :=
  let g2 : α := f
  let g2 : α := if g2 > 1 ∨ g2 < 0 then 0 else g2
  let g1g2 : α := g2 + x.feedback
  let g2 : α := if g1g2 > 999 / 1000 then 999 / 1000 - x.feedback else g2
  { x with g2 := g2 }

/-- The routine `hsd_comblp_new` with the creation arguments `argv` and the host sample rate
`sys_getsr() = sr`; `none` when `getbytes` fails.  The object memory comes zero-filled from
`pd_new`; the sanity check of `g1 + g2` reads the field `x->feedback`, which is assigned only
at the end of the routine.  (`DELMAX` is 100 as in `hsd_delay~.c`.) -/
def hsd_comblp_new (sr : α) (argv : List (t_atom α)) (alloc_ok : Bool) :
    Option (hsd_comblp α) :=
  let feedback : α := 1 / 10
  let g2 : α := 0
  let delay_time_ms : α := 30
  let x : hsd_comblp α := ⟨0, 0, 0, [], 0, 0, 0, 0, 0, 0, 0⟩
  let x : hsd_comblp α := { x with sr := sr }
  let g2 : α := if argv.length ≥ 3 then atom_getfloatarg 2 argv else g2
  let feedback : α := if argv.length ≥ 2 then atom_getfloatarg 1 argv else feedback
  let delay_time_ms : α := if argv.length ≥ 1 then atom_getfloatarg 0 argv else delay_time_ms
  let feedback : α := if feedback > 1 ∨ feedback < 0 then 1 else feedback
  let g2 : α := if g2 > 1 ∨ g2 < 0 then 0 else g2
  let g1g2 : α := g2 + feedback
  let g2 : α := if g1g2 > 999 / 1000 then 999 / 1000 - x.feedback else g2
  let delay_time_ms : α :=
    if delay_time_ms > DELMAX ∨ delay_time_ms ≤ 0 then 10 else delay_time_ms
  let x : hsd_comblp α := { x with delay_time_ms := delay_time_ms }
  let x : hsd_comblp α := { x with delay_length := x.sr * delay_time_ms / 1000 + 1 }
  let delay_line_length : Int := truncToInt (x.sr * DELMAX / 1000 + 1)
  let x : hsd_comblp α :=
    { x with delay_bytes := ((delay_line_length * sizeof_t_float : Int) : α) }
  if alloc_ok then
    (zeroLoop delay_line_length.toNat 0 (List.replicate delay_line_length.toNat (0 : α))).map
      fun buf =>
        let x : hsd_comblp α := { x with delay_line := buf }
        let x : hsd_comblp α := { x with delay_line_length := (delay_line_length : α) }
        let x : hsd_comblp α := { x with feedback := feedback }
        let x : hsd_comblp α := { x with g2 := g2 }
        let x : hsd_comblp α := { x with z1 := 0 }
        { x with write_index := 0 }
  else none

end Comblp

/-! ## hsd_peakf~ and hsd_rmsf~ -/

section Envelope

variable {α : Type} [LinearOrderedField α] [FloorRing α]

/-- The constant `EULER` of `hsd_peakf~.c` and `hsd_rmsf~.c`. -/
def EULER : α := 2718281828459045 / 1000000000000000

/-- The constant `DEFAULT_ATTACK_MS` of `hsd_peakf~.c`. -/
def DEFAULT_ATTACK_MS : α := 1

/-- The constant `DEFAULT_RELEASE_MS` of `hsd_peakf~.c`. -/
def DEFAULT_RELEASE_MS : α := 20

/-- The constant `DEFAULT_RMS_MS` of `hsd_rmsf~.c`. -/
def DEFAULT_RMS_MS : α := 4

/-- The data struct `t_hsd_peakf`. -/
structure hsd_peakf (α : Type) where
  t_a : α
  t_r : α
  xpeak_z1 : α
  sr : α
  deriving DecidableEq

/-- The routine `hsd_peakf_new` with the creation arguments `f1`, `f2` and the host sample
rate `sys_getsr() = sr`. -/
def hsd_peakf_new (sr : α) (f1 f2 : α) : hsd_peakf α :=
  let x : hsd_peakf α := ⟨0, 0, 0, 0⟩
  let x : hsd_peakf α := { x with sr := sr }
  let x : hsd_peakf α := { x with xpeak_z1 := 0 }
  let x : hsd_peakf α := { x with t_a := DEFAULT_ATTACK_MS }
  let x : hsd_peakf α := { x with t_r := DEFAULT_RELEASE_MS }
  let x : hsd_peakf α := if f1 ≠ 0 then { x with t_a := f1 } else x
  let x : hsd_peakf α := if f2 ≠ 0 then { x with t_r := f2 } else x
  x

/-- The routine `hsd_peakf_dsp` for a signal of sample rate `s_sr`. -/
def hsd_peakf_dsp (x : hsd_peakf α) (s_sr : α) : hsd_peakf α :=
  if x.sr ≠ s_sr then { x with sr := s_sr } else x

/-- One iteration of the DSP loop of `hsd_peakf_perform`, with the locals `AT` and `RT`, on
the local `xpeak_z1`. -/
def hsd_peakf_tick (AT RT : α) (xpeak_z1 : α) (input : α) : α × α :=
  let a := |input|
  let xpeak_z1 := if a > xpeak_z1 then (1 - AT) * xpeak_z1 + AT * a else (1 - RT) * xpeak_z1
  (xpeak_z1, xpeak_z1)

/-- The time constant `1 - pow(EULER, -2.2/(sr * t * 0.001))` computed at the start of
`hsd_peakf_perform` (for `t_a` and `t_r`) and of `hsd_rmsf_perform` (for `t_rms`), given `pow`
of the C library. -/
def time_coefficient (pow : α → α → α) (sr t : α) : α :=
  1 - pow EULER (-(22 / 10) / (sr * t * (1 / 1000)))

/-- The routine `hsd_peakf_perform` on one block: the new state and the output vector. -/
def hsd_peakf_perform (pow : α → α → α) (x : hsd_peakf α) (input : List α) :
    hsd_peakf α × List α :=
  let xpeak_z1 := x.xpeak_z1
  let AT := time_coefficient pow x.sr x.t_a
  let RT := time_coefficient pow x.sr x.t_r
  let r := dspLoopT (hsd_peakf_tick AT RT) xpeak_z1 input
  ({ x with xpeak_z1 := r.1 }, r.2)

/-- The data struct `t_hsd_rmsf`. -/
structure hsd_rmsf (α : Type) where
  t_rms : α
  xrms2_z1 : α
  sr : α
  deriving DecidableEq

/-- The routine `hsd_rmsf_new` with the creation argument `f` and the host sample rate
`sys_getsr() = sr`. -/
def hsd_rmsf_new (sr : α) (f : α) : hsd_rmsf α :=
  let x : hsd_rmsf α := ⟨0, 0, 0⟩
  let x : hsd_rmsf α := { x with sr := sr }
  let x : hsd_rmsf α := { x with xrms2_z1 := 0 }
  let x : hsd_rmsf α := { x with t_rms := DEFAULT_RMS_MS }
  let x : hsd_rmsf α := if f ≠ 0 then { x with t_rms := f } else x
  x

/-- The routine `hsd_rmsf_dsp` for a signal of sample rate `s_sr`. -/
def hsd_rmsf_dsp (x : hsd_rmsf α) (s_sr : α) : hsd_rmsf α :=
  if x.sr ≠ s_sr then { x with sr := s_sr } else x

/-- One iteration of the DSP loop of `hsd_rmsf_perform`, with the local `TAV` and `sqrt` of
the C library, on the local `xrms2_z1`. -/
def hsd_rmsf_tick (sqrt : α → α) (TAV : α) (xrms2_z1 : α) (input : α) : α × α :=
  let x_in := input
  let xrms2_z1 := (1 - TAV) * xrms2_z1 + TAV * x_in * x_in
  (xrms2_z1, sqrt xrms2_z1)

/-- The routine `hsd_rmsf_perform` on one block: the new state and the output vector. -/
def hsd_rmsf_perform (pow : α → α → α) (sqrt : α → α) (x : hsd_rmsf α) (input : List α) :
    hsd_rmsf α × List α :=
  let xrms2_z1 := x.xrms2_z1
  let TAV := time_coefficient pow x.sr x.t_rms
  let r := dspLoopT (hsd_rmsf_tick sqrt TAV) xrms2_z1 input
  ({ x with xrms2_z1 := r.1 }, r.2)

/-- The states of an `hsd_rmsf~` object that the host can bring about: creation by
`hsd_rmsf_new`, then any sequence of `hsd_rmsf_dsp`, floats written to `t_rms` through the
passive inlet, and `hsd_rmsf_perform` in which the time constant `TAV` of the block lies in
`[0, 1]`. -/
inductive hsd_rmsf_reachable (pow : α → α → α) : hsd_rmsf α → Prop
  | new (sr f : α) : hsd_rmsf_reachable pow (hsd_rmsf_new sr f)
  | dsp (x : hsd_rmsf α) (s_sr : α) :
      hsd_rmsf_reachable pow x → hsd_rmsf_reachable pow (hsd_rmsf_dsp x s_sr)
  | t_rms (x : hsd_rmsf α) (t : α) :
      hsd_rmsf_reachable pow x → hsd_rmsf_reachable pow { x with t_rms := t }
  | perform (x : hsd_rmsf α) (sqrt : α → α) (input : List α) :
      hsd_rmsf_reachable pow x → 0 ≤ time_coefficient pow x.sr x.t_rms →
        time_coefficient pow x.sr x.t_rms ≤ 1 →
        hsd_rmsf_reachable pow (hsd_rmsf_perform pow sqrt x input).1

end Envelope

/-! ## hsd_impulse~ -/

section Impulse

variable {α : Type} [LinearOrderedField α] [FloorRing α]

/-- The data struct `t_hsd_impulse`. -/
structure hsd_impulse (α : Type) where
  sr : α
  length : Int
  impulsecount : Int
  deriving DecidableEq

/-- The routine `hsd_impulse_new` with the creation argument `f`. -/
def hsd_impulse_new (f : α) : hsd_impulse α :=
  let x : hsd_impulse α := ⟨0, 0, 0⟩
  let x : hsd_impulse α := { x with length := 0 }
  let f : α := if f ≤ 0 then 1 else f
  let x : hsd_impulse α := { x with length := truncToInt f }
  { x with impulsecount := 0 }

/-- The routine `hsd_impulse_length`. -/
def hsd_impulse_length (x : hsd_impulse α) (f : α) : hsd_impulse α :=
  let f : α := if f ≤ 0 then 1 else f
  { x with length := truncToInt f }

/-- The routine `hsd_impulse_bang`. -/
def hsd_impulse_bang (x : hsd_impulse α) : hsd_impulse α :=
  { x with impulsecount := x.length }

/-- One iteration of the DSP loop of `hsd_impulse_perform` on the local `impulsecount`; the
object has no signal input. -/
def hsd_impulse_tick (impulsecount : Int) (_ : Unit) : Int × α :=
  if impulsecount > 0 then (impulsecount - 1, 1) else (impulsecount, 0)

/-- The routine `hsd_impulse_perform` on one block of `n` samples: the new state and the
output vector. -/
def hsd_impulse_perform (x : hsd_impulse α) (n : Nat) : hsd_impulse α × List α :=
  let r := dspLoopT hsd_impulse_tick x.impulsecount (List.replicate n ())
  ({ x with impulsecount := r.1 }, r.2)

/-- Successive calls of a perform routine that cannot fail, one per block: the final state
and the concatenated output. -/
def performBlocksT {σ β o : Type} (perform : σ → β → σ × List o) : σ → List β → σ × List o
  | x, [] => (x, [])
  | x, block :: rest =>
    let r := perform x block
    let s := performBlocksT perform r.1 rest
    (s.1, r.2 ++ s.2)

end Impulse

/-! ## hsd_vibrato~: setters, constructor, DSP routine -/

section VibratoStates

variable {α : Type} [LinearOrderedField α] [FloorRing α]

/-- The constant `DELMAX` of `hsd_vibrato~.c`, in milliseconds. -/
def vibrato_DELMAX : α := 20

/-- The routine `hsd_vibrato_depth`. -/
def hsd_vibrato_depth (x : hsd_vibrato α) (f : α) : hsd_vibrato α :=
  let depth_ms : α := f
  let depth_ms : α := if depth_ms > vibrato_DELMAX then vibrato_DELMAX else depth_ms
  let depth_ms : α := if depth_ms < 0 then 0 else depth_ms
  let x : hsd_vibrato α := { x with depth_ms := depth_ms }
  { x with depth := x.sr * x.depth_ms / 1000 }

/-- The routine `hsd_vibrato_frequency`. -/
def hsd_vibrato_frequency (x : hsd_vibrato α) (f : α) : hsd_vibrato α :=
  let frequency : α := f
  if frequency ≤ 0 then x
  else
    let x : hsd_vibrato α := { x with cycle_length := x.sr / frequency }
    { x with frequency := frequency }

/-- The routine `hsd_vibrato_feedback`. -/
def hsd_vibrato_feedback (x : hsd_vibrato α) (f : α) : hsd_vibrato α :=
  let feedback : α := f
  let feedback : α := if feedback > 99 / 100 then 99 / 100 else feedback
  let feedback : α := if feedback < -(99 / 100) then -(99 / 100) else feedback
  { x with feedback := feedback }

/-- The number of cells `(t_int)(sr * DELMAX/1000 + 1)` that `hsd_vibrato_new` and
`hsd_vibrato_dsp` allocate for the delay line at sample rate `sr`. -/
def vibrato_capacity (sr : α) : Int :=
  truncToInt (sr * vibrato_DELMAX / 1000 + 1)

/-- The routine `hsd_vibrato_new` with the creation arguments `f1`, `f2`, `f3` and the host
sample rate `sys_getsr() = sr`; `none` when `getbytes` fails.  The object memory comes
zero-filled from `pd_new`. -/
def hsd_vibrato_new (sr : α) (f1 f2 f3 : α) (alloc_ok : Bool) : Option (hsd_vibrato α) :=
  let x : hsd_vibrato α := ⟨0, 0, 0, [], 0, 0, 0, 0, 0, 0, 0, 0, 0⟩
  let x : hsd_vibrato α := { x with sr := sr }
  let depth_ms : α := if f1 ≠ 0 then f1 else 0
  let frequency : α := if f2 ≠ 0 then f2 else 1
  let feedback : α := if f3 ≠ 0 then f3 else 0
  let depth_ms : α := if depth_ms > vibrato_DELMAX then vibrato_DELMAX else depth_ms
  let depth_ms : α := if depth_ms < 0 then 0 else depth_ms
  let frequency : α := if frequency < 0 then 0 else frequency
  let feedback : α := if feedback > 99 / 100 then 99 / 100 else feedback
  let feedback : α := if feedback < -(99 / 100) then 99 / 100 else feedback
  let x : hsd_vibrato α := { x with depth_ms := depth_ms }
  let x : hsd_vibrato α := { x with frequency := frequency }
  let x : hsd_vibrato α := { x with feedback := feedback }
  let x : hsd_vibrato α := { x with depth := x.sr * x.depth_ms / 1000 }
  let x : hsd_vibrato α := { x with cycle_length := x.sr / x.frequency }
  let delay_line_length : Int := vibrato_capacity x.sr
  let x : hsd_vibrato α := { x with delay_bytes := delay_line_length * sizeof_t_float }
  if alloc_ok then
    (zeroLoop delay_line_length.toNat 0 (List.replicate delay_line_length.toNat (0 : α))).map
      fun buf =>
        let x : hsd_vibrato α := { x with delay_line := buf }
        let x : hsd_vibrato α := { x with delay_line_length := (delay_line_length : α) }
        let x : hsd_vibrato α := { x with write_index := 0 }
        { x with phase := 0 }
  else none

/-- The routine `hsd_vibrato_dsp` for a signal of sample rate `s_sr`; `alloc_ok` tells whether
`resizebytes` succeeds.  Every cell of the resized line is overwritten with `0.0`. -/
def hsd_vibrato_dsp (x : hsd_vibrato α) (s_sr : α) (alloc_ok : Bool) :
    Option (hsd_vibrato α) :=
  if x.sr ≠ s_sr then
    let x : hsd_vibrato α := { x with sr := s_sr }
    let delay_line_length : Int := vibrato_capacity x.sr
    let x : hsd_vibrato α := { x with delay_bytes := delay_line_length * sizeof_t_float }
    if alloc_ok then
      (zeroLoop delay_line_length.toNat 0 (List.replicate delay_line_length.toNat (0 : α))).map
        fun buf =>
          let x : hsd_vibrato α := { x with delay_line := buf }
          let x : hsd_vibrato α := { x with delay_line_length := (delay_line_length : α) }
          let x : hsd_vibrato α := { x with write_index := 0 }
          { x with cycle_length := x.sr / x.frequency }
    else
      some { x with delay_line := [] }
  else
    some x

end VibratoStates

/-! ## Setters of the delay-line objects; the DSP loop of hsd_comblp~ -/

section Setters

variable {α : Type} [LinearOrderedField α] [FloorRing α]

/-- The routine `hsd_chorus_drywet`. -/
def hsd_chorus_drywet (x : hsd_chorus α) (f : α) : hsd_chorus α :=
  let dry_wet : α := f
  let dry_wet : α := if dry_wet < 0 then 0 else dry_wet
  let dry_wet : α := if dry_wet > 100 then 100 else dry_wet
  let x : hsd_chorus α := { x with wet := dry_wet / 100 }
  { x with dry := 1 - x.wet }

/-- The routine `hsd_comb_delaytime` (`DELMAX` is 100 in `hsd_comb~.c` as in
`hsd_delay~.c`). -/
def hsd_comb_delaytime (x : hsd_comb α) (f : α) : hsd_comb α :=
  let delay_time_ms : α := f
  let delay_time_ms : α :=
    if delay_time_ms > DELMAX ∨ delay_time_ms ≤ 0 then 10 else delay_time_ms
  let x : hsd_comb α := { x with delay_length := x.sr * delay_time_ms / 1000 }
  { x with delay_time_ms := delay_time_ms }

/-- The routine `hsd_comb_feedback`. -/
def hsd_comb_feedback (x : hsd_comb α) (f : α) : hsd_comb α :=
  let feedback : α := f
  let feedback : α := if feedback > 1 ∨ feedback < 0 then 1 else feedback
  { x with feedback := feedback }

/-- The routine `hsd_allpass_delaytime` (`DELMAX` is 100 in `hsd_allpass~.c` as well). -/
def hsd_allpass_delaytime (x : hsd_allpass α) (f : α) : hsd_allpass α :=
  let delay_time_ms : α := f
  let delay_time_ms : α :=
    if delay_time_ms > DELMAX ∨ delay_time_ms ≤ 0 then 10 else delay_time_ms
  let x : hsd_allpass α := { x with delay_length := x.sr * delay_time_ms / 1000 }
  { x with delay_time_ms := delay_time_ms }

/-- The routine `hsd_allpass_gain`. -/
def hsd_allpass_gain (x : hsd_allpass α) (f : α) : hsd_allpass α :=
  let g : α := f
  let g : α := if g > 1 ∨ g < 0 then 1 else g
  { x with g := g }

/-- The routine `hsd_comblp_delaytime`. -/
def hsd_comblp_delaytime (x : hsd_comblp α) (f : α) : hsd_comblp α :=
  let delay_time_ms : α := f
  let delay_time_ms : α :=
    if delay_time_ms > DELMAX ∨ delay_time_ms ≤ 0 then 10 else delay_time_ms
  let x : hsd_comblp α := { x with delay_length := x.sr * delay_time_ms / 1000 }
  { x with delay_time_ms := delay_time_ms }

/-- One iteration of the DSP loop of `hsd_comblp_perform`, with the locals `delay_length`,
`feedback_float` and `g2`, on the line, the write index and `z1`; `read_index_next` stands for
the index expression `(read_index + 1) % idelay`. -/
def hsd_comblp_tick (delay_length feedback_float g2 : α) (s : List α × Int × α) (input : α) :
    Option ((List α × Int × α) × α) := do
  let delay_line := s.1
  let write_index := s.2.1
  let z1 := s.2.2
  let idelay : Int := truncToInt delay_length
  let fraction : α := delay_length - (idelay : α)
  let read_index ← wrapIndexF delay_length (write_index - idelay)
  let samp1 ← load delay_line read_index
  let read_index_next ← cRem (read_index + 1) idelay
  let samp2 ← load delay_line read_index_next
  let out_sample := samp1 + fraction * (samp2 - samp1)
  let lowpass := out_sample + g2 * z1
  let z1 := lowpass
  let delay_line ← store delay_line write_index (input + lowpass * feedback_float)
  let write_index := write_index + 1
  let write_index := if (write_index : α) ≥ delay_length then
    truncToInt ((write_index : α) - delay_length) else write_index
  pure ((delay_line, write_index, z1), out_sample)

/-- The routine `hsd_comblp_perform` on one block: the new state and the output vector. -/
def hsd_comblp_perform (x : hsd_comblp α) (input : List α) :
    Option (hsd_comblp α × List α) :=
  (dspLoop (hsd_comblp_tick x.delay_length x.feedback x.g2)
      (x.delay_line, x.write_index, x.z1) input).map
    fun r => ({ x with delay_line := r.1.1, write_index := r.1.2.1, z1 := r.1.2.2 }, r.2)

end Setters

/-! ## hsd_biquad~: constructor and reachable states -/

section BiquadStates

variable {α : Type} [LinearOrderedField α] [FloorRing α]

/-- The constant `DEFAULT_FREQUENCY` of `hsd_biquad~.c`. -/
def biquad_DEFAULT_FREQUENCY : α := 300

/-- The constant `DEFAULT_RES` of `hsd_biquad~.c`. -/
def biquad_DEFAULT_RES : α := 707 / 1000

/-- The constant `DEFAULT_TYPE` of `hsd_biquad~.c`. -/
def DEFAULT_TYPE : String := "lowpass"

/-- The Pd function `atom_getsymbolarg(which, argc, argv)`: the symbol at position `which` of
the `argc` atoms `argv`, and the empty symbol when there is no such atom or it is not a
symbol. -/
def atom_getsymbolarg (which : Nat) (argv : List (t_atom α)) : String :=
  match argv.get? which with
  | some (t_atom.A_SYMBOL s) => s
  | _ => ""

/-- The routine `hsd_biquad_new` with the creation arguments `argv` and the host sample rate
`sys_getsr() = sr`.  The object memory comes zero-filled from `pd_new`. -/
def hsd_biquad_new (tanf : α → α) (M_PI : α) (sr : α) (argv : List (t_atom α)) :
    hsd_biquad α :=
  let x : hsd_biquad α := ⟨0, 0, 0, "", 0, 0, 0, ⟨0, 0, 0, 0, 0⟩, ⟨0, 0, 0, 0, 0⟩, 0⟩
  let x : hsd_biquad α := { x with sr := sr }
  let x : hsd_biquad α := { x with z1 := 0 }
  let x : hsd_biquad α := { x with z2 := 0 }
  let x : hsd_biquad α := { x with type := DEFAULT_TYPE }
  let x : hsd_biquad α := { x with frequency := biquad_DEFAULT_FREQUENCY }
  let x : hsd_biquad α := { x with resonance := biquad_DEFAULT_RES }
  let x : hsd_biquad α :=
    if argv.length ≥ 3 then { x with type := atom_getsymbolarg 2 argv } else x
  let x : hsd_biquad α :=
    if argv.length ≥ 2 then { x with resonance := atom_getfloatarg 1 argv } else x
  let x : hsd_biquad α :=
    if argv.length ≥ 1 then { x with frequency := atom_getfloatarg 0 argv } else x
  hsd_biquad_symbol tanf M_PI x x.type

end BiquadStates

/-! ## hsd_comb~ and hsd_chorus~: constructors; hsd_comb~: DSP routine -/

section Constructors

variable {α : Type} [LinearOrderedField α] [FloorRing α]

/-- The routine `hsd_comb_new` with the creation arguments `argv` and the host sample rate
`sys_getsr() = sr`; `none` when `getbytes` fails.  The object memory comes zero-filled from
`pd_new`. -/
def hsd_comb_new (sr : α) (argv : List (t_atom α)) (alloc_ok : Bool) : Option (hsd_comb α) :=
  let feedback : α := 1 / 10
  let delay_time_ms : α := 30
  let x : hsd_comb α := ⟨0, 0, 0, [], 0, 0, 0, 0, 0⟩
  let x : hsd_comb α := { x with sr := sr }
  let feedback : α := if argv.length ≥ 2 then atom_getfloatarg 1 argv else feedback
  let delay_time_ms : α := if argv.length ≥ 1 then atom_getfloatarg 0 argv else delay_time_ms
  let feedback : α := if feedback > 1 ∨ feedback < 0 then 1 else feedback
  let delay_time_ms : α :=
    if delay_time_ms > DELMAX ∨ delay_time_ms ≤ 0 then 10 else delay_time_ms
  let x : hsd_comb α := { x with delay_time_ms := delay_time_ms }
  let x : hsd_comb α := { x with delay_length := x.sr * delay_time_ms / 1000 + 1 }
  let delay_line_length : Int := truncToInt (x.sr * DELMAX / 1000 + 1)
  let x : hsd_comb α := { x with delay_bytes := delay_line_length * sizeof_t_float }
  if alloc_ok then
    (zeroLoop delay_line_length.toNat 0 (List.replicate delay_line_length.toNat (0 : α))).map
      fun buf =>
        let x : hsd_comb α := { x with delay_line := buf }
        let x : hsd_comb α := { x with delay_line_length := (delay_line_length : α) }
        let x : hsd_comb α := { x with feedback := feedback }
        { x with write_index := 0 }
  else none

/-- The routine `hsd_comb_dsp` for a signal of sample rate `s_sr`; `alloc_ok` tells whether
`resizebytes` succeeds.  Every cell of the resized line is overwritten with `0.0`. -/
def hsd_comb_dsp (x : hsd_comb α) (s_sr : α) (alloc_ok : Bool) : Option (hsd_comb α) :=
  if x.sr ≠ s_sr then
    let x : hsd_comb α := { x with sr := s_sr }
    let delay_line_length : Int := truncToInt (x.sr * DELMAX / 1000 + 1)
    let x : hsd_comb α := { x with delay_bytes := delay_line_length * sizeof_t_float }
    if alloc_ok then
      (zeroLoop delay_line_length.toNat 0 (List.replicate delay_line_length.toNat (0 : α))).map
        fun buf =>
          let x : hsd_comb α := { x with delay_line := buf }
          let x : hsd_comb α := { x with delay_line_length := (delay_line_length : α) }
          let x : hsd_comb α :=
            { x with delay_length := x.sr * x.delay_time_ms / 1000 + 1 }
          { x with write_index := 0 }
    else
      some { x with delay_line := [] }
  else
    some x

/-- The constant `DELMAX` of `hsd_chorus~.c`, in milliseconds. -/
def chorus_DELMAX : α := 40

/-- The routine `hsd_chorus_new` with the creation arguments `argv` and the host sample rate
`sys_getsr() = sr`; `none` when one of the two `getbytes` calls fails (`alloc_l`, `alloc_r`
tell whether they succeed).  The object memory comes zero-filled from `pd_new`. -/
def hsd_chorus_new (sr : α) (argv : List (t_atom α)) (alloc_l alloc_r : Bool) :
    Option (hsd_chorus α) :=
  let x : hsd_chorus α := ⟨0, 0, 0, [], [], 0, 0, 0, 0, 0, 0, 0, 0, 0, 0, 0, 0, 0⟩
  let x : hsd_chorus α := { x with sr := sr }
  let depth_ms_l : α := 10
  let depth_ms_r : α := 10
  let frequency : α := 1
  let dry_wet : α := 50
  let dry_wet : α := if argv.length ≥ 4 then atom_getfloatarg 3 argv else dry_wet
  let frequency : α := if argv.length ≥ 3 then atom_getfloatarg 2 argv else frequency
  let depth_ms_r : α := if argv.length ≥ 2 then atom_getfloatarg 1 argv else depth_ms_r
  let depth_ms_l : α := if argv.length ≥ 1 then atom_getfloatarg 0 argv else depth_ms_l
  let depth_ms_l : α := if depth_ms_l > chorus_DELMAX then chorus_DELMAX else depth_ms_l
  let depth_ms_l : α := if depth_ms_l < 0 then 0 else depth_ms_l
  let depth_ms_r : α := if depth_ms_r > chorus_DELMAX then chorus_DELMAX else depth_ms_r
  let depth_ms_r : α := if depth_ms_r < 0 then 0 else depth_ms_r
  let frequency : α := if frequency < 0 then 0 else frequency
  let dry_wet : α := if dry_wet < 0 then 0 else dry_wet
  let dry_wet : α := if dry_wet > 100 then 100 else dry_wet
  let x : hsd_chorus α := { x with depth_ms_l := depth_ms_l }
  let x : hsd_chorus α := { x with depth_ms_r := depth_ms_r }
  let x : hsd_chorus α := { x with frequency := frequency }
  let x : hsd_chorus α := { x with wet := dry_wet / 100 }
  let x : hsd_chorus α := { x with dry := 1 - x.wet }
  let x : hsd_chorus α := { x with depth_l := x.sr * x.depth_ms_l / 1000 }
  let x : hsd_chorus α := { x with depth_r := x.sr * x.depth_ms_r / 1000 }
  let x : hsd_chorus α := { x with cycle_length := x.sr / x.frequency }
  let delay_line_length : Int := truncToInt (x.sr * chorus_DELMAX / 1000 + 1)
  let x : hsd_chorus α := { x with delay_bytes := delay_line_length * sizeof_t_float }
  if alloc_l then
    (zeroLoop delay_line_length.toNat 0 (List.replicate delay_line_length.toNat (0 : α))).bind
      fun buf_l =>
        let x : hsd_chorus α := { x with delay_line_l := buf_l }
        if alloc_r then
          (zeroLoop delay_line_length.toNat 0
              (List.replicate delay_line_length.toNat (0 : α))).map
            fun buf_r =>
              let x : hsd_chorus α := { x with delay_line_r := buf_r }
              let x : hsd_chorus α := { x with delay_line_length := (delay_line_length : α) }
              let x : hsd_chorus α := { x with write_index_l := 0 }
              let x : hsd_chorus α := { x with write_index_r := 0 }
              { x with phase := 0 }
        else none
  else none

end Constructors

/-! ## The biquad difference equation -/

section BiquadEquation

variable {α : Type} [LinearOrderedField α] [FloorRing α]

/-- The biquad difference equation as the specification words it, for the input signal `x`:
`y(n) = b0*x(n) + b1*x(n-1) + b2*x(n-2) - a1*y(n-1) - a2*y(n-2)` with `x(k) = y(k) = 0` for
`k < 0`. -/
def biquad_difference_equation (c : Coeffs α) (x : Nat → α) : Nat → α
  | 0 => c.b0 * x 0
  | 1 => c.b0 * x 1 + c.b1 * x 0 - c.a1 * biquad_difference_equation c x 0
  | n + 2 =>
    c.b0 * x (n + 2) + c.b1 * x (n + 1) + c.b2 * x n
      - c.a1 * biquad_difference_equation c x (n + 1)
      - c.a2 * biquad_difference_equation c x n

/-- The locals `(z1, z2)` of the DSP loop of `hsd_biquad_perform` (with `calculating_flag = 0`)
after `n` samples of the signal `x`, from `z1 = z2 = 0`. -/
def biquad_state (c : Coeffs α) (x : Nat → α) : Nat → α × α
  | 0 => (0, 0)
  | n + 1 => (hsd_biquad_tick 0 c c (biquad_state c x n) (x n)).1

end BiquadEquation

/-! ## Machine arithmetic: binary32 and binary64 rounding -/

section MachineArithmetic

variable {α : Type} [LinearOrderedField α] [FloorRing α]

/-- Rounding to an integer, to the nearest one and to the even one at a tie. -/
def roundNearestEven (q : α) : Int :=
  if q - ⌊q⌋ < 1 / 2 then ⌊q⌋
  else if 1 / 2 < q - ⌊q⌋ then ⌊q⌋ + 1
  else if ⌊q⌋ % 2 = 0 then ⌊q⌋ else ⌊q⌋ + 1

/-- The number nearest to `q` in the binary floating-point format with `p` significand bits
and least normal exponent `emin` (round to nearest, ties to even, gradual underflow below
`2^emin`; overflow is left out, the values rounded here stay below 4). -/
def roundFloat (p : Nat) (emin : Int) (q : α) : α :=
  if q = 0 then 0
  else
    let e : Int := max (Int.log 2 |q|) emin
    (roundNearestEven (q / 2 ^ (e - ((p : Int) - 1))) : α) * 2 ^ (e - ((p : Int) - 1))

/-- Conversion to `float`, the IEEE 754 binary32 format. -/
def binary32 (q : α) : α := roundFloat 24 (-126) q

/-- Conversion to `double`, the IEEE 754 binary64 format. -/
def binary64 (q : α) : α := roundFloat 53 (-1022) q

/-- One iteration of the DSP loop of `hsd_peakf_perform` in machine arithmetic: `fl` is the
conversion to `t_float`, which rounds the result of every operation on `t_float` operands
(`fabs` is exact, its `double` result is converted on the assignment to `a`). -/
def hsd_peakf_tick_fl (fl : α → α) (AT RT : α) (xpeak_z1 : α) (input : α) : α × α :=
  let a := fl |input|
  let xpeak_z1 := if a > xpeak_z1 then fl (fl (fl (1 - AT) * xpeak_z1) + fl (AT * a))
    else fl (fl (1 - RT) * xpeak_z1)
  (xpeak_z1, xpeak_z1)

/-- The routine `hsd_peakf_perform` in machine arithmetic on one block, `fl` being the
conversion to `t_float`: the time constants are computed in `double` from `pow` of the C
library and converted to `t_float` on the assignment to `AT` and `RT`. -/
def hsd_peakf_perform_fl (fl : α → α) (pow : α → α → α) (x : hsd_peakf α) (input : List α) :
    hsd_peakf α × List α :=
  let xpeak_z1 := x.xpeak_z1
  let AT := fl (time_coefficient pow x.sr x.t_a)
  let RT := fl (time_coefficient pow x.sr x.t_r)
  let r := dspLoopT (hsd_peakf_tick_fl fl AT RT) xpeak_z1 input
  ({ x with xpeak_z1 := r.1 }, r.2)

/-- The `switch (typenumber)` of `hsd_biquad_calculate_coeffs` in machine arithmetic: `fl` is
the conversion to `t_float` and `dbl` the conversion to `double`.  An operation on two
`t_float` operands is rounded by `fl`; an operation with a `double` operand (the constants
`2.0`, `1.0` and what is computed from them) is done in `double` and rounded by `dbl`, and the
assignment to the `t_float` coefficient converts by `fl`. -/
def biquad_switch_fl (fl dbl : α → α) (typenumber : Int) (K Q omega : α) : Coeffs α :=
  if typenumber = 0 then
    let c0 := fl (fl (fl (K * K) * Q) * omega)
    let c1 := fl (dbl (2 * c0))
    let c2 := c0
    let c3 := fl (dbl (c1 - dbl (dbl (2 * Q) * omega)))
    let c4 := fl (c0 + fl (fl (Q - K) * omega))
    ⟨c0, c1, c2, c3, c4⟩
  else if typenumber = 1 then
    let c0 := fl (Q * omega)
    let c1 := fl (dbl (-2 * c0))
    let c2 := c0
    let c3 := fl (dbl (dbl (2 * dbl (fl (K * K) - 1)) * c0))
    let c4 := fl (fl (fl (fl (fl (K * K) * Q) - K) + Q) * omega)
    ⟨c0, c1, c2, c3, c4⟩
  else if typenumber = 2 then
    let c0 := fl (K * omega)
    let c1 := 0
    let c2 := -c1
    let c3 := fl (dbl (dbl (dbl (2 * Q) * dbl (fl (K * K) - 1)) * omega))
    let c4 := fl (fl (fl (fl (fl (K * K) * Q) - K) + Q) * omega)
    ⟨c0, c1, c2, c3, c4⟩
  else if typenumber = 3 then
    let c0 := fl (dbl (dbl (Q * dbl (1 + fl (K * K))) * omega))
    let c1 := fl (dbl (dbl (dbl (2 * Q) * dbl (fl (K * K) - 1)) * omega))
    let c2 := c0
    let c3 := c1
    let c4 := fl (fl (fl (fl (fl (K * K) * Q) - K) + Q) * omega)
    ⟨c0, c1, c2, c3, c4⟩
  else if typenumber = 4 then
    let c0 := fl (fl (fl (fl (fl (K * K) * Q) - K) + Q) * omega)
    let c1 := fl (dbl (dbl (dbl (2 * Q) * dbl (fl (K * K) - 1)) * omega))
    let c2 := 1
    let c3 := c1
    let c4 := c0
    ⟨c0, c1, c2, c3, c4⟩
  else
    ⟨0, 0, 0, 0, 0⟩

/-- The routine `hsd_biquad_calculate_coeffs` in machine arithmetic, given `tanf` and `M_PI`
of the C library, the conversion `fl` to `t_float` and the conversion `dbl` to `double`: the
argument of `tanf` is computed in `double` (`M_PI` is a `double`) and converted to `float`,
`omega` is the `double` quotient `1.0 / ...` of a `t_float` sum, converted to `t_float`. -/
def hsd_biquad_calculate_coeffs_fl (fl dbl : α → α) (tanf : α → α) (M_PI : α)
    (x : hsd_biquad α) : hsd_biquad α :=
  let x : hsd_biquad α := { x with oldcoeffs := x.coeffs }
  let x : hsd_biquad α := { x with calculating_flag := 1 }
  let sr := x.sr
  let K := fl (tanf (fl (dbl (dbl (M_PI * x.frequency) / sr))))
  let Q := x.resonance
  let omega := fl (dbl (1 / fl (fl (fl (fl (K * K) * Q) + K) + Q)))
  let typenumber : Int := truncToInt x.typenumber
  let x : hsd_biquad α := { x with coeffs := biquad_switch_fl fl dbl typenumber K Q omega }
  { x with calculating_flag := 0 }

end MachineArithmetic

/-! ## Lemmas on the C primitives -/

section PrimitiveLemmas

set_option linter.unusedSectionVars false

variable {α : Type} [LinearOrderedField α] [FloorRing α]

theorem truncToInt_intCast (n : Int) : truncToInt ((n : Int) : α) = n := by
  unfold truncToInt
  split <;> simp

theorem truncToInt_natCast (n : Nat) : truncToInt ((n : Nat) : α) = n := by
  unfold truncToInt
  split <;> simp

theorem truncToInt_zero : truncToInt (0 : α) = 0 := by
  simpa using truncToInt_intCast (α := α) 0

theorem truncToInt_one : truncToInt (1 : α) = 1 := by
  simpa using truncToInt_intCast (α := α) 1

theorem truncToInt_two : truncToInt (2 : α) = 2 := by
  simpa using truncToInt_intCast (α := α) 2

theorem dspLoopT_congr {σ ι o : Type} (f g : σ → ι → σ × o) (h : ∀ s x, f s x = g s x)
    (s : σ) (input : List ι) : dspLoopT f s input = dspLoopT g s input := by
  induction input generalizing s with
  | nil => rfl
  | cons x rest ih => simp only [dspLoopT, h, ih]


theorem wrapLoop_nonneg (len : Int) (fuel : Nat) (r : Int) (h : 0 ≤ r) :
    wrapLoop len fuel r = some r := by
  cases fuel <;> simp [wrapLoop, not_lt.mpr h]

theorem wrapLoop_of_pos (len : Int) (hlen : 0 < len) :
    ∀ (fuel : Nat) (r : Int), (-r).toNat ≤ fuel →
      wrapLoop len fuel r = some (if r < 0 then r % len else r) := by
  intro fuel
  induction fuel with
  | zero =>
    intro r h
    have : 0 ≤ r := by omega
    simp [wrapLoop, not_lt.mpr this]
  | succ k ih =>
    intro r h
    by_cases hr : r < 0
    · have hk : (-(r + len)).toNat ≤ k := by omega
      rw [wrapLoop, if_pos hr, ih _ hk, if_pos hr]
      by_cases h2 : r + len < 0
      · rw [if_pos h2, Int.add_emod_self]
      · rw [if_neg h2]
        have : (r + len) % len = r + len := Int.emod_eq_of_lt (by omega) (by omega)
        rw [← this, Int.add_emod_self]
    · rw [wrapLoop, if_neg hr, if_neg hr]

theorem wrapIndex_of_pos (len : Int) (hlen : 0 < len) (r : Int) :
    wrapIndex len r = some (if r < 0 then r % len else r) :=
  wrapLoop_of_pos len hlen _ r (by omega)

/-- With a length `≤ 0` the loop `while (r < 0) r += len;` never leaves a negative index:
no amount of fuel gives a result. -/
theorem wrapLoop_diverges (len : Int) (hlen : len ≤ 0) :
    ∀ (fuel : Nat) (r : Int), r < 0 → wrapLoop len fuel r = none := by
  intro fuel
  induction fuel with
  | zero => intro r hr; simp [wrapLoop, hr]
  | succ k ih =>
    intro r hr
    rw [wrapLoop, if_pos hr]
    exact ih _ (by omega)

theorem wrapLoopF_intCast (len : Int) :
    ∀ (fuel : Nat) (r : Int), wrapLoopF (len : α) fuel r = wrapLoop len fuel r := by
  intro fuel
  induction fuel with
  | zero => intro r; rfl
  | succ k ih =>
    intro r
    have : truncToInt ((r : α) + (len : α)) = r + len := by
      rw [← Int.cast_add, truncToInt_intCast]
    rw [wrapLoopF, wrapLoop, this, ih]

theorem truncToInt_add_pos (r : Int) (len : α) (hr : r < 0) (hlen : 0 < len) :
    r + 1 ≤ truncToInt ((r : α) + len) := by
  unfold truncToInt
  split
  · rename_i h
    have : 0 ≤ ⌊(r : α) + len⌋ := Int.floor_nonneg.mpr h
    omega
  · have : r < ⌈(r : α) + len⌉ := Int.lt_ceil.mpr (by linarith)
    omega

/-- With a positive floating length the loop `while (r < 0) r += len;` ends within `|r|`
iterations, at a non-negative index. -/
theorem wrapLoopF_of_pos (len : α) (hlen : 0 < len) :
    ∀ (fuel : Nat) (r : Int), (-r).toNat ≤ fuel →
      ∃ k, wrapLoopF len fuel r = some k ∧ 0 ≤ k := by
  intro fuel
  induction fuel with
  | zero =>
    intro r h
    have h0 : 0 ≤ r := by omega
    exact ⟨r, by simp [wrapLoopF, not_lt.mpr h0], h0⟩
  | succ k ih =>
    intro r h
    by_cases hr : r < 0
    · have := truncToInt_add_pos r len hr hlen
      rw [wrapLoopF, if_pos hr]
      exact ih _ (by omega)
    · exact ⟨r, by rw [wrapLoopF, if_neg hr], by omega⟩

/-- With a floating length `≤ 0` the loop `while (r < 0) r += len;` never leaves a negative
index: no amount of fuel gives a result. -/
theorem wrapLoopF_diverges (len : α) (hlen : len ≤ 0) :
    ∀ (fuel : Nat) (r : Int), r < 0 → wrapLoopF len fuel r = none := by
  intro fuel
  induction fuel with
  | zero => intro r hr; simp [wrapLoopF, hr]
  | succ k ih =>
    intro r hr
    rw [wrapLoopF, if_pos hr]
    apply ih
    have hneg : (r : α) + len < 0 := by
      have : (r : α) < 0 := by exact_mod_cast hr
      linarith
    rw [truncToInt, if_neg (not_le.mpr hneg)]
    have h1 : ⌈(r : α) + len⌉ ≤ r := Int.ceil_le.mpr (by linarith)
    omega

theorem load_of_lt (buf : List α) (i : Int) (h0 : 0 ≤ i) (h1 : i < buf.length) :
    load buf i = some (buf.getD i.toNat 0) := by
  have : i.toNat < buf.length := by omega
  simp [load, h0, List.getD, List.getElem?_eq_getElem this]

theorem store_of_lt (buf : List α) (i : Int) (v : α) (h0 : 0 ≤ i) (h1 : i < buf.length) :
    store buf i v = some (buf.set i.toNat v) := by
  simp [store, h0, h1]

theorem store_length (buf buf' : List α) (i : Int) (v : α) (h : store buf i v = some buf') :
    buf'.length = buf.length := by
  unfold store at h
  split at h
  · cases h; simp
  · cases h

/-- The index read by a tap `lag` samples behind `write_index`, after wrapping. -/
theorem wrapped_lt (len r : Int) (hlen : 0 < len) (hr : r < len) :
    0 ≤ (if r < 0 then r % len else r) ∧ (if r < 0 then r % len else r) < len := by
  split
  · exact ⟨Int.emod_nonneg _ (by omega), Int.emod_lt_of_pos _ hlen⟩
  · omega

end PrimitiveLemmas

/-! ## hsd_delay~: the write index -/

section DelayTheorems

set_option linter.unusedSectionVars false

variable {α : Type} [LinearOrderedField α] [FloorRing α]

/-- Closed form of one iteration of the DSP loop of `hsd_delay_perform` on a state with
`0 ≤ write_index < delay_line_length`, all cells allocated and a non-negative delay: the input
is stored in cell `write_index`, the write index advances modulo the length of the line, and
the output is the cell `delay_length + 1` positions behind the write index. -/
theorem hsd_delay_tick_eq (d len : Int) (line : List α) (wi : Int) (x : α)
    (hlen : (line.length : Int) = len) (h0 : 0 ≤ wi) (h1 : wi < len) (hd : 0 ≤ d) :
    hsd_delay_tick d len (line, wi) x
      = some ((line.set wi.toNat x, (wi + 1) % len),
          line.getD (if wi - d - 1 < 0 then (wi - d - 1) % len else wi - d - 1).toNat 0) := by
  have hpos : 0 < len := by omega
  have hr1 := wrapped_lt len (wi - d) hpos (by omega)
  have hr2 := wrapped_lt len (wi - d - 1) hpos (by omega)
  have hw : (if wi + 1 ≥ len then wi + 1 - len else wi + 1) = (wi + 1) % len := by
    split
    · have : wi + 1 = len := by omega
      simp [this]
    · exact (Int.emod_eq_of_lt (by omega) (by omega)).symm
  simp only [hsd_delay_tick, truncToInt_intCast, wrapIndex_of_pos len hpos, sub_self,
    Option.pure_def, Option.bind_eq_bind, Option.some_bind, mul_zero, sub_zero, mul_one,
    zero_add, hw]
  rw [load_of_lt line _ hr1.1 (by omega), load_of_lt line _ hr2.1 (by omega),
    store_of_lt line wi x h0 (by omega)]
  simp
theorem zeroLoop_length : ∀ (k : Nat) (i : Int) (buf buf' : List α),
    zeroLoop k i buf = some buf' → buf'.length = buf.length := by
  intro k
  induction k with
  | zero => intro i buf buf' h; simp [zeroLoop] at h; rw [← h]
  | succ k ih =>
    intro i buf buf' h
    rw [zeroLoop] at h
    cases hs : store buf i 0 with
    | none => rw [hs] at h; cases h
    | some b =>
      rw [hs] at h
      rw [ih (i + 1) b buf' h, store_length buf b i 0 hs]

theorem one_le_truncToInt (x : α) (h : 1 ≤ x) : 1 ≤ truncToInt x := by
  have h0 : (0 : α) ≤ x := le_trans zero_le_one h
  rw [truncToInt, if_pos h0]
  exact Int.le_floor.mpr (by simpa using h)

theorem capacity_pos (sr : α) (h : 0 ≤ sr) : 1 ≤ truncToInt (sr * DELMAX / 1000 + 1) := by
  apply one_le_truncToInt
  have : 0 ≤ sr * DELMAX / 1000 := by unfold DELMAX; positivity
  linarith

/-- A successful iteration of the DSP loop of `hsd_delay_perform` keeps the number of cells
and leaves the write index in `[0, len)`. -/
theorem hsd_delay_tick_inv (d len : Int) (line line' : List α) (wi wi' : Int) (x o : α)
    (h : hsd_delay_tick d len (line, wi) x = some ((line', wi'), o))
    (h0 : 0 ≤ wi) (h1 : wi < len) :
    line'.length = line.length ∧ 0 ≤ wi' ∧ wi' < len := by
  simp only [hsd_delay_tick, Option.pure_def, Option.bind_eq_bind, Option.bind_eq_some,
    Option.some.injEq, Prod.mk.injEq] at h
  obtain ⟨r1, -, r2, -, s1, -, s2, -, l, hl, ⟨rfl, rfl⟩, -⟩ := h
  refine ⟨store_length _ _ _ _ hl, ?_, ?_⟩ <;> split <;> omega

theorem hsd_delay_loop_inv (d len : Int) : ∀ (input : List α) (line line' : List α)
    (wi wi' : Int) (out : List α),
    dspLoop (hsd_delay_tick d len) (line, wi) input = some ((line', wi'), out) →
    0 ≤ wi → wi < len → line'.length = line.length ∧ 0 ≤ wi' ∧ wi' < len := by
  intro input
  induction input with
  | nil =>
    intro line line' wi wi' out h h0 h1
    simp only [dspLoop, Option.some.injEq, Prod.mk.injEq] at h
    obtain ⟨⟨rfl, rfl⟩, -⟩ := h
    exact ⟨rfl, h0, h1⟩
  | cons x rest ih =>
    intro line line' wi wi' out h h0 h1
    simp only [dspLoop, Option.bind_eq_some, Option.map_eq_some'] at h
    obtain ⟨⟨⟨l1, w1⟩, o1⟩, ht, ⟨⟨l2, w2⟩, o2⟩, hrest, heq⟩ := h
    simp only [Prod.mk.injEq] at heq
    obtain ⟨⟨rfl, rfl⟩, -⟩ := heq
    have a := hsd_delay_tick_inv d len line l1 wi w1 x o1 ht h0 h1
    have b := ih l1 l2 w1 w2 o2 hrest a.2.1 a.2.2
    exact ⟨b.1.trans a.1, b.2⟩

/-- On a line with all `len` cells allocated, a write index in `[0, len)` and a non-negative
delay the DSP loop of `hsd_delay_perform` runs through every block. -/
theorem hsd_delay_loop_total (d len : Int) (hd : 0 ≤ d) : ∀ (input : List α) (line : List α)
    (wi : Int), (line.length : Int) = len → 0 ≤ wi → wi < len →
    ∃ s out, dspLoop (hsd_delay_tick d len) (line, wi) input = some (s, out) ∧
      out.length = input.length := by
  intro input
  induction input with
  | nil => intro line wi _ _ _; exact ⟨_, _, rfl, rfl⟩
  | cons x rest ih =>
    intro line wi hlen h0 h1
    have ht := hsd_delay_tick_eq d len line wi x hlen h0 h1 hd
    have hpos : 0 < len := by omega
    obtain ⟨s, out, hs, hout⟩ := ih (line.set wi.toNat x) ((wi + 1) % len)
      (by simpa using hlen) (Int.emod_nonneg _ (by omega)) (Int.emod_lt_of_pos _ hpos)
    refine ⟨s, line.getD (if wi - d - 1 < 0 then (wi - d - 1) % len
      else wi - d - 1).toNat 0 :: out, ?_, by simp [hout]⟩
    simp only [dspLoop, ht, Option.some_bind, hs, Option.map_some']

theorem sane_delay_time_pos (t : α) : 0 < (if t > DELMAX ∨ t ≤ 0 then (10 : α) else t) := by
  split
  · norm_num
  · rename_i h
    push_neg at h
    exact h.2

theorem delay_length_nonneg (sr ms : α) (hsr : 0 ≤ sr) (hms : 0 < ms) :
    0 ≤ sr * ms / 1000 := by positivity

theorem hsd_delay_new_inv (sr f : α) (x : hsd_delay α) (hsr : 0 ≤ sr)
    (h : hsd_delay_new sr f true = some x) : hsd_delay_inv x := by
  have hcap := capacity_pos sr hsr
  simp only [hsd_delay_new, if_true, Option.map_eq_some'] at h
  obtain ⟨line, hline, rfl⟩ := h
  have hl := zeroLoop_length _ _ _ _ hline
  have hms := sane_delay_time_pos (if f ≠ 0 then f else DEFAULT_TIME)
  refine ⟨truncToInt (sr * DELMAX / 1000 + 1), rfl, le_refl _, by simp only; omega, ?_, hsr,
    hms, ?_⟩
  · left
    simp only [hl, List.length_replicate]
    omega
  · have := delay_length_nonneg sr _ hsr hms
    simp only
    linarith

theorem hsd_delay_delaytime_inv (x : hsd_delay α) (f : α) (h : hsd_delay_inv x) :
    hsd_delay_inv (hsd_delay_delaytime x f) := by
  obtain ⟨len, h1, h2, h3, h4, h5, h6, h7⟩ := h
  exact ⟨len, h1, h2, h3, h4, h5, sane_delay_time_pos f,
    delay_length_nonneg _ _ h5 (sane_delay_time_pos f)⟩

theorem hsd_delay_bang_inv (x y : hsd_delay α) (h : hsd_delay_inv x)
    (hy : hsd_delay_bang x = some y) : hsd_delay_inv y := by
  obtain ⟨len, h1, h2, h3, h4, h5, h6, h7⟩ := h
  simp only [hsd_delay_bang, zeroFill, Option.map_eq_some'] at hy
  obtain ⟨line, hline, rfl⟩ := hy
  have hl := zeroLoop_length _ _ _ _ hline
  refine ⟨len, h1, le_refl _, by simp only; omega, ?_, h5, h6, h7⟩
  rcases h4 with h4 | h4
  · left; simp only [hl, h4]
  · right
    simp only
    rw [h4] at hl
    exact List.length_eq_zero.mp hl

theorem hsd_delay_dsp_inv (x y : hsd_delay α) (s_sr : α) (alloc_ok : Bool)
    (h : hsd_delay_inv x) (hsr : 0 ≤ s_sr) (hy : hsd_delay_dsp x s_sr alloc_ok = some y) :
    hsd_delay_inv y := by
  obtain ⟨len, h1, h2, h3, h4, h5, h6, h7⟩ := h
  unfold hsd_delay_dsp at hy
  by_cases hne : x.sr ≠ s_sr
  · rw [if_pos hne] at hy
    cases alloc_ok with
    | true =>
      have hcap := capacity_pos s_sr hsr
      simp only [if_true, Option.map_eq_some'] at hy
      obtain ⟨line, hline, rfl⟩ := hy
      have hl := zeroLoop_length _ _ _ _ hline
      refine ⟨truncToInt (s_sr * DELMAX / 1000 + 1), rfl, le_refl _, by simp only; omega, ?_,
        hsr, h6, ?_⟩
      · left
        simp only [hl, List.length_replicate]
        omega
      · have := delay_length_nonneg s_sr _ hsr h6
        simp only
        linarith
    | false =>
      simp only [Bool.false_eq_true, if_false, Option.some.injEq] at hy
      subst hy
      exact ⟨len, h1, h2, h3, Or.inr rfl, hsr, h6, h7⟩
  · rw [if_neg hne, Option.some.injEq] at hy
    subst hy
    exact ⟨len, h1, h2, h3, h4, h5, h6, h7⟩

theorem hsd_delay_perform_inv (x y : hsd_delay α) (input out : List α) (h : hsd_delay_inv x)
    (hy : hsd_delay_perform x input = some (y, out)) : hsd_delay_inv y := by
  obtain ⟨len, h1, h2, h3, h4, h5, h6, h7⟩ := h
  have e : truncToInt x.delay_line_length = len := by rw [h1, truncToInt_intCast]
  simp only [hsd_delay_perform, e, Option.map_eq_some', Prod.mk.injEq] at hy
  obtain ⟨⟨⟨line', wi'⟩, o⟩, hloop, rfl, -⟩ := hy
  have a := hsd_delay_loop_inv _ len input _ _ _ _ _ hloop h2 h3
  refine ⟨len, h1, a.2.1, a.2.2, ?_, h5, h6, h7⟩
  rcases h4 with h4 | h4
  · left; simp only [a.1, h4]
  · right
    simp only
    have := a.1
    rw [h4] at this
    exact List.length_eq_zero.mp this

theorem hsd_delay_reachable_inv (x : hsd_delay α) (h : hsd_delay_reachable x) :
    hsd_delay_inv x := by
  induction h with
  | new sr f x hsr hx => exact hsd_delay_new_inv sr f x hsr hx
  | delaytime x f _ ih => exact hsd_delay_delaytime_inv x f ih
  | bang x y _ hy ih => exact hsd_delay_bang_inv x y ih hy
  | dsp x y s_sr ok _ hsr hy ih => exact hsd_delay_dsp_inv x y s_sr ok ih hsr hy
  | perform x y input out _ hy ih => exact hsd_delay_perform_inv x y input out ih hy

theorem truncToInt_nonneg (x : α) (h : 0 ≤ x) : 0 ≤ truncToInt x := by
  rw [truncToInt, if_pos h]
  exact Int.floor_nonneg.mpr h

/-- The block recursion of `hsd_delay_perform`: a block `v :: rest` is one iteration of the DSP
loop on the line and write index of the object, followed by the routine on `rest` from the
line and write index that iteration leaves. -/
theorem hsd_delay_perform_cons (x : hsd_delay α) (v : α) (rest : List α) :
    hsd_delay_perform x (v :: rest)
      = (hsd_delay_tick (truncToInt x.delay_length) (truncToInt x.delay_line_length)
          (x.delay_line, x.write_index) v).bind
          fun r => (hsd_delay_perform { x with delay_line := r.1.1, write_index := r.1.2 }
            rest).map fun s => (s.1, r.2 :: s.2) := by
  simp only [hsd_delay_perform, dspLoop]
  cases hsd_delay_tick (truncToInt x.delay_length) (truncToInt x.delay_line_length)
      (x.delay_line, x.write_index) v with
  | none => rfl
  | some r =>
    simp only [Option.some_bind, Option.map_map]
    rfl

/-- After a block of `n` samples the write index of the DSP loop of `hsd_delay_perform` has
advanced by `n` modulo the length of the line. -/
theorem hsd_delay_loop_write_index (d len : Int) (hd : 0 ≤ d) : ∀ (input : List α)
    (line : List α) (wi : Int) (s : List α × Int) (out : List α),
    (line.length : Int) = len → 0 ≤ wi → wi < len →
    dspLoop (hsd_delay_tick d len) (line, wi) input = some (s, out) →
    s.2 = (wi + (input.length : Int)) % len := by
  intro input
  induction input with
  | nil =>
    intro line wi s out _ h0 h1 h
    simp only [dspLoop, Option.some.injEq, Prod.mk.injEq] at h
    rw [← h.1]
    simp [Int.emod_eq_of_lt h0 h1]
  | cons x rest ih =>
    intro line wi s out hlen h0 h1 h
    have hpos : 0 < len := by omega
    simp only [dspLoop, hsd_delay_tick_eq d len line wi x hlen h0 h1 hd, Option.some_bind,
      Option.map_eq_some'] at h
    obtain ⟨⟨s2, o2⟩, hrest, heq⟩ := h
    simp only [Prod.mk.injEq] at heq
    rw [← heq.1]
    have := ih (line.set wi.toNat x) ((wi + 1) % len) s2 o2 (by simpa using hlen)
      (Int.emod_nonneg _ (by omega)) (Int.emod_lt_of_pos _ hpos) hrest
    rw [this, Int.emod_add_emod, List.length_cons]
    push_cast
    ring_nf

/-- C3: on a state of `hsd_delay~` with `0 ≤ write_index < capacity` (all `capacity` cells
allocated, delay not negative) one iteration of the DSP loop of `hsd_delay_perform` stores the
input sample in cell `write_index`, changes no other cell and leaves
`write_index = (write_index + 1) mod capacity`; and in every state reachable from
`hsd_delay_new` through `hsd_delay_delaytime`, `hsd_delay_bang`, `hsd_delay_dsp` and
`hsd_delay_perform`, `0 ≤ write_index < delay_line_length` holds, and unless the line is null
`hsd_delay_perform` runs through every block.  The routine itself is that iteration repeated:
on the empty block it returns the object unchanged, on a block `v :: input` it is one iteration
on the line and write index of the object followed by the routine on `input`; so in a reachable
state with a line, `hsd_delay_perform` on `v :: input` stores `v` in cell `write_index`,
advances the write index by one modulo the capacity, continues on `input` from there, and
leaves the write index advanced by the length of the block modulo the capacity. -/
theorem hsd_delay_write_index_invariant (d len wi : Int) (line : List α) (v : α)
    (x : hsd_delay α) (input : List α)
    (hlen : (line.length : Int) = len) (h0 : 0 ≤ wi) (h1 : wi < len) (hd : 0 ≤ d)
    (hx : hsd_delay_reachable x) :
    (∃ out, hsd_delay_tick d len (line, wi) v
        = some ((line.set wi.toNat v, (wi + 1) % len), out))
      ∧ (0 ≤ x.write_index ∧ (x.write_index : α) < x.delay_line_length)
      ∧ (x.delay_line ≠ [] →
          ∃ y out, hsd_delay_perform x input = some (y, out) ∧ out.length = input.length)
      ∧ hsd_delay_perform x [] = some (x, [])
      ∧ hsd_delay_perform x (v :: input)
          = (hsd_delay_tick (truncToInt x.delay_length) (truncToInt x.delay_line_length)
              (x.delay_line, x.write_index) v).bind
              (fun r => (hsd_delay_perform { x with delay_line := r.1.1, write_index := r.1.2 }
                input).map fun s => (s.1, r.2 :: s.2))
      ∧ (x.delay_line ≠ [] → ∃ o y outs,
          hsd_delay_tick (truncToInt x.delay_length) (truncToInt x.delay_line_length)
              (x.delay_line, x.write_index) v
            = some ((x.delay_line.set x.write_index.toNat v,
                (x.write_index + 1) % truncToInt x.delay_line_length), o)
          ∧ hsd_delay_perform { x with
                delay_line := x.delay_line.set x.write_index.toNat v
                write_index := (x.write_index + 1) % truncToInt x.delay_line_length } input
              = some (y, outs)
          ∧ hsd_delay_perform x (v :: input) = some (y, o :: outs)
          ∧ y.write_index
              = (x.write_index + ((v :: input).length : Int)) % truncToInt x.delay_line_length) := by
  refine ⟨⟨_, hsd_delay_tick_eq d len line wi v hlen h0 h1 hd⟩, ?_, ?_, rfl,
    hsd_delay_perform_cons x v input, ?_⟩
  · obtain ⟨n, h1, h2, h3, -⟩ := hsd_delay_reachable_inv x hx
    exact ⟨h2, by rw [h1]; exact_mod_cast h3⟩
  · intro hne
    obtain ⟨n, e1, e2, e3, e4, e5, e6, e7⟩ := hsd_delay_reachable_inv x hx
    have e4' : (x.delay_line.length : Int) = n := e4.resolve_right hne
    obtain ⟨s, out, hs, hout⟩ := hsd_delay_loop_total (truncToInt x.delay_length) n
      (truncToInt_nonneg _ e7) input x.delay_line x.write_index e4' e2 e3
    have e : truncToInt x.delay_line_length = n := by rw [e1, truncToInt_intCast]
    refine ⟨{ x with delay_line := s.1, write_index := s.2 }, out, ?_, hout⟩
    simp only [hsd_delay_perform, e, hs, Option.map_some']
  · intro hne
    obtain ⟨n, e1, e2, e3, e4, e5, e6, e7⟩ := hsd_delay_reachable_inv x hx
    have e4' : (x.delay_line.length : Int) = n := e4.resolve_right hne
    have e : truncToInt x.delay_line_length = n := by rw [e1, truncToInt_intCast]
    have hpos : 0 < n := by omega
    have hd' := truncToInt_nonneg _ e7
    have ht := hsd_delay_tick_eq (truncToInt x.delay_length) n x.delay_line x.write_index v
      e4' e2 e3 hd'
    obtain ⟨s, out, hs, -⟩ := hsd_delay_loop_total (truncToInt x.delay_length) n hd' input
      (x.delay_line.set x.write_index.toNat v) ((x.write_index + 1) % n)
      (by simpa using e4') (Int.emod_nonneg _ (by omega)) (Int.emod_lt_of_pos _ hpos)
    have hw := hsd_delay_loop_write_index (truncToInt x.delay_length) n hd' input
      (x.delay_line.set x.write_index.toNat v) ((x.write_index + 1) % n) s out
      (by simpa using e4') (Int.emod_nonneg _ (by omega)) (Int.emod_lt_of_pos _ hpos) hs
    rw [e]
    refine ⟨_, { x with delay_line := s.1, write_index := s.2 }, out, ht, ?_, ?_, ?_⟩
    · simp only [hsd_delay_perform, e, hs, Option.map_some']
    · simp only [hsd_delay_perform, e, dspLoop, ht, Option.some_bind, hs, Option.map_some']
    · simp only [hw, Int.emod_add_emod, List.length_cons]
      push_cast
      ring_nf


theorem hsd_delay_new_example :
    hsd_delay_new (α := ℚ) 20 50 true = some ⟨20, 3, 12, [0, 0, 0], 50, 2, 0, 0⟩ := by
  have h : truncToInt ((20 : ℚ) * DELMAX / 1000 + 1) = 3 := by
    have : (20 : ℚ) * DELMAX / 1000 + 1 = ((3 : Int) : ℚ) := by norm_num [DELMAX]
    rw [this, truncToInt_intCast]
  have h3 : Int.toNat 3 = 3 := rfl
  simp only [hsd_delay_new, h, h3]
  have h2 : Int.toNat 2 = 2 := rfl
  norm_num [DELMAX, DEFAULT_TIME, zeroLoop, store, sizeof_t_float, List.replicate, h2]

/-- Witness of C3: the last cell of a three-cell line, and the state created at sample rate 20
with a delay time of 50 ms on the blocks `[1, 0]` and `[1, 1, 0]`. -/
theorem hsd_delay_write_index_invariant_witness :
    (∃ out, hsd_delay_tick (α := ℚ) 1 3 ([0, 0, 0], 2) 1
        = some (([0, 0, 0].set (2 : Int).toNat 1, (2 + 1) % 3), out))
      ∧ (0 ≤ (0 : Int) ∧ ((0 : Int) : ℚ) < 3)
      ∧ (([0, 0, 0] : List ℚ) ≠ [] →
          ∃ y out, hsd_delay_perform (α := ℚ) ⟨20, 3, 12, [0, 0, 0], 50, 2, 0, 0⟩ [1, 0]
            = some (y, out) ∧ out.length = [(1 : ℚ), 0].length)
      ∧ hsd_delay_perform (α := ℚ) ⟨20, 3, 12, [0, 0, 0], 50, 2, 0, 0⟩ []
          = some (⟨20, 3, 12, [0, 0, 0], 50, 2, 0, 0⟩, [])
      ∧ hsd_delay_perform (α := ℚ) ⟨20, 3, 12, [0, 0, 0], 50, 2, 0, 0⟩ [1, 1, 0]
          = (hsd_delay_tick (α := ℚ) (truncToInt (2 : ℚ)) (truncToInt (3 : ℚ)) ([0, 0, 0], 0) 1).bind
              (fun r => (hsd_delay_perform (α := ℚ) ⟨20, 3, 12, r.1.1, 50, 2, r.1.2, 0⟩ [1, 0]).map
                fun s => (s.1, r.2 :: s.2))
      ∧ (([0, 0, 0] : List ℚ) ≠ [] → ∃ o y outs,
          hsd_delay_tick (α := ℚ) (truncToInt (2 : ℚ)) (truncToInt (3 : ℚ)) ([0, 0, 0], 0) 1
            = some (([0, 0, 0].set (0 : Int).toNat 1, (0 + 1) % truncToInt (3 : ℚ)), o)
          ∧ hsd_delay_perform (α := ℚ) ⟨20, 3, 12, [0, 0, 0].set (0 : Int).toNat 1, 50, 2,
                (0 + 1) % truncToInt (3 : ℚ), 0⟩ [1, 0]
              = some (y, outs)
          ∧ hsd_delay_perform ⟨20, 3, 12, [0, 0, 0], 50, 2, 0, 0⟩ [1, 1, 0] = some (y, o :: outs)
          ∧ y.write_index = (0 + (([1, 1, 0] : List ℚ).length : Int)) % truncToInt (3 : ℚ)) :=
  hsd_delay_write_index_invariant (α := ℚ) 1 3 2 [0, 0, 0] 1 ⟨20, 3, 12, [0, 0, 0], 50, 2, 0, 0⟩
    [1, 0] rfl (by decide) (by decide) (by decide)
    (hsd_delay_reachable.new 20 50 _ (by norm_num) hsd_delay_new_example)

end DelayTheorems

/-! ## hsd_comb~ and hsd_allpass~: the recirculating delay line -/

section RingTheorems

set_option linter.unusedSectionVars false

variable {α : Type} [LinearOrderedField α] [FloorRing α]

theorem ringTap_lt (D : Nat) (W : α → α → α) (x : Nat → α) (n : Nat) (h : n < D) :
    ringTap D W x n = 0 := by
  rw [ringTap, dif_pos (Or.inl h)]

theorem ringTap_add (D : Nat) (W : α → α → α) (x : Nat → α) (n : Nat) (hD : 1 ≤ D) :
    ringTap D W x (n + D) = W (x n) (ringTap D W x n) := by
  rw [ringTap, dif_neg (by omega), Nat.add_sub_cancel]

theorem ringTap_ge (D : Nat) (W : α → α → α) (x : Nat → α) (n : Nat) (hD : 1 ≤ D)
    (h : D ≤ n) : ringTap D W x n = W (x (n - D)) (ringTap D W x (n - D)) := by
  rw [ringTap, dif_neg (by omega)]

theorem dspLoop_append {σ ι o : Type} (tick : σ → ι → Option (σ × o)) :
    ∀ (a b : List ι) (s : σ), dspLoop tick s (a ++ b)
      = (dspLoop tick s a).bind fun r => (dspLoop tick r.1 b).map fun t => (t.1, r.2 ++ t.2) := by
  intro a
  induction a with
  | nil =>
    intro b s
    simp only [List.nil_append, dspLoop, Option.some_bind]
    cases dspLoop tick s b <;> simp
  | cons x rest ih =>
    intro b s
    rw [List.cons_append]
    simp only [dspLoop]
    cases tick s x with
    | none => rfl
    | some r =>
      simp only [Option.some_bind]
      rw [ih]
      cases dspLoop tick r.1 rest with
      | none => rfl
      | some t =>
        simp only [Option.some_bind, Option.map_some']
        cases dspLoop tick t.1 b <;> simp

theorem performBlocks_eq_flatten {σ ι o : Type} (perform : σ → List ι → Option (σ × List o))
    (hnil : ∀ s, perform s [] = some (s, []))
    (happ : ∀ s a b, perform s (a ++ b)
      = (perform s a).bind fun r => (perform r.1 b).map fun t => (t.1, r.2 ++ t.2)) :
    ∀ (blocks : List (List ι)) (s : σ),
      performBlocks perform s blocks = perform s blocks.flatten := by
  intro blocks
  induction blocks with
  | nil => intro s; simp [performBlocks, hnil]
  | cons b rest ih =>
    intro s
    simp only [performBlocks, List.flatten_cons, happ, ih]

theorem succ_mod_cast (n D : Nat) (hD : 1 ≤ D) :
    (if ((n % D : Nat) : Int) + 1 = (D : Int) then (0 : Int) else ((n % D : Nat) : Int) + 1)
      = (((n + 1) % D : Nat) : Int) := by
  have hlt : n % D < D := Nat.mod_lt _ (by omega)
  have e : (n + 1) % D = (n % D + 1) % D := by
    rw [Nat.add_mod, Nat.add_mod (n % D) 1, Nat.mod_mod]
  split
  · rename_i h
    have h' : n % D + 1 = D := by omega
    rw [e, h', Nat.mod_self]
    rfl
  · rename_i h
    have h' : n % D + 1 < D := by omega
    rw [e, Nat.mod_eq_of_lt h']
    push_cast
    rfl

theorem mod_ne_of_between (n m D : Nat) (h1 : n < m) (h2 : m < n + D) : m % D ≠ n % D := by
  intro h
  have hz : (m - n) % D = 0 := Nat.sub_mod_eq_zero_of_mod_eq h
  have hd : D ∣ m - n := Nat.dvd_of_mod_eq_zero hz
  have := Nat.le_of_dvd (by omega) hd
  omega

/-- A DSP loop whose body reads the cell under the write index (the tap `v`), writes
`W x v` there, advances the index modulo `D` and outputs `O x v`, run from sample `n` for `k`
samples on a line whose cells hold the taps of the next `D` samples: the outputs are
`O (x i) (ringTap i)`, and the line again holds the taps of the `D` samples that follow. -/
theorem ring_loop (tick : List α × Int → α → Option ((List α × Int) × α)) (D : Nat)
    (hD : 1 ≤ D) (W O : α → α → α)
    (htick : ∀ (line : List α) (wi : Int) (x v : α), 0 ≤ wi → wi < D →
      D ≤ line.length → line.get? wi.toNat = some v →
      tick (line, wi) x
        = some ((line.set wi.toNat (W x v), if wi + 1 = (D : Int) then 0 else wi + 1), O x v))
    (x : Nat → α) :
    ∀ (k n : Nat) (line : List α), D ≤ line.length →
      (∀ m, n ≤ m → m < n + D → line.get? (m % D) = some (ringTap D W x m)) →
      ∃ line', dspLoop tick (line, ((n % D : Nat) : Int)) ((List.range' n k).map x)
          = some ((line', (((n + k) % D : Nat) : Int)),
              (List.range' n k).map fun i => O (x i) (ringTap D W x i))
        ∧ line'.length = line.length
        ∧ ∀ m, n + k ≤ m → m < n + k + D → line'.get? (m % D) = some (ringTap D W x m) := by
  intro k
  induction k with
  | zero =>
    intro n line hcap hinv
    exact ⟨line, rfl, rfl, hinv⟩
  | succ k ih =>
    intro n line hcap hinv
    have hlt : n % D < D := Nat.mod_lt _ (by omega)
    have hv := hinv n (le_refl _) (by omega)
    have ht := htick line ((n % D : Nat) : Int) (x n) (ringTap D W x n) (by omega)
      (by exact_mod_cast hlt) hcap (by simpa using hv)
    rw [succ_mod_cast n D hD] at ht
    simp only [Int.toNat_ofNat] at ht
    have hinv' : ∀ m, n + 1 ≤ m → m < n + 1 + D →
        (line.set (n % D) (W (x n) (ringTap D W x n))).get? (m % D) = some (ringTap D W x m) := by
      intro m h1 h2
      by_cases hm : m = n + D
      · subst hm
        rw [Nat.add_mod_right, ringTap_add D W x n hD, List.get?_eq_getElem?]
        exact List.getElem?_set_self (by omega)
      · have hne : n % D ≠ m % D := (mod_ne_of_between n m D (by omega) (by omega)).symm
        rw [List.get?_eq_getElem?, List.getElem?_set_ne hne, ← List.get?_eq_getElem?]
        exact hinv m (by omega) (by omega)
    obtain ⟨line', hrun, hlen, hfin⟩ := ih (n + 1) _ (by simpa using hcap) hinv'
    refine ⟨line', ?_, by simpa using hlen, ?_⟩
    · simp only [List.range'_succ, List.map_cons, dspLoop, ht, Option.some_bind, hrun,
        Option.map_some']
      rw [show n + 1 + k = n + (k + 1) by omega]
    · intro m h1 h2
      exact hfin m (by omega) (by omega)

theorem load_eq_get (buf : List α) (i : Int) (h : 0 ≤ i) : load buf i = buf.get? i.toNat := by
  simp [load, h]

/-- What the read part of the DSP loops of `hsd_comb_perform` and `hsd_allpass_perform` yields
for an integer `delay_length = D ≥ 1` and `0 ≤ write_index < D`: the wrapped read index is the
write index itself, and the second tap is inside the line. -/
theorem comb_read_int (D : Nat) (buf : List α) (wi : Int) (hD : 1 ≤ D) (h0 : 0 ≤ wi)
    (h1 : wi < D) (hcap : D ≤ buf.length) :
    truncToInt ((D : Nat) : α) = (D : Int)
      ∧ wrapIndexF ((D : Nat) : α) (wi - (D : Int)) = some wi
      ∧ ∃ i2 s2, cRem (wi + 1) (D : Int) = some i2 ∧ load buf i2 = some s2 := by
  refine ⟨truncToInt_natCast D, ?_, ?_⟩
  · have e : ((D : Nat) : α) = (((D : Int)) : α) := by push_cast; rfl
    rw [wrapIndexF, e, wrapLoopF_intCast]
    have := wrapIndex_of_pos (D : Int) (by omega) (wi - D)
    rw [wrapIndex] at this
    rw [this, if_pos (by omega)]
    congr 1
    rw [Int.sub_emod, Int.emod_self, sub_zero, Int.emod_emod_of_dvd _ (dvd_refl _)]
    exact Int.emod_eq_of_lt h0 h1
  · have ht : (wi + 1).tmod (D : Int) = (wi + 1) % (D : Int) :=
      Int.tmod_eq_emod (by omega) (by omega)
    have hn : 0 ≤ (wi + 1) % (D : Int) := Int.emod_nonneg _ (by omega)
    have hl : (wi + 1) % (D : Int) < D := Int.emod_lt_of_pos _ (by omega)
    refine ⟨(wi + 1) % (D : Int), _, ?_, load_of_lt buf _ hn (by omega)⟩
    rw [cRem, if_neg (by omega), ht]

theorem comb_advance_int (D : Nat) (wi : Int) (h1 : wi < D) :
    (if (((wi + 1 : Int)) : α) ≥ ((D : Nat) : α) then
        truncToInt ((((wi + 1 : Int)) : α) - ((D : Nat) : α)) else wi + 1)
      = if wi + 1 = (D : Int) then 0 else wi + 1 := by
  have e : ((D : Nat) : α) = (((D : Int)) : α) := by push_cast; rfl
  rw [e]
  by_cases h : wi + 1 = (D : Int)
  · rw [if_pos h, h, if_pos (le_refl _), sub_self, truncToInt_zero]
  · have hlt : wi + 1 < (D : Int) := by omega
    have : ¬ (((wi + 1 : Int)) : α) ≥ (((D : Int)) : α) := by
      rw [ge_iff_le, Int.cast_le]; omega
    rw [if_neg h, if_neg this]

/-- Closed form of one iteration of the DSP loop of `hsd_comb_perform` for an integer
`delay_length = D ≥ 1`: the output is the cell under the write index, `x + out*g` is written
there and the write index advances modulo `D`. -/
theorem hsd_comb_tick_eq (D : Nat) (g : α) (hD : 1 ≤ D) (buf : List α) (wi : Int) (x v : α)
    (h0 : 0 ≤ wi) (h1 : wi < D) (hcap : D ≤ buf.length) (hv : buf.get? wi.toNat = some v) :
    hsd_comb_tick ((D : Nat) : α) g (buf, wi) x
      = some ((buf.set wi.toNat (x + v * g), if wi + 1 = (D : Int) then 0 else wi + 1), v) := by
  obtain ⟨e1, e2, i2, s2, e5, e3⟩ := comb_read_int (α := α) D buf wi hD h0 h1 hcap
  have e4 := comb_advance_int (α := α) D wi h1
  have hDD : (((D : Int)) : α) = ((D : Nat) : α) := by push_cast; rfl
  simp only [hsd_comb_tick, e1, e2, Option.pure_def, Option.bind_eq_bind, Option.some_bind,
    load_eq_get buf wi h0, hv, e5, e3, hDD, sub_self, zero_mul, add_zero,
    store_of_lt buf wi _ h0 (by omega)]
  rw [← e4]

/-- Closed form of one iteration of the DSP loop of `hsd_allpass_perform` for an integer
`delay_length = D ≥ 1`: with `yDL` the cell under the write index, `xDL = x + yDL*g` is written
there, the output is `yDL + -g*xDL` and the write index advances modulo `D`. -/
theorem hsd_allpass_tick_eq (D : Nat) (g : α) (hD : 1 ≤ D) (buf : List α) (wi : Int) (x v : α)
    (h0 : 0 ≤ wi) (h1 : wi < D) (hcap : D ≤ buf.length) (hv : buf.get? wi.toNat = some v) :
    hsd_allpass_tick ((D : Nat) : α) g (buf, wi) x
      = some ((buf.set wi.toNat (x + v * g), if wi + 1 = (D : Int) then 0 else wi + 1),
          v + -g * (x + v * g)) := by
  obtain ⟨e1, e2, i2, s2, e5, e3⟩ := comb_read_int (α := α) D buf wi hD h0 h1 hcap
  have e4 := comb_advance_int (α := α) D wi h1
  have hDD : (((D : Int)) : α) = ((D : Nat) : α) := by push_cast; rfl
  simp only [hsd_allpass_tick, e1, e2, Option.pure_def, Option.bind_eq_bind, Option.some_bind,
    load_eq_get buf wi h0, hv, e5, e3, hDD, sub_self, zero_mul, add_zero,
    store_of_lt buf wi _ h0 (by omega)]
  rw [← e4]

theorem getD_map_range' {β : Type} (f : Nat → β) (N n : Nat) (d : β) (h : n < N) :
    ((List.range' 0 N).map f).getD n d = f n := by
  rw [List.getD_eq_getElem?_getD, List.getElem?_map, List.getElem?_range' 0 1 h]
  simp

theorem list_eq_map_range' (xs : List α) :
    xs = (List.range' 0 xs.length).map fun i => xs.getD i 0 := by
  apply List.ext_getElem
  · simp
  · intro n h1 h2
    simp [List.getD_eq_getElem?_getD, List.getElem?_eq_getElem h1]

theorem zero_line_inv (D : Nat) (W : α → α → α) (sig : Nat → α) (buf : List α)
    (hcap : D ≤ buf.length) (hzero : ∀ c ∈ buf, c = 0) :
    ∀ m, 0 ≤ m → m < 0 + D → buf.get? (m % D) = some (ringTap D W sig m) := by
  intro m _ hm
  have hm' : m < D := by omega
  have hlt : m < buf.length := by omega
  rw [Nat.mod_eq_of_lt hm', ringTap_lt D W sig m hm', List.get?_eq_getElem?,
    List.getElem?_eq_getElem hlt]
  exact congrArg some (hzero _ (List.getElem_mem _))

/-- From a zeroed line with `write_index = 0` and an integer `delay_length = D` with
`1 ≤ D ≤` number of cells, `hsd_comb_perform` runs through the block and its output is the tap
sequence of the recirculating line with `x + tap*feedback` written back. -/
theorem hsd_comb_perform_ring (x : hsd_comb α) (D : Nat) (sig : Nat → α) (N : Nat)
    (hD : 1 ≤ D) (hcap : D ≤ x.delay_line.length) (hlen : x.delay_length = (D : α))
    (hzero : ∀ c ∈ x.delay_line, c = 0) (hwi : x.write_index = 0) :
    ∃ y, hsd_comb_perform x ((List.range' 0 N).map sig)
      = some (y, (List.range' 0 N).map (ringTap D (fun a v => a + v * x.feedback) sig)) := by
  obtain ⟨buf', hrun, -, -⟩ := ring_loop (hsd_comb_tick ((D : Nat) : α) x.feedback) D hD
    (fun a v => a + v * x.feedback) (fun _ v => v)
    (fun buf wi a v h0 h1 hc hv => hsd_comb_tick_eq D x.feedback hD buf wi a v h0 h1 hc hv)
    sig N 0 x.delay_line hcap (zero_line_inv D _ sig x.delay_line hcap hzero)
  refine ⟨{ x with delay_line := buf', write_index := (((0 + N) % D : Nat) : Int) }, ?_⟩
  simp only [Nat.zero_mod, Nat.cast_zero] at hrun
  simp only [hsd_comb_perform, hlen, hwi, hrun, Option.map_some']

theorem hsd_comb_perform_nil (x : hsd_comb α) : hsd_comb_perform x [] = some (x, []) := rfl

theorem hsd_comb_perform_append (x : hsd_comb α) (a b : List α) :
    hsd_comb_perform x (a ++ b)
      = (hsd_comb_perform x a).bind fun r =>
          (hsd_comb_perform r.1 b).map fun t => (t.1, r.2 ++ t.2) := by
  simp only [hsd_comb_perform, dspLoop_append]
  cases dspLoop (hsd_comb_tick x.delay_length x.feedback) (x.delay_line, x.write_index) a with
  | none => rfl
  | some r =>
    simp only [Option.some_bind, Option.map_some']
    cases dspLoop (hsd_comb_tick x.delay_length x.feedback) r.1 b <;> rfl

/-- C4: in `hsd_comb~`, for an integer `delay_length = D` with `1 ≤ D ≤ capacity` (the number
of cells of the line) and any feedback `g`, from a zeroed delay line with `write_index = 0`,
`hsd_comb_perform` run over the blocks of any input returns, and its concatenated output is
`y(n) = 0` for `n < D` and `y(n) = x(n-D) + g*y(n-D)` for `n ≥ D`. -/
theorem hsd_comb_difference_equation (x : hsd_comb α) (D : Nat) (blocks : List (List α))
    (hD : 1 ≤ D) (hcap : D ≤ x.delay_line.length) (hlen : x.delay_length = (D : α))
    (hzero : ∀ c ∈ x.delay_line, c = 0) (hwi : x.write_index = 0) :
    ∃ y out, performBlocks hsd_comb_perform x blocks = some (y, out)
      ∧ out.length = blocks.flatten.length
      ∧ ∀ n, n < out.length →
          out.getD n 0 = if n < D then 0
            else blocks.flatten.getD (n - D) 0 + x.feedback * out.getD (n - D) 0 := by
  rw [performBlocks_eq_flatten hsd_comb_perform hsd_comb_perform_nil hsd_comb_perform_append]
  obtain ⟨y, hy⟩ := hsd_comb_perform_ring x D (fun i => blocks.flatten.getD i 0)
    blocks.flatten.length hD hcap hlen hzero hwi
  rw [← list_eq_map_range'] at hy
  refine ⟨y, _, hy, by simp, ?_⟩
  intro n hn
  simp only [List.length_map, List.length_range'] at hn
  rw [getD_map_range' _ _ _ _ hn]
  by_cases h : n < D
  · rw [if_pos h, ringTap_lt _ _ _ _ h]
  · rw [if_neg h, ringTap_ge _ _ _ _ hD (by omega), getD_map_range' _ _ _ _ (by omega)]
    ring

/-- Witness of C4: a three-cell line with `delay_length = 2`, feedback `1/2`, two blocks. -/
theorem hsd_comb_difference_equation_witness :
    ∃ y out, performBlocks (hsd_comb_perform (α := ℚ))
        ⟨20, 3, 12, [0, 0, 0], 50, 2, 0, 0, 1 / 2⟩ [[1, 0], [0, 0, 0]] = some (y, out)
      ∧ out.length = [[(1 : ℚ), 0], [0, 0, 0]].flatten.length
      ∧ ∀ n, n < out.length →
          out.getD n 0 = if n < 2 then 0
            else [[(1 : ℚ), 0], [0, 0, 0]].flatten.getD (n - 2) 0 + 1 / 2 * out.getD (n - 2) 0 :=
  hsd_comb_difference_equation (α := ℚ) ⟨20, 3, 12, [0, 0, 0], 50, 2, 0, 0, 1 / 2⟩ 2
    [[1, 0], [0, 0, 0]] (by decide) (by decide) (by norm_num) (by simp) rfl

theorem ringTap_impulse_mul (D : Nat) (g : α) (hD : 1 ≤ D) :
    ∀ k : Nat, ringTap D (fun a v => a + v * g) impulse ((k + 1) * D) = g ^ k := by
  intro k
  induction k with
  | zero =>
    have h := ringTap_add D (fun a v => a + v * g) (impulse (α := α)) 0 hD
    simp only [Nat.zero_add] at h
    rw [Nat.zero_add, Nat.one_mul, h, ringTap_lt D _ _ 0 (by omega)]
    simp [impulse]
  | succ k ih =>
    have h := ringTap_add D (fun a v => a + v * g) (impulse (α := α)) ((k + 1) * D) hD
    have e : (k + 1 + 1) * D = (k + 1) * D + D := by ring
    have hne : (k + 1) * D ≠ 0 := Nat.mul_ne_zero (by omega) (by omega)
    rw [e, h, ih]
    simp only [impulse, if_neg hne, zero_add]
    rw [pow_succ]

theorem ringTap_impulse_off (D : Nat) (g : α) (hD : 1 ≤ D) :
    ∀ n : Nat, (¬ ∃ k, 1 ≤ k ∧ n = k * D) →
      ringTap D (fun a v => a + v * g) impulse n = 0 := by
  intro n
  induction n using Nat.strong_induction_on with
  | _ n ih =>
    intro hn
    by_cases h : n < D
    · exact ringTap_lt _ _ _ _ h
    · have hne : n - D ≠ 0 := by
        intro h0
        exact hn ⟨1, le_refl _, by omega⟩
      have hoff : ¬ ∃ k, 1 ≤ k ∧ n - D = k * D := by
        rintro ⟨k, hk, e⟩
        exact hn ⟨k + 1, by omega, by rw [Nat.add_mul, Nat.one_mul]; omega⟩
      rw [ringTap_ge _ _ _ _ hD (by omega), ih (n - D) (by omega) hoff]
      simp [impulse, hne]

/-- C5: for an integer `delay_length = D ≥ 1` (at most the number of cells) and a feedback `g`
with `0 ≤ g < 1`, the response of `hsd_comb_perform` from a zeroed line to the unit impulse
(any number `N` of samples) is `y(k*D) = g^(k-1)` for `k ≥ 1` and `y(n) = 0` wherever `n` is
not a positive multiple of `D`; so `|y((k+1)*D)| ≤ |y(k*D)|` for every `k ≥ 1`. -/
theorem hsd_comb_impulse_response (x : hsd_comb α) (D N : Nat)
    (hD : 1 ≤ D) (hcap : D ≤ x.delay_line.length) (hlen : x.delay_length = (D : α))
    (hzero : ∀ c ∈ x.delay_line, c = 0) (hwi : x.write_index = 0)
    (hg0 : 0 ≤ x.feedback) (hg1 : x.feedback < 1) :
    ∃ y out, hsd_comb_perform x ((List.range' 0 N).map impulse) = some (y, out)
      ∧ out.length = N
      ∧ (∀ k, 1 ≤ k → k * D < N → out.getD (k * D) 0 = x.feedback ^ (k - 1))
      ∧ (∀ n, n < N → (¬ ∃ k, 1 ≤ k ∧ n = k * D) → out.getD n 0 = 0)
      ∧ (∀ k, 1 ≤ k → (k + 1) * D < N →
          |out.getD ((k + 1) * D) 0| ≤ |out.getD (k * D) 0|) := by
  obtain ⟨y, hy⟩ := hsd_comb_perform_ring x D impulse N hD hcap hlen hzero hwi
  have hmul : ∀ k, 1 ≤ k → k * D < N →
      ((List.range' 0 N).map (ringTap D (fun a v => a + v * x.feedback) impulse)).getD (k * D) 0
        = x.feedback ^ (k - 1) := by
    intro k hk hlt
    rw [getD_map_range' _ _ _ _ hlt]
    obtain ⟨j, rfl⟩ : ∃ j, k = j + 1 := ⟨k - 1, by omega⟩
    rw [ringTap_impulse_mul D x.feedback hD j, Nat.add_sub_cancel]
  refine ⟨y, _, hy, by simp, hmul, ?_, ?_⟩
  · intro n hn hoff
    rw [getD_map_range' _ _ _ _ hn]
    exact ringTap_impulse_off D x.feedback hD n hoff
  · intro k hk hlt
    have hlt' : k * D < N := by
      have : k * D ≤ (k + 1) * D := Nat.mul_le_mul_right D (by omega)
      omega
    rw [hmul (k + 1) (by omega) hlt, hmul k hk hlt', Nat.add_sub_cancel,
      abs_of_nonneg (pow_nonneg hg0 _), abs_of_nonneg (pow_nonneg hg0 _)]
    exact pow_le_pow_of_le_one hg0 hg1.le (by omega)

/-- Witness of C5: a three-cell line with `delay_length = 2`, feedback `1/2`, 7 samples. -/
theorem hsd_comb_impulse_response_witness :
    ∃ y out, hsd_comb_perform (α := ℚ) ⟨20, 3, 12, [0, 0, 0], 50, 2, 0, 0, 1 / 2⟩
        ((List.range' 0 7).map impulse) = some (y, out)
      ∧ out.length = 7
      ∧ (∀ k, 1 ≤ k → k * 2 < 7 → out.getD (k * 2) 0 = (1 / 2 : ℚ) ^ (k - 1))
      ∧ (∀ n, n < 7 → (¬ ∃ k, 1 ≤ k ∧ n = k * 2) → out.getD n 0 = 0)
      ∧ (∀ k, 1 ≤ k → (k + 1) * 2 < 7 → |out.getD ((k + 1) * 2) 0| ≤ |out.getD (k * 2) 0|) :=
  hsd_comb_impulse_response (α := ℚ) ⟨20, 3, 12, [0, 0, 0], 50, 2, 0, 0, 1 / 2⟩ 2 7
    (by decide) (by decide) (by norm_num) (by simp) rfl (by norm_num) (by norm_num)

theorem hsd_allpass_perform_ring (x : hsd_allpass α) (D : Nat) (sig : Nat → α) (N : Nat)
    (hD : 1 ≤ D) (hcap : D ≤ x.delay_line.length) (hlen : x.delay_length = (D : α))
    (hzero : ∀ c ∈ x.delay_line, c = 0) (hwi : x.write_index = 0) :
    ∃ y, hsd_allpass_perform x ((List.range' 0 N).map sig)
      = some (y, (List.range' 0 N).map fun i =>
          ringTap D (fun a v => a + v * x.g) sig i
            + -x.g * (sig i + ringTap D (fun a v => a + v * x.g) sig i * x.g)) := by
  obtain ⟨buf', hrun, -, -⟩ := ring_loop (hsd_allpass_tick ((D : Nat) : α) x.g) D hD
    (fun a v => a + v * x.g) (fun a v => v + -x.g * (a + v * x.g))
    (fun buf wi a v h0 h1 hc hv => hsd_allpass_tick_eq D x.g hD buf wi a v h0 h1 hc hv)
    sig N 0 x.delay_line hcap (zero_line_inv D _ sig x.delay_line hcap hzero)
  refine ⟨{ x with delay_line := buf', write_index := (((0 + N) % D : Nat) : Int) }, ?_⟩
  simp only [Nat.zero_mod, Nat.cast_zero] at hrun
  simp only [hsd_allpass_perform, hlen, hwi, hrun, Option.map_some']

theorem hsd_allpass_perform_nil (x : hsd_allpass α) :
    hsd_allpass_perform x [] = some (x, []) := rfl

theorem hsd_allpass_perform_append (x : hsd_allpass α) (a b : List α) :
    hsd_allpass_perform x (a ++ b)
      = (hsd_allpass_perform x a).bind fun r =>
          (hsd_allpass_perform r.1 b).map fun t => (t.1, r.2 ++ t.2) := by
  simp only [hsd_allpass_perform, dspLoop_append]
  cases dspLoop (hsd_allpass_tick x.delay_length x.g) (x.delay_line, x.write_index) a with
  | none => rfl
  | some r =>
    simp only [Option.some_bind, Option.map_some']
    cases dspLoop (hsd_allpass_tick x.delay_length x.g) r.1 b <;> rfl

/-- Whenever an iteration of the DSP loop of `hsd_allpass_perform` returns, there is a tap
value `yDL` (the interpolated delay-line output) such that `xDL = x + g*yDL` has been written
into cell `write_index` and `yDL - g*xDL` is the output. -/
theorem hsd_allpass_tick_paths (dl g : α) (buf buf' : List α) (wi wi' : Int) (inp o : α)
    (h : hsd_allpass_tick dl g (buf, wi) inp = some ((buf', wi'), o)) :
    ∃ yDL, buf' = buf.set wi.toNat (inp + g * yDL) ∧ o = yDL - g * (inp + g * yDL) := by
  simp only [hsd_allpass_tick, Option.pure_def, Option.bind_eq_bind, Option.bind_eq_some,
    Option.some.injEq, Prod.mk.injEq] at h
  obtain ⟨r, -, s1, -, i2, -, s2, -, l, hl, ⟨rfl, -⟩, rfl⟩ := h
  refine ⟨s1 + (dl - (truncToInt dl : α)) * (s2 - s1), ?_, by ring⟩
  unfold store at hl
  split at hl
  · simp only [Option.some.injEq] at hl
    rw [← hl]
    congr 1
    ring
  · cases hl

/-- C6: in `hsd_allpass~` every iteration that returns has a tap value `yDL` with which it
writes `xDL = x + g*yDL` into the line and outputs `yDL - g*xDL`; for an integer
`delay_length = D`, `0 ≤ write_index < D ≤ capacity`, the iteration returns and `yDL` is the
cell under the write index; so for an integer
`delay_length = D` with `1 ≤ D ≤ capacity`, from a zeroed line with `write_index = 0`,
`hsd_allpass_perform` run over the blocks of any input returns and its concatenated output is
`y(n) = -g*x(n)` for `n < D` and `y(n) = -g*x(n) + x(n-D) + g*y(n-D)` for `n ≥ D`. -/
theorem hsd_allpass_difference_equation (x : hsd_allpass α) (D : Nat)
    (blocks : List (List α)) (buf : List α) (wi : Int) (inp yDL : α)
    (hD : 1 ≤ D) (hcap : D ≤ x.delay_line.length) (hlen : x.delay_length = (D : α))
    (hzero : ∀ c ∈ x.delay_line, c = 0) (hwi : x.write_index = 0)
    (h0 : 0 ≤ wi) (h1 : wi < D) (hbuf : D ≤ buf.length) (htap : buf.get? wi.toNat = some yDL) :
    (∀ (dl : α) (b b' : List α) (w w' : Int) (i o : α),
        hsd_allpass_tick dl x.g (b, w) i = some ((b', w'), o) →
        ∃ tap, b' = b.set w.toNat (i + x.g * tap) ∧ o = tap - x.g * (i + x.g * tap))
      ∧ hsd_allpass_tick x.delay_length x.g (buf, wi) inp
        = some ((buf.set wi.toNat (inp + x.g * yDL), if wi + 1 = (D : Int) then 0 else wi + 1),
            yDL - x.g * (inp + x.g * yDL))
      ∧ ∃ y out, performBlocks hsd_allpass_perform x blocks = some (y, out)
        ∧ out.length = blocks.flatten.length
        ∧ ∀ n, n < out.length →
            out.getD n 0 = if n < D then -x.g * blocks.flatten.getD n 0
              else -x.g * blocks.flatten.getD n 0 + blocks.flatten.getD (n - D) 0
                + x.g * out.getD (n - D) 0 := by
  refine ⟨fun dl b b' w w' i o h => hsd_allpass_tick_paths dl x.g b b' w w' i o h, ?_, ?_⟩
  · rw [hlen, hsd_allpass_tick_eq D x.g hD buf wi inp yDL h0 h1 hbuf htap]
    have e1 : inp + yDL * x.g = inp + x.g * yDL := by ring
    have e2 : yDL + -x.g * (inp + x.g * yDL) = yDL - x.g * (inp + x.g * yDL) := by ring
    rw [e1, e2]
  rw [performBlocks_eq_flatten hsd_allpass_perform hsd_allpass_perform_nil
    hsd_allpass_perform_append]
  obtain ⟨y, hy⟩ := hsd_allpass_perform_ring x D (fun i => blocks.flatten.getD i 0)
    blocks.flatten.length hD hcap hlen hzero hwi
  rw [← list_eq_map_range'] at hy
  refine ⟨y, _, hy, by simp, ?_⟩
  intro n hn
  simp only [List.length_map, List.length_range'] at hn
  rw [getD_map_range' _ _ _ _ hn]
  by_cases h : n < D
  · rw [if_pos h, ringTap_lt _ _ _ _ h]
    ring
  · rw [if_neg h, ringTap_ge _ _ _ _ hD (by omega), getD_map_range' _ _ _ _ (by omega)]
    ring

/-- Witness of C6: a three-cell line with `delay_length = 2`, gain `1/2`, two blocks. -/
theorem hsd_allpass_difference_equation_witness :
    ∃ y out, performBlocks (hsd_allpass_perform (α := ℚ))
        ⟨20, 3, 12, [0, 0, 0], 50, 2, 0, 0, 1 / 2⟩ [[1, 0], [0, 0, 0]] = some (y, out)
      ∧ out.length = [[(1 : ℚ), 0], [0, 0, 0]].flatten.length
      ∧ ∀ n, n < out.length →
          out.getD n 0 = if n < 2 then -(1 / 2) * [[(1 : ℚ), 0], [0, 0, 0]].flatten.getD n 0
            else -(1 / 2) * [[(1 : ℚ), 0], [0, 0, 0]].flatten.getD n 0
              + [[(1 : ℚ), 0], [0, 0, 0]].flatten.getD (n - 2) 0 + 1 / 2 * out.getD (n - 2) 0 :=
  (hsd_allpass_difference_equation (α := ℚ) ⟨20, 3, 12, [0, 0, 0], 50, 2, 0, 0, 1 / 2⟩ 2
    [[1, 0], [0, 0, 0]] [5, 7, 0] 1 3 7 (by decide) (by decide) (by norm_num) (by simp) rfl
    (by decide) (by decide) (by decide) rfl).2.2

end RingTheorems

/-! ## hsd_delay~, hsd_vibrato~, hsd_chorus~: the delayed tap -/

section TapTheorems

set_option linter.unusedSectionVars false

variable {α : Type} [LinearOrderedField α] [FloorRing α]

theorem wrapped_eq_emod (len r : Int) (h1 : r < len) :
    (if r < 0 then r % len else r) = r % len := by
  split
  · rfl
  · exact (Int.emod_eq_of_lt (by omega) h1).symm

theorem lag_index (n d L : Nat) (hL : d + 1 ≤ L) :
    (((n % L : Nat) : Int) - (d : Int) - 1) % (L : Int) = (((n + L - (d + 1)) % L : Nat) : Int) := by
  have e : ((n + L - (d + 1) : Nat) : Int) = (n : Int) - (d + 1) + L := by
    rw [Nat.cast_sub (by omega)]; push_cast; ring
  rw [Int.natCast_mod, Int.natCast_mod, e, Int.add_emod_self, sub_sub, Int.sub_emod,
    Int.emod_emod_of_dvd _ (dvd_refl _), ← Int.sub_emod]

theorem succ_index (n L : Nat) :
    (((n % L : Nat) : Int) + 1) % (L : Int) = (((n + 1) % L : Nat) : Int) := by
  rw [Int.natCast_mod, Int.natCast_mod, Int.emod_add_emod]
  push_cast
  rfl

/-- The DSP loop of `hsd_delay_perform` with `delay_length = d` on a line of `L ≥ d + 1` cells,
run from sample `n` for `k` samples of the signal `sig`, the cell written `j` samples ago
(`1 ≤ j ≤ L`) holding `sig (n - j)` (or the initial `0`): the output at sample `i` is
`sig (i - (d + 1))`, the input `d + 1` samples back. -/
theorem hsd_delay_lag_loop (d L : Nat) (hL : d + 1 ≤ L) (sig : Nat → α) :
    ∀ (k n : Nat) (buf : List α), buf.length = L →
      (∀ j, 1 ≤ j → j ≤ L →
        buf.get? ((n + L - j) % L) = some (if j ≤ n then sig (n - j) else 0)) →
      ∃ buf', dspLoop (hsd_delay_tick (d : Int) (L : Int)) (buf, ((n % L : Nat) : Int))
            ((List.range' n k).map sig)
          = some ((buf', (((n + k) % L : Nat) : Int)),
              (List.range' n k).map fun i => if d + 1 ≤ i then sig (i - (d + 1)) else 0)
        ∧ buf'.length = L := by
  intro k
  induction k with
  | zero =>
    intro n buf hlen _
    exact ⟨buf, rfl, hlen⟩
  | succ k ih =>
    intro n buf hlen hinv
    have hlt : n % L < L := Nat.mod_lt _ (by omega)
    have ht := hsd_delay_tick_eq (α := α) (d : Int) (L : Int) buf ((n % L : Nat) : Int) (sig n)
      (by rw [hlen]) (by omega) (by exact_mod_cast hlt) (by omega)
    rw [wrapped_eq_emod _ _ (by omega), lag_index n d L hL, succ_index] at ht
    simp only [Int.toNat_ofNat] at ht
    have hv := hinv (d + 1) (by omega) hL
    rw [List.getD_eq_getElem?_getD, ← List.get?_eq_getElem?, hv, Option.getD_some] at ht
    have hinv' : ∀ j, 1 ≤ j → j ≤ L →
        (buf.set (n % L) (sig n)).get? ((n + 1 + L - j) % L)
          = some (if j ≤ n + 1 then sig (n + 1 - j) else 0) := by
      intro j h1 h2
      by_cases hj : j = 1
      · subst hj
        rw [show n + 1 + L - 1 = n + L by omega, Nat.add_mod_right, List.get?_eq_getElem?,
          List.getElem?_set_self (by omega), if_pos (by omega), Nat.add_sub_cancel]
      · have hne : n % L ≠ (n + 1 + L - j) % L :=
          (mod_ne_of_between n (n + 1 + L - j) L (by omega) (by omega)).symm
        rw [List.get?_eq_getElem?, List.getElem?_set_ne hne, ← List.get?_eq_getElem?,
          show n + 1 + L - j = n + L - (j - 1) by omega, hinv (j - 1) (by omega) (by omega)]
        by_cases hjn : j ≤ n + 1
        · rw [if_pos hjn, if_pos (by omega), show n - (j - 1) = n + 1 - j by omega]
        · rw [if_neg hjn, if_neg (by omega)]
    obtain ⟨buf', hrun, hlen'⟩ := ih (n + 1) _ (by simpa using hlen) hinv'
    refine ⟨buf', ?_, hlen'⟩
    simp only [List.range'_succ, List.map_cons, dspLoop, ht, Option.some_bind, hrun,
      Option.map_some']
    rw [show n + 1 + k = n + (k + 1) by omega]

/-- What `hsd_delay_perform` computes from the reset state: with an integer
`delay_length = d` and `d + 1 ≤ capacity`, the output is the input delayed by `d + 1`
samples. -/
theorem hsd_delay_perform_lag (x : hsd_delay α) (d L : Nat) (sig : Nat → α) (N : Nat)
    (hL : d + 1 ≤ L) (hcap : x.delay_line_length = (L : α)) (hline : x.delay_line.length = L)
    (hd : x.delay_length = (d : α)) (hzero : ∀ c ∈ x.delay_line, c = 0)
    (hwi : x.write_index = 0) :
    ∃ y, hsd_delay_perform x ((List.range' 0 N).map sig)
      = some (y, (List.range' 0 N).map fun i => if d + 1 ≤ i then sig (i - (d + 1)) else 0) := by
  have hinv : ∀ j, 1 ≤ j → j ≤ L →
      x.delay_line.get? ((0 + L - j) % L) = some (if j ≤ 0 then sig (0 - j) else 0) := by
    intro j h1 h2
    have hlt : (0 + L - j) % L < x.delay_line.length := by
      rw [hline]; exact Nat.mod_lt _ (by omega)
    rw [if_neg (by omega), List.get?_eq_getElem?, List.getElem?_eq_getElem hlt]
    exact congrArg some (hzero _ (List.getElem_mem _))
  obtain ⟨buf', hrun, -⟩ := hsd_delay_lag_loop d L hL sig N 0 x.delay_line hline hinv
  refine ⟨{ x with delay_line := buf', write_index := (((0 + N) % L : Nat) : Int) }, ?_⟩
  simp only [Nat.zero_mod, Nat.cast_zero] at hrun
  simp only [hsd_delay_perform, hd, hcap, truncToInt_natCast, hwi, hrun, Option.map_some']

theorem hsd_delay_perform_nil (x : hsd_delay α) : hsd_delay_perform x [] = some (x, []) := rfl

theorem hsd_delay_perform_append (x : hsd_delay α) (a b : List α) :
    hsd_delay_perform x (a ++ b)
      = (hsd_delay_perform x a).bind fun r =>
          (hsd_delay_perform r.1 b).map fun t => (t.1, r.2 ++ t.2) := by
  simp only [hsd_delay_perform, dspLoop_append]
  cases dspLoop (hsd_delay_tick (truncToInt x.delay_length) (truncToInt x.delay_line_length))
      (x.delay_line, x.write_index) a with
  | none => rfl
  | some r =>
    simp only [Option.some_bind, Option.map_some']
    cases dspLoop (hsd_delay_tick (truncToInt x.delay_length)
      (truncToInt x.delay_line_length)) r.1 b <;> rfl

/-- The impulse response of `hsd_delay~` from the reset state, for an integer
`delay_length = d` with `d + 1 ≤ capacity` and the unit impulse fed in blocks of any sizes:
the output is `1` at sample index `d + 1` and `0` at every other index. -/
theorem hsd_delay_impulse_response (x : hsd_delay α) (d L N : Nat) (blocks : List (List α))
    (hblocks : blocks.flatten = (List.range' 0 N).map impulse)
    (hL : d + 1 ≤ L) (hcap : x.delay_line_length = (L : α)) (hline : x.delay_line.length = L)
    (hd : x.delay_length = (d : α)) (hzero : ∀ c ∈ x.delay_line, c = 0)
    (hwi : x.write_index = 0) :
    ∃ y out, performBlocks hsd_delay_perform x blocks = some (y, out)
      ∧ out.length = N
      ∧ ∀ n, n < N → out.getD n 0 = if n = d + 1 then 1 else 0 := by
  rw [performBlocks_eq_flatten hsd_delay_perform hsd_delay_perform_nil
    hsd_delay_perform_append, hblocks]
  obtain ⟨y, hy⟩ := hsd_delay_perform_lag x d L impulse N hL hcap hline hd hzero hwi
  refine ⟨y, _, hy, by simp, ?_⟩
  intro n hn
  rw [getD_map_range' _ _ _ _ hn]
  by_cases h : n = d + 1
  · subst h
    simp [impulse]
  · by_cases h2 : d + 1 ≤ n
    · have : n - (d + 1) ≠ 0 := by omega
      simp [impulse, h, h2, this]
    · simp [h, h2]

/-- C1 at a three-cell line with `delay_length = 1` in the reset state: the unit impulse comes
out at sample index 2, not at sample index 1. -/
theorem hsd_delay_impulse_example :
    hsd_delay_perform (α := ℚ) ⟨20, 3, 12, [0, 0, 0], 50, 1, 0, 0⟩ [1, 0, 0]
      = some (⟨20, 3, 12, [1, 0, 0], 50, 1, 0, 0⟩, [0, 0, 1]) := by
  have e3 : truncToInt (3 : ℚ) = 3 := by simpa using truncToInt_intCast (α := ℚ) 3
  have t0 : hsd_delay_tick (α := ℚ) 1 3 ([0, 0, 0], 0) 1 = some (([1, 0, 0], 1), 0) := by
    rw [hsd_delay_tick_eq 1 3 [0, 0, 0] 0 1 rfl (by decide) (by decide) (by decide)]
    rfl
  have t1 : hsd_delay_tick (α := ℚ) 1 3 ([1, 0, 0], 1) 0 = some (([1, 0, 0], 2), 0) := by
    rw [hsd_delay_tick_eq 1 3 [1, 0, 0] 1 0 rfl (by decide) (by decide) (by decide)]
    rfl
  have t2 : hsd_delay_tick (α := ℚ) 1 3 ([1, 0, 0], 2) 0 = some (([1, 0, 0], 0), 1) := by
    rw [hsd_delay_tick_eq 1 3 [1, 0, 0] 2 0 rfl (by decide) (by decide) (by decide)]
    rfl
  simp only [hsd_delay_perform, truncToInt_one, e3, dspLoop, t0, t1, t2, Option.some_bind,
    Option.map_some']

/-- The interpolated read on a line that holds a ramp (the cell written `k` samples ago holds
`c - k*s`, `1 ≤ k ≤ capacity`), for `delay_length = idelay + fraction` with `1 ≤ idelay` and
`idelay + 1 ≤ capacity`: the value read is `c - (idelay + 1 - fraction)*s`. -/
theorem interpolated_read_ramp (buf : List α) (L wi : Int) (c s dl : α)
    (h1 : wi < L)
    (hramp : ∀ k : Int, 1 ≤ k → k ≤ L → load buf ((wi - k) % L) = some (c - (k : α) * s))
    (hdl : 1 ≤ dl) (hcap : truncToInt dl + 1 ≤ L) :
    interpolated_read buf L wi dl
      = some (c - ((truncToInt dl : α) + 1 - (dl - (truncToInt dl : α))) * s) := by
  have hi : 1 ≤ truncToInt dl := one_le_truncToInt dl hdl
  have hL : 0 < L := by omega
  have r1 := hramp (truncToInt dl) hi (by omega)
  have r2 := hramp (truncToInt dl + 1) (by omega) hcap
  rw [← sub_sub] at r2
  simp only [interpolated_read, wrapIndex_of_pos L hL, wrapped_eq_emod L _ (show
    wi - truncToInt dl < L by omega), wrapped_eq_emod L _ (show
    wi - truncToInt dl - 1 < L by omega), Option.pure_def, Option.bind_eq_bind,
    Option.some_bind, r1, r2, Option.some.injEq]
  push_cast
  ring

/-- C2 at a four-cell line holding the ramp `4 - k` (`c = 4`, `s = 1`) with write index `0`
and `delay_length = 2` (the value of the LFO-modulated delay of `hsd_vibrato_perform` for
`depth = 0`): the interpolated read, and with it the output sample of an iteration of
`hsd_vibrato_perform` and (with `wet = 1`, `dry = 0`) of each channel of `hsd_chorus_perform`,
is `1 = c - 3*s`, not `c - 2*s = 2`. -/
theorem interpolated_read_ramp_example :
    interpolated_read (α := ℚ) [0, 1, 2, 3] 4 0 2 = some 1
      ∧ (∀ (sin : ℚ → ℚ) (cycle_length phase input : ℚ),
          (hsd_vibrato_tick sin 4 0 cycle_length 0 ([0, 1, 2, 3], 0, phase) input).map
            (fun r => r.2) = some 1)
      ∧ ∀ (sin : ℚ → ℚ) (cycle_length phase input_left input_right : ℚ),
          (hsd_chorus_tick sin 4 0 0 cycle_length 0 1
              ⟨[0, 1, 2, 3], [0, 1, 2, 3], 0, 0, phase⟩ (input_left, input_right)).map
            (fun r => r.2) = some (1, 1) := by
  have hread : interpolated_read (α := ℚ) [0, 1, 2, 3] 4 0 2 = some 1 := by
    have e : truncToInt (2 : ℚ) = 2 := truncToInt_two
    have w1 : wrapIndex 4 (0 - 2) = some 2 := by decide
    have w2 : wrapIndex 4 (0 - 2 - 1) = some 1 := by decide
    simp only [interpolated_read, e, w1, w2, Option.pure_def, Option.bind_eq_bind,
      Option.some_bind]
    norm_num [load]
  refine ⟨hread, ?_, ?_⟩
  · intro sin cycle_length phase input
    simp only [hsd_vibrato_tick, zero_mul, zero_add, hread, Option.pure_def,
      Option.bind_eq_bind, Option.some_bind]
    norm_num [store]
  · intro sin cycle_length phase input_left input_right
    simp only [hsd_chorus_tick, zero_mul, zero_add, hread, Option.pure_def,
      Option.bind_eq_bind, Option.some_bind]
    norm_num [store]

end TapTheorems

/-! ## Biquad: the direct-form-II iteration and the coefficient formulas -/

section BiquadTheorems

set_option linter.unusedSectionVars false

variable {α : Type} [LinearOrderedField α] [FloorRing α]

/-- C7: one iteration of `hsd_biquad_perform` (with `calculating_flag = 0`) and one iteration
of `hsd_biquad_engine_perform` both compute `u = x - a1*z1 - a2*z2`, output
`b0*u + b1*z1 + b2*z2` and leave `(z1, z2) = (u, old z1)`; with equal coefficients and equal
initial state the two perform routines give the same output vector and the same final
`z1`, `z2`. -/
theorem hsd_biquad_perform_eq_engine (x : hsd_biquad α) (e : hsd_biquad_engine α)
    (z1 z2 inp : α) (input : List α)
    (hflag : x.calculating_flag = 0)
    (hcoeffs : x.coeffs = ⟨e.b0, e.b1, e.b2, e.a1, e.a2⟩)
    (hz1 : x.z1 = e.z1) (hz2 : x.z2 = e.z2) :
    hsd_biquad_tick x.calculating_flag x.coeffs x.oldcoeffs (z1, z2) inp
        = ((inp - e.a1 * z1 - e.a2 * z2, z1),
            e.b0 * (inp - e.a1 * z1 - e.a2 * z2) + e.b1 * z1 + e.b2 * z2)
      ∧ hsd_biquad_engine_tick e (z1, z2) inp
        = ((inp - e.a1 * z1 - e.a2 * z2, z1),
            e.b0 * (inp - e.a1 * z1 - e.a2 * z2) + e.b1 * z1 + e.b2 * z2)
      ∧ (hsd_biquad_perform x input).2 = (hsd_biquad_engine_perform e input).2
      ∧ (hsd_biquad_perform x input).1.z1 = (hsd_biquad_engine_perform e input).1.z1
      ∧ (hsd_biquad_perform x input).1.z2 = (hsd_biquad_engine_perform e input).1.z2 := by
  have htick : ∀ (z : α × α) (i : α),
      hsd_biquad_tick x.calculating_flag x.coeffs x.oldcoeffs z i
        = hsd_biquad_engine_tick e z i := by
    intro z i
    simp [hsd_biquad_tick, hsd_biquad_engine_tick, hflag, hcoeffs]
  have hloop := dspLoopT_congr _ _ htick (e.z1, e.z2) input
  refine ⟨?_, ?_, ?_, ?_, ?_⟩
  · rw [htick]; rfl
  · rfl
  · simp only [hsd_biquad_perform, hsd_biquad_engine_perform, hz1, hz2, hloop]
  · simp only [hsd_biquad_perform, hsd_biquad_engine_perform, hz1, hz2, hloop]
  · simp only [hsd_biquad_perform, hsd_biquad_engine_perform, hz1, hz2, hloop]

/-- Witness of C7 at the coefficients `(1, 2, 3, 4, 5)`, state `(1, 1)` and the block
`[1, 0]`. -/
theorem hsd_biquad_perform_eq_engine_witness :
    (hsd_biquad_perform (α := ℚ)
        ⟨44100, 1, 1, "lowpass", 0, 300, 1, ⟨1, 2, 3, 4, 5⟩, ⟨0, 0, 0, 0, 0⟩, 0⟩ [1, 0]).2
      = (hsd_biquad_engine_perform (α := ℚ) ⟨1, 1, 1, 2, 3, 4, 5⟩ [1, 0]).2 :=
  (hsd_biquad_perform_eq_engine (α := ℚ)
    ⟨44100, 1, 1, "lowpass", 0, 300, 1, ⟨1, 2, 3, 4, 5⟩, ⟨0, 0, 0, 0, 0⟩, 0⟩
    ⟨1, 1, 1, 2, 3, 4, 5⟩ 0 0 0 [1, 0] rfl rfl rfl rfl).2.2.1


/-- C8: for `typenumber = 0` (lowpass) and `K > 0`, `Q > 0`, where `K` is the value of
`tanf(M_PI * frequency / sr)` and `Q` the resonance, `hsd_biquad_calculate_coeffs` stores, with
`D = K^2*Q + K + Q`, the coefficients `b0 = K^2*Q/D`, `b1 = 2*K^2*Q/D`, `b2 = K^2*Q/D`,
`a1 = 2*Q*(K^2-1)/D`, `a2 = (K^2*Q - K + Q)/D`; for `K = 1` these are `b0 = b2 = Q/(2Q+1)`,
`b1 = 2Q/(2Q+1)`, `a1 = 0`, `a2 = (2Q-1)/(2Q+1)`. -/
theorem hsd_biquad_lowpass_coeffs (tanf : α → α) (M_PI : α) (x : hsd_biquad α) (K Q : α)
    (htype : x.typenumber = 0) (hK : tanf (M_PI * x.frequency / x.sr) = K)
    (hQ : x.resonance = Q) (hKpos : 0 < K) (hQpos : 0 < Q) :
    (hsd_biquad_calculate_coeffs tanf M_PI x).coeffs
        = ⟨K ^ 2 * Q / (K ^ 2 * Q + K + Q), 2 * K ^ 2 * Q / (K ^ 2 * Q + K + Q),
            K ^ 2 * Q / (K ^ 2 * Q + K + Q), 2 * Q * (K ^ 2 - 1) / (K ^ 2 * Q + K + Q),
            (K ^ 2 * Q - K + Q) / (K ^ 2 * Q + K + Q)⟩
      ∧ (K = 1 → (hsd_biquad_calculate_coeffs tanf M_PI x).coeffs
        = ⟨Q / (2 * Q + 1), 2 * Q / (2 * Q + 1), Q / (2 * Q + 1), 0,
            (2 * Q - 1) / (2 * Q + 1)⟩) := by
  have hD : K ^ 2 * Q + K + Q ≠ 0 := by positivity
  have hD1 : K * K * Q + K + Q ≠ 0 := by positivity
  have hmain : (hsd_biquad_calculate_coeffs tanf M_PI x).coeffs
        = ⟨K ^ 2 * Q / (K ^ 2 * Q + K + Q), 2 * K ^ 2 * Q / (K ^ 2 * Q + K + Q),
            K ^ 2 * Q / (K ^ 2 * Q + K + Q), 2 * Q * (K ^ 2 - 1) / (K ^ 2 * Q + K + Q),
            (K ^ 2 * Q - K + Q) / (K ^ 2 * Q + K + Q)⟩ := by
    simp only [hsd_biquad_calculate_coeffs, biquad_switch, htype, hK, hQ, truncToInt_zero,
      if_true, Coeffs.mk.injEq]
    refine ⟨?_, ?_, ?_, ?_, ?_⟩ <;> field_simp <;> ring
  refine ⟨hmain, ?_⟩
  intro h1
  rw [hmain]
  subst h1
  have e : (1 : α) ^ 2 * Q + 1 + Q = 2 * Q + 1 := by ring
  simp only [Coeffs.mk.injEq, e]
  refine ⟨?_, ?_, ?_, ?_, ?_⟩ <;> ring

/-- Witness of C8 at `sr = 44100`, `frequency = 11025 = sr/4`, `resonance = 0.707`, with the
real tangent and `π`: `K = tan(π/4) = 1`. -/
theorem hsd_biquad_lowpass_coeffs_witness :
    (hsd_biquad_calculate_coeffs Real.tan Real.pi
        ⟨44100, 0, 0, "lowpass", 0, 11025, 707 / 1000, ⟨0, 0, 0, 0, 0⟩, ⟨0, 0, 0, 0, 0⟩,
          0⟩).coeffs
      = ⟨707 / 1000 / (2 * (707 / 1000) + 1), 2 * (707 / 1000) / (2 * (707 / 1000) + 1),
          707 / 1000 / (2 * (707 / 1000) + 1), 0,
          (2 * (707 / 1000) - 1) / (2 * (707 / 1000) + 1)⟩ :=
  (hsd_biquad_lowpass_coeffs Real.tan Real.pi
    ⟨44100, 0, 0, "lowpass", 0, 11025, 707 / 1000, ⟨0, 0, 0, 0, 0⟩, ⟨0, 0, 0, 0, 0⟩, 0⟩
    1 (707 / 1000) rfl
    (by rw [show Real.pi * 11025 / 44100 = Real.pi / 4 by ring, Real.tan_pi_div_four])
    rfl (by norm_num) (by norm_num)).2 rfl

/-- C10: `hsd_svf_frequency` with `freq` the argument clamped to `[20, 20000]` and
`f1 = 2*sin(PI*freq/sr)`: when `f1 ≥ 2 - Q1` the state is unchanged (so are `F1`, `fc`, `Q1`);
otherwise `F1 = f1`, `fc = freq` and everything else is unchanged; `Q1` is unchanged in both
cases. -/
theorem hsd_svf_frequency_spec (sin : α → α) (x : hsd_svf α) (f : α) :
    hsd_svf_frequency sin x f
        = (if 2 * sin (svf_PI * (min (max f 20) 20000) / x.sr) ≥ 2 - x.Q1 then x
          else { x with F1 := 2 * sin (svf_PI * (min (max f 20) 20000) / x.sr),
                        fc := min (max f 20) 20000 })
      ∧ (hsd_svf_frequency sin x f).Q1 = x.Q1 := by
  have hclamp : (if (if f < 20 then 20 else f) > 20000 then (20000 : α)
      else (if f < 20 then 20 else f)) = min (max f 20) 20000 := by
    by_cases h1 : f < 20
    · have h3 : ¬ (20 : α) > 20000 := by norm_num
      rw [if_pos h1, if_neg h3, max_eq_right h1.le, min_eq_left (by norm_num)]
    · have h1' : 20 ≤ f := not_lt.mp h1
      have : max f 20 = f := max_eq_left h1'
      rw [this]
      by_cases h2 : f > 20000
      · simp [h1, h2, min_eq_right (le_of_lt h2)]
      · simp [h1, h2, min_eq_left (not_lt.mp h2)]
  unfold hsd_svf_frequency
  simp only [hclamp]
  by_cases h : 2 * sin (svf_PI * (min (max f 20) 20000) / x.sr) ≥ 2 - x.Q1
  · rw [if_neg (not_lt.mpr h), if_pos h]
    exact ⟨rfl, rfl⟩
  · rw [if_pos (not_le.mp h), if_neg h]
    exact ⟨rfl, rfl⟩

/-- The bandpass branch of the switch: `b2 = -b1 = 0`. -/
theorem biquad_switch_bandpass (K Q omega : α) :
    biquad_switch 2 K Q omega
      = ⟨K * omega, 0, 0, 2 * Q * (K * K - 1) * omega, (K * K * Q - K + Q) * omega⟩ := by
  simp [biquad_switch]

/-- C9 at `sr = 44100`, `frequency = 11025 = sr/4` (`K = tan(π/4) = 1`), `resonance = 1`,
type bandpass: `hsd_biquad_calculate_coeffs` and `hsd_biquad_coefficients_calculate_coeffs`
give `b0 = 1/3`, `b1 = 0`, `b2 = 0` (not `-b0 = -1/3`), `a1 = 0`, `a2 = 1/3`, so
`b0 + b1 + b2 = 1/3`. -/
theorem hsd_biquad_bandpass_example :
    (hsd_biquad_calculate_coeffs Real.tan Real.pi
        ⟨44100, 0, 0, "bandpass", 2, 11025, 1, ⟨0, 0, 0, 0, 0⟩, ⟨0, 0, 0, 0, 0⟩, 0⟩).coeffs
        = ⟨1 / 3, 0, 0, 0, 1 / 3⟩
      ∧ hsd_biquad_coefficients_calculate_coeffs Real.tan Real.pi
          ⟨44100, "bandpass", 2, 11025, 1⟩ = ⟨1 / 3, 0, 0, 0, 1 / 3⟩ := by
  have hK : Real.tan (Real.pi * 11025 / 44100) = 1 := by
    rw [show Real.pi * 11025 / 44100 = Real.pi / 4 by ring, Real.tan_pi_div_four]
  have e : truncToInt (2 : ℝ) = 2 := truncToInt_two
  constructor
  · simp only [hsd_biquad_calculate_coeffs, hK, e, biquad_switch]
    norm_num
  · simp only [hsd_biquad_coefficients_calculate_coeffs, hK, e, biquad_switch]
    norm_num

end BiquadTheorems

/-! ## hsd_svf~ and hsd_comblp~: the stability constraints -/

section StabilityTheorems

set_option linter.unusedSectionVars false

variable {α : Type} [LinearOrderedField α] [FloorRing α]

theorem hsd_svf_frequency_stable (sin : α → α) (x : hsd_svf α) (f : α)
    (h : x.F1 < 2 - x.Q1) :
    (hsd_svf_frequency sin x f).F1 < 2 - (hsd_svf_frequency sin x f).Q1 := by
  unfold hsd_svf_frequency
  simp only
  generalize (if (if f < 20 then 20 else f) > 20000 then (20000 : α)
    else (if f < 20 then 20 else f)) = freq
  by_cases hc : 2 * sin (svf_PI * freq / x.sr) < 2 - x.Q1
  · rw [if_pos hc]
    exact hc
  · rw [if_neg hc]
    exact h

theorem hsd_svf_resonance_stable (x : hsd_svf α) (f : α) (h : x.F1 < 2 - x.Q1) :
    (hsd_svf_resonance x f).F1 < 2 - (hsd_svf_resonance x f).Q1 := by
  unfold hsd_svf_resonance
  simp only
  generalize (if (if f < 1 / 2 then 1 / 2 else f) > 50 then (50 : α)
    else (if f < 1 / 2 then 1 / 2 else f)) = res
  by_cases hc : x.F1 < 2 - 1 / res
  · rw [if_pos hc]
    exact hc
  · rw [if_neg hc]
    exact h

theorem hsd_svf_new_stable (sin : α → α) (sr : α) (argv : List (t_atom α)) :
    (hsd_svf_new sin sr argv).F1 < 2 - (hsd_svf_new sin sr argv).Q1 := by
  have h0 : (⟨sr, 0, 0, 0, 0, 0⟩ : hsd_svf α).F1 < 2 - (⟨sr, 0, 0, 0, 0, 0⟩ : hsd_svf α).Q1 := by
    norm_num
  unfold hsd_svf_new
  simp only
  by_cases h2 : argv.length ≥ 2 <;> by_cases h1 : argv.length ≥ 1
  · rw [if_pos h2, if_pos h1]
    exact hsd_svf_frequency_stable sin _ _ (hsd_svf_resonance_stable _ _ h0)
  · omega
  · rw [if_neg h2, if_pos h1]
    exact hsd_svf_frequency_stable sin _ _ h0
  · rw [if_neg h2, if_neg h1]
    exact h0

/-- C11: the stability condition `F1 < 2 - Q1` holds in every state of `hsd_svf~` reachable
from `hsd_svf_new` (any creation arguments and sample rate, object memory zero-filled) through
any sequence of `hsd_svf_frequency`, `hsd_svf_resonance`, `hsd_svf_bang`, `hsd_svf_dsp` and
`hsd_svf_perform`. -/
theorem hsd_svf_stability_invariant (sin : α → α) (x : hsd_svf α)
    (hx : hsd_svf_reachable sin x) : x.F1 < 2 - x.Q1 := by
  induction hx with
  | new sr argv => exact hsd_svf_new_stable sin sr argv
  | frequency x f _ ih => exact hsd_svf_frequency_stable sin x f ih
  | resonance x f _ ih => exact hsd_svf_resonance_stable x f ih
  | bang x _ ih => exact ih
  | dsp x s_sr _ ih =>
    unfold hsd_svf_dsp
    split
    · exact hsd_svf_frequency_stable sin _ _ ih
    · exact ih
  | perform x input _ ih => exact ih

/-- Witness of C11: the object created at sample rate 44100 with the arguments `1000 0.7`,
then set to resonance 50, sent a frequency of 30000 Hz, and run on a block. -/
theorem hsd_svf_stability_invariant_witness :
    (hsd_svf_perform (hsd_svf_frequency Real.sin (hsd_svf_resonance
        (hsd_svf_new Real.sin 44100 [t_atom.A_FLOAT 1000, t_atom.A_FLOAT (7 / 10)]) 50)
        30000) [1, 0]).1.F1
      < 2 - (hsd_svf_perform (hsd_svf_frequency Real.sin (hsd_svf_resonance
        (hsd_svf_new Real.sin 44100 [t_atom.A_FLOAT 1000, t_atom.A_FLOAT (7 / 10)]) 50)
        30000) [1, 0]).1.Q1 :=
  hsd_svf_stability_invariant Real.sin _
    (hsd_svf_reachable.perform _ _ (hsd_svf_reachable.frequency _ _
      (hsd_svf_reachable.resonance _ _ (hsd_svf_reachable.new _ _))))

/-- The zeroing loop runs through whenever the cells `i .. i + k - 1` are allocated. -/
theorem zeroLoop_some : ∀ (k i : Nat) (buf : List α), i + k ≤ buf.length →
    ∃ buf', zeroLoop k (i : Int) buf = some buf' ∧ buf'.length = buf.length := by
  intro k
  induction k with
  | zero => intro i buf _; exact ⟨buf, rfl, rfl⟩
  | succ k ih =>
    intro i buf h
    have hs : store buf (i : Int) 0 = some (buf.set i 0) := by
      have := store_of_lt buf (i : Int) 0 (by omega) (by omega)
      simpa using this
    obtain ⟨buf', h1, h2⟩ := ih (i + 1) (buf.set i 0) (by simpa using by omega)
    refine ⟨buf', ?_, by simpa using h2⟩
    rw [zeroLoop, hs, Option.some_bind]
    exact_mod_cast h1

theorem zeroLoop_replicate (n : Nat) :
    ∃ buf, zeroLoop n 0 (List.replicate n (0 : α)) = some buf ∧ buf.length = n := by
  obtain ⟨buf, h1, h2⟩ := zeroLoop_some n 0 (List.replicate n (0 : α)) (by simp)
  exact ⟨buf, by simpa using h1, by simpa using h2⟩

/-- C12 at the creation arguments `30 0.5 0.6` (delay time 30 ms, feedback `g1 = 0.5`,
lowpass gain `g2 = 0.6`), at any sample rate: `hsd_comblp_new` stores `g1 = 0.5` and
`g2 = 0.999`, so `g1 + g2 = 1.499`, not `< 1`. -/
theorem hsd_comblp_new_example :
    ∀ sr : ℚ, ∃ x, hsd_comblp_new sr
        [t_atom.A_FLOAT 30, t_atom.A_FLOAT (1 / 2), t_atom.A_FLOAT (6 / 10)] true = some x
      ∧ x.feedback = 1 / 2 ∧ x.g2 = 999 / 1000 ∧ x.feedback + x.g2 = 1499 / 1000
      ∧ ¬ x.feedback + x.g2 < 1 := by
  intro sr
  obtain ⟨buf, hbuf, -⟩ := zeroLoop_replicate (α := ℚ) (truncToInt (sr * DELMAX / 1000 + 1)).toNat
  simp only [hsd_comblp_new, hbuf, if_true, Option.map_some', Option.some.injEq,
    exists_eq_left']
  norm_num [atom_getfloatarg]

/-- C13: if `0 ≤ feedback`, `0 ≤ g2` and `feedback + g2 ≤ 0.999` hold in a state of
`hsd_comblp~`, they still hold after `hsd_comblp_feedback f` and after `hsd_comblp_g2 f` for
every argument `f` (the setter changing only its own gain); so `g1 + g2 < 1` is preserved. -/
theorem hsd_comblp_setters_stable (x : hsd_comblp α) (f : α)
    (h0 : 0 ≤ x.feedback) (h1 : 0 ≤ x.g2) (h2 : x.feedback + x.g2 ≤ 999 / 1000) :
    (0 ≤ (hsd_comblp_feedback x f).feedback ∧ 0 ≤ (hsd_comblp_feedback x f).g2
        ∧ (hsd_comblp_feedback x f).feedback + (hsd_comblp_feedback x f).g2 ≤ 999 / 1000
        ∧ (hsd_comblp_feedback x f).feedback + (hsd_comblp_feedback x f).g2 < 1
        ∧ (hsd_comblp_feedback x f).g2 = x.g2)
      ∧ (0 ≤ (hsd_comblp_g2 x f).feedback ∧ 0 ≤ (hsd_comblp_g2 x f).g2
        ∧ (hsd_comblp_g2 x f).feedback + (hsd_comblp_g2 x f).g2 ≤ 999 / 1000
        ∧ (hsd_comblp_g2 x f).feedback + (hsd_comblp_g2 x f).g2 < 1
        ∧ (hsd_comblp_g2 x f).feedback = x.feedback) := by
  constructor
  · unfold hsd_comblp_feedback
    simp only
    generalize hg : (if f > 1 ∨ f < 0 then (0 : α) else f) = g
    have hg0 : 0 ≤ g := by
      rw [← hg]
      split
      · exact le_refl _
      · rename_i hc
        push_neg at hc
        exact hc.2
    by_cases hc : x.g2 + g > 999 / 1000
    · rw [if_pos hc]
      refine ⟨by linarith, h1, by linarith, by linarith, trivial⟩
    · rw [if_neg hc]
      push_neg at hc
      exact ⟨hg0, h1, by linarith, by linarith, trivial⟩
  · unfold hsd_comblp_g2
    simp only
    generalize hg : (if f > 1 ∨ f < 0 then (0 : α) else f) = g
    have hg0 : 0 ≤ g := by
      rw [← hg]
      split
      · exact le_refl _
      · rename_i hc
        push_neg at hc
        exact hc.2
    by_cases hc : g + x.feedback > 999 / 1000
    · rw [if_pos hc]
      refine ⟨h0, by linarith, by linarith, by linarith, trivial⟩
    · rw [if_neg hc]
      push_neg at hc
      exact ⟨h0, hg0, by linarith, by linarith, trivial⟩

/-- Witness of C13: the state with `feedback = 0.5`, `g2 = 0.3` and the argument `0.9`. -/
theorem hsd_comblp_setters_stable_witness :
    (hsd_comblp_feedback (α := ℚ) ⟨20, 3, 12, [0, 0, 0], 30, 2, 0, 0, 1 / 2, 3 / 10, 0⟩
        (9 / 10)).feedback
      + (hsd_comblp_feedback (α := ℚ) ⟨20, 3, 12, [0, 0, 0], 30, 2, 0, 0, 1 / 2, 3 / 10, 0⟩
        (9 / 10)).g2 < 1 :=
  (hsd_comblp_setters_stable (α := ℚ) ⟨20, 3, 12, [0, 0, 0], 30, 2, 0, 0, 1 / 2, 3 / 10, 0⟩
    (9 / 10) (by norm_num) (by norm_num) (by norm_num)).1.2.2.2.1

end StabilityTheorems

/-! ## hsd_peakf~ and hsd_rmsf~: the envelope followers -/

section EnvelopeTheorems

set_option linter.unusedSectionVars false

variable {α : Type} [LinearOrderedField α] [FloorRing α]

/-- C14: one iteration of the DSP loop of `hsd_peakf_perform` with `a = |x|` and the block's
coefficients `AT`, `RT` sets `y1` to `(1-AT)*y1 + AT*a` when `a > y1` and to `(1-RT)*y1`
otherwise and outputs the new `y1`; `hsd_peakf_perform` applies it to the first sample of a
block with `AT`, `RT` computed from `t_a`, `t_r` and goes on with the rest of the block. -/
theorem hsd_peakf_iteration (pow : α → α → α) (x : hsd_peakf α) (AT RT y1 inp : α)
    (rest : List α) :
    hsd_peakf_tick AT RT y1 inp
        = (if |inp| > y1 then (1 - AT) * y1 + AT * |inp| else (1 - RT) * y1,
            if |inp| > y1 then (1 - AT) * y1 + AT * |inp| else (1 - RT) * y1)
      ∧ (hsd_peakf_perform pow x (inp :: rest)).2
        = (hsd_peakf_tick (time_coefficient pow x.sr x.t_a) (time_coefficient pow x.sr x.t_r)
              x.xpeak_z1 inp).2
          :: (hsd_peakf_perform pow
              { x with xpeak_z1 := (hsd_peakf_tick (time_coefficient pow x.sr x.t_a)
                (time_coefficient pow x.sr x.t_r) x.xpeak_z1 inp).1 } rest).2
      ∧ (hsd_peakf_perform pow x (inp :: rest)).1
        = (hsd_peakf_perform pow
              { x with xpeak_z1 := (hsd_peakf_tick (time_coefficient pow x.sr x.t_a)
                (time_coefficient pow x.sr x.t_r) x.xpeak_z1 inp).1 } rest).1 := by
  refine ⟨rfl, rfl, rfl⟩

/-- The attack of the peak follower on the constant input 1: from the state `1 - q^m` with
`q = 1 - AT > 0`, the outputs of the next `n` iterations are `1 - q^(m+1), .., 1 - q^(m+n)`. -/
theorem hsd_peakf_attack (AT RT : α) (hq : 0 < 1 - AT) :
    ∀ (n m : Nat), dspLoopT (hsd_peakf_tick AT RT) (1 - (1 - AT) ^ m) (List.replicate n 1)
      = (1 - (1 - AT) ^ (m + n), (List.range' (m + 1) n).map fun k => 1 - (1 - AT) ^ k) := by
  intro n
  induction n with
  | zero => intro m; rfl
  | succ n ih =>
    intro m
    have hpos : 0 < (1 - AT) ^ m := pow_pos hq m
    have hgt : |(1 : α)| > 1 - (1 - AT) ^ m := by
      rw [abs_one]; linarith
    have ht : hsd_peakf_tick AT RT (1 - (1 - AT) ^ m) 1
        = (1 - (1 - AT) ^ (m + 1), 1 - (1 - AT) ^ (m + 1)) := by
      have e : (1 - AT) * (1 - (1 - AT) ^ m) + AT * |(1 : α)| = 1 - (1 - AT) ^ (m + 1) := by
        rw [abs_one, pow_succ]; ring
      simp only [hsd_peakf_tick, if_pos hgt, e]
    simp only [List.replicate_succ, dspLoopT, ht, ih (m + 1), List.range'_succ, List.map_cons]
    rw [show m + 1 + n = m + (n + 1) by omega]

theorem EULER_bound : (1 : ℝ) ≤ EULER ∧ (EULER : ℝ) ^ (-(11 : ℝ)) ≤ 5 / 100 := by
  have h1 : (1 : ℝ) ≤ EULER := by norm_num [EULER]
  refine ⟨h1, ?_⟩
  have h0 : (0 : ℝ) ≤ EULER := by linarith
  rw [Real.rpow_neg h0, show (11 : ℝ) = ((11 : Nat) : ℝ) by norm_num, Real.rpow_natCast]
  have h2 : (20 : ℝ) ≤ EULER ^ 11 := by
    have : (2 : ℝ) ≤ EULER := by norm_num [EULER]
    calc (20 : ℝ) ≤ 2 ^ 11 := by norm_num
      _ ≤ EULER ^ 11 := pow_le_pow_left₀ (by norm_num) this 11
  rw [inv_le_comm₀ (by linarith) (by norm_num)]
  norm_num
  linarith

/-- The step response of the peak follower in exact arithmetic (real numbers, no rounding):
for `sr > 0` and attack time `t_a > 0` (ms), with `N = sr*t_a*0.001` and the attack
coefficient `AT = 1 - EULER^(-2.2/N)` of the block (`EULER` the constant of the source, the
power the real one), `hsd_peakf_perform` started at `xpeak_z1 = 0` on `n` samples of the
constant input 1 outputs `1 - (1-AT)^k` at the `k`-th sample and leaves
`xpeak_z1 = 1 - (1-AT)^n`; for `n ≥ 5*N` this value lies in `[0.95, 1]`.  The binary32
recursion of the machine does not follow it for long attack times
(`hsd_peakf_step_stall`). -/
theorem hsd_peakf_step_response (x : hsd_peakf ℝ) (n : Nat)
    (hsr : 0 < x.sr) (hta : 0 < x.t_a) (hz : x.xpeak_z1 = 0) :
    time_coefficient (fun a b : ℝ => a ^ b) x.sr x.t_a
        = 1 - (EULER : ℝ) ^ (-(22 / 10) / (x.sr * x.t_a * (1 / 1000)))
      ∧ (hsd_peakf_perform (fun a b : ℝ => a ^ b) x (List.replicate n 1)).1.xpeak_z1
        = 1 - (1 - time_coefficient (fun a b : ℝ => a ^ b) x.sr x.t_a) ^ n
      ∧ (hsd_peakf_perform (fun a b : ℝ => a ^ b) x (List.replicate n 1)).2
        = (List.range' 1 n).map
            (fun k => 1 - (1 - time_coefficient (fun a b : ℝ => a ^ b) x.sr x.t_a) ^ k)
      ∧ (5 * (x.sr * x.t_a * (1 / 1000)) ≤ (n : ℝ) →
          95 / 100 ≤ (hsd_peakf_perform (fun a b : ℝ => a ^ b) x
              (List.replicate n 1)).1.xpeak_z1
            ∧ (hsd_peakf_perform (fun a b : ℝ => a ^ b) x
              (List.replicate n 1)).1.xpeak_z1 ≤ 1) := by
  have hE : (0 : ℝ) < EULER := by norm_num [EULER]
  have hN : 0 < x.sr * x.t_a * (1 / 1000) := by positivity
  have hq : 1 - time_coefficient (fun a b : ℝ => a ^ b) x.sr x.t_a
      = (EULER : ℝ) ^ (-(22 / 10) / (x.sr * x.t_a * (1 / 1000))) := by
    simp only [time_coefficient]; ring
  have hqpos : 0 < 1 - time_coefficient (fun a b : ℝ => a ^ b) x.sr x.t_a := by
    rw [hq]; exact Real.rpow_pos_of_pos hE _
  have hrun := hsd_peakf_attack (time_coefficient (fun a b : ℝ => a ^ b) x.sr x.t_a)
    (time_coefficient (fun a b : ℝ => a ^ b) x.sr x.t_r) hqpos n 0
  simp only [pow_zero, sub_self, Nat.zero_add] at hrun
  have hstate : (hsd_peakf_perform (fun a b : ℝ => a ^ b) x (List.replicate n 1)).1.xpeak_z1
      = 1 - (1 - time_coefficient (fun a b : ℝ => a ^ b) x.sr x.t_a) ^ n := by
    simp only [hsd_peakf_perform, hz, hrun]
  refine ⟨by simp only [time_coefficient], hstate, ?_, ?_⟩
  · simp only [hsd_peakf_perform, hz, hrun]
  · intro hn
    rw [hstate, hq]
    have hpow : ((EULER : ℝ) ^ (-(22 / 10) / (x.sr * x.t_a * (1 / 1000)))) ^ n
        = (EULER : ℝ) ^ (-(22 / 10) / (x.sr * x.t_a * (1 / 1000)) * (n : ℝ)) := by
      rw [Real.rpow_mul_natCast hE.le]
    have hexp : -(22 / 10) / (x.sr * x.t_a * (1 / 1000)) * (n : ℝ) ≤ -(11 : ℝ) := by
      have h5 : 5 ≤ (n : ℝ) / (x.sr * x.t_a * (1 / 1000)) := by
        rw [le_div_iff₀ hN]; exact hn
      have e : -(22 / 10) / (x.sr * x.t_a * (1 / 1000)) * (n : ℝ)
          = -(22 / 10) * ((n : ℝ) / (x.sr * x.t_a * (1 / 1000))) := by ring
      rw [e]; linarith
    have hle : (EULER : ℝ) ^ (-(22 / 10) / (x.sr * x.t_a * (1 / 1000)) * (n : ℝ))
        ≤ 5 / 100 :=
      le_trans (Real.rpow_le_rpow_of_exponent_le EULER_bound.1 hexp) EULER_bound.2
    have hge : 0 ≤ (EULER : ℝ) ^ (-(22 / 10) / (x.sr * x.t_a * (1 / 1000)) * (n : ℝ)) :=
      (Real.rpow_pos_of_pos hE _).le
    rw [hpow]
    constructor <;> linarith

/-- The exact step response at `sr = 44100`, `t_a = 1` ms (`N = 44.1`) and `n = 221 ≥ 5*N`
samples. -/
theorem hsd_peakf_step_response_witness :
    95 / 100 ≤ (hsd_peakf_perform (fun a b : ℝ => a ^ b) ⟨1, 20, 0, 44100⟩
          (List.replicate 221 1)).1.xpeak_z1
      ∧ (hsd_peakf_perform (fun a b : ℝ => a ^ b) ⟨1, 20, 0, 44100⟩
          (List.replicate 221 1)).1.xpeak_z1 ≤ 1 :=
  (hsd_peakf_step_response ⟨1, 20, 0, 44100⟩ 221 (by norm_num) (by norm_num) rfl).2.2.2
    (by norm_num)

theorem rms_state_bounds (TAV s inp : α) (h0 : 0 ≤ TAV) (h1 : TAV ≤ 1) (hs : 0 ≤ s) :
    0 ≤ (1 - TAV) * s + TAV * inp * inp
      ∧ (1 - TAV) * s + TAV * inp * inp ≤ max s (inp * inp) := by
  have hsq : 0 ≤ inp * inp := mul_self_nonneg inp
  have h1' : 0 ≤ 1 - TAV := by linarith
  constructor
  · have a := mul_nonneg h1' hs
    have b := mul_nonneg h0 hsq
    rw [mul_assoc]
    linarith
  · have a : (1 - TAV) * s ≤ (1 - TAV) * max s (inp * inp) :=
      mul_le_mul_of_nonneg_left (le_max_left _ _) h1'
    have b : TAV * (inp * inp) ≤ TAV * max s (inp * inp) :=
      mul_le_mul_of_nonneg_left (le_max_right _ _) h0
    rw [mul_assoc]
    calc (1 - TAV) * s + TAV * (inp * inp)
        ≤ (1 - TAV) * max s (inp * inp) + TAV * max s (inp * inp) := by linarith
      _ = max s (inp * inp) := by ring

/-- The DSP loop of `hsd_rmsf_perform` with `0 ≤ TAV ≤ 1` from a state `≥ 0`: the final
state is `≥ 0` and every output is `sqrt` of an argument `≥ 0`. -/
theorem hsd_rmsf_loop_nonneg (sqrt : α → α) (TAV : α) (h0 : 0 ≤ TAV) (h1 : TAV ≤ 1) :
    ∀ (input : List α) (s : α), 0 ≤ s →
      0 ≤ (dspLoopT (hsd_rmsf_tick sqrt TAV) s input).1
        ∧ ∃ args : List α, (dspLoopT (hsd_rmsf_tick sqrt TAV) s input).2 = args.map sqrt
          ∧ args.length = input.length ∧ ∀ a ∈ args, 0 ≤ a := by
  intro input
  induction input with
  | nil => intro s hs; exact ⟨hs, [], rfl, rfl, by simp⟩
  | cons inp rest ih =>
    intro s hs
    have hb := (rms_state_bounds TAV s inp h0 h1 hs).1
    obtain ⟨hfin, args, hout, hlen, hall⟩ := ih ((1 - TAV) * s + TAV * inp * inp) hb
    refine ⟨hfin, ((1 - TAV) * s + TAV * inp * inp) :: args, ?_, by simp [hlen], ?_⟩
    · simp only [dspLoopT, hsd_rmsf_tick, List.map_cons, hout]
    · intro a ha
      rcases List.mem_cons.mp ha with rfl | ha
      · exact hb
      · exact hall a ha

theorem hsd_rmsf_reachable_nonneg (pow : α → α → α) (x : hsd_rmsf α)
    (hx : hsd_rmsf_reachable pow x) : 0 ≤ x.xrms2_z1 := by
  induction hx with
  | new sr f =>
    unfold hsd_rmsf_new
    simp only
    split <;> exact le_refl _
  | dsp x s_sr _ ih =>
    unfold hsd_rmsf_dsp
    split <;> exact ih
  | t_rms x t _ ih => exact ih
  | perform x sqrt input _ h0 h1 ih =>
    exact (hsd_rmsf_loop_nonneg sqrt _ h0 h1 input x.xrms2_z1 ih).1

/-- C16: for `0 ≤ TAV ≤ 1`, every input `x` and every state `xrms2_z1 ≥ 0`, one iteration of
the DSP loop of `hsd_rmsf_perform` sets the state to `(1-TAV)*xrms2_z1 + TAV*x*x`, which is
`≥ 0` and at most `max(xrms2_z1, x*x)`, and outputs its square root; in every state reachable
from the constructor (performing with time constants in `[0, 1]`) the state is `≥ 0`, and a
further `hsd_rmsf_perform` takes `sqrt` only of arguments `≥ 0`.  The routine itself is that
iteration repeated with `TAV` computed from `t_rms`: it returns the object unchanged on the
empty block, applies the iteration to the first sample of a block and goes on with the rest;
on the one-sample block `[x]` it stores `(1-TAV)*xrms2_z1 + TAV*x*x`, at most
`max(xrms2_z1, x*x)`, and outputs its square root. -/
theorem hsd_rmsf_iteration (pow : α → α → α) (sqrt : α → α) (TAV s inp : α)
    (x : hsd_rmsf α) (input : List α)
    (h0 : 0 ≤ TAV) (h1 : TAV ≤ 1) (hs : 0 ≤ s) (hx : hsd_rmsf_reachable pow x)
    (ht0 : 0 ≤ time_coefficient pow x.sr x.t_rms)
    (ht1 : time_coefficient pow x.sr x.t_rms ≤ 1) :
    hsd_rmsf_tick sqrt TAV s inp
        = ((1 - TAV) * s + TAV * inp * inp, sqrt ((1 - TAV) * s + TAV * inp * inp))
      ∧ 0 ≤ (hsd_rmsf_tick sqrt TAV s inp).1
      ∧ (hsd_rmsf_tick sqrt TAV s inp).1 ≤ max s (inp * inp)
      ∧ 0 ≤ x.xrms2_z1
      ∧ 0 ≤ (hsd_rmsf_perform pow sqrt x input).1.xrms2_z1
      ∧ (∃ args : List α, (hsd_rmsf_perform pow sqrt x input).2 = args.map sqrt
          ∧ args.length = input.length ∧ ∀ a ∈ args, 0 ≤ a)
      ∧ hsd_rmsf_perform pow sqrt x [] = (x, [])
      ∧ (hsd_rmsf_perform pow sqrt x (inp :: input)).2
        = (hsd_rmsf_tick sqrt (time_coefficient pow x.sr x.t_rms) x.xrms2_z1 inp).2
          :: (hsd_rmsf_perform pow sqrt
              { x with xrms2_z1 := (hsd_rmsf_tick sqrt (time_coefficient pow x.sr x.t_rms)
                x.xrms2_z1 inp).1 } input).2
      ∧ (hsd_rmsf_perform pow sqrt x (inp :: input)).1
        = (hsd_rmsf_perform pow sqrt
              { x with xrms2_z1 := (hsd_rmsf_tick sqrt (time_coefficient pow x.sr x.t_rms)
                x.xrms2_z1 inp).1 } input).1
      ∧ (hsd_rmsf_perform pow sqrt x [inp]).1.xrms2_z1
        = (1 - time_coefficient pow x.sr x.t_rms) * x.xrms2_z1
            + time_coefficient pow x.sr x.t_rms * inp * inp
      ∧ (hsd_rmsf_perform pow sqrt x [inp]).2
        = [sqrt ((1 - time_coefficient pow x.sr x.t_rms) * x.xrms2_z1
            + time_coefficient pow x.sr x.t_rms * inp * inp)]
      ∧ (hsd_rmsf_perform pow sqrt x [inp]).1.xrms2_z1 ≤ max x.xrms2_z1 (inp * inp) := by
  have hb := rms_state_bounds TAV s inp h0 h1 hs
  have hx0 := hsd_rmsf_reachable_nonneg pow x hx
  have hl := hsd_rmsf_loop_nonneg sqrt _ ht0 ht1 input x.xrms2_z1 hx0
  exact ⟨rfl, hb.1, hb.2, hx0, hl.1, hl.2, rfl, rfl, rfl, rfl, rfl,
    (rms_state_bounds _ x.xrms2_z1 inp ht0 ht1 hx0).2⟩

/-- Witness of C16: `TAV = 1/2`, state 1, input 3, and the object created with `t_rms = 4`
for a library whose `pow` is constantly `1/2` (so that the time constant is `1/2`), on the
blocks `[3, 1, 2]` and `[3]`. -/
theorem hsd_rmsf_iteration_witness :
    (hsd_rmsf_tick (α := ℚ) (fun a => a) (1 / 2) 1 3).1 ≤ max 1 (3 * 3)
      ∧ (hsd_rmsf_perform (α := ℚ) (fun _ _ => 1 / 2) (fun a => a) (hsd_rmsf_new 44100 4)
            [3, 1, 2]).2
          = (hsd_rmsf_tick (fun a => a)
                (time_coefficient (fun _ _ => 1 / 2) (hsd_rmsf_new (44100 : ℚ) 4).sr
                  (hsd_rmsf_new (44100 : ℚ) 4).t_rms)
                (hsd_rmsf_new (44100 : ℚ) 4).xrms2_z1 3).2
            :: (hsd_rmsf_perform (fun _ _ => 1 / 2) (fun a => a)
                { hsd_rmsf_new (44100 : ℚ) 4 with
                  xrms2_z1 := (hsd_rmsf_tick (fun a => a)
                    (time_coefficient (fun _ _ => 1 / 2) (hsd_rmsf_new (44100 : ℚ) 4).sr
                      (hsd_rmsf_new (44100 : ℚ) 4).t_rms)
                    (hsd_rmsf_new (44100 : ℚ) 4).xrms2_z1 3).1 } [1, 2]).2
      ∧ (hsd_rmsf_perform (α := ℚ) (fun _ _ => 1 / 2) (fun a => a) (hsd_rmsf_new 44100 4)
            [3]).1.xrms2_z1
          = (1 - time_coefficient (fun _ _ => 1 / 2) (hsd_rmsf_new (44100 : ℚ) 4).sr
                (hsd_rmsf_new (44100 : ℚ) 4).t_rms) * (hsd_rmsf_new (44100 : ℚ) 4).xrms2_z1
            + time_coefficient (fun _ _ => 1 / 2) (hsd_rmsf_new (44100 : ℚ) 4).sr
                (hsd_rmsf_new (44100 : ℚ) 4).t_rms * 3 * 3 :=
  have h := hsd_rmsf_iteration (α := ℚ) (fun _ _ => 1 / 2) (fun a => a) (1 / 2) 1 3
    (hsd_rmsf_new 44100 4) [1, 2] (by norm_num) (by norm_num) (by norm_num)
    (hsd_rmsf_reachable.new 44100 4) (by norm_num [time_coefficient])
    (by norm_num [time_coefficient])
  ⟨h.2.2.1, h.2.2.2.2.2.2.2.1, h.2.2.2.2.2.2.2.2.2.1⟩
end EnvelopeTheorems

/-! ## hsd_impulse~: the impulse generator -/

section ImpulseTheorems

set_option linter.unusedSectionVars false

variable {α : Type} [LinearOrderedField α] [FloorRing α]

theorem dspLoopT_append {σ ι o : Type} (tick : σ → ι → σ × o) :
    ∀ (a b : List ι) (s : σ), dspLoopT tick s (a ++ b)
      = ((dspLoopT tick (dspLoopT tick s a).1 b).1,
          (dspLoopT tick s a).2 ++ (dspLoopT tick (dspLoopT tick s a).1 b).2) := by
  intro a
  induction a with
  | nil => intro b s; rfl
  | cons x rest ih =>
    intro b s
    show ((dspLoopT tick (tick s x).1 (rest ++ b)).1,
        (tick s x).2 :: (dspLoopT tick (tick s x).1 (rest ++ b)).2) = _
    rw [ih b (tick s x).1]
    rfl

/-- The DSP loop of `hsd_impulse_perform` from the count `k`: `min k n` ones, then zeros. -/
theorem hsd_impulse_loop : ∀ (n k : Nat),
    dspLoopT (hsd_impulse_tick (α := α)) (k : Int) (List.replicate n ())
      = (((k - n : Nat) : Int), List.replicate (min k n) 1 ++ List.replicate (n - k) 0) := by
  intro n
  induction n with
  | zero => intro k; simp [dspLoopT]
  | succ n ih =>
    intro k
    cases k with
    | zero =>
      have h := ih 0
      simp only [Nat.cast_zero] at h
      simp only [List.replicate_succ, dspLoopT, hsd_impulse_tick, Nat.cast_zero, gt_iff_lt,
        lt_self_iff_false, if_false, h]
      simp [List.replicate_succ]
    | succ k =>
      have h := ih k
      have hpos : ((k + 1 : Nat) : Int) > 0 := by omega
      have hc : ((k + 1 : Nat) : Int) - 1 = (k : Int) := by omega
      simp only [List.replicate_succ, dspLoopT, hsd_impulse_tick, if_pos hpos, hc, h]
      simp [Nat.succ_min_succ, List.replicate_succ]

/-- Successive blocks of `hsd_impulse_perform` are one DSP loop over the total number of
samples. -/
theorem hsd_impulse_blocks (x : hsd_impulse α) : ∀ (blocks : List Nat) (c : Int),
    performBlocksT hsd_impulse_perform { x with impulsecount := c } blocks
      = ({ x with impulsecount :=
            (dspLoopT (hsd_impulse_tick (α := α)) c (List.replicate blocks.sum ())).1 },
          (dspLoopT (hsd_impulse_tick (α := α)) c (List.replicate blocks.sum ())).2) := by
  intro blocks
  induction blocks with
  | nil => intro c; rfl
  | cons b rest ih =>
    intro c
    simp only [performBlocksT, hsd_impulse_perform, List.sum_cons, List.replicate_add,
      dspLoopT_append, ih]

/-- C17: after `hsd_impulse_bang` on a state with `length = L ≥ 0`, the concatenated output of
the following calls of `hsd_impulse_perform` with any block sizes, `n` samples in all, is
`min L n` samples of value 1 followed by `n - L` samples of value 0 (so exactly `L` ones and
then only zeros), and the state then has `impulsecount = max (L - n) 0`. -/
theorem hsd_impulse_output (x : hsd_impulse α) (blocks : List Nat) (h : 0 ≤ x.length) :
    (performBlocksT hsd_impulse_perform (hsd_impulse_bang x) blocks).2
        = List.replicate (min x.length.toNat blocks.sum) 1
          ++ List.replicate (blocks.sum - x.length.toNat) 0
      ∧ (performBlocksT hsd_impulse_perform (hsd_impulse_bang x) blocks).1.impulsecount
        = max (x.length - (blocks.sum : Int)) 0
      ∧ (performBlocksT hsd_impulse_perform (hsd_impulse_bang x) blocks).2.length
        = blocks.sum := by
  have hb : hsd_impulse_bang x = { x with impulsecount := ((x.length.toNat : Nat) : Int) } := by
    rw [Int.toNat_of_nonneg h]; rfl
  rw [hb, hsd_impulse_blocks, hsd_impulse_loop]
  refine ⟨rfl, ?_, ?_⟩
  · show ((x.length.toNat - blocks.sum : Nat) : Int) = max (x.length - (blocks.sum : Int)) 0
    omega
  · simp only [List.length_append, List.length_replicate]
    omega

/-- Witness of C17: length 3, blocks of 2, 0 and 4 samples. -/
theorem hsd_impulse_output_witness :
    (performBlocksT hsd_impulse_perform (hsd_impulse_bang (⟨44100, 3, 0⟩ : hsd_impulse ℚ))
        [2, 0, 4]).2 = [1, 1, 1, 0, 0, 0] :=
  (hsd_impulse_output (⟨44100, 3, 0⟩ : hsd_impulse ℚ) [2, 0, 4] (by decide)).1

theorem truncToInt_half : truncToInt (1 / 2 : α) = 0 := by
  have h0 : (0 : α) ≤ 1 / 2 := by norm_num
  unfold truncToInt
  rw [if_pos h0, Int.floor_eq_iff]
  constructor <;> norm_num

/-- C18: the argument `f = 0.5` passes the check `f <= 0` of `hsd_impulse_length` and of
`hsd_impulse_new`, and its conversion `(int)f` stores the length 0, which is not `≥ 1`; the
following bang then starts an impulse of no sample at all. -/
theorem hsd_impulse_length_example :
    (hsd_impulse_length (⟨44100, 5, 0⟩ : hsd_impulse ℚ) (1 / 2)).length = 0
      ∧ (hsd_impulse_new (1 / 2 : ℚ)).length = 0
      ∧ ¬ 1 ≤ (hsd_impulse_new (1 / 2 : ℚ)).length
      ∧ (hsd_impulse_perform (hsd_impulse_bang (hsd_impulse_new (1 / 2 : ℚ))) 4).2
        = [0, 0, 0, 0] := by
  have hn : ¬ ((1 / 2 : ℚ) ≤ 0) := by norm_num
  have h1 : (hsd_impulse_length (⟨44100, 5, 0⟩ : hsd_impulse ℚ) (1 / 2)).length = 0 := by
    simp only [hsd_impulse_length, if_neg hn, truncToInt_half]
  have h2 : hsd_impulse_new (1 / 2 : ℚ) = ⟨0, 0, 0⟩ := by
    simp only [hsd_impulse_new, if_neg hn, truncToInt_half]
  refine ⟨h1, ?_, ?_, ?_⟩
  · rw [h2]
  · rw [h2]; decide
  · rw [h2]; rfl

end ImpulseTheorems

/-! ## hsd_vibrato~ and hsd_chorus~: the LFO phase and the capacity of the line -/

section ModulatedTheorems

set_option linter.unusedSectionVars false

variable {α : Type} [LinearOrderedField α] [FloorRing α]

/-- The read of `interpolated_read` succeeds on a line of `L > 0` cells for every
`delay_length ≥ 0`. -/
theorem interpolated_read_some (buf : List α) (L wi : Int) (dl : α)
    (hL : 0 < L) (hlen : (buf.length : Int) = L) (h1 : wi < L) (hdl : 0 ≤ dl) :
    ∃ v, interpolated_read buf L wi dl = some v := by
  have hi : 0 ≤ truncToInt dl := truncToInt_nonneg dl hdl
  have ha := wrapped_lt L (wi - truncToInt dl) hL (by omega)
  have hb := wrapped_lt L (wi - truncToInt dl - 1) hL (by omega)
  have la := load_of_lt buf _ ha.1 (by rw [hlen]; exact ha.2)
  have lb := load_of_lt buf _ hb.1 (by rw [hlen]; exact hb.2)
  simp only [interpolated_read, wrapIndex_of_pos L hL, la, lb, Option.bind_eq_bind,
    Option.some_bind, Option.pure_def]
  exact ⟨_, rfl⟩

/-- The phase update of the DSP loops of `hsd_vibrato_perform` and `hsd_chorus_perform`. -/
theorem phase_step_range (c p : α) (hc : 0 < c) (h0 : 0 ≤ p) :
    0 ≤ (if p + 1 > c then 0 else p + 1) ∧ (if p + 1 > c then 0 else p + 1) ≤ c := by
  split
  · exact ⟨le_refl _, le_of_lt hc⟩
  · constructor
    · linarith
    · linarith [not_lt.mp ‹¬ p + 1 > c›]

theorem hsd_vibrato_tick_some (sin : α → α) (hsin : ∀ t, -1 ≤ sin t) (L : Int)
    (depth c fb : α) (buf : List α) (wi : Int) (p inp : α)
    (hL : 0 < L) (hlen : (buf.length : Int) = L) (h0 : 0 ≤ wi) (h1 : wi < L)
    (hd : 0 ≤ depth) :
    ∃ buf' wi' out, hsd_vibrato_tick sin L depth c fb (buf, wi, p) inp
        = some ((buf', wi', if p + 1 > c then 0 else p + 1), out)
      ∧ (buf'.length : Int) = L ∧ 0 ≤ wi' ∧ wi' < L := by
  have hlfo : 0 ≤ (sin (2 * PI * (p / c)) + 1) / 2 := by
    have := hsin (2 * PI * (p / c))
    apply div_nonneg <;> linarith
  have hdl : 0 ≤ depth * ((sin (2 * PI * (p / c)) + 1) / 2) + 2 := by
    have := mul_nonneg hd hlfo
    linarith
  obtain ⟨v, hv⟩ := interpolated_read_some buf L wi _ hL hlen h1 hdl
  have hs := store_of_lt buf wi (inp + v * fb) h0 (by rw [hlen]; exact h1)
  refine ⟨buf.set wi.toNat (inp + v * fb),
    if wi + 1 ≥ L then wi + 1 - L else wi + 1, v, ?_, ?_, ?_, ?_⟩
  · simp only [hsd_vibrato_tick, hv, hs, Option.bind_eq_bind, Option.some_bind,
      Option.pure_def]
  · simp [hlen]
  · split <;> omega
  · split <;> omega

theorem hsd_vibrato_loop_some (sin : α → α) (hsin : ∀ t, -1 ≤ sin t) (L : Int)
    (depth c fb : α) (hL : 0 < L) (hd : 0 ≤ depth) (hc : 0 < c) :
    ∀ (input : List α) (buf : List α) (wi : Int) (p : α),
      (buf.length : Int) = L → 0 ≤ wi → wi < L → 0 ≤ p → p ≤ c →
      ∃ r, dspLoop (hsd_vibrato_tick sin L depth c fb) (buf, wi, p) input = some r
        ∧ 0 ≤ r.1.2.2 ∧ r.1.2.2 ≤ c ∧ r.2.length = input.length := by
  intro input
  induction input with
  | nil => intro buf wi p _ _ _ hp0 hp1; exact ⟨_, rfl, hp0, hp1, rfl⟩
  | cons inp rest ih =>
    intro buf wi p hlen h0 h1 hp0 hp1
    obtain ⟨buf', wi', out, ht, hlen', h0', h1'⟩ :=
      hsd_vibrato_tick_some sin hsin L depth c fb buf wi p inp hL hlen h0 h1 hd
    have hp := phase_step_range c p hc hp0
    obtain ⟨r, hr, hr0, hr1, hrl⟩ := ih buf' wi' _ hlen' h0' h1' hp.1 hp.2
    refine ⟨(r.1, out :: r.2), ?_, hr0, hr1, by simp [hrl]⟩
    simp only [dspLoop, ht, hr, Option.some_bind, Option.map_some']

theorem hsd_chorus_tick_some (sin : α → α) (hsin : ∀ t, -1 ≤ sin t) (L : Int)
    (dl dr c dry wet : α) (s : chorus_locals α) (inp : α × α)
    (hL : 0 < L) (hlenl : (s.delay_line_l.length : Int) = L)
    (hlenr : (s.delay_line_r.length : Int) = L)
    (hl0 : 0 ≤ s.write_index_l) (hl1 : s.write_index_l < L)
    (hr0 : 0 ≤ s.write_index_r) (hr1 : s.write_index_r < L)
    (hdl : 0 ≤ dl) (hdr : 0 ≤ dr) :
    ∃ t out, hsd_chorus_tick sin L dl dr c dry wet s inp = some (t, out)
      ∧ t.phase = (if s.phase + 1 > c then 0 else s.phase + 1)
      ∧ (t.delay_line_l.length : Int) = L ∧ (t.delay_line_r.length : Int) = L
      ∧ 0 ≤ t.write_index_l ∧ t.write_index_l < L
      ∧ 0 ≤ t.write_index_r ∧ t.write_index_r < L := by
  have hlfol : 0 ≤ (sin (2 * PI * (s.phase / c)) + 1) / 2 := by
    have := hsin (2 * PI * (s.phase / c))
    apply div_nonneg <;> linarith
  have hlfor : 0 ≤ (sin (2 * PI * (s.phase / c) + (1 / 2) * PI) + 1) / 2 := by
    have := hsin (2 * PI * (s.phase / c) + (1 / 2) * PI)
    apply div_nonneg <;> linarith
  have hdl2 : 0 ≤ dl * ((sin (2 * PI * (s.phase / c)) + 1) / 2) + 2 := by
    have := mul_nonneg hdl hlfol
    linarith
  have hdr2 : 0 ≤ dr * ((sin (2 * PI * (s.phase / c) + (1 / 2) * PI) + 1) / 2) + 2 := by
    have := mul_nonneg hdr hlfor
    linarith
  obtain ⟨vl, hvl⟩ :=
    interpolated_read_some s.delay_line_l L s.write_index_l _ hL hlenl hl1 hdl2
  obtain ⟨vr, hvr⟩ :=
    interpolated_read_some s.delay_line_r L s.write_index_r _ hL hlenr hr1 hdr2
  have hsl := store_of_lt s.delay_line_l s.write_index_l inp.1 hl0 (by rw [hlenl]; exact hl1)
  have hsr := store_of_lt s.delay_line_r s.write_index_r inp.2 hr0 (by rw [hlenr]; exact hr1)
  simp only [hsd_chorus_tick, hvl, hvr, hsl, hsr, Option.bind_eq_bind, Option.some_bind,
    Option.pure_def]
  refine ⟨_, _, rfl, rfl, by simp [hlenl], by simp [hlenr], ?_, ?_, ?_, ?_⟩ <;> dsimp only <;>
    split <;> omega

theorem hsd_chorus_loop_some (sin : α → α) (hsin : ∀ t, -1 ≤ sin t) (L : Int)
    (dl dr c dry wet : α) (hL : 0 < L) (hdl : 0 ≤ dl) (hdr : 0 ≤ dr) (hc : 0 < c) :
    ∀ (input : List (α × α)) (s : chorus_locals α),
      (s.delay_line_l.length : Int) = L → (s.delay_line_r.length : Int) = L →
      0 ≤ s.write_index_l → s.write_index_l < L →
      0 ≤ s.write_index_r → s.write_index_r < L → 0 ≤ s.phase → s.phase ≤ c →
      ∃ r, dspLoop (hsd_chorus_tick sin L dl dr c dry wet) s input = some r
        ∧ 0 ≤ r.1.phase ∧ r.1.phase ≤ c ∧ r.2.length = input.length := by
  intro input
  induction input with
  | nil => intro s _ _ _ _ _ _ hp0 hp1; exact ⟨_, rfl, hp0, hp1, rfl⟩
  | cons inp rest ih =>
    intro s hlenl hlenr hl0 hl1 hr0 hr1 hp0 hp1
    obtain ⟨t, out, ht, hph, a1, a2, a3, a4, a5, a6⟩ :=
      hsd_chorus_tick_some sin hsin L dl dr c dry wet s inp hL hlenl hlenr hl0 hl1 hr0 hr1
        hdl hdr
    have hp := phase_step_range c s.phase hc hp0
    rw [← hph] at hp
    obtain ⟨r, hr, hr0, hr1, hrl⟩ := ih t a1 a2 a3 a4 a5 a6 hp.1 hp.2
    refine ⟨(r.1, out :: r.2), ?_, hr0, hr1, by simp [hrl]⟩
    simp only [dspLoop, ht, hr, Option.some_bind, Option.map_some']
theorem truncToInt_three : truncToInt (3 : α) = 3 := by
  have h := truncToInt_natCast (α := α) 3
  simpa using h

/-- C19, as the source has it: for every `cycle_length > 0`, a delay line of
`delay_line_length > 0` cells with the write index inside it, a depth `≥ 0` and an LFO
function `sin ≥ -1`, from a phase with `0 ≤ phase ≤ cycle_length` (so from `phase = 0`)
`hsd_vibrato_perform` and `hsd_chorus_perform` process every block, and after every sample
the phase satisfies `0 ≤ phase ≤ cycle_length`: the phase is reset only when it exceeds
`cycle_length`, so it can be equal to it. -/
theorem modulated_phase_range (sin : α → α) (hsin : ∀ t, -1 ≤ sin t)
    (x : hsd_vibrato α) (y : hsd_chorus α) (input : List α) (input2 : List (α × α))
    (hxL : 0 < truncToInt x.delay_line_length)
    (hxlen : (x.delay_line.length : Int) = truncToInt x.delay_line_length)
    (hxw0 : 0 ≤ x.write_index) (hxw1 : x.write_index < truncToInt x.delay_line_length)
    (hxd : 0 ≤ x.depth) (hxc : 0 < x.cycle_length)
    (hxp0 : 0 ≤ x.phase) (hxp1 : x.phase ≤ x.cycle_length)
    (hyL : 0 < truncToInt y.delay_line_length)
    (hylenl : (y.delay_line_l.length : Int) = truncToInt y.delay_line_length)
    (hylenr : (y.delay_line_r.length : Int) = truncToInt y.delay_line_length)
    (hyl0 : 0 ≤ y.write_index_l) (hyl1 : y.write_index_l < truncToInt y.delay_line_length)
    (hyr0 : 0 ≤ y.write_index_r) (hyr1 : y.write_index_r < truncToInt y.delay_line_length)
    (hydl : 0 ≤ y.depth_l) (hydr : 0 ≤ y.depth_r) (hyc : 0 < y.cycle_length)
    (hyp0 : 0 ≤ y.phase) (hyp1 : y.phase ≤ y.cycle_length) :
    (∃ x1 out, hsd_vibrato_perform sin x input = some (x1, out)
        ∧ 0 ≤ x1.phase ∧ x1.phase ≤ x.cycle_length ∧ out.length = input.length)
      ∧ ∃ y1 out, hsd_chorus_perform sin y input2 = some (y1, out)
        ∧ 0 ≤ y1.phase ∧ y1.phase ≤ y.cycle_length ∧ out.length = input2.length := by
  constructor
  · obtain ⟨r, hr, h0, h1, hl⟩ := hsd_vibrato_loop_some sin hsin _ x.depth x.cycle_length
      x.feedback hxL hxd hxc input x.delay_line x.write_index x.phase hxlen hxw0 hxw1 hxp0 hxp1
    simp only [hsd_vibrato_perform, hr, Option.map_some']
    exact ⟨_, _, rfl, h0, h1, hl⟩
  · obtain ⟨r, hr, h0, h1, hl⟩ := hsd_chorus_loop_some sin hsin _ y.depth_l y.depth_r
      y.cycle_length y.dry y.wet hyL hydl hydr hyc input2
      ⟨y.delay_line_l, y.delay_line_r, y.write_index_l, y.write_index_r, y.phase⟩
      hylenl hylenr hyl0 hyl1 hyr0 hyr1 hyp0 hyp1
    simp only [hsd_chorus_perform, hr, Option.map_some']
    exact ⟨_, _, rfl, h0, h1, hl⟩

/-- Witness of C19: lines of 3 cells, `cycle_length = 2`, the phase 0 and the constant LFO
function 0. -/
theorem modulated_phase_range_witness :
    (∃ x1 out, hsd_vibrato_perform (fun _ : ℚ => 0)
        ⟨100, 3, 0, [0, 0, 0], 0, 0, 0, 0, 50, 2, 0, 0, 0⟩ [1, 1, 1] = some (x1, out)
        ∧ 0 ≤ x1.phase ∧ x1.phase ≤ 2 ∧ out.length = 3)
      ∧ ∃ y1 out, hsd_chorus_perform (fun _ : ℚ => 0)
        ⟨100, 3, 0, [0, 0, 0], [0, 0, 0], 0, 0, 0, 0, 0, 0, 0, 0, 50, 2, 0, 0, 1⟩
          [(1, 1), (1, 1)] = some (y1, out)
        ∧ 0 ≤ y1.phase ∧ y1.phase ≤ 2 ∧ out.length = 2 :=
  modulated_phase_range (fun _ : ℚ => 0) (by intro t; norm_num)
    ⟨100, 3, 0, [0, 0, 0], 0, 0, 0, 0, 50, 2, 0, 0, 0⟩
    ⟨100, 3, 0, [0, 0, 0], [0, 0, 0], 0, 0, 0, 0, 0, 0, 0, 0, 50, 2, 0, 0, 1⟩
    [1, 1, 1] [(1, 1), (1, 1)]
    (by rw [truncToInt_three]; decide) (by rw [truncToInt_three]; rfl) (by decide)
    (by rw [truncToInt_three]; decide) (le_refl _) (by norm_num) (le_refl _) (by norm_num)
    (by rw [truncToInt_three]; decide) (by rw [truncToInt_three]; rfl)
    (by rw [truncToInt_three]; rfl) (by decide) (by rw [truncToInt_three]; decide)
    (by decide) (by rw [truncToInt_three]; decide) (le_refl _) (le_refl _) (by norm_num)
    (le_refl _) (by norm_num)

/-- C19 as stated fails for `cycle_length = 1`: from `phase = 0` the first sample of
`hsd_vibrato_perform`, and of `hsd_chorus_perform`, sets `phase = 1`, which the test
`phase > cycle_length` does not reset, and `1 < cycle_length` is false. -/
theorem modulated_phase_reaches_cycle_length :
    (hsd_vibrato_perform (fun _ : ℚ => 0)
        ⟨100, 3, 0, [0, 0, 0], 0, 0, 0, 0, 100, 1, 0, 0, 0⟩ [0]).map (fun r => r.1.phase)
        = some 1
      ∧ (hsd_chorus_perform (fun _ : ℚ => 0)
        ⟨100, 3, 0, [0, 0, 0], [0, 0, 0], 0, 0, 0, 0, 0, 0, 0, 0, 100, 1, 0, 0, 1⟩
          [(0, 0)]).map (fun r => r.1.phase) = some 1
      ∧ ¬ (1 : ℚ) < 1 := by
  refine ⟨?_, ?_, by norm_num⟩
  · obtain ⟨buf1, wi1, out, ht, -⟩ := hsd_vibrato_tick_some (α := ℚ) (fun _ => 0)
      (by intro t; norm_num) 3 0 1 0 [0, 0, 0] 0 0 0 (by decide) rfl (by decide) (by decide)
      (le_refl _)
    have hp : (if (0 : ℚ) + 1 > 1 then (0 : ℚ) else 0 + 1) = 1 := by norm_num
    rw [hp] at ht
    simp only [hsd_vibrato_perform, truncToInt_three, dspLoop, ht, Option.some_bind,
      Option.map_some', Function.comp]
  · obtain ⟨t, out, ht, hph, -⟩ := hsd_chorus_tick_some (α := ℚ) (fun _ => 0)
      (by intro t; norm_num) 3 0 0 1 0 1 ⟨[0, 0, 0], [0, 0, 0], 0, 0, 0⟩ (0, 0) (by decide) rfl
      rfl (by decide) (by decide) (by decide) (by decide) (le_refl _) (le_refl _)
    have hp : (if (0 : ℚ) + 1 > 1 then (0 : ℚ) else 0 + 1) = 1 := by norm_num
    rw [hp] at hph
    simp only [hsd_chorus_perform, truncToInt_three, dspLoop, ht, Option.some_bind,
      Option.map_some', hph]

theorem truncToInt_ofNat (n : Nat) [n.AtLeastTwo] :
    truncToInt (OfNat.ofNat n : α) = (OfNat.ofNat n : Int) := by
  have h := truncToInt_natCast (α := α) n
  simpa using h

/-- The capacity allocated by `hsd_vibrato_new` and `hsd_vibrato_dsp` is at most
`sr * DELMAX/1000 + 1`, which is less than the delay `sr * DELMAX/1000 + 2` requested at the
depth `DELMAX` when the LFO is at its peak. -/
theorem vibrato_capacity_lt (sr : α) (h : 0 ≤ sr) :
    ((vibrato_capacity sr : Int) : α) < sr * vibrato_DELMAX / 1000 * 1 + 2 := by
  have h0 : (0 : α) ≤ sr * vibrato_DELMAX / 1000 + 1 := by
    have : 0 ≤ sr * vibrato_DELMAX / 1000 := by
      apply div_nonneg _ (by norm_num)
      exact mul_nonneg h (by norm_num [vibrato_DELMAX])
    linarith
  have hf : ((vibrato_capacity sr : Int) : α) ≤ sr * vibrato_DELMAX / 1000 + 1 := by
    unfold vibrato_capacity truncToInt
    rw [if_pos h0]
    exact Int.floor_le _
  linarith

theorem vibrato_capacity_44100 : vibrato_capacity (44100 : ℚ) = 883 := by
  unfold vibrato_capacity
  have : (44100 : ℚ) * vibrato_DELMAX / 1000 + 1 = 883 := by norm_num [vibrato_DELMAX]
  rw [this, truncToInt_ofNat]

theorem hsd_vibrato_new_100 : hsd_vibrato_new (100 : ℚ) 20 25 0 true
    = some ⟨100, 3, 3 * sizeof_t_float, [0, 0, 0], 0, 0, 2, 20, 25, 4, 0, 0, 0⟩ := by
  have hc : vibrato_capacity (100 : ℚ) = 3 := by
    unfold vibrato_capacity
    have : (100 : ℚ) * vibrato_DELMAX / 1000 + 1 = 3 := by norm_num [vibrato_DELMAX]
    rw [this, truncToInt_ofNat]
  have hz : zeroLoop (Int.toNat 3) 0 (List.replicate (Int.toNat 3) (0 : ℚ)) = some [0, 0, 0] :=
    rfl
  simp only [hsd_vibrato_new, hc, hz]
  norm_num [vibrato_DELMAX]

/-- The DSP loop of `hsd_vibrato_perform` on a line of 3 cells with `depth = 2`, no feedback
and the LFO at its peak (`delay_length = 4`): the output is the cell written 2 samples
earlier. -/
theorem hsd_vibrato_tick_peak (a b c inp p : ℚ) :
    hsd_vibrato_tick (fun _ : ℚ => 1) 3 2 4 0 ([a, b, c], 0, p) inp
        = some (([inp, b, c], 1, if p + 1 > 4 then 0 else p + 1), b)
      ∧ hsd_vibrato_tick (fun _ : ℚ => 1) 3 2 4 0 ([a, b, c], 1, p) inp
        = some (([a, inp, c], 2, if p + 1 > 4 then 0 else p + 1), c)
      ∧ hsd_vibrato_tick (fun _ : ℚ => 1) 3 2 4 0 ([a, b, c], 2, p) inp
        = some (([a, b, inp], 0, if p + 1 > 4 then 0 else p + 1), a) := by
  have hd : (2 : ℚ) * (((1 : ℚ) + 1) / 2) + 2 = 4 := by norm_num
  have h4 : truncToInt (4 : ℚ) = 4 := truncToInt_ofNat 4
  refine ⟨?_, ?_, ?_⟩ <;>
  · simp only [hsd_vibrato_tick, hd, interpolated_read, h4]
    norm_num [wrapIndex, wrapLoop, load, store]
    try rfl

/-- The LFO of `hsd_vibrato_perform` a quarter of a cycle after `phase = 0`, with the sine of
the real numbers: the delay requested at `depth = 882` truncates to at least 883. -/
theorem vibrato_lfo_quarter :
    (883 : Int) ≤ truncToInt ((882 : ℝ) * ((Real.sin (2 * PI * (1 / 4)) + 1) / 2) + 2) := by
  have hpi1 := Real.pi_gt_d6
  have hpi2 := Real.pi_lt_d6
  have hx : (2 : ℝ) * PI * (1 / 4) = 15707963268 / 10000000000 := by norm_num [PI]
  rw [hx]
  set y : ℝ := Real.pi / 2 - 15707963268 / 10000000000 with hy
  have hs : Real.sin (15707963268 / 10000000000) = Real.cos y := by
    rw [hy, Real.cos_pi_div_two_sub]
  have hy1 : -(1 / 1000000) ≤ y := by rw [hy]; linarith
  have hy2 : y ≤ 1 / 1000000 := by rw [hy]; linarith
  have hsq : y ^ 2 ≤ (1 / 1000000) ^ 2 := by
    apply sq_le_sq'
    · linarith
    · exact hy2
  have hc := Real.one_sub_sq_div_two_le_cos (x := y)
  have hsin : 1 - (1 / 1000000) ^ 2 / 2 ≤ Real.sin (15707963268 / 10000000000) := by
    rw [hs]; linarith
  have hv : (883 : ℝ) ≤ 882 * ((Real.sin (15707963268 / 10000000000) + 1) / 2) + 2 := by
    norm_num at hsin ⊢
    linarith
  have h0 : (0 : ℝ) ≤ 882 * ((Real.sin (15707963268 / 10000000000) + 1) / 2) + 2 := by
    linarith
  unfold truncToInt
  rw [if_pos h0, Int.le_floor]
  exact_mod_cast hv

/-- C20 at `sr = 44100` and the accepted depth `depth_ms = DELMAX = 20`: `hsd_vibrato_depth`
stores `depth = 882`, the capacity is 883, and at the LFO value 1 the delay
`depth*lfo + 2 = 884` is not below the capacity; with the sine of the real numbers the delay
requested a quarter of a cycle after `phase = 0` truncates to at least 883.  At `sr = 100`
(capacity 3, `depth = 2`) the object created with depth 20 ms then answers the input
`1, 2, .., 7` with `0, 0, 1, 2, 3, 4, 5`: the taps wrap around the line onto the samples
written 1 and 2 samples earlier instead of 4 and 5 samples earlier. -/
theorem hsd_vibrato_capacity_example :
    (hsd_vibrato_depth (⟨44100, 883, 0, [], 0, 0, 0, 0, 1, 44100, 0, 0, 0⟩ : hsd_vibrato ℚ)
        20).depth = 882
      ∧ vibrato_capacity (44100 : ℚ) = 883
      ∧ ¬ ((882 : ℚ) * 1 + 2 < ((vibrato_capacity (44100 : ℚ) : Int) : ℚ))
      ∧ (883 : Int) ≤ truncToInt ((882 : ℝ) * ((Real.sin (2 * PI * (1 / 4)) + 1) / 2) + 2)
      ∧ hsd_vibrato_new (100 : ℚ) 20 25 0 true
          = some ⟨100, 3, 3 * sizeof_t_float, [0, 0, 0], 0, 0, 2, 20, 25, 4, 0, 0, 0⟩
      ∧ (hsd_vibrato_perform (fun _ : ℚ => 1)
            ⟨100, 3, 3 * sizeof_t_float, [0, 0, 0], 0, 0, 2, 20, 25, 4, 0, 0, 0⟩
            [1, 2, 3, 4, 5, 6, 7]).map (fun r => r.2) = some [0, 0, 1, 2, 3, 4, 5] := by
  refine ⟨?_, vibrato_capacity_44100, ?_, vibrato_lfo_quarter, hsd_vibrato_new_100, ?_⟩
  · norm_num [hsd_vibrato_depth, vibrato_DELMAX]
  · rw [vibrato_capacity_44100]; norm_num
  · have h3 : truncToInt (3 : ℚ) = 3 := truncToInt_ofNat 3
    simp only [hsd_vibrato_perform, h3, dspLoop, (hsd_vibrato_tick_peak _ _ _ _ _).1,
      (hsd_vibrato_tick_peak _ _ _ _ _).2.1, (hsd_vibrato_tick_peak _ _ _ _ _).2.2,
      Option.some_bind, Option.map_some']

end ModulatedTheorems

/-! ## hsd_chorus~: the dry/wet mix -/

section ChorusMixTheorems

set_option linter.unusedSectionVars false

variable {α : Type} [LinearOrderedField α] [FloorRing α]

/-- One iteration of the DSP loop of `hsd_chorus_perform` on well-formed locals: both reads
succeed, with values `vl` and `vr`, and the output pair is
`(wet*vl + dry*input_left, wet*vr + dry*input_right)`. -/
theorem hsd_chorus_tick_out (sin : α → α) (hsin : ∀ t, -1 ≤ sin t) (L : Int)
    (dl dr c dry wet : α) (s : chorus_locals α) (inp : α × α)
    (hL : 0 < L) (hlenl : (s.delay_line_l.length : Int) = L)
    (hlenr : (s.delay_line_r.length : Int) = L)
    (hl0 : 0 ≤ s.write_index_l) (hl1 : s.write_index_l < L)
    (hr0 : 0 ≤ s.write_index_r) (hr1 : s.write_index_r < L)
    (hdl : 0 ≤ dl) (hdr : 0 ≤ dr) :
    ∃ t vl vr,
      interpolated_read s.delay_line_l L s.write_index_l
          (dl * ((sin (2 * PI * (s.phase / c)) + 1) / 2) + 2) = some vl
      ∧ interpolated_read s.delay_line_r L s.write_index_r
          (dr * ((sin (2 * PI * (s.phase / c) + (1 / 2) * PI) + 1) / 2) + 2) = some vr
      ∧ hsd_chorus_tick sin L dl dr c dry wet s inp
          = some (t, (wet * vl + dry * inp.1, wet * vr + dry * inp.2))
      ∧ (t.delay_line_l.length : Int) = L ∧ (t.delay_line_r.length : Int) = L
      ∧ 0 ≤ t.write_index_l ∧ t.write_index_l < L
      ∧ 0 ≤ t.write_index_r ∧ t.write_index_r < L := by
  have hlfol : 0 ≤ (sin (2 * PI * (s.phase / c)) + 1) / 2 := by
    have := hsin (2 * PI * (s.phase / c))
    apply div_nonneg <;> linarith
  have hlfor : 0 ≤ (sin (2 * PI * (s.phase / c) + (1 / 2) * PI) + 1) / 2 := by
    have := hsin (2 * PI * (s.phase / c) + (1 / 2) * PI)
    apply div_nonneg <;> linarith
  have hdl2 : 0 ≤ dl * ((sin (2 * PI * (s.phase / c)) + 1) / 2) + 2 := by
    have := mul_nonneg hdl hlfol
    linarith
  have hdr2 : 0 ≤ dr * ((sin (2 * PI * (s.phase / c) + (1 / 2) * PI) + 1) / 2) + 2 := by
    have := mul_nonneg hdr hlfor
    linarith
  obtain ⟨vl, hvl⟩ :=
    interpolated_read_some s.delay_line_l L s.write_index_l _ hL hlenl hl1 hdl2
  obtain ⟨vr, hvr⟩ :=
    interpolated_read_some s.delay_line_r L s.write_index_r _ hL hlenr hr1 hdr2
  have hsl := store_of_lt s.delay_line_l s.write_index_l inp.1 hl0 (by rw [hlenl]; exact hl1)
  have hsr := store_of_lt s.delay_line_r s.write_index_r inp.2 hr0 (by rw [hlenr]; exact hr1)
  have ht : ∃ t, hsd_chorus_tick sin L dl dr c dry wet s inp
        = some (t, (wet * vl + dry * inp.1, wet * vr + dry * inp.2))
      ∧ (t.delay_line_l.length : Int) = L ∧ (t.delay_line_r.length : Int) = L
      ∧ 0 ≤ t.write_index_l ∧ t.write_index_l < L
      ∧ 0 ≤ t.write_index_r ∧ t.write_index_r < L := by
    simp only [hsd_chorus_tick, hvl, hvr, hsl, hsr, Option.bind_eq_bind, Option.some_bind,
      Option.pure_def]
    refine ⟨_, rfl, by simp [hlenl], by simp [hlenr], ?_, ?_, ?_, ?_⟩ <;>
      dsimp only <;> split <;> omega
  obtain ⟨t, h1, h2⟩ := ht
  exact ⟨t, vl, vr, hvl, hvr, h1, h2⟩

/-- With `dry = 1` and `wet = 0` the DSP loop of `hsd_chorus_perform` copies the input. -/
theorem hsd_chorus_loop_dry (sin : α → α) (hsin : ∀ t, -1 ≤ sin t) (L : Int)
    (dl dr c : α) (hL : 0 < L) (hdl : 0 ≤ dl) (hdr : 0 ≤ dr) :
    ∀ (input : List (α × α)) (s : chorus_locals α),
      (s.delay_line_l.length : Int) = L → (s.delay_line_r.length : Int) = L →
      0 ≤ s.write_index_l → s.write_index_l < L →
      0 ≤ s.write_index_r → s.write_index_r < L →
      ∃ t, dspLoop (hsd_chorus_tick sin L dl dr c 1 0) s input = some (t, input) := by
  intro input
  induction input with
  | nil => intro s _ _ _ _ _ _; exact ⟨_, rfl⟩
  | cons inp rest ih =>
    intro s hlenl hlenr hl0 hl1 hr0 hr1
    obtain ⟨t, vl, vr, -, -, ht, a1, a2, a3, a4, a5, a6⟩ :=
      hsd_chorus_tick_out sin hsin L dl dr c 1 0 s inp hL hlenl hlenr hl0 hl1 hr0 hr1 hdl hdr
    obtain ⟨r, hr⟩ := ih t a1 a2 a3 a4 a5 a6
    refine ⟨r, ?_⟩
    simp only [dspLoop, ht, hr, Option.some_bind, Option.map_some', zero_mul, one_mul,
      zero_add]

theorem hsd_chorus_drywet_eq (x : hsd_chorus α) (f : α) :
    (hsd_chorus_drywet x f).wet = min (max f 0) 100 / 100
      ∧ (hsd_chorus_drywet x f).dry = 1 - min (max f 0) 100 / 100 := by
  have hclamp : (if (if f < 0 then 0 else f) > 100 then (100 : α)
      else (if f < 0 then 0 else f)) = min (max f 0) 100 := by
    by_cases h1 : f < 0
    · have h3 : ¬ (0 : α) > 100 := by norm_num
      rw [if_pos h1, if_neg h3, max_eq_right h1.le, min_eq_left (by norm_num)]
    · have h1' : 0 ≤ f := not_lt.mp h1
      rw [max_eq_left h1']
      by_cases h2 : f > 100
      · simp [h1, h2, min_eq_right (le_of_lt h2)]
      · simp [h1, h2, min_eq_left (not_lt.mp h2)]
  constructor <;> simp only [hsd_chorus_drywet, hclamp]
/-- The dry/wet mix of one iteration of the DSP loop of `hsd_chorus_perform`: the iteration
with the coefficients `dry`, `wet` is the iteration with `dry = 0`, `wet = 1` (whose output is
the pair read from the two lines) with the output pair `(vl, vr)` replaced by
`(wet*vl + dry*input_left, wet*vr + dry*input_right)`. -/
theorem hsd_chorus_tick_mix (sin : α → α) (L : Int) (dl dr c dry wet : α)
    (s : chorus_locals α) (inp : α × α) :
    hsd_chorus_tick sin L dl dr c dry wet s inp
      = (hsd_chorus_tick sin L dl dr c 0 1 s inp).map
          fun r => (r.1, (wet * r.2.1 + dry * inp.1, wet * r.2.2 + dry * inp.2)) := by
  simp only [hsd_chorus_tick, Option.bind_eq_bind, Option.pure_def]
  cases interpolated_read s.delay_line_l L s.write_index_l
      (dl * ((sin (2 * PI * (s.phase / c)) + 1) / 2) + 2) with
  | none => rfl
  | some vl =>
    cases interpolated_read s.delay_line_r L s.write_index_r
        (dr * ((sin (2 * PI * (s.phase / c) + (1 / 2) * PI) + 1) / 2) + 2) with
    | none => rfl
    | some vr =>
      cases store s.delay_line_l s.write_index_l inp.1 with
      | none => rfl
      | some ll =>
        cases store s.delay_line_r s.write_index_r inp.2 with
        | none => rfl
        | some lr =>
          simp only [Option.some_bind, Option.map_some', one_mul, zero_mul, add_zero]

/-- The dry/wet mix of a block of the DSP loop of `hsd_chorus_perform`: the locals after the
block do not depend on `dry` and `wet`, and each output pair is the mix of the pair read from
the lines (the output for `dry = 0`, `wet = 1`) with the input pair. -/
theorem hsd_chorus_loop_mix (sin : α → α) (L : Int) (dl dr c dry wet : α) :
    ∀ (input : List (α × α)) (s : chorus_locals α),
      dspLoop (hsd_chorus_tick sin L dl dr c dry wet) s input
        = (dspLoop (hsd_chorus_tick sin L dl dr c 0 1) s input).map
            fun r => (r.1, List.zipWith
              (fun v i => (wet * v.1 + dry * i.1, wet * v.2 + dry * i.2)) r.2 input) := by
  intro input
  induction input with
  | nil => intro s; rfl
  | cons inp rest ih =>
    intro s
    simp only [dspLoop]
    rw [hsd_chorus_tick_mix sin L dl dr c dry wet s inp]
    cases hsd_chorus_tick sin L dl dr c 0 1 s inp with
    | none => rfl
    | some r =>
      simp only [Option.map_some', Option.some_bind, ih r.1]
      cases dspLoop (hsd_chorus_tick sin L dl dr c 0 1) r.1 rest with
      | none => rfl
      | some t => simp only [Option.map_some', List.zipWith_cons_cons]

/-- On well-formed locals the DSP loop of `hsd_chorus_perform` runs through every block. -/
theorem hsd_chorus_loop_runs (sin : α → α) (hsin : ∀ t, -1 ≤ sin t) (L : Int)
    (dl dr c dry wet : α) (hL : 0 < L) (hdl : 0 ≤ dl) (hdr : 0 ≤ dr) :
    ∀ (input : List (α × α)) (s : chorus_locals α),
      (s.delay_line_l.length : Int) = L → (s.delay_line_r.length : Int) = L →
      0 ≤ s.write_index_l → s.write_index_l < L →
      0 ≤ s.write_index_r → s.write_index_r < L →
      ∃ r, dspLoop (hsd_chorus_tick sin L dl dr c dry wet) s input = some r
        ∧ r.2.length = input.length := by
  intro input
  induction input with
  | nil => intro s _ _ _ _ _ _; exact ⟨_, rfl, rfl⟩
  | cons inp rest ih =>
    intro s hlenl hlenr hl0 hl1 hr0 hr1
    obtain ⟨t, out, ht, -, a1, a2, a3, a4, a5, a6⟩ :=
      hsd_chorus_tick_some sin hsin L dl dr c dry wet s inp hL hlenl hlenr hl0 hl1 hr0 hr1
        hdl hdr
    obtain ⟨r, hr, hrl⟩ := ih t a1 a2 a3 a4 a5 a6
    refine ⟨(r.1, out :: r.2), ?_, by simp [hrl]⟩
    simp only [dspLoop, ht, hr, Option.some_bind, Option.map_some']

/-- The block recursion of `hsd_chorus_perform`: a block `inp :: rest` is one iteration of the
DSP loop on the locals of the object followed by the routine on `rest` from the locals that
iteration leaves. -/
theorem hsd_chorus_perform_cons (sin : α → α) (x : hsd_chorus α) (inp : α × α)
    (rest : List (α × α)) :
    hsd_chorus_perform sin x (inp :: rest)
      = (hsd_chorus_tick sin (truncToInt x.delay_line_length) x.depth_l x.depth_r
          x.cycle_length x.dry x.wet
          ⟨x.delay_line_l, x.delay_line_r, x.write_index_l, x.write_index_r, x.phase⟩ inp).bind
          fun r => (hsd_chorus_perform sin
            { x with
              delay_line_l := r.1.delay_line_l
              delay_line_r := r.1.delay_line_r
              write_index_l := r.1.write_index_l
              write_index_r := r.1.write_index_r
              phase := r.1.phase } rest).map fun s => (s.1, r.2 :: s.2) := by
  simp only [hsd_chorus_perform, dspLoop]
  cases hsd_chorus_tick sin (truncToInt x.delay_line_length) x.depth_l x.depth_r
      x.cycle_length x.dry x.wet
      ⟨x.delay_line_l, x.delay_line_r, x.write_index_l, x.write_index_r, x.phase⟩ inp with
  | none => rfl
  | some r =>
    simp only [Option.some_bind, Option.map_map]
    rfl

/-- C21: for every argument `f`, `hsd_chorus_drywet` sets `wet = clamp(f, 0, 100)/100` and
`dry = 1 - wet`, so `0 ≤ wet ≤ 1` and `dry + wet = 1`.  On a state with both lines allocated
(`delay_line_length > 0` cells, write indices inside, depths `≥ 0`, LFO function `≥ -1`) one
iteration of the DSP loop of `hsd_chorus_perform` reads `vl`, `vr` from the two lines and
outputs `(wet*vl + dry*input_left, wet*vr + dry*input_right)`; for `f ≤ 0` this is the input
pair, for `f ≥ 100` it is `(vl, vr)`; and for `f ≤ 0` the output vector of
`hsd_chorus_perform` is its input vector.  The routine itself is that iteration repeated: it
returns the object unchanged on the empty block, and on a block `inp :: input` it is one
iteration on the locals of the object followed by the routine on `input`, so its first output
pair is `(wet*vl + dry*input_left, wet*vr + dry*input_right)`, which is `(vl, vr)` for
`f ≥ 100`.  On every block the output vector is the mix, pair by pair, of the output vector
for `f = 100` (the pairs read from the lines) with the input vector, the lines, write indices
and phase left behind are those for `f = 100`, and for `f ≥ 100` the routine returns what it
returns for `f = 100`. -/
theorem hsd_chorus_drywet_mix (sin : α → α) (hsin : ∀ t, -1 ≤ sin t) (x : hsd_chorus α)
    (f : α) (input : List (α × α)) (inp : α × α)
    (hL : 0 < truncToInt x.delay_line_length)
    (hlenl : (x.delay_line_l.length : Int) = truncToInt x.delay_line_length)
    (hlenr : (x.delay_line_r.length : Int) = truncToInt x.delay_line_length)
    (hl0 : 0 ≤ x.write_index_l) (hl1 : x.write_index_l < truncToInt x.delay_line_length)
    (hr0 : 0 ≤ x.write_index_r) (hr1 : x.write_index_r < truncToInt x.delay_line_length)
    (hdl : 0 ≤ x.depth_l) (hdr : 0 ≤ x.depth_r) :
    ((hsd_chorus_drywet x f).wet = min (max f 0) 100 / 100
        ∧ (hsd_chorus_drywet x f).dry = 1 - (hsd_chorus_drywet x f).wet
        ∧ 0 ≤ (hsd_chorus_drywet x f).wet ∧ (hsd_chorus_drywet x f).wet ≤ 1
        ∧ (hsd_chorus_drywet x f).dry + (hsd_chorus_drywet x f).wet = 1)
      ∧ (∃ t vl vr,
          interpolated_read x.delay_line_l (truncToInt x.delay_line_length) x.write_index_l
              (x.depth_l * ((sin (2 * PI * (x.phase / x.cycle_length)) + 1) / 2) + 2) = some vl
          ∧ interpolated_read x.delay_line_r (truncToInt x.delay_line_length) x.write_index_r
              (x.depth_r * ((sin (2 * PI * (x.phase / x.cycle_length) + (1 / 2) * PI) + 1) / 2)
                + 2) = some vr
          ∧ hsd_chorus_tick sin (truncToInt x.delay_line_length) x.depth_l x.depth_r
              x.cycle_length (hsd_chorus_drywet x f).dry (hsd_chorus_drywet x f).wet
              ⟨x.delay_line_l, x.delay_line_r, x.write_index_l, x.write_index_r, x.phase⟩ inp
            = some (t, ((hsd_chorus_drywet x f).wet * vl + (hsd_chorus_drywet x f).dry * inp.1,
                (hsd_chorus_drywet x f).wet * vr + (hsd_chorus_drywet x f).dry * inp.2))
          ∧ (f ≤ 0 →
              ((hsd_chorus_drywet x f).wet * vl + (hsd_chorus_drywet x f).dry * inp.1,
                (hsd_chorus_drywet x f).wet * vr + (hsd_chorus_drywet x f).dry * inp.2) = inp)
          ∧ (100 ≤ f →
              ((hsd_chorus_drywet x f).wet * vl + (hsd_chorus_drywet x f).dry * inp.1,
                (hsd_chorus_drywet x f).wet * vr + (hsd_chorus_drywet x f).dry * inp.2)
                = (vl, vr)))
      ∧ (f ≤ 0 →
          ∃ y, hsd_chorus_perform sin (hsd_chorus_drywet x f) input = some (y, input))
      ∧ hsd_chorus_perform sin (hsd_chorus_drywet x f) [] = some (hsd_chorus_drywet x f, [])
      ∧ hsd_chorus_perform sin (hsd_chorus_drywet x f) (inp :: input)
          = (hsd_chorus_tick sin (truncToInt x.delay_line_length) x.depth_l x.depth_r
              x.cycle_length (hsd_chorus_drywet x f).dry (hsd_chorus_drywet x f).wet
              ⟨x.delay_line_l, x.delay_line_r, x.write_index_l, x.write_index_r, x.phase⟩
              inp).bind
              (fun r => (hsd_chorus_perform sin
                { hsd_chorus_drywet x f with
                  delay_line_l := r.1.delay_line_l
                  delay_line_r := r.1.delay_line_r
                  write_index_l := r.1.write_index_l
                  write_index_r := r.1.write_index_r
                  phase := r.1.phase } input).map fun s => (s.1, r.2 :: s.2))
      ∧ (∃ t vl vr y outs,
          interpolated_read x.delay_line_l (truncToInt x.delay_line_length) x.write_index_l
              (x.depth_l * ((sin (2 * PI * (x.phase / x.cycle_length)) + 1) / 2) + 2) = some vl
          ∧ interpolated_read x.delay_line_r (truncToInt x.delay_line_length) x.write_index_r
              (x.depth_r * ((sin (2 * PI * (x.phase / x.cycle_length) + (1 / 2) * PI) + 1) / 2)
                + 2) = some vr
          ∧ hsd_chorus_tick sin (truncToInt x.delay_line_length) x.depth_l x.depth_r
              x.cycle_length (hsd_chorus_drywet x f).dry (hsd_chorus_drywet x f).wet
              ⟨x.delay_line_l, x.delay_line_r, x.write_index_l, x.write_index_r, x.phase⟩ inp
            = some (t, ((hsd_chorus_drywet x f).wet * vl + (hsd_chorus_drywet x f).dry * inp.1,
                (hsd_chorus_drywet x f).wet * vr + (hsd_chorus_drywet x f).dry * inp.2))
          ∧ hsd_chorus_perform sin
              { hsd_chorus_drywet x f with
                delay_line_l := t.delay_line_l
                delay_line_r := t.delay_line_r
                write_index_l := t.write_index_l
                write_index_r := t.write_index_r
                phase := t.phase } input = some (y, outs)
          ∧ hsd_chorus_perform sin (hsd_chorus_drywet x f) (inp :: input)
            = some (y,
                ((hsd_chorus_drywet x f).wet * vl + (hsd_chorus_drywet x f).dry * inp.1,
                  (hsd_chorus_drywet x f).wet * vr + (hsd_chorus_drywet x f).dry * inp.2)
                :: outs)
          ∧ (100 ≤ f →
              hsd_chorus_perform sin (hsd_chorus_drywet x f) (inp :: input)
                = some (y, (vl, vr) :: outs)))
      ∧ (∃ y v, hsd_chorus_perform sin (hsd_chorus_drywet x 100) input = some (y, v)
          ∧ v.length = input.length
          ∧ hsd_chorus_perform sin (hsd_chorus_drywet x f) input
            = some ({ y with
                  dry := (hsd_chorus_drywet x f).dry, wet := (hsd_chorus_drywet x f).wet },
                List.zipWith
                  (fun v i => ((hsd_chorus_drywet x f).wet * v.1
                      + (hsd_chorus_drywet x f).dry * i.1,
                    (hsd_chorus_drywet x f).wet * v.2 + (hsd_chorus_drywet x f).dry * i.2))
                  v input)
          ∧ (100 ≤ f → hsd_chorus_perform sin (hsd_chorus_drywet x f) input = some (y, v))) := by
  obtain ⟨hw, hd⟩ := hsd_chorus_drywet_eq x f
  have hd2 : (hsd_chorus_drywet x f).dry = 1 - (hsd_chorus_drywet x f).wet := by rw [hd, hw]
  have hc0 : (0 : α) ≤ min (max f 0) 100 := le_min (le_max_right _ _) (by norm_num)
  have hc1 : min (max f 0) 100 ≤ (100 : α) := min_le_right _ _
  have hw0 : 0 ≤ (hsd_chorus_drywet x f).wet := by rw [hw]; positivity
  have hw1 : (hsd_chorus_drywet x f).wet ≤ 1 := by
    rw [hw, div_le_one (by norm_num)]; exact hc1
  have hlow : f ≤ 0 → (hsd_chorus_drywet x f).wet = 0 ∧ (hsd_chorus_drywet x f).dry = 1 := by
    intro hf
    have : (hsd_chorus_drywet x f).wet = 0 := by
      rw [hw, max_eq_right hf, min_eq_left (by norm_num)]; norm_num
    exact ⟨this, by rw [hd2, this]; norm_num⟩
  have hhigh : 100 ≤ f →
      (hsd_chorus_drywet x f).wet = 1 ∧ (hsd_chorus_drywet x f).dry = 0 := by
    intro hf
    have h0 : (0 : α) ≤ f := le_trans (by norm_num) hf
    have : (hsd_chorus_drywet x f).wet = 1 := by
      rw [hw, max_eq_left h0, min_eq_right hf]; norm_num
    exact ⟨this, by rw [hd2, this]; norm_num⟩
  have hperf : ∀ (z : hsd_chorus α) (blk : List (α × α)),
      hsd_chorus_perform sin z blk
        = (dspLoop (hsd_chorus_tick sin (truncToInt z.delay_line_length) z.depth_l z.depth_r
            z.cycle_length z.dry z.wet)
            ⟨z.delay_line_l, z.delay_line_r, z.write_index_l, z.write_index_r, z.phase⟩
            blk).map
          fun r =>
            ({ z with
                delay_line_l := r.1.delay_line_l
                delay_line_r := r.1.delay_line_r
                write_index_l := r.1.write_index_l
                write_index_r := r.1.write_index_r
                phase := r.1.phase }, r.2) := fun _ _ => rfl
  have hsame : 100 ≤ f → hsd_chorus_drywet x f = hsd_chorus_drywet x 100 := by
    intro hf
    have h1 : ¬ f < 0 := not_lt.mpr (le_trans (by norm_num) hf)
    have e : (if (if f < 0 then 0 else f) > 100 then (100 : α) else (if f < 0 then 0 else f))
        = 100 := by
      rw [if_neg h1]
      split
      · rfl
      · rename_i h2
        exact le_antisymm (not_lt.mp h2) hf
    simp only [hsd_chorus_drywet, e]
    norm_num
  have hhigh100 : (hsd_chorus_drywet x 100).wet = 1 ∧ (hsd_chorus_drywet x 100).dry = 0 := by
    obtain ⟨hw', hd'⟩ := hsd_chorus_drywet_eq x 100
    have : (hsd_chorus_drywet x 100).wet = 1 := by
      rw [hw', max_eq_left (by norm_num), min_eq_right (le_refl _)]; norm_num
    exact ⟨this, by rw [hd', ← hw', this]; norm_num⟩
  refine ⟨⟨hw, hd2, hw0, hw1, by rw [hd2]; ring⟩, ?_, ?_, rfl,
    hsd_chorus_perform_cons sin (hsd_chorus_drywet x f) inp input, ?_, ?_⟩
  · obtain ⟨t, vl, vr, hvl, hvr, ht, -⟩ := hsd_chorus_tick_out sin hsin
      (truncToInt x.delay_line_length) x.depth_l x.depth_r x.cycle_length
      (hsd_chorus_drywet x f).dry (hsd_chorus_drywet x f).wet
      ⟨x.delay_line_l, x.delay_line_r, x.write_index_l, x.write_index_r, x.phase⟩ inp
      hL hlenl hlenr hl0 hl1 hr0 hr1 hdl hdr
    refine ⟨t, vl, vr, hvl, hvr, ht, ?_, ?_⟩
    · intro hf
      rw [(hlow hf).1, (hlow hf).2]
      simp
    · intro hf
      rw [(hhigh hf).1, (hhigh hf).2]
      simp
  · intro hf
    obtain ⟨r, hr⟩ := hsd_chorus_loop_dry sin hsin (truncToInt x.delay_line_length)
      x.depth_l x.depth_r x.cycle_length hL hdl hdr input
      ⟨x.delay_line_l, x.delay_line_r, x.write_index_l, x.write_index_r, x.phase⟩
      hlenl hlenr hl0 hl1 hr0 hr1
    have e : hsd_chorus_perform sin (hsd_chorus_drywet x f) input
        = (dspLoop (hsd_chorus_tick sin (truncToInt x.delay_line_length) x.depth_l x.depth_r
            x.cycle_length (hsd_chorus_drywet x f).dry (hsd_chorus_drywet x f).wet)
            ⟨x.delay_line_l, x.delay_line_r, x.write_index_l, x.write_index_r, x.phase⟩
            input).map
          fun r =>
            ({ hsd_chorus_drywet x f with
                delay_line_l := r.1.delay_line_l
                delay_line_r := r.1.delay_line_r
                write_index_l := r.1.write_index_l
                write_index_r := r.1.write_index_r
                phase := r.1.phase }, r.2) := rfl
    rw [e, (hlow hf).1, (hlow hf).2, hr]
    exact ⟨_, rfl⟩
  · obtain ⟨t, vl, vr, hvl, hvr, ht, a1, a2, a3, a4, a5, a6⟩ := hsd_chorus_tick_out sin hsin
      (truncToInt x.delay_line_length) x.depth_l x.depth_r x.cycle_length
      (hsd_chorus_drywet x f).dry (hsd_chorus_drywet x f).wet
      ⟨x.delay_line_l, x.delay_line_r, x.write_index_l, x.write_index_r, x.phase⟩ inp
      hL hlenl hlenr hl0 hl1 hr0 hr1 hdl hdr
    obtain ⟨r, hr, -⟩ := hsd_chorus_loop_runs sin hsin (truncToInt x.delay_line_length)
      x.depth_l x.depth_r x.cycle_length (hsd_chorus_drywet x f).dry
      (hsd_chorus_drywet x f).wet hL hdl hdr input t a1 a2 a3 a4 a5 a6
    have hrest : hsd_chorus_perform sin
        { hsd_chorus_drywet x f with
          delay_line_l := t.delay_line_l
          delay_line_r := t.delay_line_r
          write_index_l := t.write_index_l
          write_index_r := t.write_index_r
          phase := t.phase } input
        = some ({ hsd_chorus_drywet x f with
            delay_line_l := r.1.delay_line_l
            delay_line_r := r.1.delay_line_r
            write_index_l := r.1.write_index_l
            write_index_r := r.1.write_index_r
            phase := r.1.phase }, r.2) := by
      rw [hperf]
      exact congrArg (Option.map _) hr
    have hall : hsd_chorus_perform sin (hsd_chorus_drywet x f) (inp :: input)
        = some ({ hsd_chorus_drywet x f with
            delay_line_l := r.1.delay_line_l
            delay_line_r := r.1.delay_line_r
            write_index_l := r.1.write_index_l
            write_index_r := r.1.write_index_r
            phase := r.1.phase },
          ((hsd_chorus_drywet x f).wet * vl + (hsd_chorus_drywet x f).dry * inp.1,
            (hsd_chorus_drywet x f).wet * vr + (hsd_chorus_drywet x f).dry * inp.2) :: r.2) := by
      rw [hsd_chorus_perform_cons]
      have ht2 : hsd_chorus_tick sin (truncToInt (hsd_chorus_drywet x f).delay_line_length)
          (hsd_chorus_drywet x f).depth_l (hsd_chorus_drywet x f).depth_r
          (hsd_chorus_drywet x f).cycle_length (hsd_chorus_drywet x f).dry
          (hsd_chorus_drywet x f).wet
          ⟨(hsd_chorus_drywet x f).delay_line_l, (hsd_chorus_drywet x f).delay_line_r,
            (hsd_chorus_drywet x f).write_index_l, (hsd_chorus_drywet x f).write_index_r,
            (hsd_chorus_drywet x f).phase⟩ inp = _ := ht
      rw [ht2, Option.some_bind]
      exact (congrArg (Option.map _) hrest).trans rfl
    refine ⟨t, vl, vr, _, r.2, hvl, hvr, ht, hrest, hall, ?_⟩
    intro hf
    rw [hall, (hhigh hf).1, (hhigh hf).2]
    simp
  · obtain ⟨r, hr, hrl⟩ := hsd_chorus_loop_runs sin hsin (truncToInt x.delay_line_length)
      x.depth_l x.depth_r x.cycle_length 0 1 hL hdl hdr input
      ⟨x.delay_line_l, x.delay_line_r, x.write_index_l, x.write_index_r, x.phase⟩
      hlenl hlenr hl0 hl1 hr0 hr1
    have h100 := hhigh100
    have e100 : hsd_chorus_perform sin (hsd_chorus_drywet x 100) input
        = some ({ hsd_chorus_drywet x 100 with
            delay_line_l := r.1.delay_line_l
            delay_line_r := r.1.delay_line_r
            write_index_l := r.1.write_index_l
            write_index_r := r.1.write_index_r
            phase := r.1.phase }, r.2) := by
      have e : hsd_chorus_perform sin (hsd_chorus_drywet x 100) input
          = (dspLoop (hsd_chorus_tick sin (truncToInt x.delay_line_length) x.depth_l
              x.depth_r x.cycle_length (hsd_chorus_drywet x 100).dry
              (hsd_chorus_drywet x 100).wet)
              ⟨x.delay_line_l, x.delay_line_r, x.write_index_l, x.write_index_r, x.phase⟩
              input).map
            fun r =>
              ({ hsd_chorus_drywet x 100 with
                  delay_line_l := r.1.delay_line_l
                  delay_line_r := r.1.delay_line_r
                  write_index_l := r.1.write_index_l
                  write_index_r := r.1.write_index_r
                  phase := r.1.phase }, r.2) := rfl
      rw [e, h100.1, h100.2, hr]
      rfl
    have ef : hsd_chorus_perform sin (hsd_chorus_drywet x f) input
        = (dspLoop (hsd_chorus_tick sin (truncToInt x.delay_line_length) x.depth_l
            x.depth_r x.cycle_length (hsd_chorus_drywet x f).dry
            (hsd_chorus_drywet x f).wet)
            ⟨x.delay_line_l, x.delay_line_r, x.write_index_l, x.write_index_r, x.phase⟩
            input).map
          fun r =>
            ({ hsd_chorus_drywet x f with
                delay_line_l := r.1.delay_line_l
                delay_line_r := r.1.delay_line_r
                write_index_l := r.1.write_index_l
                write_index_r := r.1.write_index_r
                phase := r.1.phase }, r.2) := rfl
    refine ⟨_, r.2, e100, hrl, ?_, ?_⟩
    · rw [ef, hsd_chorus_loop_mix, hr]
      rfl
    · intro hf
      rw [hsame hf]
      exact e100


/-- Witness of C21: lines of 3 cells, the constant LFO function 0 and the arguments
`f = -5` (the output is the input) and `f = 150` (the result is that for `f = 100`). -/
theorem hsd_chorus_drywet_mix_witness :
    (∃ y, hsd_chorus_perform (fun _ : ℚ => 0)
        (hsd_chorus_drywet
          ⟨100, 3, 0, [5, 6, 7], [8, 9, 10], 0, 0, 0, 0, 0, 0, 0, 0, 50, 2, 0, 1 / 2, 1 / 2⟩ (-5))
        [(1, 2), (3, 4)] = some (y, [(1, 2), (3, 4)]))
      ∧ (∃ y v, hsd_chorus_perform (fun _ : ℚ => 0)
            (hsd_chorus_drywet
              ⟨100, 3, 0, [5, 6, 7], [8, 9, 10], 0, 0, 0, 0, 0, 0, 0, 0, 50, 2, 0, 1 / 2, 1 / 2⟩
              100)
            [(1, 2), (3, 4)] = some (y, v)
          ∧ v.length = [((1 : ℚ), (2 : ℚ)), (3, 4)].length
          ∧ hsd_chorus_perform (fun _ : ℚ => 0)
            (hsd_chorus_drywet
              ⟨100, 3, 0, [5, 6, 7], [8, 9, 10], 0, 0, 0, 0, 0, 0, 0, 0, 50, 2, 0, 1 / 2, 1 / 2⟩
              150)
            [(1, 2), (3, 4)] = some (y, v)) := by
  have hx := fun f : ℚ => hsd_chorus_drywet_mix (fun _ : ℚ => 0) (by intro t; norm_num)
    ⟨100, 3, 0, [5, 6, 7], [8, 9, 10], 0, 0, 0, 0, 0, 0, 0, 0, 50, 2, 0, 1 / 2, 1 / 2⟩ f
    [(1, 2), (3, 4)] (1, 2)
    (by rw [truncToInt_three]; decide) (by rw [truncToInt_three]; rfl)
    (by rw [truncToInt_three]; rfl) (by decide) (by rw [truncToInt_three]; decide)
    (by decide) (by rw [truncToInt_three]; decide) (le_refl _) (le_refl _)
  refine ⟨(hx (-5)).2.2.1 (by norm_num), ?_⟩
  obtain ⟨y, v, h1, h2, -, h4⟩ := (hx 150).2.2.2.2.2.2
  exact ⟨y, v, h1, h2, h4 (by norm_num)⟩

end ChorusMixTheorems

/-! ## hsd_delay~: reset, capacity, delay time, reallocation -/

section DelayStateTheorems

set_option linter.unusedSectionVars false

variable {α : Type} [LinearOrderedField α] [FloorRing α]

/-- The loop `for (i = ..; ..; i++) buf[i] = 0.0;` run for `k` iterations from index `i`
inside the line: the cells `i .. i+k-1` become 0, the others are unchanged. -/
theorem zeroLoop_cells : ∀ (k i : Nat) (buf : List α), i + k ≤ buf.length →
    ∃ buf', zeroLoop k (i : Int) buf = some buf' ∧ buf'.length = buf.length
      ∧ ∀ j, buf'[j]? = if i ≤ j ∧ j < i + k then some 0 else buf[j]? := by
  intro k
  induction k with
  | zero =>
    intro i buf _
    refine ⟨buf, rfl, rfl, ?_⟩
    intro j
    have : ¬ (i ≤ j ∧ j < i + 0) := by omega
    rw [if_neg this]
  | succ k ih =>
    intro i buf h
    have hs : store buf (i : Int) 0 = some (buf.set i 0) := by
      have := store_of_lt buf (i : Int) 0 (by omega) (by omega)
      simpa using this
    obtain ⟨buf', h1, h2, h3⟩ := ih (i + 1) (buf.set i 0) (by simpa using by omega)
    refine ⟨buf', ?_, by simpa using h2, ?_⟩
    · rw [zeroLoop, hs, Option.some_bind]
      exact_mod_cast h1
    · intro j
      rw [h3 j]
      by_cases hj : j = i
      · subst hj
        have hlt : j < buf.length := by omega
        have a : ¬ (j + 1 ≤ j ∧ j < j + 1 + k) := by omega
        have b : j ≤ j ∧ j < j + (k + 1) := by omega
        rw [if_neg a, if_pos b]
        simp [hlt]
      · have e : (buf.set i 0)[j]? = buf[j]? := by
          rw [List.getElem?_set_ne (Ne.symm hj)]
        rw [e]
        by_cases hc : i + 1 ≤ j ∧ j < i + 1 + k
        · have b : i ≤ j ∧ j < i + (k + 1) := by omega
          rw [if_pos hc, if_pos b]
        · have b : ¬ (i ≤ j ∧ j < i + (k + 1)) := by omega
          rw [if_neg hc, if_neg b]

/-- Zeroing all `L` cells of a line of `L` cells gives the line of `L` zeros. -/
theorem zeroLoop_full (L : Nat) (buf : List α) (h : buf.length = L) :
    zeroLoop L 0 buf = some (List.replicate L 0) := by
  obtain ⟨buf', h1, h2, h3⟩ := zeroLoop_cells L 0 buf (by omega)
  have e : buf' = List.replicate L 0 := by
    apply List.ext_getElem?
    intro j
    rw [h3 j]
    by_cases hj : j < L
    · have : 0 ≤ j ∧ j < 0 + L := by omega
      rw [if_pos this]
      simp [hj]
    · have : ¬ (0 ≤ j ∧ j < 0 + L) := by omega
      rw [if_neg this]
      have a : buf[j]? = none := List.getElem?_eq_none (by omega)
      have b : (List.replicate L (0 : α))[j]? = none :=
        List.getElem?_eq_none (by simp; omega)
      rw [a, b]
  rw [← e]
  exact_mod_cast h1

/-- The routine `hsd_delay_bang` on a state whose line has its `L = delay_line_length` cells
allocated. -/
theorem hsd_delay_bang_eq (x : hsd_delay α) (L : Nat) (hL : x.delay_line_length = (L : α))
    (hlen : x.delay_line.length = L) :
    hsd_delay_bang x = some { x with delay_line := List.replicate L 0, write_index := 0 } := by
  have hc : Int.toNat ⌈((L : Nat) : α)⌉ = L := by
    rw [Int.ceil_natCast]; rfl
  simp only [hsd_delay_bang, zeroFill, hL, hc, zeroLoop_full L x.delay_line hlen,
    Option.map_some']

theorem getD_replicate_zero (L j : Nat) : (List.replicate L (0 : α)).getD j 0 = 0 := by
  by_cases h : j < L
  · simp [List.getD_eq_getElem?_getD, h]
  · have : (List.replicate L (0 : α))[j]? = none := List.getElem?_eq_none (by simp; omega)
    simp [List.getD_eq_getElem?_getD, this]

/-- C22: on a state of `hsd_delay~` whose line has its `L = delay_line_length > 0` cells
allocated, `hsd_delay_bang` returns the state with every cell 0 and `write_index = 0` and all
other fields unchanged; for every `delay_length = d ≥ 0` and every input the next output
sample of `hsd_delay_perform` is then 0 (and the block is processed); and `hsd_delay_bang`
applied to the result returns the same state. -/
theorem hsd_delay_bang_reset (x : hsd_delay α) (L : Nat) (d inp : α) (rest : List α)
    (hL : x.delay_line_length = (L : α)) (hlen : x.delay_line.length = L) (hpos : 0 < L)
    (hd : 0 ≤ d) :
    ∃ y, hsd_delay_bang x = some y
      ∧ y.delay_line = List.replicate L 0 ∧ y.write_index = 0
      ∧ y.sr = x.sr ∧ y.delay_time_ms = x.delay_time_ms ∧ y.delay_length = x.delay_length
      ∧ y.delay_line_length = x.delay_line_length ∧ y.delay_bytes = x.delay_bytes
      ∧ y.read_index = x.read_index
      ∧ (∃ z out, hsd_delay_perform { y with delay_length := d } (inp :: rest)
            = some (z, 0 :: out) ∧ out.length = rest.length)
      ∧ hsd_delay_bang y = some y := by
  refine ⟨{ x with delay_line := List.replicate L 0, write_index := 0 },
    hsd_delay_bang_eq x L hL hlen, rfl, rfl, rfl, rfl, rfl, rfl, rfl, rfl, ?_, ?_⟩
  · have hd' : 0 ≤ truncToInt d := truncToInt_nonneg d hd
    have hLi : truncToInt ((L : Nat) : α) = (L : Int) := truncToInt_natCast L
    have hrl : ((List.replicate L (0 : α)).length : Int) = (L : Int) := by simp
    have ht := hsd_delay_tick_eq (truncToInt d) (L : Int) (List.replicate L (0 : α)) 0 inp
      hrl (le_refl _) (by exact_mod_cast hpos) hd'
    rw [getD_replicate_zero] at ht
    obtain ⟨s, out, hs, hout⟩ := hsd_delay_loop_total (truncToInt d) (L : Int) hd' rest
      ((List.replicate L (0 : α)).set (0 : Int).toNat inp) ((0 + 1) % (L : Int))
      (by simp) (Int.emod_nonneg _ (by omega)) (Int.emod_lt_of_pos _ (by omega))
    have hp : ∃ z, hsd_delay_perform
        { ({ x with delay_line := List.replicate L 0, write_index := 0 } : hsd_delay α) with
          delay_length := d } (inp :: rest) = some (z, 0 :: out) := by
      simp only [hsd_delay_perform, hL, hLi, dspLoop, ht, Option.some_bind, hs,
        Option.map_some']
      exact ⟨_, rfl⟩
    obtain ⟨z, hz⟩ := hp
    exact ⟨z, out, hz, hout⟩
  · exact hsd_delay_bang_eq _ L hL (by simp)

/-- Witness of C22: the state created at sample rate 20 after two input samples. -/
theorem hsd_delay_bang_reset_witness :
    ∃ y, hsd_delay_bang (⟨20, 3, 12, [5, 7, 0], 50, 2, 2, 0⟩ : hsd_delay ℚ) = some y
      ∧ y.delay_line = List.replicate 3 0 ∧ y.write_index = 0
      ∧ y.sr = 20 ∧ y.delay_time_ms = 50 ∧ y.delay_length = 2
      ∧ y.delay_line_length = 3 ∧ y.delay_bytes = 12
      ∧ y.read_index = 0
      ∧ (∃ z out, hsd_delay_perform { y with delay_length := 3 / 2 } (9 :: [8])
            = some (z, 0 :: out) ∧ out.length = [(8 : ℚ)].length)
      ∧ hsd_delay_bang y = some y :=
  hsd_delay_bang_reset (⟨20, 3, 12, [5, 7, 0], 50, 2, 2, 0⟩ : hsd_delay ℚ) 3 (3 / 2) 9 [8]
    (by norm_num) rfl (by decide) (by norm_num)

end DelayStateTheorems

/-! ## hsd_delay~: capacity, delay time, failed reallocation, fraction -/

section DelayCapacityTheorems

set_option linter.unusedSectionVars false

variable {α : Type} [LinearOrderedField α] [FloorRing α]

/-- The number of cells `(t_int)(sr * DELMAX/1000 + 1)` for `sr ≥ 0`. -/
theorem capacity_eq_floor (sr : α) (h : 0 ≤ sr) :
    truncToInt (sr * DELMAX / 1000 + 1) = ⌊sr * DELMAX / 1000⌋ + 1 := by
  have h0 : 0 ≤ sr * DELMAX / 1000 := by unfold DELMAX; positivity
  have h1 : (0 : α) ≤ sr * DELMAX / 1000 + 1 := by linarith
  rw [truncToInt, if_pos h1, Int.floor_add_one]

theorem floor_eq_ceil_iff (v : α) : ⌊v⌋ + 1 = ⌈v⌉ + 1 ↔ ∃ n : Int, v = (n : α) := by
  constructor
  · intro h
    have h' : ⌊v⌋ = ⌈v⌉ := by omega
    refine ⟨⌊v⌋, le_antisymm ?_ (Int.floor_le v)⟩
    rw [h']
    exact Int.le_ceil v
  · rintro ⟨n, rfl⟩
    rw [Int.floor_intCast, Int.ceil_intCast]

/-- C23, as the source has it: for every sample rate `sr > 0` the delay line allocated by
`hsd_delay_new`, and by `hsd_delay_dsp` on a change of the sample rate to `s_sr > 0`, has
`floor(sr * DELMAX / 1000) + 1` cells (the conversion `(t_int)(sr * DELMAX/1000 + 1)`), and
`delay_line_length` is set to that number; it is `ceil(sr * DELMAX / 1000) + 1` exactly when
`sr * DELMAX / 1000` is an integer. -/
theorem hsd_delay_capacity (sr f s_sr : α) (x : hsd_delay α) (hsr : 0 < sr) (hs : 0 < s_sr)
    (hne : x.sr ≠ s_sr) :
    (∃ y, hsd_delay_new sr f true = some y
        ∧ (y.delay_line.length : Int) = ⌊sr * DELMAX / 1000⌋ + 1
        ∧ y.delay_line_length = ((⌊sr * DELMAX / 1000⌋ + 1 : Int) : α))
      ∧ (∃ y, hsd_delay_dsp x s_sr true = some y
        ∧ (y.delay_line.length : Int) = ⌊s_sr * DELMAX / 1000⌋ + 1
        ∧ y.delay_line_length = ((⌊s_sr * DELMAX / 1000⌋ + 1 : Int) : α))
      ∧ (⌊sr * DELMAX / 1000⌋ + 1 = ⌈sr * DELMAX / 1000⌉ + 1
          ↔ ∃ n : Int, sr * DELMAX / 1000 = (n : α)) := by
  have c1 := capacity_eq_floor sr hsr.le
  have c2 := capacity_eq_floor s_sr hs.le
  have p1 : 0 ≤ ⌊sr * DELMAX / 1000⌋ := Int.floor_nonneg.mpr (by unfold DELMAX; positivity)
  have p2 : 0 ≤ ⌊s_sr * DELMAX / 1000⌋ := Int.floor_nonneg.mpr (by unfold DELMAX; positivity)
  refine ⟨?_, ?_, floor_eq_ceil_iff _⟩
  · obtain ⟨buf, hbuf, hlen⟩ := zeroLoop_replicate (α := α) (⌊sr * DELMAX / 1000⌋ + 1).toNat
    simp only [hsd_delay_new, c1, hbuf, if_true, Option.map_some']
    refine ⟨_, rfl, ?_, rfl⟩
    simp only [hlen]
    omega
  · obtain ⟨buf, hbuf, hlen⟩ := zeroLoop_replicate (α := α) (⌊s_sr * DELMAX / 1000⌋ + 1).toNat
    simp only [hsd_delay_dsp, if_pos hne, c2, hbuf, if_true, Option.map_some']
    refine ⟨_, rfl, ?_, rfl⟩
    simp only [hlen]
    omega

/-- Witness of C23: creation at the sample rate 11025 and a change from 20 to 44100. -/
theorem hsd_delay_capacity_witness :
    ∃ y, hsd_delay_new (11025 : ℚ) 10 true = some y
      ∧ (y.delay_line.length : Int) = ⌊(11025 : ℚ) * DELMAX / 1000⌋ + 1
      ∧ y.delay_line_length = ((⌊(11025 : ℚ) * DELMAX / 1000⌋ + 1 : Int) : ℚ) :=
  (hsd_delay_capacity (11025 : ℚ) 10 44100 ⟨20, 3, 12, [0, 0, 0], 50, 2, 0, 0⟩ (by norm_num)
    (by norm_num) (by norm_num)).1

/-- C23 as stated fails at the sample rate 11025: `hsd_delay_new` allocates
`(t_int)(1102.5 + 1) = 1103` cells, and `ceil(11025 * DELMAX / 1000) + 1 = 1104`. -/
theorem hsd_delay_capacity_11025 :
    (∃ y, hsd_delay_new (11025 : ℚ) 10 true = some y ∧ (y.delay_line.length : Int) = 1103
        ∧ y.delay_line_length = 1103)
      ∧ ⌈(11025 : ℚ) * DELMAX / 1000⌉ + 1 = 1104 := by
  have hv : (11025 : ℚ) * DELMAX / 1000 = 2205 / 2 := by norm_num [DELMAX]
  have hf : ⌊(2205 / 2 : ℚ)⌋ = 1102 := by
    rw [Int.floor_eq_iff]; constructor <;> norm_num
  have hc : ⌈(2205 / 2 : ℚ)⌉ = 1103 := by
    rw [Int.ceil_eq_iff]; constructor <;> norm_num
  have c1 := capacity_eq_floor (11025 : ℚ) (by norm_num)
  rw [hv, hf] at c1
  refine ⟨?_, by rw [hv, hc]; rfl⟩
  obtain ⟨buf, hbuf, hlen⟩ := zeroLoop_replicate (α := ℚ) (1102 + 1 : Int).toNat
  simp only [hsd_delay_new, hv, c1, hbuf, if_true, Option.map_some']
  refine ⟨_, rfl, ?_, ?_⟩
  · simp only [hlen]; rfl
  · norm_num

/-- C24, as the source has it: for every argument `f > DELMAX` (and every `f ≤ 0`)
`hsd_delay_delaytime` stores the delay time 10 ms and `delay_length = sr*10/1000`; every
`g` with `0 < g ≤ DELMAX` is stored unchanged, with `delay_length = sr*g/1000`; no other
field changes. -/
theorem hsd_delay_delaytime_spec (x : hsd_delay α) (f g : α) (hf : f > DELMAX ∨ f ≤ 0)
    (hg0 : 0 < g) (hg1 : g ≤ DELMAX) :
    hsd_delay_delaytime x f = { x with delay_time_ms := 10, delay_length := x.sr * 10 / 1000 }
      ∧ hsd_delay_delaytime x g
        = { x with delay_time_ms := g, delay_length := x.sr * g / 1000 } := by
  have hg : ¬ (g > DELMAX ∨ g ≤ 0) := by
    push_neg
    exact ⟨hg1, hg0⟩
  constructor
  · simp only [hsd_delay_delaytime, if_pos hf]
  · simp only [hsd_delay_delaytime, if_neg hg]

/-- Witness of C24: the arguments 200 and 50 at the sample rate 44100. -/
theorem hsd_delay_delaytime_spec_witness :
    hsd_delay_delaytime (⟨44100, 4411, 17644, [], 10, 442, 0, 0⟩ : hsd_delay ℚ) 200
        = ⟨44100, 4411, 17644, [], 10, 44100 * 10 / 1000, 0, 0⟩
      ∧ hsd_delay_delaytime (⟨44100, 4411, 17644, [], 10, 442, 0, 0⟩ : hsd_delay ℚ) 50
        = ⟨44100, 4411, 17644, [], 50, 44100 * 50 / 1000, 0, 0⟩ :=
  hsd_delay_delaytime_spec (⟨44100, 4411, 17644, [], 10, 442, 0, 0⟩ : hsd_delay ℚ) 200 50
    (Or.inl (by norm_num [DELMAX])) (by norm_num) (by norm_num [DELMAX])

/-- C24 as stated fails for `f = 200` at the sample rate 44100: `hsd_delay_delaytime` stores
`delay_time_ms = 10`, not `DELMAX = 100`, and `delay_length = 441`, not
`sr*DELMAX/1000 = 4410`. -/
theorem hsd_delay_delaytime_200 :
    (hsd_delay_delaytime (⟨44100, 4411, 17644, [], 50, 2205, 0, 0⟩ : hsd_delay ℚ)
        200).delay_time_ms = 10
      ∧ (hsd_delay_delaytime (⟨44100, 4411, 17644, [], 50, 2205, 0, 0⟩ : hsd_delay ℚ)
        200).delay_length = 441
      ∧ (10 : ℚ) ≠ DELMAX ∧ (441 : ℚ) ≠ 44100 * DELMAX / 1000 := by
  have hf : (200 : ℚ) > DELMAX ∨ (200 : ℚ) ≤ 0 := Or.inl (by norm_num [DELMAX])
  refine ⟨?_, ?_, by norm_num [DELMAX], by norm_num [DELMAX]⟩
  · simp only [hsd_delay_delaytime, if_pos hf]
  · simp only [hsd_delay_delaytime, if_pos hf]
    norm_num

theorem truncToInt_three_halves : truncToInt (3 / 2 : α) = 1 := by
  have h0 : (0 : α) ≤ 3 / 2 := by norm_num
  unfold truncToInt
  rw [if_pos h0, Int.floor_eq_iff]
  constructor <;> norm_num

/-- C28 on the state created at sample rate 20 with delay time 50 ms: when the reallocation
fails in `hsd_delay_dsp` for the new sample rate 40, the state keeps `delay_line_length = 3`,
`write_index` and `delay_length`, but `sr` is 40, `delay_bytes` is 20 and the line is the
null pointer; a `hsd_delay_dsp` call for the same sample rate then changes nothing, and
`hsd_delay_bang` and `hsd_delay_perform` access the null line. -/
theorem hsd_delay_dsp_alloc_failure_example :
    hsd_delay_new (α := ℚ) 20 50 true = some ⟨20, 3, 12, [0, 0, 0], 50, 2, 0, 0⟩
      ∧ hsd_delay_dsp (⟨20, 3, 12, [0, 0, 0], 50, 2, 0, 0⟩ : hsd_delay ℚ) 40 false
        = some ⟨40, 3, 20, [], 50, 2, 0, 0⟩
      ∧ (⟨40, 3, 20, [], 50, 2, 0, 0⟩ : hsd_delay ℚ) ≠ ⟨20, 3, 12, [0, 0, 0], 50, 2, 0, 0⟩
      ∧ hsd_delay_dsp (⟨40, 3, 20, [], 50, 2, 0, 0⟩ : hsd_delay ℚ) 40 true
        = some ⟨40, 3, 20, [], 50, 2, 0, 0⟩
      ∧ hsd_delay_bang (⟨40, 3, 20, [], 50, 2, 0, 0⟩ : hsd_delay ℚ) = none
      ∧ hsd_delay_perform (⟨40, 3, 20, [], 50, 2, 0, 0⟩ : hsd_delay ℚ) [1] = none := by
  have hne : (20 : ℚ) ≠ 40 := by norm_num
  have h5 : truncToInt ((40 : ℚ) * DELMAX / 1000 + 1) = 5 := by
    have : (40 : ℚ) * DELMAX / 1000 + 1 = ((5 : Int) : ℚ) := by norm_num [DELMAX]
    rw [this, truncToInt_intCast]
  have h3 : truncToInt (3 : ℚ) = 3 := truncToInt_ofNat 3
  have h2 : truncToInt (2 : ℚ) = 2 := truncToInt_ofNat 2
  have hc : Int.toNat ⌈(3 : ℚ)⌉ = 3 := by
    have : ⌈(3 : ℚ)⌉ = 3 := by
      rw [Int.ceil_eq_iff]; constructor <;> norm_num
    rw [this]; rfl
  refine ⟨hsd_delay_new_example, ?_, ?_, ?_, ?_, ?_⟩
  · simp only [hsd_delay_dsp, if_pos hne, h5]
    norm_num [sizeof_t_float]
  · intro h
    have := congrArg hsd_delay.sr h
    norm_num at this
  · simp only [hsd_delay_dsp]
    norm_num
  · simp only [hsd_delay_bang, zeroFill, hc]
    rfl
  · simp only [hsd_delay_perform, h3, h2, dspLoop, hsd_delay_tick]
    rfl

/-- C29 on a state of `hsd_delay~` reachable at sample rate 20 (capacity 3) with the delay
time 75 ms, so `delay_length = 1.5` (`i = 1`, `f = 0.5`, `i + 1 ≤ capacity`): with the line
`[10, 20, 30]` and `write_index = 0` the output sample of `hsd_delay_perform` is 20, the cell
`(write_index - i - 1) mod capacity` alone, not `0.5*30 + 0.5*20 = 25`; the output is the
same as for `delay_length = 1`, because the local `delay_length` is a `t_int`. -/
theorem hsd_delay_fraction_example :
    (hsd_delay_delaytime (⟨20, 3, 12, [10, 20, 30], 50, 2, 0, 0⟩ : hsd_delay ℚ)
        75).delay_length = 3 / 2
      ∧ (hsd_delay_perform (⟨20, 3, 12, [10, 20, 30], 75, 3 / 2, 0, 0⟩ : hsd_delay ℚ)
          [7]).map (fun r => r.2) = some [20]
      ∧ (hsd_delay_perform (⟨20, 3, 12, [10, 20, 30], 50, 1, 0, 0⟩ : hsd_delay ℚ)
          [7]).map (fun r => r.2) = some [20]
      ∧ (1 / 2 : ℚ) * 30 + (1 - 1 / 2) * 20 = 25 := by
  have hf : ¬ ((75 : ℚ) > DELMAX ∨ (75 : ℚ) ≤ 0) := by norm_num [DELMAX]
  have h3 : truncToInt (3 : ℚ) = 3 := truncToInt_ofNat 3
  have h1 : truncToInt (1 : ℚ) = 1 := truncToInt_one
  have ht := hsd_delay_tick_eq (α := ℚ) 1 3 [10, 20, 30] 0 7 rfl (by decide) (by decide)
    (by decide)
  have hg : ([10, 20, 30] : List ℚ).getD
      (if (0 : Int) - 1 - 1 < 0 then ((0 : Int) - 1 - 1) % 3 else (0 : Int) - 1 - 1).toNat 0
      = 20 := rfl
  rw [hg] at ht
  refine ⟨?_, ?_, ?_, by norm_num⟩
  · simp only [hsd_delay_delaytime, if_neg hf]
    norm_num
  · simp only [hsd_delay_perform, h3, truncToInt_three_halves, dspLoop, ht, Option.some_bind,
      Option.map_some', Option.map_map, Function.comp]
  · simp only [hsd_delay_perform, h3, h1, dspLoop, ht, Option.some_bind,
      Option.map_some', Option.map_map, Function.comp]

end DelayCapacityTheorems

/-! ## Setters of hsd_comb~ and hsd_allpass~; unknown type of hsd_biquad~ -/

section SetterTheorems

set_option linter.unusedSectionVars false

variable {α : Type} [LinearOrderedField α] [FloorRing α]

/-- The setters `hsd_comb_feedback` and `hsd_allpass_gain` as the source has them: every
argument `f` outside `[0, 1]`, below as well as above, is replaced by 1; every `g` with
`0 ≤ g ≤ 1` is stored unchanged; no other field changes. -/
theorem hsd_comb_feedback_spec (x : hsd_comb α) (y : hsd_allpass α) (f g : α)
    (hf : f > 1 ∨ f < 0) (hg0 : 0 ≤ g) (hg1 : g ≤ 1) :
    hsd_comb_feedback x f = { x with feedback := 1 }
      ∧ hsd_comb_feedback x g = { x with feedback := g }
      ∧ hsd_allpass_gain y f = { y with g := 1 }
      ∧ hsd_allpass_gain y g = { y with g := g } := by
  have hg : ¬ (g > 1 ∨ g < 0) := by
    push_neg
    exact ⟨hg1, hg0⟩
  refine ⟨?_, ?_, ?_, ?_⟩
  · simp only [hsd_comb_feedback, if_pos hf]
  · simp only [hsd_comb_feedback, if_neg hg]
  · simp only [hsd_allpass_gain, if_pos hf]
  · simp only [hsd_allpass_gain, if_neg hg]

/-- The sibling setter `hsd_comblp_feedback` replaces every argument `f` outside `[0, 1]`
by 0 (and then limits `g2 + feedback` to `0.999`); with `g2 ≤ 0.999` it stores 0. -/
theorem hsd_comblp_feedback_illegal (x : hsd_comblp α) (f : α) (hf : f > 1 ∨ f < 0)
    (hg : x.g2 ≤ 999 / 1000) : hsd_comblp_feedback x f = { x with feedback := 0 } := by
  have h : ¬ (x.g2 + 0 > 999 / 1000) := by
    rw [add_zero]
    exact not_lt.mpr hg
  simp only [hsd_comblp_feedback, if_pos hf, if_neg h]

/-- C25 fails in the code for `f = -1/2` (and every `f < 0`): `hsd_comb_feedback` and
`hsd_allpass_gain` store 1, the far boundary of `[0, 1]`, although the error text of both
routines announces that the value is set to 0; the sibling `hsd_comblp_feedback`, which has
the same check and the same text, stores 0.  For arguments in `[0, 1]` (here `3/10`) and above
1 (here 2) the two setters store what C25 states. -/
theorem hsd_comb_feedback_negative :
    (hsd_comb_feedback (⟨20, 3, 12, [0, 0, 0], 50, 2, 0, 0, 1 / 10⟩ : hsd_comb ℚ)
        (-1 / 2)).feedback = 1
      ∧ (hsd_allpass_gain (⟨20, 3, 12, [0, 0, 0], 50, 2, 0, 0, 1 / 10⟩ : hsd_allpass ℚ)
        (-1 / 2)).g = 1
      ∧ (1 : ℚ) ≠ 0
      ∧ (hsd_comblp_feedback
          (⟨20, 3, 12, [0, 0, 0], 50, 2, 0, 0, 1 / 10, 0, 0⟩ : hsd_comblp ℚ) (-1 / 2)).feedback
          = 0
      ∧ (hsd_comb_feedback (⟨20, 3, 12, [0, 0, 0], 50, 2, 0, 0, 1 / 10⟩ : hsd_comb ℚ)
        (3 / 10)).feedback = 3 / 10
      ∧ (hsd_allpass_gain (⟨20, 3, 12, [0, 0, 0], 50, 2, 0, 0, 1 / 10⟩ : hsd_allpass ℚ)
        (3 / 10)).g = 3 / 10
      ∧ (hsd_comb_feedback (⟨20, 3, 12, [0, 0, 0], 50, 2, 0, 0, 1 / 10⟩ : hsd_comb ℚ)
        2).feedback = 1
      ∧ (hsd_allpass_gain (⟨20, 3, 12, [0, 0, 0], 50, 2, 0, 0, 1 / 10⟩ : hsd_allpass ℚ)
        2).g = 1 := by
  have hf : (-1 / 2 : ℚ) > 1 ∨ (-1 / 2 : ℚ) < 0 := Or.inr (by norm_num)
  have h2 : (2 : ℚ) > 1 ∨ (2 : ℚ) < 0 := Or.inl (by norm_num)
  have hg : ¬ ((3 / 10 : ℚ) > 1 ∨ (3 / 10 : ℚ) < 0) := by norm_num
  refine ⟨?_, ?_, by norm_num, ?_, ?_, ?_, ?_, ?_⟩
  · simp only [hsd_comb_feedback, if_pos hf]
  · simp only [hsd_allpass_gain, if_pos hf]
  · rw [hsd_comblp_feedback_illegal _ _ hf (by norm_num)]
  · simp only [hsd_comb_feedback, if_neg hg]
  · simp only [hsd_allpass_gain, if_neg hg]
  · simp only [hsd_comb_feedback, if_pos h2]
  · simp only [hsd_allpass_gain, if_pos h2]

/-- C26: for every symbol `s` other than the five type names and every state `x`,
`hsd_biquad_symbol x s` sets `typenumber = 0` (and the type name `lowass`), and its `coeffs`
are those that `hsd_biquad_symbol` with `lowpass` produces from any state `y` with the same
`sr`, `frequency` and `resonance`. -/
theorem hsd_biquad_symbol_unknown (tanf : α → α) (M_PI : α) (x y : hsd_biquad α) (s : String)
    (h0 : s ≠ "lowpass") (h1 : s ≠ "highpass") (h2 : s ≠ "bandpass") (h3 : s ≠ "bandreject")
    (h4 : s ≠ "allpass")
    (hsr : y.sr = x.sr) (hfr : y.frequency = x.frequency) (hres : y.resonance = x.resonance) :
    (hsd_biquad_symbol tanf M_PI x s).typenumber = 0
      ∧ (hsd_biquad_symbol tanf M_PI x s).coeffs
        = (hsd_biquad_symbol tanf M_PI y "lowpass").coeffs
      ∧ (hsd_biquad_symbol tanf M_PI x s).coeffs
        = biquad_switch 0 (tanf (M_PI * x.frequency / x.sr)) x.resonance
            (1 / (tanf (M_PI * x.frequency / x.sr) * tanf (M_PI * x.frequency / x.sr)
              * x.resonance + tanf (M_PI * x.frequency / x.sr) + x.resonance))
      ∧ (hsd_biquad_symbol tanf M_PI x s).type = "lowass" := by
  have e : hsd_biquad_symbol tanf M_PI x s
      = hsd_biquad_calculate_coeffs tanf M_PI { x with type := "lowass", typenumber := 0 } := by
    simp only [hsd_biquad_symbol, if_neg h0, if_neg h1, if_neg h2, if_neg h3, if_neg h4]
  have e2 : hsd_biquad_symbol tanf M_PI y "lowpass"
      = hsd_biquad_calculate_coeffs tanf M_PI { y with type := "lowpass", typenumber := 0 } := by
    simp only [hsd_biquad_symbol, if_true]
  rw [e, e2]
  refine ⟨rfl, ?_, ?_, rfl⟩
  · simp only [hsd_biquad_calculate_coeffs, hsr, hfr, hres]
  · simp only [hsd_biquad_calculate_coeffs, truncToInt_zero]

/-- Witness of C26: the symbol `notch` on two states with the same parameters. -/
theorem hsd_biquad_symbol_unknown_witness :
    (hsd_biquad_symbol (fun t : ℚ => t) 3
        ⟨100, 1, 2, "allpass", 4, 10, 2, ⟨1, 2, 3, 4, 5⟩, ⟨5, 4, 3, 2, 1⟩, 0⟩ "notch").coeffs
      = (hsd_biquad_symbol (fun t : ℚ => t) 3
        ⟨100, 0, 0, "highpass", 1, 10, 2, ⟨0, 0, 0, 0, 0⟩, ⟨0, 0, 0, 0, 0⟩, 0⟩
          "lowpass").coeffs :=
  (hsd_biquad_symbol_unknown (fun t : ℚ => t) 3
    ⟨100, 1, 2, "allpass", 4, 10, 2, ⟨1, 2, 3, 4, 5⟩, ⟨5, 4, 3, 2, 1⟩, 0⟩
    ⟨100, 0, 0, "highpass", 1, 10, 2, ⟨0, 0, 0, 0, 0⟩, ⟨0, 0, 0, 0, 0⟩, 0⟩ "notch"
    (by decide) (by decide) (by decide) (by decide) (by decide) rfl rfl rfl).2.1

end SetterTheorems

/-! ## The zero divisor of the comb loops; the calculating flag of hsd_biquad~ -/

section DivisorAndFlagTheorems

set_option linter.unusedSectionVars false

variable {α : Type} [LinearOrderedField α] [FloorRing α]

theorem wrapIndexF_nonneg (len : α) (r : Int) (h : 0 ≤ r) : wrapIndexF len r = some r := by
  unfold wrapIndexF
  cases r.natAbs <;> simp [wrapLoopF, not_lt.mpr h]

/-- The first statements of the DSP loops of `hsd_comb_perform`, `hsd_allpass_perform` and
`hsd_comblp_perform` for `0 ≤ delay_length < 1`: `idelay = 0`, the read index is the write
index, `samp1` is read, and the divisor of `(read_index + 1) % idelay` is zero. -/
theorem zero_divisor_steps (dl : α) (buf : List α) (wi : Int) (h0 : 0 ≤ dl) (h1 : dl < 1)
    (hw0 : 0 ≤ wi) (hw1 : wi < buf.length) :
    truncToInt dl = 0
      ∧ wrapIndexF dl (wi - truncToInt dl) = some wi
      ∧ load buf wi = some (buf.getD wi.toNat 0)
      ∧ cRem (wi + 1) (truncToInt dl) = none := by
  have ht : truncToInt dl = 0 := by
    unfold truncToInt
    rw [if_pos h0, Int.floor_eq_iff]
    constructor
    · simpa using h0
    · simpa using h1
  refine ⟨ht, ?_, load_of_lt buf wi hw0 hw1, ?_⟩
  · rw [ht, sub_zero]
    exact wrapIndexF_nonneg dl wi hw0
  · rw [ht]
    rfl

/-- C27: every delay time `ms` with `0 < ms ≤ DELMAX` and `sr*ms/1000 < 1` (at a sample rate
`sr ≥ 0`) is stored unchanged by `hsd_comb_delaytime`, `hsd_allpass_delaytime` and
`hsd_comblp_delaytime` with `delay_length = sr*ms/1000`; on a state with the write index
inside the line the next `hsd_comb_perform`, `hsd_allpass_perform` and `hsd_comblp_perform`
then compute `idelay = trunc(delay_length) = 0`, read `samp1` and evaluate
`(read_index + 1) % idelay` with a zero divisor, so the call has no defined result. -/
theorem comb_zero_divisor (sr ms inp : α) (rest : List α)
    (x : hsd_comb α) (y : hsd_allpass α) (z : hsd_comblp α)
    (hms0 : 0 < ms) (hms1 : ms ≤ DELMAX) (hsr : 0 ≤ sr) (hlt : sr * ms / 1000 < 1)
    (hx : x.sr = sr) (hxw0 : 0 ≤ x.write_index) (hxw1 : x.write_index < x.delay_line.length)
    (hy : y.sr = sr) (hyw0 : 0 ≤ y.write_index) (hyw1 : y.write_index < y.delay_line.length)
    (hz : z.sr = sr) (hzw0 : 0 ≤ z.write_index) (hzw1 : z.write_index < z.delay_line.length) :
    ((hsd_comb_delaytime x ms).delay_time_ms = ms
        ∧ (hsd_comb_delaytime x ms).delay_length = sr * ms / 1000
        ∧ truncToInt (hsd_comb_delaytime x ms).delay_length = 0
        ∧ cRem (x.write_index + 1) (truncToInt (hsd_comb_delaytime x ms).delay_length) = none
        ∧ hsd_comb_perform (hsd_comb_delaytime x ms) (inp :: rest) = none)
      ∧ ((hsd_allpass_delaytime y ms).delay_time_ms = ms
        ∧ (hsd_allpass_delaytime y ms).delay_length = sr * ms / 1000
        ∧ truncToInt (hsd_allpass_delaytime y ms).delay_length = 0
        ∧ cRem (y.write_index + 1) (truncToInt (hsd_allpass_delaytime y ms).delay_length)
          = none
        ∧ hsd_allpass_perform (hsd_allpass_delaytime y ms) (inp :: rest) = none)
      ∧ ((hsd_comblp_delaytime z ms).delay_time_ms = ms
        ∧ (hsd_comblp_delaytime z ms).delay_length = sr * ms / 1000
        ∧ truncToInt (hsd_comblp_delaytime z ms).delay_length = 0
        ∧ cRem (z.write_index + 1) (truncToInt (hsd_comblp_delaytime z ms).delay_length)
          = none
        ∧ hsd_comblp_perform (hsd_comblp_delaytime z ms) (inp :: rest) = none) := by
  have hms : ¬ (ms > DELMAX ∨ ms ≤ 0) := by
    push_neg
    exact ⟨hms1, hms0⟩
  have hd0 : 0 ≤ sr * ms / 1000 := by positivity
  have ex : hsd_comb_delaytime x ms
      = { x with delay_length := sr * ms / 1000, delay_time_ms := ms } := by
    simp only [hsd_comb_delaytime, if_neg hms, hx]
  have ey : hsd_allpass_delaytime y ms
      = { y with delay_length := sr * ms / 1000, delay_time_ms := ms } := by
    simp only [hsd_allpass_delaytime, if_neg hms, hy]
  have ez : hsd_comblp_delaytime z ms
      = { z with delay_length := sr * ms / 1000, delay_time_ms := ms } := by
    simp only [hsd_comblp_delaytime, if_neg hms, hz]
  obtain ⟨a1, a2, a3, a4⟩ :=
    zero_divisor_steps (sr * ms / 1000) x.delay_line x.write_index hd0 hlt hxw0 hxw1
  obtain ⟨b1, b2, b3, b4⟩ :=
    zero_divisor_steps (sr * ms / 1000) y.delay_line y.write_index hd0 hlt hyw0 hyw1
  obtain ⟨c1, c2, c3, c4⟩ :=
    zero_divisor_steps (sr * ms / 1000) z.delay_line z.write_index hd0 hlt hzw0 hzw1
  rw [ex, ey, ez]
  refine ⟨⟨rfl, rfl, a1, a4, ?_⟩, ⟨rfl, rfl, b1, b4, ?_⟩, ⟨rfl, rfl, c1, c4, ?_⟩⟩
  · simp only [hsd_comb_perform, dspLoop, hsd_comb_tick, a2, a3, a4, Option.bind_eq_bind,
      Option.some_bind, Option.none_bind, Option.map_none']
  · simp only [hsd_allpass_perform, dspLoop, hsd_allpass_tick, b2, b3, b4,
      Option.bind_eq_bind, Option.some_bind, Option.none_bind, Option.map_none']
  · simp only [hsd_comblp_perform, dspLoop, hsd_comblp_tick, c2, c3, c4,
      Option.bind_eq_bind, Option.some_bind, Option.none_bind, Option.map_none']

/-- Witness of C27: the delay time 0.01 ms at the sample rate 44100
(`delay_length = 0.441`), on the states with the 4411 cells that the constructors allocate at
that sample rate. -/
theorem comb_zero_divisor_witness :
    hsd_comb_perform
        (hsd_comb_delaytime
          (⟨44100, 4411, 17644, List.replicate 4411 0, 30, 1324, 0, 0, 1 / 10⟩ : hsd_comb ℚ)
          (1 / 100)) (1 :: [2]) = none :=
  (comb_zero_divisor (44100 : ℚ) (1 / 100) 1 [2]
    ⟨44100, 4411, 17644, List.replicate 4411 0, 30, 1324, 0, 0, 1 / 10⟩
    ⟨44100, 4411, 17644, List.replicate 4411 0, 30, 1324, 0, 0, 1 / 10⟩
    ⟨44100, 4411, 17644, List.replicate 4411 0, 30, 1324, 0, 0, 1 / 10, 0, 0⟩
    (by norm_num) (by norm_num [DELMAX]) (by norm_num) (by norm_num)
    rfl (le_refl _) (by rw [List.length_replicate]; decide)
    rfl (le_refl _) (by rw [List.length_replicate]; decide)
    rfl (le_refl _) (by rw [List.length_replicate]; decide)).1.2.2.2.2

end DivisorAndFlagTheorems

/-! ## Biquad: the difference equation and the stability triangle -/

section BiquadEquationTheorems

set_option linter.unusedSectionVars false

variable {α : Type} [LinearOrderedField α] [FloorRing α]

/-- The DSP loop of `hsd_biquad_perform` with `calculating_flag = 0`, run on the samples
`m, .., m+N-1` of the signal `x` from the state after `m` samples. -/
theorem biquad_loop_state (c oc : Coeffs α) (x : Nat → α) : ∀ (N m : Nat),
    dspLoopT (hsd_biquad_tick 0 c oc) (biquad_state c x m) ((List.range' m N).map x)
      = (biquad_state c x (m + N),
          (List.range' m N).map fun n => (hsd_biquad_tick 0 c c (biquad_state c x n) (x n)).2) := by
  intro N
  induction N with
  | zero => intro m; rfl
  | succ N ih =>
    intro m
    have ht : hsd_biquad_tick 0 c oc (biquad_state c x m) (x m)
        = hsd_biquad_tick 0 c c (biquad_state c x m) (x m) := by
      simp only [hsd_biquad_tick, ne_eq, not_true_eq_false, if_false]
    have hs : (hsd_biquad_tick 0 c c (biquad_state c x m) (x m)).1 = biquad_state c x (m + 1) :=
      rfl
    simp only [List.range'_succ, List.map_cons, dspLoopT, ht, hs, ih (m + 1)]
    rw [show m + 1 + N = m + (N + 1) by omega]

theorem biquad_tick_zero (c : Coeffs α) (z : α × α) (a : α) :
    hsd_biquad_tick 0 c c z a
      = ((a - c.a1 * z.1 - c.a2 * z.2, z.1),
          c.b0 * (a - c.a1 * z.1 - c.a2 * z.2) + c.b1 * z.1 + c.b2 * z.2) := by
  simp only [hsd_biquad_tick, ne_eq, not_true_eq_false, if_false]

/-- The outputs of the direct-form-II loop satisfy the difference equation. -/
theorem biquad_output_eq (c : Coeffs α) (x : Nat → α) : ∀ n,
    (hsd_biquad_tick 0 c c (biquad_state c x n) (x n)).2 = biquad_difference_equation c x n
      ∧ (hsd_biquad_tick 0 c c (biquad_state c x (n + 1)) (x (n + 1))).2
        = biquad_difference_equation c x (n + 1) := by
  intro n
  induction n with
  | zero =>
    constructor
    · simp only [biquad_tick_zero, biquad_state, biquad_difference_equation]
      ring
    · simp only [biquad_tick_zero, biquad_state, biquad_difference_equation]
      ring
  | succ n ih =>
    refine ⟨ih.2, ?_⟩
    have h1 := ih.1
    have h2 := ih.2
    simp only [biquad_tick_zero, biquad_state] at h1 h2 ⊢
    rw [biquad_difference_equation, ← h1, ← h2]
    ring

/-- C37: from `z1 = z2 = 0` (and `calculating_flag = 0` for `hsd_biquad_perform`), for all
coefficients and every input vector, the output vector of the direct-form-II loop of
`hsd_biquad_perform` and of `hsd_biquad_engine_perform` is the solution `y(0), y(1), ..` of
the difference equation `y(n) = b0*x(n) + b1*x(n-1) + b2*x(n-2) - a1*y(n-1) - a2*y(n-2)`
with `x(k) = y(k) = 0` for `k < 0`, where `x(n)` is the `n`-th input sample. -/
theorem biquad_difference_equation_holds (x : hsd_biquad α) (e : hsd_biquad_engine α)
    (input : List α) (hz1 : x.z1 = 0) (hz2 : x.z2 = 0) (hflag : x.calculating_flag = 0)
    (he1 : e.z1 = 0) (he2 : e.z2 = 0) :
    (hsd_biquad_perform x input).2
        = (List.range' 0 input.length).map
            (biquad_difference_equation x.coeffs (fun n => input.getD n 0))
      ∧ (hsd_biquad_engine_perform e input).2
        = (List.range' 0 input.length).map
            (biquad_difference_equation ⟨e.b0, e.b1, e.b2, e.a1, e.a2⟩
              (fun n => input.getD n 0)) := by
  have hin := list_eq_map_range' input
  constructor
  · have hl := biquad_loop_state x.coeffs x.oldcoeffs (fun n => input.getD n 0) input.length 0
    rw [← hin] at hl
    have hs : biquad_state x.coeffs (fun n => input.getD n 0) 0 = (x.z1, x.z2) := by
      rw [hz1, hz2]; rfl
    rw [hs] at hl
    simp only [hsd_biquad_perform, hflag, hl]
    apply List.map_congr_left
    intro n _
    exact (biquad_output_eq x.coeffs _ n).1
  · have ht : ∀ (s : α × α) (a : α), hsd_biquad_engine_tick e s a
        = hsd_biquad_tick 0 ⟨e.b0, e.b1, e.b2, e.a1, e.a2⟩ ⟨e.b0, e.b1, e.b2, e.a1, e.a2⟩ s a := by
      intro s a
      simp only [hsd_biquad_engine_tick, hsd_biquad_tick, ne_eq, not_true_eq_false, if_false]
    have hc := dspLoopT_congr _ _ ht (e.z1, e.z2) input
    have hl := biquad_loop_state ⟨e.b0, e.b1, e.b2, e.a1, e.a2⟩ ⟨e.b0, e.b1, e.b2, e.a1, e.a2⟩
      (fun n => input.getD n 0) input.length 0
    rw [← hin] at hl
    have hs : biquad_state ⟨e.b0, e.b1, e.b2, e.a1, e.a2⟩ (fun n => input.getD n 0) 0
        = (e.z1, e.z2) := by
      rw [he1, he2]; rfl
    rw [hs] at hl
    simp only [hsd_biquad_engine_perform, hc, hl]
    apply List.map_congr_left
    intro n _
    exact (biquad_output_eq _ _ n).1

/-- Witness of C37: the unit impulse through the coefficients
`b = (1, 2, 3)`, `a = (1/2, 1/4)`. -/
theorem biquad_difference_equation_holds_witness :
    (hsd_biquad_perform (⟨44100, 0, 0, "lowpass", 0, 300, 1, ⟨1, 2, 3, 1 / 2, 1 / 4⟩,
        ⟨0, 0, 0, 0, 0⟩, 0⟩ : hsd_biquad ℚ) [1, 0, 0]).2
      = (List.range' 0 3).map
          (biquad_difference_equation ⟨1, 2, 3, 1 / 2, 1 / 4⟩
            (fun n => ([1, 0, 0] : List ℚ).getD n 0)) :=
  (biquad_difference_equation_holds (⟨44100, 0, 0, "lowpass", 0, 300, 1,
    ⟨1, 2, 3, 1 / 2, 1 / 4⟩, ⟨0, 0, 0, 0, 0⟩, 0⟩ : hsd_biquad ℚ)
    ⟨0, 0, 1, 2, 3, 1 / 2, 1 / 4⟩ [1, 0, 0] rfl rfl rfl rfl rfl).1

/-- The feedback coefficients `a1 = 2Q(K²-1)ω`, `a2 = (K²Q-K+Q)ω` with
`ω = 1/(K²Q+K+Q)` lie strictly inside the stability triangle for `K, Q > 0`. -/
theorem stability_triangle (K Q a1 a2 : α) (hK : 0 < K) (hQ : 0 < Q)
    (h1 : a1 = 2 * Q * (K * K - 1) * (1 / (K * K * Q + K + Q)))
    (h2 : a2 = (K * K * Q - K + Q) * (1 / (K * K * Q + K + Q))) :
    |a2| < 1 ∧ |a1| < 1 + a2 := by
  have hD : 0 < K * K * Q + K + Q := by positivity
  have hw : 0 < 1 / (K * K * Q + K + Q) := by positivity
  have hDw : (K * K * Q + K + Q) * (1 / (K * K * Q + K + Q)) = 1 := by
    field_simp
  have e1 : 1 - a2 = 2 * K * (1 / (K * K * Q + K + Q)) := by
    rw [h2]; linear_combination (-1 : α) * hDw
  have e2 : 1 + a2 = (2 * K * K * Q + 2 * Q) * (1 / (K * K * Q + K + Q)) := by
    rw [h2]; linear_combination (-1 : α) * hDw
  have e3 : 1 + a2 - a1 = 4 * Q * (1 / (K * K * Q + K + Q)) := by
    rw [e2, h1]; ring
  have e4 : 1 + a2 + a1 = 4 * K * K * Q * (1 / (K * K * Q + K + Q)) := by
    rw [e2, h1]; ring
  have p1 : 0 < 1 - a2 := by rw [e1]; positivity
  have p2 : 0 < 1 + a2 := by rw [e2]; positivity
  have p3 : 0 < 1 + a2 - a1 := by rw [e3]; positivity
  have p4 : 0 < 1 + a2 + a1 := by rw [e4]; positivity
  constructor
  · rw [abs_lt]; constructor <;> linarith
  · rw [abs_lt]; constructor <;> linarith

/-- The stability triangle in exact arithmetic (no rounding): when
`K = tanf(M_PI*frequency/sr) > 0`, `Q = resonance > 0` and the type number is one of 0..4,
the coefficients `a1 = coeffs[3]`, `a2 = coeffs[4]` that `hsd_biquad_calculate_coeffs` stores
satisfy `|a2| < 1` and `|a1| < 1 + a2`.  The margin `1 + a2 - |a1|` is `4*K*K*Q*omega` for
`K < 1`, which for small `K` is below the resolution of binary32
(`hsd_biquad_triangle_binary32`). -/
theorem hsd_biquad_stability_triangle (tanf : α → α) (M_PI : α) (x : hsd_biquad α)
    (hK : 0 < tanf (M_PI * x.frequency / x.sr)) (hQ : 0 < x.resonance)
    (ht0 : 0 ≤ truncToInt x.typenumber) (ht4 : truncToInt x.typenumber ≤ 4) :
    |(hsd_biquad_calculate_coeffs tanf M_PI x).coeffs.a2| < 1
      ∧ |(hsd_biquad_calculate_coeffs tanf M_PI x).coeffs.a1|
        < 1 + (hsd_biquad_calculate_coeffs tanf M_PI x).coeffs.a2 := by
  have e : (hsd_biquad_calculate_coeffs tanf M_PI x).coeffs
      = biquad_switch (truncToInt x.typenumber) (tanf (M_PI * x.frequency / x.sr)) x.resonance
          (1 / (tanf (M_PI * x.frequency / x.sr) * tanf (M_PI * x.frequency / x.sr)
            * x.resonance + tanf (M_PI * x.frequency / x.sr) + x.resonance)) := rfl
  rw [e]
  generalize tanf (M_PI * x.frequency / x.sr) = K at hK ⊢
  generalize x.resonance = Q at hQ ⊢
  generalize truncToInt x.typenumber = t at ht0 ht4 ⊢
  interval_cases t
  · exact stability_triangle K Q _ _ hK hQ (by simp only [biquad_switch, if_true]; ring)
      (by simp only [biquad_switch, if_true]; ring)
  · exact stability_triangle K Q _ _ hK hQ (by simp [biquad_switch]; ring)
      (by simp [biquad_switch])
  · exact stability_triangle K Q _ _ hK hQ (by simp [biquad_switch])
      (by simp [biquad_switch])
  · exact stability_triangle K Q _ _ hK hQ (by simp [biquad_switch])
      (by simp [biquad_switch])
  · exact stability_triangle K Q _ _ hK hQ (by simp [biquad_switch])
      (by simp [biquad_switch])

/-- The exact stability triangle for the bandreject type with `K = 1/2` and `Q = 2`. -/
theorem hsd_biquad_stability_triangle_witness :
    |(hsd_biquad_calculate_coeffs (fun _ : ℚ => 1 / 2) 3
        ⟨44100, 0, 0, "bandreject", 3, 300, 2, ⟨0, 0, 0, 0, 0⟩, ⟨0, 0, 0, 0, 0⟩,
          0⟩).coeffs.a2| < 1
      ∧ |(hsd_biquad_calculate_coeffs (fun _ : ℚ => 1 / 2) 3
        ⟨44100, 0, 0, "bandreject", 3, 300, 2, ⟨0, 0, 0, 0, 0⟩, ⟨0, 0, 0, 0, 0⟩,
          0⟩).coeffs.a1|
        < 1 + (hsd_biquad_calculate_coeffs (fun _ : ℚ => 1 / 2) 3
          ⟨44100, 0, 0, "bandreject", 3, 300, 2, ⟨0, 0, 0, 0, 0⟩, ⟨0, 0, 0, 0, 0⟩,
            0⟩).coeffs.a2 :=
  hsd_biquad_stability_triangle (fun _ : ℚ => 1 / 2) 3
    ⟨44100, 0, 0, "bandreject", 3, 300, 2, ⟨0, 0, 0, 0, 0⟩, ⟨0, 0, 0, 0, 0⟩, 0⟩
    (by norm_num) (by norm_num) (by rw [truncToInt_three]; decide)
    (by rw [truncToInt_three]; decide)

end BiquadEquationTheorems

/-! ## Constructors: creation arguments and defaults -/

section ConstructorTheorems

set_option linter.unusedSectionVars false

variable {α : Type} [LinearOrderedField α] [FloorRing α]

/-- C32 at the creation arguments `5 0.01`, for any `tanf`, `M_PI` and sample rate:
`hsd_biquad_new` stores `frequency = 5` and `resonance = 0.01` as given, outside
`[20, 20000]` and `[0.1, 20]`, and computes the initial (lowpass) coefficients from them,
whereas `hsd_biquad_frequency` and `hsd_biquad_resonance` with the same values store 20 and
0.1. -/
theorem hsd_biquad_new_unclamped_example :
    ∀ (tanf : ℚ → ℚ) (M_PI sr : ℚ),
      (hsd_biquad_new tanf M_PI sr [t_atom.A_FLOAT 5, t_atom.A_FLOAT (1 / 100)]).frequency = 5
      ∧ (hsd_biquad_new tanf M_PI sr [t_atom.A_FLOAT 5, t_atom.A_FLOAT (1 / 100)]).resonance
        = 1 / 100
      ∧ ¬ ((20 : ℚ) ≤ 5) ∧ ¬ ((1 / 10 : ℚ) ≤ 1 / 100)
      ∧ (hsd_biquad_new tanf M_PI sr [t_atom.A_FLOAT 5, t_atom.A_FLOAT (1 / 100)]).coeffs
        = biquad_switch 0 (tanf (M_PI * 5 / sr)) (1 / 100)
            (1 / (tanf (M_PI * 5 / sr) * tanf (M_PI * 5 / sr) * (1 / 100)
              + tanf (M_PI * 5 / sr) + 1 / 100))
      ∧ (hsd_biquad_frequency tanf M_PI
          (hsd_biquad_new tanf M_PI sr [t_atom.A_FLOAT 5, t_atom.A_FLOAT (1 / 100)])
          5).frequency = 20
      ∧ (hsd_biquad_resonance tanf M_PI
          (hsd_biquad_new tanf M_PI sr [t_atom.A_FLOAT 5, t_atom.A_FLOAT (1 / 100)])
          (1 / 100)).resonance = 1 / 10 := by
  intro tanf M_PI sr
  have e : hsd_biquad_new tanf M_PI sr [t_atom.A_FLOAT 5, t_atom.A_FLOAT (1 / 100)]
      = hsd_biquad_calculate_coeffs tanf M_PI
          ⟨sr, 0, 0, "lowpass", 0, 5, 1 / 100, ⟨0, 0, 0, 0, 0⟩, ⟨0, 0, 0, 0, 0⟩, 0⟩ := by
    simp [hsd_biquad_new, hsd_biquad_symbol, atom_getfloatarg, DEFAULT_TYPE]
  rw [e]
  refine ⟨rfl, rfl, by norm_num, by norm_num, ?_, ?_, ?_⟩
  · simp only [hsd_biquad_calculate_coeffs, truncToInt_zero]
  · have h : (5 : ℚ) < 20 := by norm_num
    have h2 : ¬ ((20 : ℚ) > 20000) := by norm_num
    simp only [hsd_biquad_frequency, if_pos h, if_neg h2]
    rfl
  · have h : (1 / 100 : ℚ) < 1 / 10 := by norm_num
    have h2 : ¬ ((1 / 10 : ℚ) > 20) := by norm_num
    simp only [hsd_biquad_resonance, if_pos h, if_neg h2]
    rfl

/-- C33 for the object created without creation arguments, for any `sin` and sample rate:
`hsd_svf_new` calls neither setter, so `fc`, `F1` and `Q1` keep the zero of the fresh object
memory (not 300 and `1/0.707`), and `hsd_svf_perform` then outputs the input on the highpass
outlet and 0 on the bandpass and lowpass outlets. -/
theorem hsd_svf_new_defaults_example :
    ∀ (sin : ℚ → ℚ) (sr : ℚ),
      hsd_svf_new sin sr [] = ⟨sr, 0, 0, 0, 0, 0⟩
      ∧ (hsd_svf_new sin sr []).fc ≠ svf_DEFAULT_FREQUENCY
      ∧ (hsd_svf_new sin sr []).Q1 ≠ 1 / svf_DEFAULT_RES
      ∧ (hsd_svf_new sin sr []).F1 = 0
      ∧ (hsd_svf_perform (hsd_svf_new sin sr []) [1, 2]).2 = [(1, 0, 0), (2, 0, 0)] := by
  intro sin sr
  have e : hsd_svf_new sin sr [] = ⟨sr, 0, 0, 0, 0, 0⟩ := by
    simp [hsd_svf_new]
  rw [e]
  refine ⟨rfl, ?_, ?_, rfl, ?_⟩
  · norm_num [svf_DEFAULT_FREQUENCY]
  · norm_num [svf_DEFAULT_RES]
  · simp [hsd_svf_perform, dspLoopT, hsd_svf_tick]

/-- C34 at the creation argument `f3 = -2`, for any sample rate and other arguments:
`hsd_vibrato_new` stores the feedback `0.99`, while `hsd_vibrato_feedback` with `-2` stores
`-0.99`. -/
theorem hsd_vibrato_new_feedback_example :
    ∀ (sr f1 f2 : ℚ), ∃ x, hsd_vibrato_new sr f1 f2 (-2) true = some x
      ∧ x.feedback = 99 / 100
      ∧ (hsd_vibrato_feedback x (-2)).feedback = -(99 / 100)
      ∧ (99 / 100 : ℚ) ≠ -(99 / 100) := by
  intro sr f1 f2
  obtain ⟨buf, hbuf, -⟩ := zeroLoop_replicate (α := ℚ) (vibrato_capacity sr).toNat
  have h1 : (-2 : ℚ) ≠ 0 := by norm_num
  have h2 : ¬ ((-2 : ℚ) > 99 / 100) := by norm_num
  have h3 : (-2 : ℚ) < -(99 / 100) := by norm_num
  simp only [hsd_vibrato_new, hbuf, if_true, Option.map_some', Option.some.injEq,
    exists_eq_left', if_pos h1, if_neg h2, if_pos h3, hsd_vibrato_feedback]
  norm_num

/-- C35 at a negative frequency argument of `hsd_vibrato_new` (`f2 = -1`) and at the
frequency argument 0 of `hsd_chorus_new` (arguments `10 10 0`), for any sample rate: the
constructors store the LFO frequency 0, which is not strictly positive, and compute
`cycle_length = sr/frequency` with it; `hsd_vibrato_dsp` does so again after a change of the
sample rate. -/
theorem lfo_frequency_zero_example :
    ∀ (sr f1 f3 : ℚ),
      (∃ x, hsd_vibrato_new sr f1 (-1) f3 true = some x ∧ x.frequency = 0
          ∧ ¬ (0 < x.frequency) ∧ x.cycle_length = x.sr / 0
          ∧ ∃ y, hsd_vibrato_dsp x (sr + 1) true = some y
              ∧ y.frequency = 0 ∧ y.cycle_length = y.sr / 0)
      ∧ ∃ y, hsd_chorus_new sr [t_atom.A_FLOAT 10, t_atom.A_FLOAT 10, t_atom.A_FLOAT 0]
            true true = some y
          ∧ y.frequency = 0 ∧ ¬ (0 < y.frequency) ∧ y.cycle_length = y.sr / 0 := by
  intro sr f1 f3
  constructor
  · obtain ⟨buf, hbuf, -⟩ := zeroLoop_replicate (α := ℚ) (vibrato_capacity sr).toNat
    obtain ⟨buf2, hbuf2, -⟩ := zeroLoop_replicate (α := ℚ) (vibrato_capacity (sr + 1)).toNat
    have h1 : (-1 : ℚ) ≠ 0 := by norm_num
    have h2 : (-1 : ℚ) < 0 := by norm_num
    have hne : sr ≠ sr + 1 := by
      intro h
      linarith
    simp only [hsd_vibrato_new, hbuf, if_true, Option.map_some', Option.some.injEq,
      exists_eq_left', if_pos h1, if_pos h2, lt_self_iff_false, not_false_eq_true, true_and]
    simp only [hsd_vibrato_dsp, ne_eq, hne, not_false_eq_true, if_true, hbuf2,
      Option.map_some', Option.some.injEq, exists_eq_left', and_self]
  · obtain ⟨buf, hbuf, -⟩ := zeroLoop_replicate (α := ℚ)
      (truncToInt (sr * chorus_DELMAX / 1000 + 1)).toNat
    simp only [hsd_chorus_new, hbuf, if_true, Option.some_bind, Option.map_some',
      Option.some.injEq, exists_eq_left']
    norm_num [atom_getfloatarg]

end ConstructorTheorems

/-! ## hsd_delay~: the delay length set by the constructor -/

section DelayLengthTheorems

set_option linter.unusedSectionVars false

variable {α : Type} [LinearOrderedField α] [FloorRing α]

/-- C39 at the sample rate 44100 and the delay time 10 ms: `hsd_delay_delaytime` stores
`delay_length = 441`, while `hsd_delay_new` establishes 442 and `hsd_delay_dsp` (after a
change of the sample rate from 48000 to 44100) recomputes 442. -/
theorem hsd_delay_length_mismatch_example :
    (hsd_delay_delaytime
        (⟨44100, 4411, 17644, List.replicate 4411 0, 50, 2206, 0, 0⟩ : hsd_delay ℚ)
        10).delay_length = 441
      ∧ (∃ y, hsd_delay_new (44100 : ℚ) 10 true = some y ∧ y.delay_time_ms = 10
          ∧ y.delay_length = 442)
      ∧ (∃ y, hsd_delay_dsp
            (⟨48000, 4801, 19204, List.replicate 4801 0, 10, 481, 0, 0⟩ : hsd_delay ℚ)
            44100 true = some y ∧ y.sr = 44100 ∧ y.delay_time_ms = 10 ∧ y.delay_length = 442)
      ∧ (441 : ℚ) ≠ 442 := by
  have hf : ¬ ((10 : ℚ) > DELMAX ∨ (10 : ℚ) ≤ 0) := by norm_num [DELMAX]
  have hne : (48000 : ℚ) ≠ 44100 := by norm_num
  have h10 : (10 : ℚ) ≠ 0 := by norm_num
  obtain ⟨buf, hbuf, -⟩ := zeroLoop_replicate (α := ℚ)
    (truncToInt ((44100 : ℚ) * DELMAX / 1000 + 1)).toNat
  refine ⟨?_, ?_, ?_, by norm_num⟩
  · simp only [hsd_delay_delaytime, if_neg hf]
    norm_num
  · simp only [hsd_delay_new, if_pos h10, if_neg hf, hbuf, if_true, Option.map_some',
      Option.some.injEq, exists_eq_left']
    norm_num
  · simp only [hsd_delay_dsp, if_pos hne, hbuf, if_true, Option.map_some',
      Option.some.injEq, exists_eq_left']
    norm_num

/-- The DSP loop of `hsd_delay_perform` on a line of 3 cells with the local
`delay_length = 3`: the output is the cell written one sample earlier. -/
theorem hsd_delay_tick_full (a b c v : ℚ) :
    hsd_delay_tick 3 3 ([a, b, c], 0) v = some (([v, b, c], 1), c)
      ∧ hsd_delay_tick 3 3 ([a, b, c], 1) v = some (([a, v, c], 2), a)
      ∧ hsd_delay_tick 3 3 ([a, b, c], 2) v = some (([a, b, v], 0), b) :=
  ⟨hsd_delay_tick_eq 3 3 [a, b, c] 0 v rfl (by decide) (by decide) (by decide),
    hsd_delay_tick_eq 3 3 [a, b, c] 1 v rfl (by decide) (by decide) (by decide),
    hsd_delay_tick_eq 3 3 [a, b, c] 2 v rfl (by decide) (by decide) (by decide)⟩

/-- C40 at the sample rate 20 and the delay time 100 ms (`= DELMAX`, accepted by
`hsd_delay_new`): the capacity is 3 and the established `delay_length` is 3, so
`trunc(delay_length) + 1 = 4` exceeds the capacity; the read indices wrap around the line
and `hsd_delay_perform` answers the input `1, 2, 3, 4, 5` with `0, 1, 2, 3, 4`, the samples
written one sample earlier, not four.  At the sample rate 44100 the same delay time gives
`delay_length = 4411` on 4411 cells. -/
theorem hsd_delay_new_capacity_example :
    hsd_delay_new (20 : ℚ) 100 true = some ⟨20, 3, 12, [0, 0, 0], 100, 3, 0, 0⟩
      ∧ ¬ (truncToInt (3 : ℚ) + 1 ≤ 3)
      ∧ (hsd_delay_perform (⟨20, 3, 12, [0, 0, 0], 100, 3, 0, 0⟩ : hsd_delay ℚ)
          [1, 2, 3, 4, 5]).map (fun r => r.2) = some [0, 1, 2, 3, 4]
      ∧ ∃ y, hsd_delay_new (44100 : ℚ) 100 true = some y ∧ y.delay_length = 4411
          ∧ (y.delay_line.length : Int) = 4411
          ∧ ¬ (truncToInt y.delay_length + 1 ≤ (y.delay_line.length : Int)) := by
  have h3 : truncToInt (3 : ℚ) = 3 := truncToInt_ofNat 3
  have hf : ¬ ((100 : ℚ) > DELMAX ∨ (100 : ℚ) ≤ 0) := by norm_num [DELMAX]
  have h100 : (100 : ℚ) ≠ 0 := by norm_num
  refine ⟨?_, by rw [h3]; decide, ?_, ?_⟩
  · have h : truncToInt ((20 : ℚ) * DELMAX / 1000 + 1) = 3 := by
      have : (20 : ℚ) * DELMAX / 1000 + 1 = ((3 : Int) : ℚ) := by norm_num [DELMAX]
      rw [this, truncToInt_intCast]
    have hz : zeroLoop (Int.toNat 3) 0 (List.replicate (Int.toNat 3) (0 : ℚ))
        = some [0, 0, 0] := rfl
    simp only [hsd_delay_new, h, hz, if_pos h100, if_neg hf, if_true, Option.map_some']
    norm_num [DELMAX, sizeof_t_float]
  · simp only [hsd_delay_perform, h3, dspLoop, (hsd_delay_tick_full _ _ _ _).1,
      (hsd_delay_tick_full _ _ _ _).2.1, (hsd_delay_tick_full _ _ _ _).2.2,
      Option.some_bind, Option.map_some']
  · have hc : truncToInt ((44100 : ℚ) * DELMAX / 1000 + 1) = 4411 := by
      have : (44100 : ℚ) * DELMAX / 1000 + 1 = ((4411 : Int) : ℚ) := by norm_num [DELMAX]
      rw [this, truncToInt_intCast]
    obtain ⟨buf, hbuf, hlen⟩ := zeroLoop_replicate (α := ℚ) (4411 : Int).toNat
    have h4411 : truncToInt (4411 : ℚ) = 4411 := truncToInt_ofNat 4411
    have hd : (44100 : ℚ) * 100 / 1000 + 1 = 4411 := by norm_num
    simp only [hsd_delay_new, hc, hbuf, if_pos h100, if_neg hf, if_true, Option.map_some',
      Option.some.injEq, exists_eq_left', hd, h4411, hlen]
    decide

end DelayLengthTheorems

/-! ## hsd_comb~: the write index and the tap for a fractional delay -/

section CombIndexTheorems

set_option linter.unusedSectionVars false

variable {α : Type} [LinearOrderedField α] [FloorRing α]

/-- One pass of the loop `while (read_index < 0) read_index += delay_length;` suffices when
the sum is not negative. -/
theorem wrapIndexF_step (len : α) (r : Int) (hr : r < 0)
    (h : 0 ≤ truncToInt ((r : α) + len)) :
    wrapIndexF len r = some (truncToInt ((r : α) + len)) := by
  unfold wrapIndexF
  obtain ⟨k, hk⟩ : ∃ k, r.natAbs = k + 1 := ⟨r.natAbs - 1, by omega⟩
  rw [hk, wrapLoopF, if_pos hr]
  cases k <;> simp [wrapLoopF, not_lt.mpr h]

theorem truncToInt_seven_halves : truncToInt (7 / 2 : α) = 3 := by
  have h0 : (0 : α) ≤ 7 / 2 := by norm_num
  unfold truncToInt
  rw [if_pos h0, Int.floor_eq_iff]
  constructor <;> norm_num

theorem truncToInt_five_halves : truncToInt (5 / 2 : α) = 2 := by
  have h0 : (0 : α) ≤ 5 / 2 := by norm_num
  unfold truncToInt
  rw [if_pos h0, Int.floor_eq_iff]
  constructor <;> norm_num

/-- The read index of the comb loops for `delay_length = 3.5` (`idelay = 3`) at the write
indices 0..3. -/
theorem comb_read_index_seven_halves :
    wrapIndexF (7 / 2 : ℚ) (-3) = some 0
      ∧ wrapIndexF (7 / 2 : ℚ) (-2) = some 1
      ∧ wrapIndexF (7 / 2 : ℚ) (-1) = some 2
      ∧ wrapIndexF (7 / 2 : ℚ) 0 = some 0 := by
  have a0 : truncToInt ((((-3 : Int)) : ℚ) + 7 / 2) = 0 := by
    rw [show (((-3 : Int)) : ℚ) + 7 / 2 = 1 / 2 by norm_num]; exact truncToInt_half
  have a1 : truncToInt ((((-2 : Int)) : ℚ) + 7 / 2) = 1 := by
    rw [show (((-2 : Int)) : ℚ) + 7 / 2 = 3 / 2 by norm_num]
    exact truncToInt_three_halves
  have a2 : truncToInt ((((-1 : Int)) : ℚ) + 7 / 2) = 2 := by
    rw [show (((-1 : Int)) : ℚ) + 7 / 2 = 5 / 2 by norm_num]
    exact truncToInt_five_halves
  refine ⟨?_, ?_, ?_, ?_⟩
  · have := wrapIndexF_step (7 / 2 : ℚ) (-3) (by decide) (by rw [a0])
    rw [this, a0]
  · have := wrapIndexF_step (7 / 2 : ℚ) (-2) (by decide) (by rw [a1]; decide)
    rw [this, a1]
  · have := wrapIndexF_step (7 / 2 : ℚ) (-1) (by decide) (by rw [a2]; decide)
    rw [this, a2]
  · exact wrapIndexF_nonneg _ _ (by decide)

/-- The DSP loop of `hsd_comb_perform` with `delay_length = 3.5` and no feedback on a line of
3 cells: at the write indices 0, 1, 2 the write index advances (to 3 after the third one),
at the write index 3 the write `delay_line[write_index]` is outside the line. -/
theorem hsd_comb_tick_three_cells (a b c v : ℚ) :
    hsd_comb_tick (7 / 2) 0 ([a, b, c], 0) v
        = some (([v, b, c], 1), a + (1 / 2) * (b - a))
      ∧ hsd_comb_tick (7 / 2) 0 ([a, b, c], 1) v
        = some (([a, v, c], 2), b + (1 / 2) * (c - b))
      ∧ hsd_comb_tick (7 / 2) 0 ([a, b, c], 2) v
        = some (([a, b, v], 3), c + (1 / 2) * (a - c))
      ∧ hsd_comb_tick (7 / 2) 0 ([a, b, c], 3) v = none := by
  obtain ⟨r0, r1, r2, r3⟩ := comb_read_index_seven_halves
  have hfr : (7 / 2 : ℚ) - ((3 : Int) : ℚ) = 1 / 2 := by norm_num
  have c1 : cRem 1 3 = some 1 := rfl
  have c2 : cRem 2 3 = some 2 := rfl
  have c3 : cRem 3 3 = some 0 := rfl
  have h2 : Int.toNat 2 = 2 := rfl
  refine ⟨?_, ?_, ?_, ?_⟩
  · simp only [hsd_comb_tick, r0, c1, truncToInt_seven_halves, hfr, Option.bind_eq_bind,
      Option.some_bind, Option.pure_def]
    norm_num [load, store, r0, c1, h2]
  · simp only [hsd_comb_tick, r1, c2, truncToInt_seven_halves, hfr, Option.bind_eq_bind,
      Option.some_bind, Option.pure_def]
    norm_num [load, store, r1, c2, h2]
  · simp only [hsd_comb_tick, r2, c3, truncToInt_seven_halves, hfr, Option.bind_eq_bind,
      Option.some_bind, Option.pure_def]
    norm_num [load, store, r2, c3, h2]
  · simp only [hsd_comb_tick, r3, c1, truncToInt_seven_halves, hfr, Option.bind_eq_bind,
      Option.some_bind, Option.pure_def]
    norm_num [load, store, r3, c1, h2]
/-- The DSP loop of `hsd_comb_perform` with `delay_length = 3.5` and no feedback on a line of
6 cells: the write index runs through 0, 1, 2, 3 and returns to 0, and `samp1` is the cell 0
at the write index 0 as well as at the write index 3. -/
theorem hsd_comb_tick_six_cells (a b c d e f v : ℚ) :
    hsd_comb_tick (7 / 2) 0 ([a, b, c, d, e, f], 0) v
        = some (([v, b, c, d, e, f], 1), a + (1 / 2) * (b - a))
      ∧ hsd_comb_tick (7 / 2) 0 ([a, b, c, d, e, f], 1) v
        = some (([a, v, c, d, e, f], 2), b + (1 / 2) * (c - b))
      ∧ hsd_comb_tick (7 / 2) 0 ([a, b, c, d, e, f], 2) v
        = some (([a, b, v, d, e, f], 3), c + (1 / 2) * (a - c))
      ∧ hsd_comb_tick (7 / 2) 0 ([a, b, c, d, e, f], 3) v
        = some (([a, b, c, v, e, f], 0), a + (1 / 2) * (b - a)) := by
  obtain ⟨r0, r1, r2, r3⟩ := comb_read_index_seven_halves
  have hfr : (7 / 2 : ℚ) - ((3 : Int) : ℚ) = 1 / 2 := by norm_num
  have c1 : cRem 1 3 = some 1 := rfl
  have c2 : cRem 2 3 = some 2 := rfl
  have c3 : cRem 3 3 = some 0 := rfl
  have h2 : Int.toNat 2 = 2 := rfl
  have h3 : Int.toNat 3 = 3 := rfl
  have hh : truncToInt (1 / 2 : ℚ) = 0 := truncToInt_half
  refine ⟨?_, ?_, ?_, ?_⟩
  · simp only [hsd_comb_tick, truncToInt_seven_halves, hfr, Option.bind_eq_bind,
      Option.some_bind, Option.pure_def]
    norm_num [load, store, r0, c1, h2, h3]
  · simp only [hsd_comb_tick, truncToInt_seven_halves, hfr, Option.bind_eq_bind,
      Option.some_bind, Option.pure_def]
    norm_num [load, store, r1, c2, h2, h3]
  · simp only [hsd_comb_tick, truncToInt_seven_halves, hfr, Option.bind_eq_bind,
      Option.some_bind, Option.pure_def]
    norm_num [load, store, r2, c3, h2, h3]
  · simp only [hsd_comb_tick, truncToInt_seven_halves, hfr, Option.bind_eq_bind,
      Option.some_bind, Option.pure_def]
    norm_num [load, store, r3, c1, h2, h3, hh]

/-- C31 on the object created at the sample rate 25 with the arguments `100 0` (delay time
`DELMAX`, no feedback): 3 cells are allocated and `delay_length = 3.5`; after the block
`1, 2, 3` the state has `write_index = 3`, which is not below the capacity, and the next
iteration writes `delay_line[3]` outside the line.  At the sample rate 11025 the same
arguments give 1103 cells and `delay_length = 1103.5`, so the write index reaches 1103
there. -/
theorem hsd_comb_write_overflow_example :
    hsd_comb_new (25 : ℚ) [t_atom.A_FLOAT 100, t_atom.A_FLOAT 0] true
        = some ⟨25, 3, 12, [0, 0, 0], 100, 7 / 2, 0, 0, 0⟩
      ∧ hsd_comb_perform (⟨25, 3, 12, [0, 0, 0], 100, 7 / 2, 0, 0, 0⟩ : hsd_comb ℚ) [1, 2, 3]
        = some (⟨25, 3, 12, [1, 2, 3], 100, 7 / 2, 3, 0, 0⟩, [0, 0, 1 / 2])
      ∧ ¬ ((3 : Int) < (([1, 2, 3] : List ℚ).length : Int))
      ∧ store ([1, 2, 3] : List ℚ) 3 4 = none
      ∧ hsd_comb_perform (⟨25, 3, 12, [1, 2, 3], 100, 7 / 2, 3, 0, 0⟩ : hsd_comb ℚ) [4] = none
      ∧ ∃ y, hsd_comb_new (11025 : ℚ) [t_atom.A_FLOAT 100, t_atom.A_FLOAT 0] true = some y
          ∧ (y.delay_line.length : Int) = 1103 ∧ y.delay_length = 2207 / 2
          ∧ ((1103 : Int) : ℚ) < y.delay_length := by
  refine ⟨?_, ?_, by decide, rfl, ?_, ?_⟩
  · have h : truncToInt ((25 : ℚ) * DELMAX / 1000 + 1) = 3 := by
      have : (25 : ℚ) * DELMAX / 1000 + 1 = 7 / 2 := by norm_num [DELMAX]
      rw [this, truncToInt_seven_halves]
    have hz : zeroLoop (Int.toNat 3) 0 (List.replicate (Int.toNat 3) (0 : ℚ))
        = some [0, 0, 0] := rfl
    simp only [hsd_comb_new, h, hz]
    norm_num [atom_getfloatarg, DELMAX, sizeof_t_float]
  · simp only [hsd_comb_perform, dspLoop, (hsd_comb_tick_three_cells _ _ _ _).1,
      (hsd_comb_tick_three_cells _ _ _ _).2.1, (hsd_comb_tick_three_cells _ _ _ _).2.2.1,
      Option.some_bind, Option.map_some']
    norm_num
  · simp only [hsd_comb_perform, dspLoop, (hsd_comb_tick_three_cells _ _ _ _).2.2.2,
      Option.none_bind, Option.map_none']
  · have hv : (11025 : ℚ) * DELMAX / 1000 = 2205 / 2 := by norm_num [DELMAX]
    have hf : ⌊(2205 / 2 : ℚ)⌋ = 1102 := by
      rw [Int.floor_eq_iff]; constructor <;> norm_num
    have c1 := capacity_eq_floor (11025 : ℚ) (by norm_num)
    rw [hv, hf] at c1
    obtain ⟨buf, hbuf, hlen⟩ := zeroLoop_replicate (α := ℚ) (1102 + 1 : Int).toNat
    simp only [hsd_comb_new, hv, c1, hbuf, if_true, Option.map_some', Option.some.injEq,
      exists_eq_left', hlen]
    norm_num [atom_getfloatarg, DELMAX]

/-- C36 on the comb created at the sample rate 50 (6 cells) with no feedback, after the delay
time 70 ms (`delay_length = 3.5`, `idelay = 3`): the block `1, 2, 3, 4` leaves the line
`[1, 2, 3, 4, 0, 0]` and `write_index = 0`; in the next iteration the read index is 0, so
`samp1 = 1`, the sample written 4 samples earlier, while the sample written `idelay = 3`
samples earlier is 2 and the index `(write_index - idelay) mod capacity` is 3; the output is
`1 + 0.5*(2 - 1)`, the same as one sample before. -/
theorem hsd_comb_tap_example :
    hsd_comb_delaytime (⟨50, 6, 24, [0, 0, 0, 0, 0, 0], 30, 5 / 2, 0, 0, 0⟩ : hsd_comb ℚ) 70
        = ⟨50, 6, 24, [0, 0, 0, 0, 0, 0], 70, 7 / 2, 0, 0, 0⟩
      ∧ hsd_comb_perform (⟨50, 6, 24, [0, 0, 0, 0, 0, 0], 70, 7 / 2, 0, 0, 0⟩ : hsd_comb ℚ)
          [1, 2, 3, 4]
        = some (⟨50, 6, 24, [1, 2, 3, 4, 0, 0], 70, 7 / 2, 0, 0, 0⟩, [0, 0, 1 / 2, 3 / 2])
      ∧ wrapIndexF (7 / 2 : ℚ) (0 - truncToInt (7 / 2 : ℚ)) = some 0
      ∧ load ([1, 2, 3, 4, 0, 0] : List ℚ) 0 = some 1
      ∧ ((0 : Int) - truncToInt (7 / 2 : ℚ)) % 6 = 3
      ∧ load ([1, 2, 3, 4, 0, 0] : List ℚ) 3 = some 4
      ∧ (hsd_comb_perform (⟨50, 6, 24, [1, 2, 3, 4, 0, 0], 70, 7 / 2, 0, 0, 0⟩ : hsd_comb ℚ)
          [5]).map (fun r => r.2) = some [3 / 2] := by
  have hf : ¬ ((70 : ℚ) > DELMAX ∨ (70 : ℚ) ≤ 0) := by norm_num [DELMAX]
  refine ⟨?_, ?_, ?_, rfl, ?_, rfl, ?_⟩
  · simp only [hsd_comb_delaytime, if_neg hf]
    norm_num
  · simp only [hsd_comb_perform, dspLoop, (hsd_comb_tick_six_cells _ _ _ _ _ _ _).1,
      (hsd_comb_tick_six_cells _ _ _ _ _ _ _).2.1,
      (hsd_comb_tick_six_cells _ _ _ _ _ _ _).2.2.1,
      (hsd_comb_tick_six_cells _ _ _ _ _ _ _).2.2.2, Option.some_bind, Option.map_some']
    norm_num
  · rw [truncToInt_seven_halves]
    exact comb_read_index_seven_halves.1
  · rw [truncToInt_seven_halves]
    decide
  · simp only [hsd_comb_perform, dspLoop, (hsd_comb_tick_six_cells _ _ _ _ _ _ _).1,
      Option.some_bind, Option.map_some']
    norm_num

end CombIndexTheorems

/-! ## Machine arithmetic: the envelope follower and the biquad coefficients in binary32 -/

section MachineArithmeticTheorems

set_option linter.unusedSectionVars false

variable {α : Type} [LinearOrderedField α] [FloorRing α]

theorem roundNearestEven_le (x : α) (K : Int) (h : x ≤ K) : roundNearestEven x ≤ K := by
  have hf : ⌊x⌋ ≤ K := Int.cast_le.mp (le_trans (Int.floor_le x) h)
  unfold roundNearestEven
  by_cases hx : x = K
  · have e : ⌊x⌋ = K := by rw [hx]; exact Int.floor_intCast K
    have : x - (⌊x⌋ : α) < 1 / 2 := by rw [e, hx]; norm_num
    rw [if_pos this]
    exact hf
  · have hlt : x < K := lt_of_le_of_ne h hx
    have hf2 : ⌊x⌋ < K := Int.floor_lt.mpr hlt
    split_ifs <;> omega

theorem roundNearestEven_ge (x : α) (K : Int) (h : (K : α) ≤ x) : K ≤ roundNearestEven x := by
  have hf : K ≤ ⌊x⌋ := Int.le_floor.mpr h
  unfold roundNearestEven
  split_ifs <;> omega

theorem roundNearestEven_eq (x : α) (m : Int) (h1 : (m : α) - 1 / 2 < x)
    (h2 : x < (m : α) + 1 / 2) : roundNearestEven x = m := by
  unfold roundNearestEven
  by_cases hm : (m : α) ≤ x
  · have hf : ⌊x⌋ = m := Int.floor_eq_iff.mpr ⟨hm, by linarith⟩
    have : x - (⌊x⌋ : α) < 1 / 2 := by rw [hf]; linarith
    rw [if_pos this, hf]
  · have hm' : x < m := not_le.mp hm
    have hf : ⌊x⌋ = m - 1 := Int.floor_eq_iff.mpr ⟨by push_cast; linarith, by push_cast; linarith⟩
    have h3 : ¬ x - (⌊x⌋ : α) < 1 / 2 := by rw [hf]; push_cast; linarith
    have h4 : 1 / 2 < x - (⌊x⌋ : α) := by rw [hf]; push_cast; linarith
    rw [if_neg h3, if_pos h4, hf]
    ring

/-- At most half above an even integer rounds to at most that integer. -/
theorem roundNearestEven_le_even (x : α) (K : Int) (hK : K % 2 = 0) (h : x ≤ (K : α) + 1 / 2) :
    roundNearestEven x ≤ K := by
  by_cases hx : x < K
  · exact roundNearestEven_le x K hx.le
  · have hx' : (K : α) ≤ x := not_lt.mp hx
    have hf : ⌊x⌋ = K := Int.floor_eq_iff.mpr ⟨hx', by linarith⟩
    unfold roundNearestEven
    have h4 : ¬ 1 / 2 < x - (K : α) := by linarith
    rw [hf]
    simp only [h4, if_false, hK, if_true, ite_self, le_refl]


theorem int_log_two_eq (q : α) (e : Int) (hq : 0 < q) (h1 : (2 : α) ^ e ≤ q)
    (h2 : q < (2 : α) ^ (e + 1)) : Int.log 2 q = e := by
  have a : e ≤ Int.log 2 q :=
    (Int.zpow_le_iff_le_log (b := 2) (by norm_num) hq).mp (by simpa using h1)
  have b : Int.log 2 q < e + 1 :=
    (Int.lt_zpow_iff_log_lt (b := 2) (by norm_num) hq).mp (by simpa using h2)
  omega

theorem int_log_two_lt (q : α) (e : Int) (hq : 0 < q) (h2 : q < (2 : α) ^ (e + 1)) :
    Int.log 2 q ≤ e := by
  have b : Int.log 2 q < e + 1 :=
    (Int.lt_zpow_iff_log_lt (b := 2) (by norm_num) hq).mp (by simpa using h2)
  omega

theorem lt_two_zpow_int_log (q : α) : q < (2 : α) ^ (Int.log 2 q + 1) := by
  simpa using Int.lt_zpow_succ_log_self (b := 2) (by norm_num) q

theorem roundFloat_nonneg (p : Nat) (emin : Int) (q : α) (h : 0 ≤ q) :
    0 ≤ roundFloat p emin q := by
  unfold roundFloat
  split
  · exact le_refl _
  · have hx : ((0 : Int) : α) ≤ q / 2 ^ (max (Int.log 2 |q|) emin - ((p : Int) - 1)) := by
      rw [Int.cast_zero]
      exact div_nonneg h (zpow_nonneg (by norm_num) _)
    have := roundNearestEven_ge _ 0 hx
    exact mul_nonneg (by exact_mod_cast this) (zpow_nonneg (by norm_num) _)

/-- Evaluation of a rounding: a positive `q` in the binade `[2^e, 2^(e+1))` whose quotient by
the spacing `2^(e-(p-1))` is less than half away from the integer `m` rounds to `m` times the
spacing. -/
theorem roundFloat_eval_pos (p : Nat) (emin e m : Int) (q : α) (h1 : (2 : α) ^ e ≤ q)
    (h2 : q < (2 : α) ^ (e + 1)) (he : emin ≤ e)
    (h3 : (m : α) - 1 / 2 < q / 2 ^ (e - ((p : Int) - 1)))
    (h4 : q / 2 ^ (e - ((p : Int) - 1)) < (m : α) + 1 / 2) :
    roundFloat p emin q = (m : α) * 2 ^ (e - ((p : Int) - 1)) := by
  have hq : 0 < q := lt_of_lt_of_le (zpow_pos (by norm_num) e) h1
  have hl : Int.log 2 |q| = e := by
    rw [abs_of_pos hq]
    exact int_log_two_eq q e hq h1 h2
  unfold roundFloat
  rw [if_neg hq.ne']
  simp only [hl, max_eq_left he]
  rw [roundNearestEven_eq _ m h3 h4]

/-- Evaluation of a rounding of a negative number. -/
theorem roundFloat_eval_neg (p : Nat) (emin e m : Int) (q : α) (h1 : (2 : α) ^ e ≤ -q)
    (h2 : -q < (2 : α) ^ (e + 1)) (he : emin ≤ e)
    (h3 : (m : α) - 1 / 2 < q / 2 ^ (e - ((p : Int) - 1)))
    (h4 : q / 2 ^ (e - ((p : Int) - 1)) < (m : α) + 1 / 2) :
    roundFloat p emin q = (m : α) * 2 ^ (e - ((p : Int) - 1)) := by
  have hq : 0 < -q := lt_of_lt_of_le (zpow_pos (by norm_num) e) h1
  have hq' : q < 0 := neg_pos.mp hq
  have hl : Int.log 2 |q| = e := by
    rw [abs_of_neg hq']
    exact int_log_two_eq (-q) e hq h1 h2
  unfold roundFloat
  rw [if_neg hq'.ne]
  simp only [hl, max_eq_left he]
  rw [roundNearestEven_eq _ m h3 h4]

/-- A rounding does not step over a number of the format: a positive `q` below `2^(e+1)`
and at most `K * 2^(e-(p-1))` rounds to at most `K * 2^(e-(p-1))`. -/
theorem roundFloat_le (p : Nat) (emin e K : Int) (q : α) (hq : 0 < q)
    (h2 : q < (2 : α) ^ (e + 1)) (he : emin ≤ e)
    (h : q ≤ (K : α) * 2 ^ (e - ((p : Int) - 1))) :
    roundFloat p emin q ≤ (K : α) * 2 ^ (e - ((p : Int) - 1)) := by
  have hl : Int.log 2 |q| ≤ e := by
    rw [abs_of_pos hq]
    exact int_log_two_lt q e hq h2
  have hle : max (Int.log 2 |q|) emin ≤ e := max_le hl he
  unfold roundFloat
  rw [if_neg hq.ne']
  simp only
  generalize max (Int.log 2 |q|) emin = e0 at hle
  obtain ⟨n, hn⟩ : ∃ n : Nat, e = e0 + n := ⟨(e - e0).toNat, by omega⟩
  have hu : (0 : α) < 2 ^ (e0 - ((p : Int) - 1)) := zpow_pos (by norm_num) _
  have hsplit : (K : α) * 2 ^ (e - ((p : Int) - 1))
      = ((K * 2 ^ n : Int) : α) * 2 ^ (e0 - ((p : Int) - 1)) := by
    rw [hn, show e0 + (n : Int) - ((p : Int) - 1) = (n : Int) + (e0 - ((p : Int) - 1)) by ring,
      zpow_add₀ (by norm_num : (2 : α) ≠ 0), zpow_natCast]
    push_cast
    ring
  rw [hsplit] at h ⊢
  have hx : q / 2 ^ (e0 - ((p : Int) - 1)) ≤ ((K * 2 ^ n : Int) : α) := by
    rw [div_le_iff₀ hu]
    exact h
  have := roundNearestEven_le _ _ hx
  exact mul_le_mul_of_nonneg_right (by exact_mod_cast this) hu.le

/-- Ties go to the even neighbour: a positive `q` at most half a spacing above
`K * 2^(e-(p-1))`, a number of the binade `[2^e, 2^(e+1))` with `K` even, rounds to at most
that number. -/
theorem roundFloat_le_even (p : Nat) (emin e K : Int) (q : α) (hq : 0 < q)
    (hK : K % 2 = 0) (hKe : (2 : α) ^ e ≤ (K : α) * 2 ^ (e - ((p : Int) - 1)))
    (h2 : q < (2 : α) ^ (e + 1)) (he : emin ≤ e)
    (h : q ≤ ((K : α) + 1 / 2) * 2 ^ (e - ((p : Int) - 1))) :
    roundFloat p emin q ≤ (K : α) * 2 ^ (e - ((p : Int) - 1)) := by
  by_cases hb : (2 : α) ^ e ≤ q
  · have hl : Int.log 2 |q| = e := by
      rw [abs_of_pos hq]
      exact int_log_two_eq q e hq hb h2
    have hu : (0 : α) < 2 ^ (e - ((p : Int) - 1)) := zpow_pos (by norm_num) _
    unfold roundFloat
    rw [if_neg hq.ne']
    simp only [hl, max_eq_left he]
    have hx : q / 2 ^ (e - ((p : Int) - 1)) ≤ (K : α) + 1 / 2 := by
      rw [div_le_iff₀ hu]
      exact h
    have := roundNearestEven_le_even _ K hK hx
    exact mul_le_mul_of_nonneg_right (by exact_mod_cast this) hu.le
  · have hb' : q < (2 : α) ^ e := not_le.mp hb
    exact roundFloat_le p emin e K q hq h2 he (le_trans hb'.le hKe)

theorem roundFloat_zero (p : Nat) (emin : Int) : roundFloat p emin (0 : α) = 0 := by
  unfold roundFloat
  rw [if_pos rfl]

theorem binary32_one : binary32 (1 : α) = 1 := by
  rw [binary32, roundFloat_eval_pos 24 (-126) 0 8388608 _ (by norm_num) (by norm_num)
    (by norm_num) (by norm_num) (by norm_num)]
  norm_num

theorem binary32_nonneg (q : α) (h : 0 ≤ q) : 0 ≤ binary32 q := roundFloat_nonneg 24 (-126) q h

/-- Without rounding the machine iteration of `hsd_peakf_perform` is the exact one. -/
theorem hsd_peakf_tick_fl_id (AT RT y inp : α) :
    hsd_peakf_tick_fl (fun q => q) AT RT y inp = hsd_peakf_tick AT RT y inp := rfl

/-- For `7.5 * 2^-24 < AT` the difference `1 - AT` rounds to at most `1 - 8 * 2^-24` in
binary32. -/
theorem binary32_one_sub (AT : α) (h1 : 15 / 2 * (1 / 16777216) < AT) (h2 : AT < 1) :
    0 ≤ binary32 (1 - AT) ∧ binary32 (1 - AT) ≤ 16777208 / 16777216 := by
  refine ⟨binary32_nonneg _ (by linarith), ?_⟩
  have := roundFloat_le_even 24 (-126) (-1) 16777208 (1 - AT) (by linarith) (by decide)
    (by norm_num) (by norm_num; linarith) (by norm_num) (by norm_num; linarith)
  rw [binary32]
  refine le_trans this (le_of_eq ?_)
  norm_num

/-- The product of a factor `≤ 1 - 8 * 2^-24` and a state `≤ 15/16` rounds to at most
`15/16 - 8 * 2^-24` in binary32 (at the tie `15/16 - 7.5 * 2^-24` the even neighbour is the
lower one). -/
theorem binary32_mul_state (om y : α) (hom0 : 0 ≤ om) (hom1 : om ≤ 16777208 / 16777216)
    (hy0 : 0 ≤ y) (hy1 : y ≤ 15 / 16) :
    0 ≤ binary32 (om * y) ∧ binary32 (om * y) ≤ 15728632 / 16777216 := by
  refine ⟨binary32_nonneg _ (mul_nonneg hom0 hy0), ?_⟩
  have hprod : om * y ≤ 16777208 / 16777216 * (15 / 16) :=
    mul_le_mul hom1 hy1 hy0 (by norm_num)
  rcases (mul_nonneg hom0 hy0).eq_or_lt with h0 | hpos
  · rw [← h0, binary32, roundFloat_zero]
    norm_num
  · have := roundFloat_le_even 24 (-126) (-1) 15728632 (om * y) hpos
      (by decide) (by norm_num) (by norm_num; linarith) (by norm_num)
      (by norm_num; linarith)
    rw [binary32]
    refine le_trans this (le_of_eq ?_)
    norm_num

/-- A coefficient of at most `8.5 * 2^-24` rounds to at most `8.5 * 2^-24` in binary32. -/
theorem binary32_coefficient (AT : α) (h0 : 0 < AT) (h2 : AT ≤ 17 / 2 * (1 / 16777216)) :
    0 ≤ binary32 AT ∧ binary32 AT ≤ 17 / 2 * (1 / 16777216) := by
  refine ⟨binary32_nonneg _ h0.le, ?_⟩
  have := roundFloat_le 24 (-126) (-21) 8912896 AT h0 (by norm_num; linarith)
    (by norm_num) (by norm_num; linarith)
  rw [binary32]
  refine le_trans this (le_of_eq ?_)
  norm_num

/-- The sum of a product `≤ 15/16 - 8 * 2^-24` and a term `≤ 8.5 * 2^-24` rounds to at most
`15/16` in binary32 (the tie `15/16 + 2^-25` goes to the even neighbour `15/16`). -/
theorem binary32_add_state (p t : α) (hp0 : 0 ≤ p) (hp1 : p ≤ 15728632 / 16777216)
    (ht0 : 0 ≤ t) (ht1 : t ≤ 17 / 2 * (1 / 16777216)) :
    0 ≤ binary32 (p + t) ∧ binary32 (p + t) ≤ 15 / 16 := by
  refine ⟨binary32_nonneg _ (add_nonneg hp0 ht0), ?_⟩
  rcases (add_nonneg hp0 ht0).eq_or_lt with h0 | hpos
  · rw [← h0, binary32, roundFloat_zero]
    norm_num
  · have := roundFloat_le_even 24 (-126) (-1) 15728640 (p + t) hpos
      (by decide) (by norm_num) (by norm_num; linarith) (by norm_num)
      (by norm_num; linarith)
    rw [binary32]
    refine le_trans this (le_of_eq ?_)
    norm_num

/-- One iteration of the binary32 DSP loop of `hsd_peakf_perform` on the input 1 with a
coefficient `AT` between `7.5 * 2^-24` and `8.5 * 2^-24`: from a state in `[0, 15/16]` the
new state is in `[0, 15/16]` again. -/
theorem hsd_peakf_tick_fl_stall (AT RT y : α) (h1 : 15 / 2 * (1 / 16777216) < AT)
    (h2 : AT ≤ 17 / 2 * (1 / 16777216)) (hy0 : 0 ≤ y) (hy1 : y ≤ 15 / 16) :
    hsd_peakf_tick_fl binary32 AT RT y 1
        = (binary32 (binary32 (binary32 (1 - AT) * y) + binary32 (AT * 1)),
            binary32 (binary32 (binary32 (1 - AT) * y) + binary32 (AT * 1)))
      ∧ 0 ≤ (hsd_peakf_tick_fl binary32 AT RT y 1).1
      ∧ (hsd_peakf_tick_fl binary32 AT RT y 1).1 ≤ 15 / 16 := by
  have ha : binary32 |(1 : α)| = 1 := by rw [abs_one, binary32_one]
  have hgt : (1 : α) > y := by linarith
  have hAT0 : 0 < AT := lt_trans (by norm_num) h1
  have hom := binary32_one_sub AT h1 (by linarith)
  have hp := binary32_mul_state _ y hom.1 hom.2 hy0 hy1
  have ht := binary32_coefficient (AT * 1) (by rw [mul_one]; exact hAT0)
    (by rw [mul_one]; exact h2)
  have hs := binary32_add_state _ _ hp.1 hp.2 ht.1 ht.2
  have e : hsd_peakf_tick_fl binary32 AT RT y 1
      = (binary32 (binary32 (binary32 (1 - AT) * y) + binary32 (AT * 1)),
          binary32 (binary32 (binary32 (1 - AT) * y) + binary32 (AT * 1))) := by
    simp only [hsd_peakf_tick_fl, ha, if_pos hgt]
  rw [e]
  exact ⟨rfl, hs.1, hs.2⟩

/-- The binary32 DSP loop of `hsd_peakf_perform` on the constant input 1 with a coefficient
`AT` between `7.5 * 2^-24` and `8.5 * 2^-24`: from a state in `[0, 15/16]` the state never
leaves `[0, 15/16]`, whatever the number of samples. -/
theorem hsd_peakf_loop_fl_stall (AT RT : α) (h1 : 15 / 2 * (1 / 16777216) < AT)
    (h2 : AT ≤ 17 / 2 * (1 / 16777216)) :
    ∀ (n : Nat) (y : α), 0 ≤ y → y ≤ 15 / 16 →
      0 ≤ (dspLoopT (hsd_peakf_tick_fl binary32 AT RT) y (List.replicate n 1)).1
        ∧ (dspLoopT (hsd_peakf_tick_fl binary32 AT RT) y (List.replicate n 1)).1 ≤ 15 / 16
        ∧ ∀ o ∈ (dspLoopT (hsd_peakf_tick_fl binary32 AT RT) y (List.replicate n 1)).2,
            o ≤ 15 / 16 := by
  intro n
  induction n with
  | zero => intro y hy0 hy1; exact ⟨hy0, hy1, by simp [dspLoopT]⟩
  | succ n ih =>
    intro y hy0 hy1
    obtain ⟨e, a0, a1⟩ := hsd_peakf_tick_fl_stall AT RT y h1 h2 hy0 hy1
    have hrec := ih _ a0 a1
    simp only [List.replicate_succ, dspLoopT]
    refine ⟨hrec.1, hrec.2.1, ?_⟩
    intro o ho
    rcases List.mem_cons.mp ho with rfl | ho
    · rw [e]
      rw [e] at a1
      exact a1
    · exact hrec.2.2 o ho

/-- A rounding does not fall below the start of the binade: a `q ≥ 2^e` with `e ≥ emin`
rounds to at least `2^e`. -/
theorem roundFloat_ge_zpow (p : Nat) (hp : 1 ≤ p) (emin e : Int) (q : α)
    (h1 : (2 : α) ^ e ≤ q) (he : emin ≤ e) : (2 : α) ^ e ≤ roundFloat p emin q := by
  have hq : 0 < q := lt_of_lt_of_le (zpow_pos (by norm_num) e) h1
  have hle : e ≤ Int.log 2 q :=
    (Int.zpow_le_iff_le_log (b := 2) (by norm_num) hq).mp (by simpa using h1)
  have hmax : max (Int.log 2 |q|) emin = Int.log 2 q := by
    rw [abs_of_pos hq]
    exact max_eq_left (by omega)
  have hlog : (2 : α) ^ Int.log 2 q ≤ q := by
    simpa using Int.zpow_log_le_self (b := 2) (by norm_num) hq
  unfold roundFloat
  rw [if_neg hq.ne']
  simp only [hmax]
  have hu : (0 : α) < 2 ^ (Int.log 2 q - ((p : Int) - 1)) := zpow_pos (by norm_num) _
  obtain ⟨k, hk⟩ : ∃ k : Nat, (p : Int) - 1 = k := ⟨p - 1, by omega⟩
  have hx : (((2 ^ k : Nat) : Int) : α) ≤ q / 2 ^ (Int.log 2 q - ((p : Int) - 1)) := by
    rw [le_div_iff₀ hu, hk]
    push_cast
    rw [← zpow_natCast, ← zpow_add₀ (by norm_num : (2 : α) ≠ 0)]
    simpa using hlog
  have hr := roundNearestEven_ge _ _ hx
  calc (2 : α) ^ e ≤ 2 ^ Int.log 2 q := zpow_le_zpow_right₀ (by norm_num) hle
    _ = (((2 ^ k : Nat) : Int) : α) * 2 ^ (Int.log 2 q - ((p : Int) - 1)) := by
        rw [hk]
        push_cast
        rw [← zpow_natCast, ← zpow_add₀ (by norm_num : (2 : α) ≠ 0)]
        simp
    _ ≤ _ := mul_le_mul_of_nonneg_right (by exact_mod_cast hr) hu.le

/-- The block recursion of the machine `hsd_peakf_perform` and the stall of its attack in
binary32: see `hsd_peakf_step_stall`. -/
theorem hsd_peakf_perform_fl_stall (pow : α → α → α) (x : hsd_peakf α) (n : Nat)
    (h1 : 8 * (1 / 16777216) ≤ time_coefficient pow x.sr x.t_a)
    (h2 : time_coefficient pow x.sr x.t_a ≤ 17 / 2 * (1 / 16777216))
    (hz0 : 0 ≤ x.xpeak_z1) (hz1 : x.xpeak_z1 ≤ 15 / 16) :
    (hsd_peakf_perform_fl binary32 pow x (List.replicate n 1)).1.xpeak_z1 ≤ 15 / 16
      ∧ ∀ o ∈ (hsd_peakf_perform_fl binary32 pow x (List.replicate n 1)).2, o ≤ 15 / 16 := by
  have hpos : 0 < time_coefficient pow x.sr x.t_a := lt_of_lt_of_le (by norm_num) h1
  have hA := binary32_coefficient _ hpos h2
  have hA1 : 15 / 2 * (1 / 16777216) < binary32 (time_coefficient pow x.sr x.t_a) := by
    have := roundFloat_ge_zpow 24 (by norm_num) (-126) (-21) _
      (by norm_num; linarith : (2 : α) ^ (-21 : Int) ≤ time_coefficient pow x.sr x.t_a)
      (by norm_num)
    rw [binary32]
    refine lt_of_lt_of_le ?_ this
    norm_num
  have hl := hsd_peakf_loop_fl_stall (binary32 (time_coefficient pow x.sr x.t_a))
    (binary32 (time_coefficient pow x.sr x.t_r)) hA1 hA.2 n x.xpeak_z1 hz0 hz1
  exact ⟨hl.2.1, hl.2.2⟩

/-- The attack coefficient of `hsd_peakf~` for `sr = 44100` and `t_a = 100000` ms with the
real power function lies between `8 * 2^-24` and `8.5 * 2^-24` (it is about
`8.37 * 2^-24`). -/
theorem time_coefficient_100000 :
    8 * (1 / 16777216) ≤ time_coefficient (fun a b : ℝ => a ^ b) 44100 100000
      ∧ time_coefficient (fun a b : ℝ => a ^ b) 44100 100000 ≤ 17 / 2 * (1 / 16777216) := by
  have hE : (0 : ℝ) < EULER := by norm_num [EULER]
  have hexp : (-(22 / 10) / (44100 * 100000 * (1 / 1000)) : ℝ) = -(11 / 22050000) := by
    norm_num
  have hL1 : Real.log (EULER : ℝ) ≤ 101 / 100 := by
    rw [Real.log_le_iff_le_exp hE, show (101 / 100 : ℝ) = 1 + 1 / 100 by norm_num, Real.exp_add]
    have h1 := Real.exp_one_gt_d9
    have h2 : (1 : ℝ) + 1 / 100 ≤ Real.exp (1 / 100) := by
      have := Real.add_one_le_exp (1 / 100 : ℝ)
      linarith
    have h3 : (0 : ℝ) < Real.exp 1 := Real.exp_pos 1
    calc (EULER : ℝ) ≤ 2.7182818283 * (1 + 1 / 100) := by norm_num [EULER]
      _ ≤ Real.exp 1 * Real.exp (1 / 100) :=
          mul_le_mul h1.le h2 (by norm_num) h3.le
  have hL0 : 96 / 100 ≤ Real.log (EULER : ℝ) := by
    rw [Real.le_log_iff_exp_le hE]
    have h1 := Real.exp_one_lt_d9
    have h2 : (1 : ℝ) + 4 / 100 ≤ Real.exp (4 / 100) := by
      have := Real.add_one_le_exp (4 / 100 : ℝ)
      linarith
    have h3 : Real.exp (96 / 100) * Real.exp (4 / 100) = Real.exp 1 := by
      rw [← Real.exp_add]
      norm_num
    have h4 : (0 : ℝ) < Real.exp (96 / 100) := Real.exp_pos _
    have h5 : Real.exp (96 / 100) * (1 + 4 / 100) ≤ 2.7182818286 := by
      calc Real.exp (96 / 100) * (1 + 4 / 100)
          ≤ Real.exp (96 / 100) * Real.exp (4 / 100) := mul_le_mul_of_nonneg_left h2 h4.le
        _ = Real.exp 1 := h3
        _ ≤ 2.7182818286 := h1.le
    have h6 : Real.exp (96 / 100) ≤ 2.7182818286 / (1 + 4 / 100) := by
      rw [le_div_iff₀ (by norm_num)]
      exact h5
    refine le_trans h6 ?_
    norm_num [EULER]
  have hval : time_coefficient (fun a b : ℝ => a ^ b) 44100 100000
      = 1 - Real.exp (-(Real.log (EULER : ℝ) * (11 / 22050000))) := by
    simp only [time_coefficient]
    rw [hexp, Real.rpow_def_of_pos hE]
    congr 2
    ring
  rw [hval]
  set t : ℝ := Real.log (EULER : ℝ) * (11 / 22050000) with ht
  have ht0 : 96 / 100 * (11 / 22050000) ≤ t := by
    rw [ht]; exact mul_le_mul_of_nonneg_right hL0 (by norm_num)
  have ht1 : t ≤ 101 / 100 * (11 / 22050000) := by
    rw [ht]; exact mul_le_mul_of_nonneg_right hL1 (by norm_num)
  have htpos : 0 < t := lt_of_lt_of_le (by norm_num) ht0
  constructor
  · have h1 : 1 + t ≤ Real.exp t := by
      have := Real.add_one_le_exp t
      linarith
    have h2 : Real.exp (-t) ≤ 1 / (1 + t) := by
      rw [Real.exp_neg, ← one_div]
      exact one_div_le_one_div_of_le (by linarith) h1
    have h3 : 1 / (1 + t) ≤ 1 / (1 + 96 / 100 * (11 / 22050000)) :=
      one_div_le_one_div_of_le (by norm_num) (by linarith)
    have h4 : (8 : ℝ) * (1 / 16777216) ≤ 1 - 1 / (1 + 96 / 100 * (11 / 22050000)) := by
      norm_num
    linarith
  · have h1 : 1 - t ≤ Real.exp (-t) := by
      have := Real.add_one_le_exp (-t)
      linarith
    have h2 : (101 / 100 * (11 / 22050000) : ℝ) ≤ 17 / 2 * (1 / 16777216) := by norm_num
    linarith

/-- C15 fails in the code at `sr = 44100` with the attack time `t_a = 100000` ms (the object
`[hsd_peakf~ 100000]`; neither the creation argument nor the attack inlet is checked).  In
the arithmetic of a single-precision Pd, where `t_float` is binary32 and every operation of
the DSP loop is rounded to it, the attack coefficient is about `8.37 * 2^-24`; for every
value from `8 * 2^-24` to `8.5 * 2^-24` that the `double` computation with `pow` may give,
`hsd_peakf_perform` started at `xpeak_z1 = 0` on `n` samples of the constant input 1 leaves
a state of at most `15/16 = 0.9375 < 0.95` and outputs no sample above it, whatever `n` is, so
for `n ≥ 5*N = 22050000` the state is not in `[0.95, 1]`.  The machine routine is the machine
iteration repeated: on the empty block it returns the object unchanged, on `inp :: rest` it
applies the iteration, written out in the last but one conjunct, to `inp` with the converted
coefficients and goes on with `rest`; without rounding it is `hsd_peakf_perform`. -/
theorem hsd_peakf_step_stall (pow : α → α → α) (x : hsd_peakf α) (inp : α) (rest : List α)
    (n : Nat)
    (h1 : 8 * (1 / 16777216) ≤ time_coefficient pow 44100 100000)
    (h2 : time_coefficient pow 44100 100000 ≤ 17 / 2 * (1 / 16777216)) :
    hsd_peakf_new 44100 100000 0 = (⟨100000, 20, 0, 44100⟩ : hsd_peakf α)
      ∧ (hsd_peakf_perform_fl binary32 pow (hsd_peakf_new 44100 100000 0)
          (List.replicate n 1)).1.xpeak_z1 ≤ 15 / 16
      ∧ (∀ o ∈ (hsd_peakf_perform_fl binary32 pow (hsd_peakf_new 44100 100000 0)
          (List.replicate n 1)).2, o ≤ 15 / 16)
      ∧ (15 / 16 : α) < 95 / 100
      ∧ (5 * (44100 * 100000 * (1 / 1000)) ≤ (n : α) →
          ¬ (95 / 100 ≤ (hsd_peakf_perform_fl binary32 pow (hsd_peakf_new 44100 100000 0)
            (List.replicate n 1)).1.xpeak_z1))
      ∧ hsd_peakf_perform_fl binary32 pow x [] = (x, [])
      ∧ (hsd_peakf_perform_fl binary32 pow x (inp :: rest)).2
        = (hsd_peakf_tick_fl binary32 (binary32 (time_coefficient pow x.sr x.t_a))
              (binary32 (time_coefficient pow x.sr x.t_r)) x.xpeak_z1 inp).2
          :: (hsd_peakf_perform_fl binary32 pow
              { x with xpeak_z1 := (hsd_peakf_tick_fl binary32
                (binary32 (time_coefficient pow x.sr x.t_a))
                (binary32 (time_coefficient pow x.sr x.t_r)) x.xpeak_z1 inp).1 } rest).2
      ∧ (hsd_peakf_perform_fl binary32 pow x (inp :: rest)).1
        = (hsd_peakf_perform_fl binary32 pow
              { x with xpeak_z1 := (hsd_peakf_tick_fl binary32
                (binary32 (time_coefficient pow x.sr x.t_a))
                (binary32 (time_coefficient pow x.sr x.t_r)) x.xpeak_z1 inp).1 } rest).1
      ∧ hsd_peakf_tick_fl binary32 (binary32 (time_coefficient pow x.sr x.t_a))
            (binary32 (time_coefficient pow x.sr x.t_r)) x.xpeak_z1 inp
        = (if binary32 |inp| > x.xpeak_z1 then
              binary32 (binary32 (binary32 (1 - binary32 (time_coefficient pow x.sr x.t_a))
                  * x.xpeak_z1)
                + binary32 (binary32 (time_coefficient pow x.sr x.t_a) * binary32 |inp|))
            else binary32 (binary32 (1 - binary32 (time_coefficient pow x.sr x.t_r))
              * x.xpeak_z1),
           if binary32 |inp| > x.xpeak_z1 then
              binary32 (binary32 (binary32 (1 - binary32 (time_coefficient pow x.sr x.t_a))
                  * x.xpeak_z1)
                + binary32 (binary32 (time_coefficient pow x.sr x.t_a) * binary32 |inp|))
            else binary32 (binary32 (1 - binary32 (time_coefficient pow x.sr x.t_r))
              * x.xpeak_z1))
      ∧ hsd_peakf_perform_fl (fun q => q) pow x rest = hsd_peakf_perform pow x rest := by
  have hnew : hsd_peakf_new 44100 100000 0 = (⟨100000, 20, 0, 44100⟩ : hsd_peakf α) := by
    have a : (100000 : α) ≠ 0 := by norm_num
    simp only [hsd_peakf_new, DEFAULT_ATTACK_MS, DEFAULT_RELEASE_MS, ne_eq, a, not_false_eq_true,
      if_true, not_true_eq_false, if_false]
  have hst := hsd_peakf_perform_fl_stall pow (⟨100000, 20, 0, 44100⟩ : hsd_peakf α) n h1 h2
    (le_refl _) (by norm_num)
  have hlt : (15 / 16 : α) < 95 / 100 := by norm_num
  rw [hnew]
  refine ⟨rfl, hst.1, hst.2, hlt, ?_, rfl, rfl, rfl, rfl, rfl⟩
  intro _ hge
  exact absurd (lt_of_le_of_lt (le_trans hge hst.1) hlt) (lt_irrefl _)

/-- Witness of the failure of C15: the real power function and `n = 22050000 = 5*N`
samples. -/
theorem hsd_peakf_step_stall_witness :
    ¬ (95 / 100 ≤ (hsd_peakf_perform_fl binary32 (fun a b : ℝ => a ^ b)
        (hsd_peakf_new 44100 100000 0) (List.replicate 22050000 1)).1.xpeak_z1) :=
  (hsd_peakf_step_stall (fun a b : ℝ => a ^ b) (hsd_peakf_new 44100 100000 0) 1 [] 22050000
    time_coefficient_100000.1 time_coefficient_100000.2).2.2.2.2.1 (by norm_num)

/-- Without rounding the machine `hsd_biquad_calculate_coeffs` is the exact one. -/
theorem hsd_biquad_calculate_coeffs_fl_id (tanf : α → α) (M_PI : α) (x : hsd_biquad α) :
    hsd_biquad_calculate_coeffs_fl (fun q => q) (fun q => q) tanf M_PI x
      = hsd_biquad_calculate_coeffs tanf M_PI x := by
  simp only [hsd_biquad_calculate_coeffs_fl, hsd_biquad_calculate_coeffs, biquad_switch_fl,
    biquad_switch]

/-- C38 fails in the code for the state that `hsd_biquad_new` leaves at `sr = 44100` for the
creation arguments `1.5 1` (frequency 1.5 Hz, below the 20 Hz that `hsd_biquad_frequency`
enforces and the constructor does not; resonance 1), for each of the five types.  In the
arithmetic of a single-precision Pd (`t_float` is binary32, `double` is binary64, `M_PI` the
binary64 number nearest to pi), the argument of `tanf` is `3671575 / 2^35`; for every `tanf`
that returns a value less than `2^-38` away from that argument (as the tangent is),
`K = 3671575 / 2^35 > 0`, `Q = 1 > 0`, and `hsd_biquad_calculate_coeffs` stores
`a1 = -65529/32768` and `a2 = 16773631/16777216`, so that `1 + a2 - |a1| = -2^-24` and
`|a1| < 1 + a2` is false. -/
theorem hsd_biquad_triangle_binary32 (tanf : α → α)
    (htan : |tanf (3671575 / 34359738368) - 3671575 / 34359738368| < 1 / 274877906944) :
    ((hsd_biquad_calculate_coeffs_fl binary32 binary64 tanf
          (884279719003555 / 281474976710656)
          ⟨44100, 0, 0, "lowpass", 0, 3 / 2, 1, ⟨0, 0, 0, 0, 0⟩, ⟨0, 0, 0, 0, 0⟩,
            0⟩).coeffs.a1
          = -65529 / 32768
        ∧ (hsd_biquad_calculate_coeffs_fl binary32 binary64 tanf
          (884279719003555 / 281474976710656)
          ⟨44100, 0, 0, "lowpass", 0, 3 / 2, 1, ⟨0, 0, 0, 0, 0⟩, ⟨0, 0, 0, 0, 0⟩,
            0⟩).coeffs.a2
          = 16773631 / 16777216
        ∧ ¬ (|(hsd_biquad_calculate_coeffs_fl binary32 binary64 tanf
          (884279719003555 / 281474976710656)
          ⟨44100, 0, 0, "lowpass", 0, 3 / 2, 1, ⟨0, 0, 0, 0, 0⟩, ⟨0, 0, 0, 0, 0⟩,
            0⟩).coeffs.a1|
          < 1 + (hsd_biquad_calculate_coeffs_fl binary32 binary64 tanf
          (884279719003555 / 281474976710656)
          ⟨44100, 0, 0, "lowpass", 0, 3 / 2, 1, ⟨0, 0, 0, 0, 0⟩, ⟨0, 0, 0, 0, 0⟩,
            0⟩).coeffs.a2))
      ∧ ((hsd_biquad_calculate_coeffs_fl binary32 binary64 tanf
          (884279719003555 / 281474976710656)
          ⟨44100, 0, 0, "highpass", 1, 3 / 2, 1, ⟨0, 0, 0, 0, 0⟩, ⟨0, 0, 0, 0, 0⟩,
            0⟩).coeffs.a1
          = -65529 / 32768
        ∧ (hsd_biquad_calculate_coeffs_fl binary32 binary64 tanf
          (884279719003555 / 281474976710656)
          ⟨44100, 0, 0, "highpass", 1, 3 / 2, 1, ⟨0, 0, 0, 0, 0⟩, ⟨0, 0, 0, 0, 0⟩,
            0⟩).coeffs.a2
          = 16773631 / 16777216
        ∧ ¬ (|(hsd_biquad_calculate_coeffs_fl binary32 binary64 tanf
          (884279719003555 / 281474976710656)
          ⟨44100, 0, 0, "highpass", 1, 3 / 2, 1, ⟨0, 0, 0, 0, 0⟩, ⟨0, 0, 0, 0, 0⟩,
            0⟩).coeffs.a1|
          < 1 + (hsd_biquad_calculate_coeffs_fl binary32 binary64 tanf
          (884279719003555 / 281474976710656)
          ⟨44100, 0, 0, "highpass", 1, 3 / 2, 1, ⟨0, 0, 0, 0, 0⟩, ⟨0, 0, 0, 0, 0⟩,
            0⟩).coeffs.a2))
      ∧ ((hsd_biquad_calculate_coeffs_fl binary32 binary64 tanf
          (884279719003555 / 281474976710656)
          ⟨44100, 0, 0, "bandpass", 2, 3 / 2, 1, ⟨0, 0, 0, 0, 0⟩, ⟨0, 0, 0, 0, 0⟩,
            0⟩).coeffs.a1
          = -65529 / 32768
        ∧ (hsd_biquad_calculate_coeffs_fl binary32 binary64 tanf
          (884279719003555 / 281474976710656)
          ⟨44100, 0, 0, "bandpass", 2, 3 / 2, 1, ⟨0, 0, 0, 0, 0⟩, ⟨0, 0, 0, 0, 0⟩,
            0⟩).coeffs.a2
          = 16773631 / 16777216
        ∧ ¬ (|(hsd_biquad_calculate_coeffs_fl binary32 binary64 tanf
          (884279719003555 / 281474976710656)
          ⟨44100, 0, 0, "bandpass", 2, 3 / 2, 1, ⟨0, 0, 0, 0, 0⟩, ⟨0, 0, 0, 0, 0⟩,
            0⟩).coeffs.a1|
          < 1 + (hsd_biquad_calculate_coeffs_fl binary32 binary64 tanf
          (884279719003555 / 281474976710656)
          ⟨44100, 0, 0, "bandpass", 2, 3 / 2, 1, ⟨0, 0, 0, 0, 0⟩, ⟨0, 0, 0, 0, 0⟩,
            0⟩).coeffs.a2))
      ∧ ((hsd_biquad_calculate_coeffs_fl binary32 binary64 tanf
          (884279719003555 / 281474976710656)
          ⟨44100, 0, 0, "bandreject", 3, 3 / 2, 1, ⟨0, 0, 0, 0, 0⟩, ⟨0, 0, 0, 0, 0⟩,
            0⟩).coeffs.a1
          = -65529 / 32768
        ∧ (hsd_biquad_calculate_coeffs_fl binary32 binary64 tanf
          (884279719003555 / 281474976710656)
          ⟨44100, 0, 0, "bandreject", 3, 3 / 2, 1, ⟨0, 0, 0, 0, 0⟩, ⟨0, 0, 0, 0, 0⟩,
            0⟩).coeffs.a2
          = 16773631 / 16777216
        ∧ ¬ (|(hsd_biquad_calculate_coeffs_fl binary32 binary64 tanf
          (884279719003555 / 281474976710656)
          ⟨44100, 0, 0, "bandreject", 3, 3 / 2, 1, ⟨0, 0, 0, 0, 0⟩, ⟨0, 0, 0, 0, 0⟩,
            0⟩).coeffs.a1|
          < 1 + (hsd_biquad_calculate_coeffs_fl binary32 binary64 tanf
          (884279719003555 / 281474976710656)
          ⟨44100, 0, 0, "bandreject", 3, 3 / 2, 1, ⟨0, 0, 0, 0, 0⟩, ⟨0, 0, 0, 0, 0⟩,
            0⟩).coeffs.a2))
      ∧ ((hsd_biquad_calculate_coeffs_fl binary32 binary64 tanf
          (884279719003555 / 281474976710656)
          ⟨44100, 0, 0, "allpass", 4, 3 / 2, 1, ⟨0, 0, 0, 0, 0⟩, ⟨0, 0, 0, 0, 0⟩,
            0⟩).coeffs.a1
          = -65529 / 32768
        ∧ (hsd_biquad_calculate_coeffs_fl binary32 binary64 tanf
          (884279719003555 / 281474976710656)
          ⟨44100, 0, 0, "allpass", 4, 3 / 2, 1, ⟨0, 0, 0, 0, 0⟩, ⟨0, 0, 0, 0, 0⟩,
            0⟩).coeffs.a2
          = 16773631 / 16777216
        ∧ ¬ (|(hsd_biquad_calculate_coeffs_fl binary32 binary64 tanf
          (884279719003555 / 281474976710656)
          ⟨44100, 0, 0, "allpass", 4, 3 / 2, 1, ⟨0, 0, 0, 0, 0⟩, ⟨0, 0, 0, 0, 0⟩,
            0⟩).coeffs.a1|
          < 1 + (hsd_biquad_calculate_coeffs_fl binary32 binary64 tanf
          (884279719003555 / 281474976710656)
          ⟨44100, 0, 0, "allpass", 4, 3 / 2, 1, ⟨0, 0, 0, 0, 0⟩, ⟨0, 0, 0, 0, 0⟩,
            0⟩).coeffs.a2))
      ∧ 1 + (16773631 / 16777216 : α) - |(-65529 / 32768 : α)| = -(1 / 16777216)
      ∧ (0 : α) < 3671575 / 34359738368 := by
  have hb := abs_lt.mp htan
  have hK : binary32 (tanf (3671575 / 34359738368) : α) = 3671575 / 34359738368 := by
    rw [binary32, roundFloat_eval_pos 24 (-126) (-14) 14686300 _ (by norm_num; linarith)
      (by norm_num; linarith) (by norm_num) (by norm_num; linarith) (by norm_num; linarith)]
    norm_num
  have r0 : binary64 ((884279719003555 / 281474976710656) * (3 / 2) : α)
      = (2652839157010665 / 562949953421312) := by
    rw [binary64,
        roundFloat_eval_pos 53 (-1022) (2) (5305678314021330) _ (by norm_num) (by norm_num)
      (by norm_num) (by norm_num) (by norm_num)]
    norm_num
  have r1 : binary64 ((2652839157010665 / 562949953421312) / 44100 : α)
      = (7884647029199589 / 73786976294838206464) := by
    rw [binary64,
        roundFloat_eval_pos 53 (-1022) (-14) (7884647029199589) _ (by norm_num) (by norm_num)
      (by norm_num) (by norm_num) (by norm_num)]
    norm_num
  have r2 : binary32 ((7884647029199589 / 73786976294838206464) : α) = (3671575 / 34359738368) := by
    rw [binary32, roundFloat_eval_pos 24 (-126) (-14) (14686300) _ (by norm_num) (by norm_num)
      (by norm_num) (by norm_num) (by norm_num)]
    norm_num
  have r3 : binary32 ((3671575 / 34359738368) * (3671575 / 34359738368) : α)
      = (12855971 / 1125899906842624) := by
    rw [binary32, roundFloat_eval_pos 24 (-126) (-27) (12855971) _ (by norm_num) (by norm_num)
      (by norm_num) (by norm_num) (by norm_num)]
    norm_num
  have r4 : binary32 ((12855971 / 1125899906842624) * 1 : α) = (12855971 / 1125899906842624) := by
    rw [binary32, roundFloat_eval_pos 24 (-126) (-27) (12855971) _ (by norm_num) (by norm_num)
      (by norm_num) (by norm_num) (by norm_num)]
    norm_num
  have r5 : binary32 ((12855971 / 1125899906842624) + (3671575 / 34359738368) : α)
      = (14687869 / 137438953472) := by
    rw [binary32, roundFloat_eval_pos 24 (-126) (-14) (14687869) _ (by norm_num) (by norm_num)
      (by norm_num) (by norm_num) (by norm_num)]
    norm_num
  have r6 : binary32 ((14687869 / 137438953472) + 1 : α) = (65543 / 65536) := by
    rw [binary32, roundFloat_eval_pos 24 (-126) (0) (8389504) _ (by norm_num) (by norm_num)
      (by norm_num) (by norm_num) (by norm_num)]
    norm_num
  have r7 : binary64 (1 / (65543 / 65536) : α) = (9006237284816161 / 9007199254740992) := by
    rw [binary64,
        roundFloat_eval_pos 53 (-1022) (-1) (9006237284816161) _ (by norm_num) (by norm_num)
      (by norm_num) (by norm_num) (by norm_num)]
    norm_num
  have r8 : binary32 ((9006237284816161 / 9007199254740992) : α) = (65529 / 65536) := by
    rw [binary32, roundFloat_eval_pos 24 (-126) (-1) (16775424) _ (by norm_num) (by norm_num)
      (by norm_num) (by norm_num) (by norm_num)]
    norm_num
  have r9 : binary32 ((12855971 / 1125899906842624) * (65529 / 65536) : α)
      = (6427299 / 562949953421312) := by
    rw [binary32, roundFloat_eval_pos 24 (-126) (-27) (12854598) _ (by norm_num) (by norm_num)
      (by norm_num) (by norm_num) (by norm_num)]
    norm_num
  have r10 : binary64 (2 * (6427299 / 562949953421312) : α) = (6427299 / 281474976710656) := by
    rw [binary64,
        roundFloat_eval_pos 53 (-1022) (-26) (6901259751653376) _ (by norm_num) (by norm_num)
      (by norm_num) (by norm_num) (by norm_num)]
    norm_num
  have r11 : binary32 ((6427299 / 281474976710656) : α) = (6427299 / 281474976710656) := by
    rw [binary32, roundFloat_eval_pos 24 (-126) (-26) (12854598) _ (by norm_num) (by norm_num)
      (by norm_num) (by norm_num) (by norm_num)]
    norm_num
  have r12 : binary64 (2 * 1 : α) = 2 := by
    rw [binary64,
        roundFloat_eval_pos 53 (-1022) (1) (4503599627370496) _ (by norm_num) (by norm_num)
      (by norm_num) (by norm_num) (by norm_num)]
    norm_num
  have r13 : binary64 (2 * (65529 / 65536) : α) = (65529 / 32768) := by
    rw [binary64,
        roundFloat_eval_pos 53 (-1022) (0) (9006237182066688) _ (by norm_num) (by norm_num)
      (by norm_num) (by norm_num) (by norm_num)]
    norm_num
  have r14 : binary64 ((6427299 / 281474976710656) - (65529 / 32768) : α)
      = (-562889817451869 / 281474976710656) := by
    rw [binary64,
        roundFloat_eval_neg 53 (-1022) (0) (-9006237079229904) _ (by norm_num) (by norm_num)
      (by norm_num) (by norm_num) (by norm_num)]
    norm_num
  have r15 : binary32 ((-562889817451869 / 281474976710656) : α) = (-65529 / 32768) := by
    rw [binary32, roundFloat_eval_neg 24 (-126) (0) (-16775424) _ (by norm_num) (by norm_num)
      (by norm_num) (by norm_num) (by norm_num)]
    norm_num
  have r16 : binary32 (1 - (3671575 / 34359738368) : α) = (16775423 / 16777216) := by
    rw [binary32, roundFloat_eval_pos 24 (-126) (-1) (16775423) _ (by norm_num) (by norm_num)
      (by norm_num) (by norm_num) (by norm_num)]
    norm_num
  have r17 : binary32 ((16775423 / 16777216) * (65529 / 65536) : α) = (16773631 / 16777216) := by
    rw [binary32, roundFloat_eval_pos 24 (-126) (-1) (16773631) _ (by norm_num) (by norm_num)
      (by norm_num) (by norm_num) (by norm_num)]
    norm_num
  have r18 : binary32 ((6427299 / 562949953421312) + (16773631 / 16777216) : α)
      = (16773631 / 16777216) := by
    rw [binary32, roundFloat_eval_pos 24 (-126) (-1) (16773631) _ (by norm_num) (by norm_num)
      (by norm_num) (by norm_num) (by norm_num)]
    norm_num
  have r19 : binary64 ((12855971 / 1125899906842624) - 1 : α)
      = (-1125899893986653 / 1125899906842624) := by
    rw [binary64,
        roundFloat_eval_neg 53 (-1022) (-1) (-9007199151893224) _ (by norm_num) (by norm_num)
      (by norm_num) (by norm_num) (by norm_num)]
    norm_num
  have r20 : binary64 (2 * (-1125899893986653 / 1125899906842624) : α)
      = (-1125899893986653 / 562949953421312) := by
    rw [binary64,
        roundFloat_eval_neg 53 (-1022) (0) (-9007199151893224) _ (by norm_num) (by norm_num)
      (by norm_num) (by norm_num) (by norm_num)]
    norm_num
  have r21 : binary32 (1 * (65529 / 65536) : α) = (65529 / 65536) := by
    rw [binary32, roundFloat_eval_pos 24 (-126) (-1) (16775424) _ (by norm_num) (by norm_num)
      (by norm_num) (by norm_num) (by norm_num)]
    norm_num
  have r22 : binary64 ((-1125899893986653 / 562949953421312) * (65529 / 65536) : α)
      = (-9006237079229905 / 4503599627370496) := by
    rw [binary64,
        roundFloat_eval_neg 53 (-1022) (0) (-9006237079229905) _ (by norm_num) (by norm_num)
      (by norm_num) (by norm_num) (by norm_num)]
    norm_num
  have r23 : binary32 ((-9006237079229905 / 4503599627370496) : α) = (-65529 / 32768) := by
    rw [binary32, roundFloat_eval_neg 24 (-126) (0) (-16775424) _ (by norm_num) (by norm_num)
      (by norm_num) (by norm_num) (by norm_num)]
    norm_num
  have r24 : binary32 ((12855971 / 1125899906842624) - (3671575 / 34359738368) : α)
      = (-14684731 / 137438953472) := by
    rw [binary32, roundFloat_eval_neg 24 (-126) (-14) (-14684731) _ (by norm_num) (by norm_num)
      (by norm_num) (by norm_num) (by norm_num)]
    norm_num
  have r25 : binary32 ((-14684731 / 137438953472) + 1 : α) = (16775423 / 16777216) := by
    rw [binary32, roundFloat_eval_pos 24 (-126) (-1) (16775423) _ (by norm_num) (by norm_num)
      (by norm_num) (by norm_num) (by norm_num)]
    norm_num
  have t0 : truncToInt (0 : α) = 0 := truncToInt_zero
  have t1 : truncToInt (1 : α) = 1 := truncToInt_one
  have t2 : truncToInt (2 : α) = 2 := truncToInt_two
  have t3 : truncToInt (3 : α) = 3 := truncToInt_three
  have t4 : truncToInt (4 : α) = 4 := by simpa using truncToInt_natCast (α := α) 4
  have habs : |(-65529 / 32768 : α)| = 65529 / 32768 := by
    rw [abs_of_neg (by norm_num)]
    norm_num
  have hno : ¬ (|(-65529 / 32768 : α)| < 1 + 16773631 / 16777216) := by
    rw [habs]
    norm_num
  have a0 : (hsd_biquad_calculate_coeffs_fl binary32 binary64 tanf
          (884279719003555 / 281474976710656)
          ⟨44100, 0, 0, "lowpass", 0, 3 / 2, 1, ⟨0, 0, 0, 0, 0⟩, ⟨0, 0, 0, 0, 0⟩,
            0⟩).coeffs.a1
      = -65529 / 32768 := by
      simp only [hsd_biquad_calculate_coeffs_fl, biquad_switch_fl, t0, if_true, hK, r0, r1, r2, r3,
          r4, r5, r6, r7, r8, r9, r10, r11, r12, r13, r14, r15, r16, r17, r18, r19, r20, r21, r22,
              r23, r24, r25]
  have b0 : (hsd_biquad_calculate_coeffs_fl binary32 binary64 tanf
          (884279719003555 / 281474976710656)
          ⟨44100, 0, 0, "lowpass", 0, 3 / 2, 1, ⟨0, 0, 0, 0, 0⟩, ⟨0, 0, 0, 0, 0⟩,
            0⟩).coeffs.a2
      = 16773631 / 16777216 := by
      simp only [hsd_biquad_calculate_coeffs_fl, biquad_switch_fl, t0, if_true, hK, r0, r1, r2, r3,
          r4, r5, r6, r7, r8, r9, r10, r11, r12, r13, r14, r15, r16, r17, r18, r19, r20, r21, r22,
              r23, r24, r25]
  have a1 : (hsd_biquad_calculate_coeffs_fl binary32 binary64 tanf
          (884279719003555 / 281474976710656)
          ⟨44100, 0, 0, "highpass", 1, 3 / 2, 1, ⟨0, 0, 0, 0, 0⟩, ⟨0, 0, 0, 0, 0⟩,
            0⟩).coeffs.a1
      = -65529 / 32768 := by
      simp only [hsd_biquad_calculate_coeffs_fl, biquad_switch_fl, t1, if_true, hK, r0, r1, r2, r3,
          r4, r5, r6, r7, r8, r9, r10, r11, r12, r13, r14, r15, r16, r17, r18, r19, r20, r21, r22,
              r23, r24, r25]
      simp only [show ((1 : Int) = 0) = False from eq_false (by decide), if_false, if_true, hK, r0,
          r1, r2, r3, r4, r5, r6, r7, r8, r9, r10, r11, r12, r13, r14, r15, r16, r17, r18, r19,
              r20, r21, r22, r23, r24, r25]
  have b1 : (hsd_biquad_calculate_coeffs_fl binary32 binary64 tanf
          (884279719003555 / 281474976710656)
          ⟨44100, 0, 0, "highpass", 1, 3 / 2, 1, ⟨0, 0, 0, 0, 0⟩, ⟨0, 0, 0, 0, 0⟩,
            0⟩).coeffs.a2
      = 16773631 / 16777216 := by
      simp only [hsd_biquad_calculate_coeffs_fl, biquad_switch_fl, t1, if_true, hK, r0, r1, r2, r3,
          r4, r5, r6, r7, r8, r9, r10, r11, r12, r13, r14, r15, r16, r17, r18, r19, r20, r21, r22,
              r23, r24, r25]
      simp only [show ((1 : Int) = 0) = False from eq_false (by decide), if_false, if_true, hK, r0,
          r1, r2, r3, r4, r5, r6, r7, r8, r9, r10, r11, r12, r13, r14, r15, r16, r17, r18, r19,
              r20, r21, r22, r23, r24, r25]
  have a2 : (hsd_biquad_calculate_coeffs_fl binary32 binary64 tanf
          (884279719003555 / 281474976710656)
          ⟨44100, 0, 0, "bandpass", 2, 3 / 2, 1, ⟨0, 0, 0, 0, 0⟩, ⟨0, 0, 0, 0, 0⟩,
            0⟩).coeffs.a1
      = -65529 / 32768 := by
      simp only [hsd_biquad_calculate_coeffs_fl, biquad_switch_fl, t2, if_true, hK, r0, r1, r2, r3,
          r4, r5, r6, r7, r8, r9, r10, r11, r12, r13, r14, r15, r16, r17, r18, r19, r20, r21, r22,
              r23, r24, r25]
      simp only [show ((2 : Int) = 0) = False from eq_false (by decide), show ((2 : Int) = 1)
          = False from eq_false (by decide), if_false, if_true, hK, r0, r1, r2, r3, r4, r5, r6, r7,
              r8, r9, r10, r11, r12, r13, r14, r15, r16, r17, r18, r19, r20, r21, r22, r23, r24,
                  r25]
  have b2 : (hsd_biquad_calculate_coeffs_fl binary32 binary64 tanf
          (884279719003555 / 281474976710656)
          ⟨44100, 0, 0, "bandpass", 2, 3 / 2, 1, ⟨0, 0, 0, 0, 0⟩, ⟨0, 0, 0, 0, 0⟩,
            0⟩).coeffs.a2
      = 16773631 / 16777216 := by
      simp only [hsd_biquad_calculate_coeffs_fl, biquad_switch_fl, t2, if_true, hK, r0, r1, r2, r3,
          r4, r5, r6, r7, r8, r9, r10, r11, r12, r13, r14, r15, r16, r17, r18, r19, r20, r21, r22,
              r23, r24, r25]
      simp only [show ((2 : Int) = 0) = False from eq_false (by decide), show ((2 : Int) = 1)
          = False from eq_false (by decide), if_false, if_true, hK, r0, r1, r2, r3, r4, r5, r6, r7,
              r8, r9, r10, r11, r12, r13, r14, r15, r16, r17, r18, r19, r20, r21, r22, r23, r24,
                  r25]
  have a3 : (hsd_biquad_calculate_coeffs_fl binary32 binary64 tanf
          (884279719003555 / 281474976710656)
          ⟨44100, 0, 0, "bandreject", 3, 3 / 2, 1, ⟨0, 0, 0, 0, 0⟩, ⟨0, 0, 0, 0, 0⟩,
            0⟩).coeffs.a1
      = -65529 / 32768 := by
      simp only [hsd_biquad_calculate_coeffs_fl, biquad_switch_fl, t3, if_true, hK, r0, r1, r2, r3,
          r4, r5, r6, r7, r8, r9, r10, r11, r12, r13, r14, r15, r16, r17, r18, r19, r20, r21, r22,
              r23, r24, r25]
      simp only [show ((3 : Int) = 0) = False from eq_false (by decide), show ((3 : Int) = 1)
          = False from eq_false (by decide), show ((3 : Int) = 2)
              = False from eq_false (by decide), if_false, if_true, hK, r0, r1, r2, r3, r4, r5, r6,
                  r7, r8, r9, r10, r11, r12, r13, r14, r15, r16, r17, r18, r19, r20, r21, r22, r23,
                      r24, r25]
  have b3 : (hsd_biquad_calculate_coeffs_fl binary32 binary64 tanf
          (884279719003555 / 281474976710656)
          ⟨44100, 0, 0, "bandreject", 3, 3 / 2, 1, ⟨0, 0, 0, 0, 0⟩, ⟨0, 0, 0, 0, 0⟩,
            0⟩).coeffs.a2
      = 16773631 / 16777216 := by
      simp only [hsd_biquad_calculate_coeffs_fl, biquad_switch_fl, t3, if_true, hK, r0, r1, r2, r3,
          r4, r5, r6, r7, r8, r9, r10, r11, r12, r13, r14, r15, r16, r17, r18, r19, r20, r21, r22,
              r23, r24, r25]
      simp only [show ((3 : Int) = 0) = False from eq_false (by decide), show ((3 : Int) = 1)
          = False from eq_false (by decide), show ((3 : Int) = 2)
              = False from eq_false (by decide), if_false, if_true, hK, r0, r1, r2, r3, r4, r5, r6,
                  r7, r8, r9, r10, r11, r12, r13, r14, r15, r16, r17, r18, r19, r20, r21, r22, r23,
                      r24, r25]
  have a4 : (hsd_biquad_calculate_coeffs_fl binary32 binary64 tanf
          (884279719003555 / 281474976710656)
          ⟨44100, 0, 0, "allpass", 4, 3 / 2, 1, ⟨0, 0, 0, 0, 0⟩, ⟨0, 0, 0, 0, 0⟩,
            0⟩).coeffs.a1
      = -65529 / 32768 := by
      simp only [hsd_biquad_calculate_coeffs_fl, biquad_switch_fl, t4, if_true, hK, r0, r1, r2, r3,
          r4, r5, r6, r7, r8, r9, r10, r11, r12, r13, r14, r15, r16, r17, r18, r19, r20, r21, r22,
              r23, r24, r25]
      simp only [show ((4 : Int) = 0) = False from eq_false (by decide), show ((4 : Int) = 1)
          = False from eq_false (by decide), show ((4 : Int) = 2)
              = False from eq_false (by decide), show ((4 : Int) = 3)
                  = False from eq_false (by decide), if_false, if_true, hK, r0, r1, r2, r3, r4, r5,
                      r6, r7, r8, r9, r10, r11, r12, r13, r14, r15, r16, r17, r18, r19, r20, r21,
                          r22, r23, r24, r25]
  have b4 : (hsd_biquad_calculate_coeffs_fl binary32 binary64 tanf
          (884279719003555 / 281474976710656)
          ⟨44100, 0, 0, "allpass", 4, 3 / 2, 1, ⟨0, 0, 0, 0, 0⟩, ⟨0, 0, 0, 0, 0⟩,
            0⟩).coeffs.a2
      = 16773631 / 16777216 := by
      simp only [hsd_biquad_calculate_coeffs_fl, biquad_switch_fl, t4, if_true, hK, r0, r1, r2, r3,
          r4, r5, r6, r7, r8, r9, r10, r11, r12, r13, r14, r15, r16, r17, r18, r19, r20, r21, r22,
              r23, r24, r25]
      simp only [show ((4 : Int) = 0) = False from eq_false (by decide), show ((4 : Int) = 1)
          = False from eq_false (by decide), show ((4 : Int) = 2)
              = False from eq_false (by decide), show ((4 : Int) = 3)
                  = False from eq_false (by decide), if_false, if_true, hK, r0, r1, r2, r3, r4, r5,
                      r6, r7, r8, r9, r10, r11, r12, r13, r14, r15, r16, r17, r18, r19, r20, r21,
                          r22, r23, r24, r25]
  refine ⟨⟨a0, b0, ?_⟩, ⟨a1, b1, ?_⟩, ⟨a2, b2, ?_⟩, ⟨a3, b3, ?_⟩, ⟨a4, b4, ?_⟩, ?_, by norm_num⟩
  · rw [a0, b0]; exact hno
  · rw [a1, b1]; exact hno
  · rw [a2, b2]; exact hno
  · rw [a3, b3]; exact hno
  · rw [a4, b4]; exact hno
  · rw [habs]; norm_num

/-- The real tangent at `3671575 / 2^35` is less than `2^-38` away from its argument. -/
theorem tan_small :
    |Real.tan (3671575 / 34359738368) - 3671575 / 34359738368| < 1 / 274877906944 := by
  have hx0 : (0 : ℝ) < 3671575 / 34359738368 := by norm_num
  have hx1 : (3671575 / 34359738368 : ℝ) < Real.pi / 2 := by
    have := Real.pi_gt_three
    linarith
  have hlow : (3671575 / 34359738368 : ℝ) < Real.tan (3671575 / 34359738368) :=
    Real.lt_tan hx0 hx1
  have hsin : Real.sin (3671575 / 34359738368) ≤ 3671575 / 34359738368 := Real.sin_le hx0.le
  have hcos : 1 - (3671575 / 34359738368 : ℝ) ^ 2 / 2 ≤ Real.cos (3671575 / 34359738368) :=
    Real.one_sub_sq_div_two_le_cos
  have hcpos : (0 : ℝ) < 1 - (3671575 / 34359738368 : ℝ) ^ 2 / 2 := by norm_num
  have hup : Real.tan (3671575 / 34359738368)
      ≤ (3671575 / 34359738368) / (1 - (3671575 / 34359738368 : ℝ) ^ 2 / 2) := by
    rw [Real.tan_eq_sin_div_cos]
    exact div_le_div₀ hx0.le hsin hcpos hcos
  have hnum : (3671575 / 34359738368 : ℝ) / (1 - (3671575 / 34359738368 : ℝ) ^ 2 / 2)
      < 3671575 / 34359738368 + 1 / 274877906944 := by
    rw [div_lt_iff₀ hcpos]
    norm_num
  rw [abs_lt]
  constructor <;> linarith

/-- Witness of the failure of C38: the real tangent, the lowpass type. -/
theorem hsd_biquad_triangle_binary32_witness :
    ¬ (|(hsd_biquad_calculate_coeffs_fl binary32 binary64 Real.tan
          (884279719003555 / 281474976710656)
          ⟨44100, 0, 0, "lowpass", 0, 3 / 2, 1, ⟨0, 0, 0, 0, 0⟩, ⟨0, 0, 0, 0, 0⟩,
            0⟩).coeffs.a1|
      < 1 + (hsd_biquad_calculate_coeffs_fl binary32 binary64 Real.tan
          (884279719003555 / 281474976710656)
          ⟨44100, 0, 0, "lowpass", 0, 3 / 2, 1, ⟨0, 0, 0, 0, 0⟩, ⟨0, 0, 0, 0, 0⟩,
            0⟩).coeffs.a2) :=
  (hsd_biquad_triangle_binary32 Real.tan tan_small).1.2.2

end MachineArithmeticTheorems

end HSD
